import Mathlib

/-!
# BTCU wallet: the transaction-record classifier

A shallow embedding of `src/qt/transactionrecord.cpp` (the classifier
`TransactionRecord::decomposeTransaction` with its helpers, and the status evaluator
`TransactionRecord::updateStatus`) over the declarations of `src/wallet/wallet.h`, with the
coin view `COutput` and the order-position functions `ReadOrderPos` and `WriteOrderPos` of
`wallet.h`. The spend index and the coin selector, which `wallet.h` only declares, are modelled
from the design document.

Conventions of the embedding.

* `CAmount` (a 64-bit signed amount) is `Int`; every amount the classifier adds or subtracts is
  bounded by the money supply, far below `2^63`.
* `isminetype` is the ownership answer as a bit set, a `Nat`; C++ truthiness `if (mine)` is
  `mine ≠ 0` and `mine & FLAG` converted to `bool` is `(mine &&& FLAG) != 0`.
* Everything whose body is outside the embedded sources is an input: the constants sit in
  `Params`, the answers of the wallet in `CWallet`, the answers an entry gives about itself in
  `CWalletTx`, the answers of the script parser in `CScript`, the chain state in `ChainView`.
* The arithmetic that the code does in `int` (the product of the two counters of the net-debit
  analysis, the difference of maturity and depth) is the exact arithmetic under `toInt32`, and
  the difference that it does in `unsigned int` is taken modulo `2^32`.
* A read outside a vector, or through a null pointer, has no defined result in C++: the
  embedded functions return `none` there, and `some` of the result everywhere else.
* The classifier is embedded as a function of the answers of the entry and the wallet
  (`decomposeTransaction`), and once more as a program on the state of the entry's memory-only
  caches and of the local copy of the label map (`decomposeTransactionProg`), whose run returns
  the value of the function.
-/

namespace BTCU

/-! ## Data model -/

abbrev CAmount := Int

abbrev isminetype := Nat

abbrev isminefilter := Nat

abbrev uint256 := Nat

/-- Constants that the classifier and the status evaluator read and that are declared outside
the embedded sources (`amount.h`, `obfuscation.h`, `wallet/wallet_ismine.h`, `chainparams.h`,
`script/script.h`, `transactionrecord.h`). They are parameters of the model. -/
structure Params where
  COIN : CAmount
  OBFUSCATION_COLLATERAL : CAmount
  COINBASE_MATURITY : Int
  LOCKTIME_THRESHOLD : Nat
  RecommendedNumConfirmations : Int
  ISMINE_WATCH_ONLY : isminetype
  ISMINE_SPENDABLE : isminetype
  ISMINE_SPENDABLE_DELEGATED : isminetype
  ISMINE_SPENDABLE_ALL : isminetype
  ISMINE_ALL : isminetype
  ISMINE_LEASING : isminetype
  ISMINE_LEASED : isminetype
  ISMINE_SPENDABLE_LEASING : isminetype

/-- A destination, represented by the text `CBTCUAddress(dest).ToString()` renders for it. -/
structure CTxDestination where
  encoded : String
  deriving DecidableEq, Repr

/-- The default-constructed destination (`CNoDestination`), rendered as the empty text. -/
def CNoDestination : CTxDestination := { encoded := "" }

/-- The text of `CBTCUAddress(address).ToString()`. -/
def CBTCUAddress_ToString (address : CTxDestination) : String := address.encoded

/-- A script, represented by the answers of the script parser about it: the destination
`ExtractDestination` finds (with the cold-stake and lease flags off, the only way the
classifier calls it) and the four shape tests. -/
structure CScript where
  destination : Option CTxDestination
  IsPayToColdStaking : Bool
  IsPayToLeasing : Bool
  IsLeasingReward : Bool
  IsZerocoinMint : Bool
  deriving DecidableEq, Repr

/-- The result of `ExtractDestination(scriptPubKey, address)`: `some address` when it returns
true. -/
def ExtractDestination (scriptPubKey : CScript) : Option CTxDestination := scriptPubKey.destination

structure CTxOut where
  nValue : CAmount
  scriptPubKey : CScript
  deriving DecidableEq, Repr

/-- The test `CTxOut::IsZerocoinMint`, which asks the script. -/
def CTxOut.IsZerocoinMint (txout : CTxOut) : Bool := txout.scriptPubKey.IsZerocoinMint

/-- Modelled from the spec: the default-constructed output `CTxOut()` of
`primitives/transaction.h` (not among the sources), the null output: value -1 and an empty
script, in which the script parser finds no destination and no contract shape. -/
def CTxOut.null : CTxOut :=
  { nValue := -1
    scriptPubKey :=
      { destination := none, IsPayToColdStaking := false, IsPayToLeasing := false,
        IsLeasingReward := false, IsZerocoinMint := false } }

structure COutPoint where
  hash : uint256
  n : Nat
  deriving DecidableEq, Repr

structure CTxIn where
  prevout : COutPoint
  nSequence : Nat
  deriving DecidableEq, Repr

/-- The label map `mapValue_t = std::map<std::string, std::string>`, as an association list. -/
abbrev mapValue_t := List (String × String)

/-- The read `mapValue[key]` on the classifier's local copy of the map: the stored text, or the
empty text that `operator[]` inserts for an absent key. -/
def mapValue_t.at (mapValue : mapValue_t) (key : String) : String :=
  (mapValue.lookup key).getD ""

/-- The subscript `mapValue[key]` of `std::map` in full, on the classifier's local copy of the
label map: the text read and the copy after the read; an absent key is inserted with the empty
text. -/
def mapValue_t.index (mapValue : mapValue_t) (key : String) : String × mapValue_t :=
  match mapValue.lookup key with
  | some text => (text, mapValue)
  | none => ("", mapValue ++ [(key, "")])

/-- A wallet entry `CWalletTx` as the classifier and the status evaluator see it: its inputs,
outputs and label map, its block hash, receipt time and lock time, and the answers of the
methods declared in `wallet.h` and `primitives/transaction.h`. `IsTrusted` is the answer of
`IsTrusted(nDepth, fConflicted)`: the returned flag and the values it leaves in the two
variables passed by reference. -/
structure CWalletTx where
  GetHash : uint256
  GetComputedTxTime : Int
  GetTotalSize : Nat
  hashBlock : uint256
  nTimeReceived : Nat
  nLockTime : Nat
  GetRequestCount : Int
  IsTrusted : Bool × Int × Bool
  vin : List CTxIn
  vout : List CTxOut
  mapValue : mapValue_t
  IsCoinStake : Bool
  IsCoinBase : Bool
  HasZerocoinSpendInputs : Bool
  HasZerocoinMintOutputs : Bool
  HasP2CSOutputs : Bool
  HasP2CSInputs : Bool
  HasP2LOutputs : Bool
  HasP2LInputs : Bool
  IsLeasingReward : Bool
  GetCredit : isminefilter → CAmount
  GetDebit : isminefilter → CAmount
  GetValueOut : CAmount
  GetChange : CAmount
  GetZerocoinSpent : CAmount
  GetStakeDelegationDebit : CAmount
  GetColdStakingDebit : CAmount
  GetColdStakingCredit : CAmount

/-- The wallet `CWallet` as the classifier sees it: the ownership oracle on outputs, inputs and
destinations, the mixing tests, the privacy-coin oracle and the entry store.
`IsMyZerocoinSpend` is asked about the input whose spend proof the classifier parses;
`HasMintTx` is `zbtcuTracker->HasMintTx`. -/
structure CWallet where
  IsMineOut : CTxOut → isminetype
  IsMineIn : CTxIn → isminetype
  IsMineDest : CTxDestination → isminetype
  IsDenominated : CTxIn → Bool
  IsDenominatedAmount : CAmount → Bool
  IsCollateralAmount : CAmount → Bool
  IsMyZerocoinSpend : CTxIn → Bool
  HasMintTx : uint256 → Bool
  GetWalletTx : uint256 → Option CWalletTx
  IsFromMe : CWalletTx → Bool

/-- The categories `TransactionRecord::Type` that the classifier assigns. -/
inductive RecordType where
  | Other
  | Generated
  | StakeMint
  | StakeZBTCU
  | SendToAddress
  | SendToOther
  | RecvWithAddress
  | MNReward
  | RecvFromOther
  | SendToSelf
  | ZerocoinMint
  | ZerocoinSpend
  | RecvFromZerocoinSpend
  | ZerocoinSpend_Change_zPiv
  | ZerocoinSpend_FromMe
  | ObfuscationDenominate
  | ObfuscationCollateralPayment
  | ObfuscationMakeCollaterals
  | ObfuscationCreateDenominations
  | Obfuscated
  | StakeDelegated
  | StakeHot
  | P2CSDelegation
  | P2CSDelegationSent
  | P2CSDelegationSentOwner
  | P2CSUnlockOwner
  | P2CSUnlockStaker
  | P2LLeasingSentToSelf
  | P2LLeasingSent
  | P2LLeasingRecv
  | P2LUnlockOwnLeasing
  | P2LUnlockLeasing
  | P2LReturnLeasing
  | LeasingReward
  deriving DecidableEq, Repr

/-- A record of the classifier (the Status snapshot is not part of the decomposition). -/
structure TransactionRecord where
  hash : uint256
  time : Int
  size : Nat
  type : RecordType
  address : String
  debit : CAmount
  credit : CAmount
  idx : Nat
  involvesWatchAddress : Bool
  deriving DecidableEq, Repr

/-- Modelled from the spec: the constructor `TransactionRecord(hash, time, size)` of
`transactionrecord.h` (not among the sources). A fresh record is unattributed: category
`Other`, empty address, zero debit and credit, sub-index 0, watch-only flag off. -/
def TransactionRecord.init (hash : uint256) (time : Int) (size : Nat) : TransactionRecord :=
  { hash := hash, time := time, size := size, type := RecordType.Other, address := "",
    debit := 0, credit := 0, idx := 0, involvesWatchAddress := false }

/-- Modelled from the spec: the constructor
`TransactionRecord(hash, time, size, type, address, debit, credit)` of `transactionrecord.h`
(not among the sources), which differs from the fresh record in the four fields it is given. -/
def TransactionRecord.init7 (hash : uint256) (time : Int) (size : Nat) (type : RecordType)
    (address : String) (debit credit : CAmount) : TransactionRecord :=
  { TransactionRecord.init hash time size with
    type := type, address := address, debit := debit, credit := credit }

/-- The conversion of an integer to `int`: the value modulo `2^32` in the range from `-2^31`
to `2^31 - 1`. The sums, differences and products that the code takes in `int` are the exact
results under this conversion. -/
def toInt32 (x : Int) : Int := (x + 2147483648) % 4294967296 - 2147483648

/-! ## The helpers of the classifier -/

/-- The helper `TransactionRecord::ExtractAddress(scriptPubKey, false, false, addressStr)`
(lines 514-527), called with both flags off at every call site: the returned flag and the text
it stores in `addressStr`. -/
def ExtractAddress (scriptPubKey : CScript) : Bool × String :=
  match ExtractDestination scriptPubKey with
  | none => (false, "No available address")
  | some address => (true, CBTCUAddress_ToString address)

/-- The search loop of `loadUnlockColdStake` (lines 362-369) over the inputs: the script of the
first input whose originating output is a locally-known cold-staking output, with the
`isSpendable` flag computed for it. The outer `none` is a read outside the originating
entry's outputs; `some none` is "no such input" (the pointer stays null). -/
def findP2CSInput (P : Params) (wallet : CWallet) :
    List CTxIn → Option (Option (CScript × Bool))
  | [] => some none
  | input :: rest =>
    match wallet.GetWalletTx input.prevout.hash with
    | none => findP2CSInput P wallet rest
    | some tx =>
      match tx.vout[input.prevout.n]? with
      | none => none
      | some prev =>
        if prev.scriptPubKey.IsPayToColdStaking then
          some (some (prev.scriptPubKey,
            (wallet.IsMineIn input &&& P.ISMINE_SPENDABLE_ALL) != 0))
        else findP2CSInput P wallet rest

/-- The helper `TransactionRecord::loadUnlockColdStake` (lines 354-385). It dereferences the
script pointer at the end, so it has no result when the search found no input. -/
def loadUnlockColdStake (P : Params) (wallet : CWallet) (wtx : CWalletTx)
    (record : TransactionRecord) : Option TransactionRecord :=
  let record := { record with involvesWatchAddress := false }
  match findP2CSInput P wallet wtx.vin with
  | none => none
  | some found =>
    let isSpendable : Bool :=
      match found with
      | some (_, spendable) => spendable
      | none => false
    let record :=
      if isSpendable then
        { record with
          type := RecordType.P2CSUnlockOwner
          debit := -(wtx.GetStakeDelegationDebit)
          credit := wtx.GetCredit P.ISMINE_ALL }
      else
        { record with
          type := RecordType.P2CSUnlockStaker
          debit := -(wtx.GetColdStakingDebit)
          credit := -(wtx.GetColdStakingCredit) }
    match found with
    | none => none
    | some (p2csScript, _) => some { record with address := (ExtractAddress p2csScript).2 }

/-- The first cold-staking output of the entry, or the default-constructed output when there is
none (lines 396-403 of `loadHotOrColdStakeOrContract`). -/
def firstP2CSUtxo (wtx : CWalletTx) : CTxOut :=
  (wtx.vout.find? (fun txout => txout.scriptPubKey.IsPayToColdStaking)).getD CTxOut.null

/-- The helper `TransactionRecord::loadHotOrColdStakeOrContract` (lines 387-434). -/
def loadHotOrColdStakeOrContract (P : Params) (wallet : CWallet) (wtx : CWalletTx)
    (record : TransactionRecord) (isContract : Bool) : TransactionRecord :=
  let record := { record with involvesWatchAddress := false }
  let p2csUtxo := firstP2CSUtxo wtx
  let isSpendable : Bool := (wallet.IsMineOut p2csUtxo &&& P.ISMINE_SPENDABLE_DELEGATED) != 0
  let isFromMe : Bool := wallet.IsFromMe wtx
  let record :=
    if isContract then
      if isSpendable && isFromMe then
        { record with type := RecordType.P2CSDelegationSentOwner }
      else if isFromMe then
        { record with type := RecordType.P2CSDelegationSent }
      else
        { record with type := RecordType.P2CSDelegation }
    else
      if isSpendable then
        { record with
          type := RecordType.StakeDelegated
          credit := wtx.GetCredit P.ISMINE_SPENDABLE_DELEGATED
          debit := -(wtx.GetDebit P.ISMINE_SPENDABLE_DELEGATED) }
      else
        { record with type := RecordType.StakeHot }
  { record with address := (ExtractAddress p2csUtxo.scriptPubKey).2 }

/-- The loop of `loadP2L` (lines 443-463) over the outputs: the first leasing output for which
the ownership oracle gives one of the three leasing answers decides the record; a leasing output
with any other answer is passed over, and the record is left as it was when none decides. -/
def loadP2L_loop (P : Params) (wallet : CWallet) (wtx : CWalletTx)
    (record : TransactionRecord) : List CTxOut → TransactionRecord
  | [] => record
  | txout :: rest =>
    if txout.scriptPubKey.IsPayToLeasing then
      let isMine := wallet.IsMineOut txout
      if isMine = P.ISMINE_SPENDABLE_LEASING then
        { record with
          type := RecordType.P2LLeasingSentToSelf
          credit := record.credit - wtx.GetCredit P.ISMINE_LEASED
          address := (ExtractAddress txout.scriptPubKey).2 }
      else if isMine = P.ISMINE_LEASED then
        { record with
          type := RecordType.P2LLeasingSent
          debit := record.debit - wtx.GetCredit P.ISMINE_LEASED
          address := (ExtractAddress txout.scriptPubKey).2 }
      else if isMine = P.ISMINE_LEASING then
        { record with
          type := RecordType.P2LLeasingRecv
          debit := -record.debit + wtx.GetCredit P.ISMINE_LEASED
          address := (ExtractAddress txout.scriptPubKey).2 }
      else loadP2L_loop P wallet wtx record rest
    else loadP2L_loop P wallet wtx record rest

/-- The helper `TransactionRecord::loadP2L` (lines 436-464). -/
def loadP2L (P : Params) (wallet : CWallet) (wtx : CWalletTx)
    (record : TransactionRecord) : TransactionRecord :=
  loadP2L_loop P wallet wtx { record with involvesWatchAddress := false } wtx.vout

/-- The loop of `loadLeasingSpend` (lines 474-493) over the inputs. The outer `none` is a read
outside the originating entry's outputs. -/
def loadLeasingSpend_loop (P : Params) (wallet : CWallet)
    (record : TransactionRecord) : List CTxIn → Option TransactionRecord
  | [] => some record
  | input :: rest =>
    match wallet.GetWalletTx input.prevout.hash with
    | none => loadLeasingSpend_loop P wallet record rest
    | some tx =>
      match tx.vout[input.prevout.n]? with
      | none => none
      | some prev =>
        if prev.scriptPubKey.IsPayToLeasing then
          let isMine := wallet.IsMineOut prev
          if isMine = P.ISMINE_SPENDABLE_LEASING then
            some { record with
              type := RecordType.P2LUnlockOwnLeasing
              address := (ExtractAddress prev.scriptPubKey).2 }
          else if isMine = P.ISMINE_LEASED then
            some { record with
              type := RecordType.P2LUnlockLeasing
              address := (ExtractAddress prev.scriptPubKey).2 }
          else if isMine = P.ISMINE_LEASING then
            some { record with
              type := RecordType.P2LReturnLeasing
              address := (ExtractAddress prev.scriptPubKey).2 }
          else loadLeasingSpend_loop P wallet record rest
        else loadLeasingSpend_loop P wallet record rest

/-- The helper `TransactionRecord::loadLeasingSpend` (lines 466-494). -/
def loadLeasingSpend (P : Params) (wallet : CWallet) (wtx : CWalletTx)
    (record : TransactionRecord) : Option TransactionRecord :=
  loadLeasingSpend_loop P wallet { record with involvesWatchAddress := false } wtx.vin

/-- The loop of `loadLeasingReward` (lines 504-511) over the outputs. -/
def loadLeasingReward_loop (P : Params) (wallet : CWallet)
    (record : TransactionRecord) : List CTxOut → TransactionRecord
  | [] => record
  | txout :: rest =>
    if txout.scriptPubKey.IsLeasingReward && wallet.IsMineOut txout == P.ISMINE_SPENDABLE then
      { record with
        type := RecordType.LeasingReward
        address := (ExtractAddress txout.scriptPubKey).2 }
    else loadLeasingReward_loop P wallet record rest

/-- The helper `TransactionRecord::loadLeasingReward` (lines 496-512). -/
def loadLeasingReward (P : Params) (wallet : CWallet) (wtx : CWalletTx)
    (record : TransactionRecord) : TransactionRecord :=
  loadLeasingReward_loop P wallet { record with involvesWatchAddress := false } wtx.vout

/-! ## The classifier `decomposeTransaction`, branch by branch -/

/-- The flag `fZSpendFromMe` (lines 32-37): false unless the entry has privacy-coin spend
inputs, and then the wallet's answer for the spend parsed from `vin[0]`. -/
def zSpendFromMe (wallet : CWallet) (wtx : CWalletTx) : Option Bool :=
  if wtx.HasZerocoinSpendInputs then
    match wtx.vin[0]? with
    | none => none
    | some txin => some (wallet.IsMyZerocoinSpend txin)
  else some false

/-- The credit loop of the privacy-coin stake reward (lines 51-55). -/
def zerocoinMintCredit (vout : List CTxOut) : CAmount :=
  vout.foldl (fun credit out => if out.IsZerocoinMint then credit + out.nValue else credit) 0

/-- The stake-reward branch (lines 39-86). -/
def decomposeCoinStake (P : Params) (wallet : CWallet) (wtx : CWalletTx)
    (fZSpendFromMe : Bool) : Option (List TransactionRecord) :=
  let parts : List TransactionRecord := []
  let nCredit := wtx.GetCredit P.ISMINE_ALL
  let nDebit := wtx.GetDebit P.ISMINE_ALL
  let nNet := nCredit - nDebit
  let sub := TransactionRecord.init wtx.GetHash wtx.GetComputedTxTime wtx.GetTotalSize
  -- line 43: `vout[1]` is read only when there are no privacy-coin spend inputs
  let extracted : Option (Option CTxDestination) :=
    if wtx.HasZerocoinSpendInputs then some (some CNoDestination)
    else
      match wtx.vout[1]? with
      | none => none
      | some txout => some (ExtractDestination txout.scriptPubKey)
  match extracted with
  | none => none
  | some none => some parts
  | some (some address) =>
    if wtx.HasZerocoinSpendInputs && (fZSpendFromMe || wallet.HasMintTx wtx.GetHash) then
      match wtx.vin[0]? with
      | none => none
      | some txin =>
        let sub :=
          { sub with
            involvesWatchAddress := false
            type := RecordType.StakeZBTCU
            address := wtx.mapValue.at "zerocoinmint"
            credit := zerocoinMintCredit wtx.vout }
        let sub := { sub with debit := sub.debit - (txin.nSequence : Int) * P.COIN }
        some (parts ++ [sub])
    else
      match wtx.vout[1]? with
      | none => none
      | some txout =>
        let mine := wallet.IsMineOut txout
        if mine ≠ 0 then
          if wtx.HasP2CSOutputs then
            let sub := { sub with credit := nCredit, debit := -nDebit }
            let sub := loadHotOrColdStakeOrContract P wallet wtx sub false
            some (parts ++ [sub])
          else
            let sub :=
              { sub with
                involvesWatchAddress := (mine &&& P.ISMINE_WATCH_ONLY) != 0
                type := RecordType.StakeMint
                address := CBTCUAddress_ToString address
                credit := nNet }
            some (parts ++ [sub])
        else
          let nIndexMN := wtx.vout.length - 1
          match wtx.vout[nIndexMN]? with
          | none => none
          | some txoutMN =>
            let sub :=
              match ExtractDestination txoutMN.scriptPubKey with
              | none => sub
              | some destMN =>
                if wallet.IsMineDest destMN ≠ 0 then
                  let mine := wallet.IsMineOut txoutMN
                  { sub with
                    involvesWatchAddress := (mine &&& P.ISMINE_WATCH_ONLY) != 0
                    type := RecordType.MNReward
                    address := CBTCUAddress_ToString destMN
                    credit := txoutMN.nValue }
                else sub
            some (parts ++ [sub])

/-- The text `strAddress` of lines 111-114 and its use in lines 128-129 and 145-146: the
address of the output when one is extracted and its text is not empty, else the label given. -/
def addressOr (label : String) (txout : CTxOut) : String :=
  let strAddress :=
    match ExtractDestination txout.scriptPubKey with
    | some address => CBTCUAddress_ToString address
    | none => ""
  if strAddress ≠ "" then strAddress else label

/-- One turn of the loop of the privacy-coin spend branch (lines 90-149), on the state
`(parts, fFeeAssigned)`. -/
def zerocoinSpendStep (P : Params) (wallet : CWallet) (wtx : CWalletTx) (fZSpendFromMe : Bool)
    (st : List TransactionRecord × Bool) (txout : CTxOut) : List TransactionRecord × Bool :=
  let parts := st.1
  let fFeeAssigned := st.2
  let fresh := TransactionRecord.init wtx.GetHash wtx.GetComputedTxTime wtx.GetTotalSize
  let mine := wallet.IsMineOut txout
  if txout.IsZerocoinMint then
    if !fZSpendFromMe then st
    else
      let sub :=
        { fresh with
          involvesWatchAddress := (mine &&& P.ISMINE_WATCH_ONLY) != 0
          type := RecordType.ZerocoinSpend_Change_zPiv
          address := wtx.mapValue.at "zerocoinmint" }
      let sub :=
        if !fFeeAssigned then
          { sub with debit := sub.debit - (wtx.GetZerocoinSpent - wtx.GetValueOut) }
        else sub
      let sub := { sub with idx := parts.length }
      (parts ++ [sub], true)
  else if mine ≠ 0 then
    let sub := { fresh with involvesWatchAddress := (mine &&& P.ISMINE_WATCH_ONLY) != 0 }
    let sub :=
      if fZSpendFromMe then { sub with type := RecordType.ZerocoinSpend_FromMe }
      else { sub with type := RecordType.RecvFromZerocoinSpend, credit := txout.nValue }
    let sub := { sub with address := addressOr (wtx.mapValue.at "recvzerocoinspend") txout }
    let sub := { sub with idx := parts.length }
    (parts ++ [sub], fFeeAssigned)
  else if !fZSpendFromMe then st
  else
    let sub :=
      { fresh with
        involvesWatchAddress := (mine &&& P.ISMINE_WATCH_ONLY) != 0
        debit := -txout.nValue
        type := RecordType.ZerocoinSpend
        address := addressOr (wtx.mapValue.at "zerocoinspend") txout }
    let sub := { sub with idx := parts.length }
    (parts ++ [sub], fFeeAssigned)

/-- The privacy-coin spend branch (lines 87-149). -/
def decomposeZerocoinSpend (P : Params) (wallet : CWallet) (wtx : CWalletTx)
    (fZSpendFromMe : Bool) : List TransactionRecord :=
  (wtx.vout.foldl (zerocoinSpendStep P wallet wtx fZSpendFromMe) ([], false)).1

/-- One turn of the loop of the credit branch (lines 192-216), on the list `parts`. -/
def creditStep (P : Params) (wallet : CWallet) (wtx : CWalletTx)
    (parts : List TransactionRecord) (txout : CTxOut) : List TransactionRecord :=
  let mine := wallet.IsMineOut txout
  if mine ≠ 0 then
    let sub := TransactionRecord.init wtx.GetHash wtx.GetComputedTxTime wtx.GetTotalSize
    let sub :=
      { sub with
        idx := parts.length
        credit := txout.nValue
        involvesWatchAddress := (mine &&& P.ISMINE_WATCH_ONLY) != 0 }
    let received : Option CTxDestination :=
      match ExtractDestination txout.scriptPubKey with
      | some address => if wallet.IsMineDest address ≠ 0 then some address else none
      | none => none
    let sub :=
      match received with
      | some address =>
        { sub with type := RecordType.RecvWithAddress, address := CBTCUAddress_ToString address }
      | none =>
        { sub with type := RecordType.RecvFromOther, address := wtx.mapValue.at "from" }
    let sub := if wtx.IsCoinBase then { sub with type := RecordType.Generated } else sub
    parts ++ [sub]
  else parts

/-- The credit branch (lines 188-216). -/
def decomposeCredit (P : Params) (wallet : CWallet) (wtx : CWalletTx) :
    List TransactionRecord :=
  wtx.vout.foldl (creditStep P wallet wtx) []

/-- The state of the scan over the inputs (lines 218-230) and over the outputs (lines 232-243):
the denomination flag, the count of owned items, the watch-only flag and the running minimum
of the ownership answers. -/
structure MineScan where
  fAllDenom : Bool
  nMine : Nat
  involvesWatchAddress : Bool
  fAll : isminetype
  deriving DecidableEq, Repr

/-- One turn of the loop over the inputs (lines 222-230). -/
def fromMeStep (P : Params) (wallet : CWallet) (st : MineScan) (txin : CTxIn) : MineScan :=
  let mine := wallet.IsMineIn txin
  { fAllDenom := if mine ≠ 0 then st.fAllDenom && wallet.IsDenominated txin else st.fAllDenom
    nMine := if mine ≠ 0 then st.nMine + 1 else st.nMine
    involvesWatchAddress :=
      if (mine &&& P.ISMINE_WATCH_ONLY) != 0 then true else st.involvesWatchAddress
    fAll := if st.fAll > mine then mine else st.fAll }

/-- One turn of the loop over the outputs (lines 235-243). -/
def toMeStep (P : Params) (wallet : CWallet) (st : MineScan) (txout : CTxOut) : MineScan :=
  let mine := wallet.IsMineOut txout
  { fAllDenom :=
      if mine ≠ 0 then st.fAllDenom && wallet.IsDenominatedAmount txout.nValue else st.fAllDenom
    nMine := if mine ≠ 0 then st.nMine + 1 else st.nMine
    involvesWatchAddress :=
      if (mine &&& P.ISMINE_WATCH_ONLY) != 0 then true else st.involvesWatchAddress
    fAll := if st.fAll > mine then mine else st.fAll }

/-- The scan over the inputs (lines 218-230). -/
def scanFromMe (P : Params) (wallet : CWallet) (wtx : CWalletTx) : MineScan :=
  wtx.vin.foldl (fromMeStep P wallet)
    { fAllDenom := true, nMine := 0, involvesWatchAddress := false, fAll := P.ISMINE_SPENDABLE }

/-- The scan over the outputs (lines 232-243); the watch-only flag continues from the scan over
the inputs. -/
def scanToMe (P : Params) (wallet : CWallet) (wtx : CWalletTx) (involvesWatchAddress : Bool) :
    MineScan :=
  wtx.vout.foldl (toMeStep P wallet)
    { fAllDenom := true, nMine := 0, involvesWatchAddress := involvesWatchAddress,
      fAll := P.ISMINE_SPENDABLE }

/-- One turn of the sub-label loop of the payment-to-self branch (lines 269-276), on the
category of the record. -/
def selfLabelStep (P : Params) (wallet : CWallet) (wtx : CWalletTx)
    (type : RecordType) (txout : CTxOut) : RecordType :=
  let nDebit := wtx.GetDebit P.ISMINE_ALL
  let type :=
    if wallet.IsCollateralAmount txout.nValue then RecordType.ObfuscationMakeCollaterals else type
  let type :=
    if wallet.IsDenominatedAmount txout.nValue then RecordType.ObfuscationCreateDenominations
    else type
  let type :=
    if nDebit - wtx.GetValueOut = P.OBFUSCATION_COLLATERAL then
      RecordType.ObfuscationCollateralPayment
    else type
  type

/-- The payment-to-self branch (lines 248-290). It reads `vout[0]`. -/
def decomposeSelf (P : Params) (wallet : CWallet) (wtx : CWalletTx)
    (involvesWatchAddress : Bool) : Option (List TransactionRecord) :=
  let parts : List TransactionRecord := []
  let nCredit := wtx.GetCredit P.ISMINE_ALL
  let nDebit := wtx.GetDebit P.ISMINE_ALL
  let sub := TransactionRecord.init wtx.GetHash wtx.GetComputedTxTime wtx.GetTotalSize
  let sub := { sub with type := RecordType.SendToSelf, address := "" }
  match wtx.vout[0]? with
  | none => none
  | some txout0 =>
    let sub :=
      if wtx.mapValue.at "DS" = "1" then
        { sub with
          type := RecordType.Obfuscated
          address :=
            match ExtractDestination txout0.scriptPubKey with
            | some address => CBTCUAddress_ToString address
            | none => wtx.mapValue.at "to" }
      else
        { sub with
          idx := parts.length
          type := wtx.vout.foldl (selfLabelStep P wallet wtx) sub.type
          address :=
            match ExtractDestination txout0.scriptPubKey with
            | some address => CBTCUAddress_ToString address
            | none => sub.address }
    let nChange := wtx.GetChange
    let sub := { sub with debit := -(nDebit - nChange), credit := nCredit - nChange }
    some (parts ++ [{ sub with involvesWatchAddress := involvesWatchAddress }])

/-- The labelling part of one turn of the loop of the sent branch (lines 303-330), on the
record `sub` prepared for the output: `none` is a `continue` (no record for this output), and
`some` is the record with its category, address and credit set. -/
def sentLabel (wallet : CWallet) (wtx : CWalletTx) (sub : TransactionRecord) (txout : CTxOut) :
    Option TransactionRecord :=
  if wallet.IsMineOut txout ≠ 0 then none
  else
    let labelled : Option TransactionRecord :=
      match ExtractDestination txout.scriptPubKey with
      | some address =>
        if wtx.HasZerocoinMintOutputs then none
        else
          some { sub with
            type := RecordType.SendToAddress
            address := CBTCUAddress_ToString address }
      | none =>
        if txout.IsZerocoinMint then
          some { sub with
            type := RecordType.ZerocoinMint
            address := wtx.mapValue.at "zerocoinmint"
            credit := sub.credit + txout.nValue }
        else
          some { sub with type := RecordType.SendToOther, address := wtx.mapValue.at "to" }
    match labelled with
    | none => none
    | some sub =>
      if wtx.mapValue.at "DS" = "1" then some { sub with type := RecordType.Obfuscated }
      else some sub

/-- One turn of the loop of the sent branch (lines 297-341), on the state `(parts, nTxFee)`. -/
def sentStep (wallet : CWallet) (wtx : CWalletTx) (involvesWatchAddress : Bool)
    (st : List TransactionRecord × CAmount) (txout : CTxOut) :
    List TransactionRecord × CAmount :=
  let parts := st.1
  let nTxFee := st.2
  let sub := TransactionRecord.init wtx.GetHash wtx.GetComputedTxTime wtx.GetTotalSize
  let sub := { sub with idx := parts.length, involvesWatchAddress := involvesWatchAddress }
  match sentLabel wallet wtx sub txout with
  | none => st
  | some sub =>
    let nValue := txout.nValue
    let nValue := if nTxFee > 0 then nValue + nTxFee else nValue
    let nTxFee := if nTxFee > 0 then 0 else nTxFee
    (parts ++ [{ sub with debit := -nValue }], nTxFee)

/-- The sent branch (lines 291-341). -/
def decomposeSent (P : Params) (wallet : CWallet) (wtx : CWalletTx)
    (involvesWatchAddress : Bool) : List TransactionRecord :=
  let nDebit := wtx.GetDebit P.ISMINE_ALL
  let nTxFee := nDebit - wtx.GetValueOut
  (wtx.vout.foldl (sentStep wallet wtx involvesWatchAddress) ([], nTxFee)).1

/-- The net-debit analysis (lines 217-349). The counters `nFromMe` and `nToMe` are `int`, and
the product of line 245 is taken in `int`: it is the product of the two counts under
`toInt32`. -/
def decomposeDebit (P : Params) (wallet : CWallet) (wtx : CWalletTx) :
    Option (List TransactionRecord) :=
  let parts : List TransactionRecord := []
  let nCredit := wtx.GetCredit P.ISMINE_ALL
  let nDebit := wtx.GetDebit P.ISMINE_ALL
  let nNet := nCredit - nDebit
  let fromMe := scanFromMe P wallet wtx
  let toMe := scanToMe P wallet wtx fromMe.involvesWatchAddress
  let involvesWatchAddress := toMe.involvesWatchAddress
  if fromMe.fAllDenom && toMe.fAllDenom &&
      (toInt32 ((fromMe.nMine : Int) * (toMe.nMine : Int)) != 0) then
    let rec0 := TransactionRecord.init7 wtx.GetHash wtx.GetComputedTxTime wtx.GetTotalSize
      RecordType.ObfuscationDenominate "" (-nDebit) nCredit
    some (parts ++ [{ rec0 with involvesWatchAddress := false }])
  else if fromMe.fAll ≠ 0 ∧ toMe.fAll ≠ 0 then
    decomposeSelf P wallet wtx involvesWatchAddress
  else if fromMe.fAll ≠ 0 ∨ wtx.HasZerocoinMintOutputs = true then
    some (decomposeSent P wallet wtx involvesWatchAddress)
  else
    let rec0 := TransactionRecord.init7 wtx.GetHash wtx.GetComputedTxTime wtx.GetTotalSize
      RecordType.Other "" nNet 0
    some (parts ++ [{ rec0 with involvesWatchAddress := involvesWatchAddress }])

/-- The classifier `TransactionRecord::decomposeTransaction` (lines 23-352): the priority-ordered
chain of branches, first match wins. -/
def decomposeTransaction (P : Params) (wallet : CWallet) (wtx : CWalletTx) :
    Option (List TransactionRecord) :=
  let parts : List TransactionRecord := []
  let nCredit := wtx.GetCredit P.ISMINE_ALL
  let nDebit := wtx.GetDebit P.ISMINE_ALL
  let nNet := nCredit - nDebit
  let fresh := TransactionRecord.init wtx.GetHash wtx.GetComputedTxTime wtx.GetTotalSize
  match zSpendFromMe wallet wtx with
  | none => none
  | some fZSpendFromMe =>
    if wtx.IsCoinStake then
      decomposeCoinStake P wallet wtx fZSpendFromMe
    else if wtx.HasZerocoinSpendInputs then
      some (decomposeZerocoinSpend P wallet wtx fZSpendFromMe)
    else if wtx.HasP2CSOutputs then
      let sub := { fresh with credit := nCredit, debit := -nDebit }
      let sub := loadHotOrColdStakeOrContract P wallet wtx sub true
      some (parts ++ [sub])
    else if wtx.HasP2CSInputs then
      match loadUnlockColdStake P wallet wtx fresh with
      | none => none
      | some sub => some (parts ++ [sub])
    else if wtx.HasP2LOutputs then
      let sub := { fresh with credit := nCredit, debit := -nDebit }
      let sub := loadP2L P wallet wtx sub
      some (parts ++ [sub])
    else if wtx.HasP2LInputs then
      let sub := { fresh with credit := nCredit, debit := -nDebit }
      match loadLeasingSpend P wallet wtx sub with
      | none => none
      | some sub => some (parts ++ [sub])
    else if wtx.IsLeasingReward then
      let sub := { fresh with credit := nCredit, debit := -nDebit }
      let sub := loadLeasingReward P wallet wtx sub
      some (parts ++ [sub])
    else if nNet > 0 ∨ wtx.IsCoinBase = true then
      some (decomposeCredit P wallet wtx)
    else
      decomposeDebit P wallet wtx

/-! ## The classifier as a program on the state of the entry

The classifier takes the entry by reference to `const` (line 23), so it can change the entry
only through the `mutable` members, the memory-only caches of wallet.h 734-776, which the
`const` methods of `CWalletTx` may fill; and it reads the label map through the local copy of
line 31, in which the subscript `mapValue[key]` inserts an absent key. Here the classifier is
written once more with these two effects made explicit, as a program whose steps are the calls
of the methods of `CWalletTx` and the subscripts of the local copy. -/

/-- The methods of `CWalletTx` that the classifier calls and that return an amount or a time
(wallet.h 838-890). They are declared `const` in wallet.h, and their bodies are not among the
sources. -/
inductive EntryQuery where
  | GetComputedTxTime
  | GetCredit (filter : isminefilter)
  | GetDebit (filter : isminefilter)
  | GetChange
  | GetStakeDelegationDebit
  | GetColdStakingDebit
  | GetColdStakingCredit
  deriving DecidableEq, Repr

/-- The methods of `CWalletTx` that the classifier calls and that return a flag (wallet.h
833-835). -/
inductive EntryTest where
  | HasP2CSInputs
  | HasP2LInputs
  deriving DecidableEq, Repr

/-- The answer of the entry to a method that returns an amount or a time. -/
def CWalletTx.answer (wtx : CWalletTx) : EntryQuery → Int
  | EntryQuery.GetComputedTxTime => wtx.GetComputedTxTime
  | EntryQuery.GetCredit filter => wtx.GetCredit filter
  | EntryQuery.GetDebit filter => wtx.GetDebit filter
  | EntryQuery.GetChange => wtx.GetChange
  | EntryQuery.GetStakeDelegationDebit => wtx.GetStakeDelegationDebit
  | EntryQuery.GetColdStakingDebit => wtx.GetColdStakingDebit
  | EntryQuery.GetColdStakingCredit => wtx.GetColdStakingCredit

/-- The answer of the entry to a method that returns a flag. -/
def CWalletTx.flag (wtx : CWalletTx) : EntryTest → Bool
  | EntryTest.HasP2CSInputs => wtx.HasP2CSInputs
  | EntryTest.HasP2LInputs => wtx.HasP2LInputs

/-- The methods of `CWalletTx` as they act on the memory-only caches of the entry, a state of
type `Cache`: the value a call returns and the caches it leaves. The bodies are not among the
sources, so the methods are parameters of the model. -/
structure EntryMethods (Cache : Type) where
  ask : EntryQuery → Cache → Int × Cache
  test : EntryTest → Cache → Bool × Cache

/-- The state on which the classifier runs: the memory-only caches of the entry and the local
copy `mapValue` of its label map (line 31). -/
structure ClassifierState (Cache : Type) where
  cache : Cache
  mapValue : mapValue_t

/-- A program of the classifier: it returns a value, or subscripts the local copy of the label
map and goes on with the text read, or calls a method of the entry and goes on with its
answer. -/
inductive Prog (α : Type) where
  | ret (a : α)
  | index (key : String) (next : String → Prog α)
  | ask (q : EntryQuery) (next : Int → Prog α)
  | test (q : EntryTest) (next : Bool → Prog α)

/-- The sequence of two programs. -/
def Prog.bind {α β : Type} : Prog α → (α → Prog β) → Prog β
  | Prog.ret a, f => f a
  | Prog.index key next, f => Prog.index key (fun text => (next text).bind f)
  | Prog.ask q next, f => Prog.ask q (fun v => (next v).bind f)
  | Prog.test q next, f => Prog.test q (fun b => (next b).bind f)

instance : Monad Prog where
  pure := Prog.ret
  bind := Prog.bind

/-- The subscript `mapValue[key]` on the local copy. -/
def subscript (key : String) : Prog String := Prog.index key Prog.ret

/-- The call of a method of the entry that returns an amount or a time. -/
def call (q : EntryQuery) : Prog Int := Prog.ask q Prog.ret

/-- The call of a method of the entry that returns a flag. -/
def callTest (q : EntryTest) : Prog Bool := Prog.test q Prog.ret

/-- The run of a program on a state: the subscript acts on the local copy as
`mapValue_t.index` does, and a method acts on the caches. -/
def Prog.run {Cache α : Type} (M : EntryMethods Cache) :
    Prog α → ClassifierState Cache → α × ClassifierState Cache
  | Prog.ret a, s => (a, s)
  | Prog.index key next, s =>
    (next (s.mapValue.index key).1).run M { s with mapValue := (s.mapValue.index key).2 }
  | Prog.ask q next, s =>
    (next (M.ask q s.cache).1).run M { s with cache := (M.ask q s.cache).2 }
  | Prog.test q next, s =>
    (next (M.test q s.cache).1).run M { s with cache := (M.test q s.cache).2 }

/-- The value of a program when every method returns the answer of the entry `wtx` and every
subscript returns the text that the label map of `wtx` holds. -/
def Prog.value {α : Type} (wtx : CWalletTx) : Prog α → α
  | Prog.ret a => a
  | Prog.index key next => (next (wtx.mapValue.at key)).value wtx
  | Prog.ask q next => (next (wtx.answer q)).value wtx
  | Prog.test q next => (next (wtx.flag q)).value wtx

/-- The helper `TransactionRecord::loadHotOrColdStakeOrContract` (lines 387-434) as a
program. -/
def loadHotOrColdStakeOrContractProg (P : Params) (wallet : CWallet) (wtx : CWalletTx)
    (record : TransactionRecord) (isContract : Bool) : Prog TransactionRecord := do
  let record := { record with involvesWatchAddress := false }
  let p2csUtxo := firstP2CSUtxo wtx
  let isSpendable : Bool := (wallet.IsMineOut p2csUtxo &&& P.ISMINE_SPENDABLE_DELEGATED) != 0
  let isFromMe : Bool := wallet.IsFromMe wtx
  let record ←
    if isContract then
      if isSpendable && isFromMe then
        pure { record with type := RecordType.P2CSDelegationSentOwner }
      else if isFromMe then
        pure { record with type := RecordType.P2CSDelegationSent }
      else
        pure { record with type := RecordType.P2CSDelegation }
    else
      if isSpendable then do
        let credit ← call (EntryQuery.GetCredit P.ISMINE_SPENDABLE_DELEGATED)
        let debit ← call (EntryQuery.GetDebit P.ISMINE_SPENDABLE_DELEGATED)
        pure { record with type := RecordType.StakeDelegated, credit := credit, debit := -debit }
      else
        pure { record with type := RecordType.StakeHot }
  pure { record with address := (ExtractAddress p2csUtxo.scriptPubKey).2 }

/-- The loop of `loadP2L` (lines 443-463) as a program: the deciding output makes the one call
of `GetCredit(ISMINE_LEASED)`. -/
def loadP2L_loopProg (P : Params) (wallet : CWallet) (record : TransactionRecord) :
    List CTxOut → Prog TransactionRecord
  | [] => pure record
  | txout :: rest =>
    if txout.scriptPubKey.IsPayToLeasing then
      let isMine := wallet.IsMineOut txout
      if isMine = P.ISMINE_SPENDABLE_LEASING then do
        let leased ← call (EntryQuery.GetCredit P.ISMINE_LEASED)
        pure { record with
          type := RecordType.P2LLeasingSentToSelf
          credit := record.credit - leased
          address := (ExtractAddress txout.scriptPubKey).2 }
      else if isMine = P.ISMINE_LEASED then do
        let leased ← call (EntryQuery.GetCredit P.ISMINE_LEASED)
        pure { record with
          type := RecordType.P2LLeasingSent
          debit := record.debit - leased
          address := (ExtractAddress txout.scriptPubKey).2 }
      else if isMine = P.ISMINE_LEASING then do
        let leased ← call (EntryQuery.GetCredit P.ISMINE_LEASED)
        pure { record with
          type := RecordType.P2LLeasingRecv
          debit := -record.debit + leased
          address := (ExtractAddress txout.scriptPubKey).2 }
      else loadP2L_loopProg P wallet record rest
    else loadP2L_loopProg P wallet record rest

/-- The helper `TransactionRecord::loadP2L` (lines 436-464) as a program. -/
def loadP2LProg (P : Params) (wallet : CWallet) (wtx : CWalletTx)
    (record : TransactionRecord) : Prog TransactionRecord :=
  loadP2L_loopProg P wallet { record with involvesWatchAddress := false } wtx.vout

/-- The helper `TransactionRecord::loadUnlockColdStake` (lines 354-385) as a program: the two
calls of either arm come before the script pointer is dereferenced. -/
def loadUnlockColdStakeProg (P : Params) (wallet : CWallet) (wtx : CWalletTx)
    (record : TransactionRecord) : Prog (Option TransactionRecord) :=
  let record := { record with involvesWatchAddress := false }
  match findP2CSInput P wallet wtx.vin with
  | none => pure none
  | some found =>
    let isSpendable : Bool :=
      match found with
      | some (_, spendable) => spendable
      | none => false
    if isSpendable then do
      let debit ← call EntryQuery.GetStakeDelegationDebit
      let credit ← call (EntryQuery.GetCredit P.ISMINE_ALL)
      let record :=
        { record with type := RecordType.P2CSUnlockOwner, debit := -debit, credit := credit }
      match found with
      | none => pure none
      | some (p2csScript, _) =>
        pure (some { record with address := (ExtractAddress p2csScript).2 })
    else do
      let debit ← call EntryQuery.GetColdStakingDebit
      let credit ← call EntryQuery.GetColdStakingCredit
      let record :=
        { record with type := RecordType.P2CSUnlockStaker, debit := -debit, credit := -credit }
      match found with
      | none => pure none
      | some (p2csScript, _) =>
        pure (some { record with address := (ExtractAddress p2csScript).2 })

/-- The stake-reward branch (lines 39-86) as a program, on the time, credit and debit that the
calls of lines 26-28 returned. -/
def decomposeCoinStakeProg (P : Params) (wallet : CWallet) (wtx : CWalletTx)
    (nTime : Int) (nCredit nDebit : CAmount) (fZSpendFromMe : Bool) :
    Prog (Option (List TransactionRecord)) :=
  let parts : List TransactionRecord := []
  let nNet := nCredit - nDebit
  let sub := TransactionRecord.init wtx.GetHash nTime wtx.GetTotalSize
  let extracted : Option (Option CTxDestination) :=
    if wtx.HasZerocoinSpendInputs then some (some CNoDestination)
    else
      match wtx.vout[1]? with
      | none => none
      | some txout => some (ExtractDestination txout.scriptPubKey)
  match extracted with
  | none => pure none
  | some none => pure (some parts)
  | some (some address) =>
    if wtx.HasZerocoinSpendInputs && (fZSpendFromMe || wallet.HasMintTx wtx.GetHash) then do
      let label ← subscript "zerocoinmint"
      match wtx.vin[0]? with
      | none => pure none
      | some txin =>
        let sub :=
          { sub with
            involvesWatchAddress := false
            type := RecordType.StakeZBTCU
            address := label
            credit := zerocoinMintCredit wtx.vout }
        let sub := { sub with debit := sub.debit - (txin.nSequence : Int) * P.COIN }
        pure (some (parts ++ [sub]))
    else
      match wtx.vout[1]? with
      | none => pure none
      | some txout =>
        let mine := wallet.IsMineOut txout
        if mine ≠ 0 then
          if wtx.HasP2CSOutputs then do
            let sub := { sub with credit := nCredit, debit := -nDebit }
            let sub ← loadHotOrColdStakeOrContractProg P wallet wtx sub false
            pure (some (parts ++ [sub]))
          else
            let sub :=
              { sub with
                involvesWatchAddress := (mine &&& P.ISMINE_WATCH_ONLY) != 0
                type := RecordType.StakeMint
                address := CBTCUAddress_ToString address
                credit := nNet }
            pure (some (parts ++ [sub]))
        else
          let nIndexMN := wtx.vout.length - 1
          match wtx.vout[nIndexMN]? with
          | none => pure none
          | some txoutMN =>
            let sub :=
              match ExtractDestination txoutMN.scriptPubKey with
              | none => sub
              | some destMN =>
                if wallet.IsMineDest destMN ≠ 0 then
                  let mine := wallet.IsMineOut txoutMN
                  { sub with
                    involvesWatchAddress := (mine &&& P.ISMINE_WATCH_ONLY) != 0
                    type := RecordType.MNReward
                    address := CBTCUAddress_ToString destMN
                    credit := txoutMN.nValue }
                else sub
            pure (some (parts ++ [sub]))

/-- One turn of the loop of the privacy-coin spend branch (lines 90-149) as a program, on the
state `(parts, fFeeAssigned)`. -/
def zerocoinSpendStepProg (P : Params) (wallet : CWallet) (wtx : CWalletTx) (nTime : Int)
    (fZSpendFromMe : Bool) (st : List TransactionRecord × Bool) (txout : CTxOut) :
    Prog (List TransactionRecord × Bool) :=
  let parts := st.1
  let fFeeAssigned := st.2
  let fresh := TransactionRecord.init wtx.GetHash nTime wtx.GetTotalSize
  let mine := wallet.IsMineOut txout
  if txout.IsZerocoinMint then
    if !fZSpendFromMe then pure st
    else do
      let label ← subscript "zerocoinmint"
      let sub :=
        { fresh with
          involvesWatchAddress := (mine &&& P.ISMINE_WATCH_ONLY) != 0
          type := RecordType.ZerocoinSpend_Change_zPiv
          address := label }
      let sub :=
        if !fFeeAssigned then
          { sub with debit := sub.debit - (wtx.GetZerocoinSpent - wtx.GetValueOut) }
        else sub
      let sub := { sub with idx := parts.length }
      pure (parts ++ [sub], true)
  else if mine ≠ 0 then do
    let sub := { fresh with involvesWatchAddress := (mine &&& P.ISMINE_WATCH_ONLY) != 0 }
    let sub :=
      if fZSpendFromMe then { sub with type := RecordType.ZerocoinSpend_FromMe }
      else { sub with type := RecordType.RecvFromZerocoinSpend, credit := txout.nValue }
    let label ← subscript "recvzerocoinspend"
    let sub := { sub with address := addressOr label txout }
    let sub := { sub with idx := parts.length }
    pure (parts ++ [sub], fFeeAssigned)
  else if !fZSpendFromMe then pure st
  else do
    let label ← subscript "zerocoinspend"
    let sub :=
      { fresh with
        involvesWatchAddress := (mine &&& P.ISMINE_WATCH_ONLY) != 0
        debit := -txout.nValue
        type := RecordType.ZerocoinSpend
        address := addressOr label txout }
    let sub := { sub with idx := parts.length }
    pure (parts ++ [sub], fFeeAssigned)

/-- The privacy-coin spend branch (lines 87-149) as a program. -/
def decomposeZerocoinSpendProg (P : Params) (wallet : CWallet) (wtx : CWalletTx) (nTime : Int)
    (fZSpendFromMe : Bool) : Prog (List TransactionRecord) := do
  let st ← wtx.vout.foldlM (zerocoinSpendStepProg P wallet wtx nTime fZSpendFromMe) ([], false)
  pure st.1

/-- One turn of the loop of the credit branch (lines 192-216) as a program, on the list
`parts`. -/
def creditStepProg (P : Params) (wallet : CWallet) (wtx : CWalletTx) (nTime : Int)
    (parts : List TransactionRecord) (txout : CTxOut) : Prog (List TransactionRecord) :=
  let mine := wallet.IsMineOut txout
  if mine ≠ 0 then do
    let sub := TransactionRecord.init wtx.GetHash nTime wtx.GetTotalSize
    let sub :=
      { sub with
        idx := parts.length
        credit := txout.nValue
        involvesWatchAddress := (mine &&& P.ISMINE_WATCH_ONLY) != 0 }
    let received : Option CTxDestination :=
      match ExtractDestination txout.scriptPubKey with
      | some address => if wallet.IsMineDest address ≠ 0 then some address else none
      | none => none
    let sub ←
      match received with
      | some address =>
        pure { sub with
          type := RecordType.RecvWithAddress, address := CBTCUAddress_ToString address }
      | none => do
        let label ← subscript "from"
        pure { sub with type := RecordType.RecvFromOther, address := label }
    let sub := if wtx.IsCoinBase then { sub with type := RecordType.Generated } else sub
    pure (parts ++ [sub])
  else pure parts

/-- The credit branch (lines 188-216) as a program. -/
def decomposeCreditProg (P : Params) (wallet : CWallet) (wtx : CWalletTx) (nTime : Int) :
    Prog (List TransactionRecord) :=
  wtx.vout.foldlM (creditStepProg P wallet wtx nTime) []

/-- One turn of the sub-label loop of the payment-to-self branch (lines 269-276), on the debit
that the call of line 28 returned. -/
def selfLabelStepOf (P : Params) (wallet : CWallet) (wtx : CWalletTx) (nDebit : CAmount)
    (type : RecordType) (txout : CTxOut) : RecordType :=
  let type :=
    if wallet.IsCollateralAmount txout.nValue then RecordType.ObfuscationMakeCollaterals else type
  let type :=
    if wallet.IsDenominatedAmount txout.nValue then RecordType.ObfuscationCreateDenominations
    else type
  let type :=
    if nDebit - wtx.GetValueOut = P.OBFUSCATION_COLLATERAL then
      RecordType.ObfuscationCollateralPayment
    else type
  type

/-- The payment-to-self branch (lines 248-290) as a program: the subscript of line 258 comes
first, the read of `vout[0]` follows in either arm, and the call of `GetChange` is the last
step. -/
def decomposeSelfProg (P : Params) (wallet : CWallet) (wtx : CWalletTx)
    (nTime : Int) (nCredit nDebit : CAmount) (involvesWatchAddress : Bool) :
    Prog (Option (List TransactionRecord)) := do
  let parts : List TransactionRecord := []
  let sub := TransactionRecord.init wtx.GetHash nTime wtx.GetTotalSize
  let sub := { sub with type := RecordType.SendToSelf, address := "" }
  let ds ← subscript "DS"
  let labelled : Option TransactionRecord ←
    if ds = "1" then
      match wtx.vout[0]? with
      | none => pure none
      | some txout0 =>
        match ExtractDestination txout0.scriptPubKey with
        | some address =>
          pure (some { sub with
            type := RecordType.Obfuscated, address := CBTCUAddress_ToString address })
        | none => do
          let label ← subscript "to"
          pure (some { sub with type := RecordType.Obfuscated, address := label })
    else
      match wtx.vout[0]? with
      | none => pure none
      | some txout0 =>
        pure (some { sub with
          idx := parts.length
          type := wtx.vout.foldl (selfLabelStepOf P wallet wtx nDebit) sub.type
          address :=
            match ExtractDestination txout0.scriptPubKey with
            | some address => CBTCUAddress_ToString address
            | none => sub.address })
  match labelled with
  | none => pure none
  | some sub =>
    let nChange ← call EntryQuery.GetChange
    let sub := { sub with debit := -(nDebit - nChange), credit := nCredit - nChange }
    pure (some (parts ++ [{ sub with involvesWatchAddress := involvesWatchAddress }]))

/-- The labelling part of one turn of the loop of the sent branch (lines 303-330) as a
program. -/
def sentLabelProg (wallet : CWallet) (wtx : CWalletTx) (sub : TransactionRecord)
    (txout : CTxOut) : Prog (Option TransactionRecord) :=
  if wallet.IsMineOut txout ≠ 0 then pure none
  else do
    let labelled : Option TransactionRecord ←
      match ExtractDestination txout.scriptPubKey with
      | some address =>
        if wtx.HasZerocoinMintOutputs then pure none
        else
          pure (some { sub with
            type := RecordType.SendToAddress
            address := CBTCUAddress_ToString address })
      | none =>
        if txout.IsZerocoinMint then do
          let label ← subscript "zerocoinmint"
          pure (some { sub with
            type := RecordType.ZerocoinMint
            address := label
            credit := sub.credit + txout.nValue })
        else do
          let label ← subscript "to"
          pure (some { sub with type := RecordType.SendToOther, address := label })
    match labelled with
    | none => pure none
    | some sub =>
      let ds ← subscript "DS"
      if ds = "1" then pure (some { sub with type := RecordType.Obfuscated })
      else pure (some sub)

/-- One turn of the loop of the sent branch (lines 297-341) as a program, on the state
`(parts, nTxFee)`. -/
def sentStepProg (wallet : CWallet) (wtx : CWalletTx) (nTime : Int)
    (involvesWatchAddress : Bool) (st : List TransactionRecord × CAmount) (txout : CTxOut) :
    Prog (List TransactionRecord × CAmount) := do
  let parts := st.1
  let nTxFee := st.2
  let sub := TransactionRecord.init wtx.GetHash nTime wtx.GetTotalSize
  let sub := { sub with idx := parts.length, involvesWatchAddress := involvesWatchAddress }
  let labelled ← sentLabelProg wallet wtx sub txout
  match labelled with
  | none => pure st
  | some sub =>
    let nValue := txout.nValue
    let nValue := if nTxFee > 0 then nValue + nTxFee else nValue
    let nTxFee := if nTxFee > 0 then 0 else nTxFee
    pure (parts ++ [{ sub with debit := -nValue }], nTxFee)

/-- The sent branch (lines 291-341) as a program. -/
def decomposeSentProg (wallet : CWallet) (wtx : CWalletTx) (nTime : Int) (nDebit : CAmount)
    (involvesWatchAddress : Bool) : Prog (List TransactionRecord) := do
  let nTxFee := nDebit - wtx.GetValueOut
  let st ← wtx.vout.foldlM (sentStepProg wallet wtx nTime involvesWatchAddress) ([], nTxFee)
  pure st.1

/-- The net-debit analysis (lines 217-349) as a program. -/
def decomposeDebitProg (P : Params) (wallet : CWallet) (wtx : CWalletTx)
    (nTime : Int) (nCredit nDebit : CAmount) : Prog (Option (List TransactionRecord)) :=
  let parts : List TransactionRecord := []
  let nNet := nCredit - nDebit
  let fromMe := scanFromMe P wallet wtx
  let toMe := scanToMe P wallet wtx fromMe.involvesWatchAddress
  let involvesWatchAddress := toMe.involvesWatchAddress
  if fromMe.fAllDenom && toMe.fAllDenom &&
      (toInt32 ((fromMe.nMine : Int) * (toMe.nMine : Int)) != 0) then
    let rec0 := TransactionRecord.init7 wtx.GetHash nTime wtx.GetTotalSize
      RecordType.ObfuscationDenominate "" (-nDebit) nCredit
    pure (some (parts ++ [{ rec0 with involvesWatchAddress := false }]))
  else if fromMe.fAll ≠ 0 ∧ toMe.fAll ≠ 0 then
    decomposeSelfProg P wallet wtx nTime nCredit nDebit involvesWatchAddress
  else if fromMe.fAll ≠ 0 ∨ wtx.HasZerocoinMintOutputs = true then do
    let parts ← decomposeSentProg wallet wtx nTime nDebit involvesWatchAddress
    pure (some parts)
  else
    let rec0 := TransactionRecord.init7 wtx.GetHash nTime wtx.GetTotalSize
      RecordType.Other "" nNet 0
    pure (some (parts ++ [{ rec0 with involvesWatchAddress := involvesWatchAddress }]))

/-- The classifier `TransactionRecord::decomposeTransaction` (lines 23-352) as a program. The
calls of lines 26-28 come first; `HasP2CSInputs` and `HasP2LInputs` are called when the chain of
branches reaches their tests. -/
def decomposeTransactionProg (P : Params) (wallet : CWallet) (wtx : CWalletTx) :
    Prog (Option (List TransactionRecord)) := do
  let parts : List TransactionRecord := []
  let nTime ← call EntryQuery.GetComputedTxTime
  let nCredit ← call (EntryQuery.GetCredit P.ISMINE_ALL)
  let nDebit ← call (EntryQuery.GetDebit P.ISMINE_ALL)
  let nNet := nCredit - nDebit
  let fresh := TransactionRecord.init wtx.GetHash nTime wtx.GetTotalSize
  match zSpendFromMe wallet wtx with
  | none => pure none
  | some fZSpendFromMe =>
    if wtx.IsCoinStake then
      decomposeCoinStakeProg P wallet wtx nTime nCredit nDebit fZSpendFromMe
    else if wtx.HasZerocoinSpendInputs then do
      let parts ← decomposeZerocoinSpendProg P wallet wtx nTime fZSpendFromMe
      pure (some parts)
    else if wtx.HasP2CSOutputs then do
      let sub := { fresh with credit := nCredit, debit := -nDebit }
      let sub ← loadHotOrColdStakeOrContractProg P wallet wtx sub true
      pure (some (parts ++ [sub]))
    else do
      let hasP2CSInputs ← callTest EntryTest.HasP2CSInputs
      if hasP2CSInputs then do
        let unlocked ← loadUnlockColdStakeProg P wallet wtx fresh
        match unlocked with
        | none => pure none
        | some sub => pure (some (parts ++ [sub]))
      else if wtx.HasP2LOutputs then do
        let sub := { fresh with credit := nCredit, debit := -nDebit }
        let sub ← loadP2LProg P wallet wtx sub
        pure (some (parts ++ [sub]))
      else do
        let hasP2LInputs ← callTest EntryTest.HasP2LInputs
        if hasP2LInputs then
          let sub := { fresh with credit := nCredit, debit := -nDebit }
          match loadLeasingSpend P wallet wtx sub with
          | none => pure none
          | some sub => pure (some (parts ++ [sub]))
        else if wtx.IsLeasingReward then
          let sub := { fresh with credit := nCredit, debit := -nDebit }
          let sub := loadLeasingReward P wallet wtx sub
          pure (some (parts ++ [sub]))
        else if nNet > 0 ∨ wtx.IsCoinBase = true then do
          let parts ← decomposeCreditProg P wallet wtx nTime
          pure (some parts)
        else
          decomposeDebitProg P wallet wtx nTime nCredit nDebit

/-- The call `decomposeTransaction(wallet, wtx)` on an entry whose memory-only caches are in
the state `cache`: the records (or `none` where the code reads outside a list or dereferences
the null script pointer), the caches that the call leaves in the entry, and the local copy of
the label map as it is when the call returns. The local copy starts as the label map of the
entry (line 31); the entry itself, passed by reference to `const`, is the same after the call
in everything but its caches. -/
def decomposeTransactionRun {Cache : Type} (P : Params) (wallet : CWallet) (wtx : CWalletTx)
    (M : EntryMethods Cache) (cache : Cache) :
    Option (List TransactionRecord) × ClassifierState Cache :=
  (decomposeTransactionProg P wallet wtx).run M { cache := cache, mapValue := wtx.mapValue }

/-! ## The status evaluator `updateStatus` -/

/-- The chain view `updateStatus` reads through globals: the height of the active chain
(`chainActive.Height()`), the height of the block with a given hash when the block index knows
it (`mapBlockIndex`), the counter of completed transaction locks (`nCompleteTXLocks`), the
adjusted clock (`GetAdjustedTime()`), and the finality test `IsFinalTx(wtx, nBlockHeight)`. -/
structure ChainView where
  Height : Int
  mapBlockIndex : uint256 → Option Int
  nCompleteTXLocks : Int
  GetAdjustedTime : Int
  IsFinalTx : CWalletTx → Int → Bool

/-- The lifecycle states `TransactionStatus::Status`. -/
inductive Status where
  | Confirmed
  | OpenUntilDate
  | OpenUntilBlock
  | Offline
  | Unconfirmed
  | Confirming
  | Conflicted
  | Immature
  | MaturesWarning
  | NotAccepted
  deriving DecidableEq, Repr

/-- The status snapshot `TransactionStatus` of a record. -/
structure TransactionStatus where
  countsForBalance : Bool
  sortKey : String
  matures_in : Int
  status : Status
  depth : Int
  open_for : Int
  cur_num_blocks : Int
  cur_num_ix_locks : Int
  deriving DecidableEq, Repr

/-- The largest `int`, `std::numeric_limits<int>::max()`. -/
def INT_MAX : Int := 2147483647

/-- The text `digits` padded on the left with zeros to `width` characters. -/
def zeroPad (width : Nat) (digits : String) : String :=
  String.mk (List.replicate (width - digits.length) '0') ++ digits

/-- The conversion `%0<width>d` of `strprintf`: the decimal digits, padded with zeros to the
width; a minus sign comes before the zeros and counts for the width. -/
def printf_d (width : Nat) (n : Int) : String :=
  if n < 0 then "-" ++ zeroPad (width - 1) (toString n.natAbs)
  else zeroPad width (toString n.toNat)

/-- The conversion `%0<width>u` of `strprintf`. -/
def printf_u (width : Nat) (n : Nat) : String :=
  zeroPad width (toString n)

/-- The sort key of lines 558-562, `strprintf("%010d-%01d-%010u-%03d", ...)`: the height of
the block of the entry (the largest `int` when the block is unknown), the coinbase flag, the
receipt time and the sub-index of the record. -/
def sortKey (pindex : Option Int) (wtx : CWalletTx) (idx : Nat) : String :=
  printf_d 10 (match pindex with
    | some nHeight => nHeight
    | none => INT_MAX) ++ "-" ++
  printf_d 1 (if wtx.IsCoinBase then 1 else 0) ++ "-" ++
  printf_u 10 wtx.nTimeReceived ++ "-" ++
  printf_d 3 (idx : Int)

/-- The categories for which `updateStatus` determines maturity (lines 585-590). -/
def isRewardType (type : RecordType) : Bool :=
  type == RecordType.Generated || type == RecordType.StakeMint ||
  type == RecordType.StakeZBTCU || type == RecordType.MNReward ||
  type == RecordType.StakeDelegated || type == RecordType.StakeHot

/-- The flag `isOffline` of line 567: the entry was received more than two minutes before the
adjusted clock and no peer has requested it. -/
def isOffline (chain : ChainView) (wtx : CWalletTx) : Bool :=
  decide (chain.GetAdjustedTime - (wtx.nTimeReceived : Int) > 2 * 60) &&
    decide (wtx.GetRequestCount = 0)

/-- The number `nBlocksToMaturity` of line 568. The depth and `COINBASE_MATURITY()` are `int`,
and the difference is taken in `int`. -/
def blocksToMaturity (P : Params) (wtx : CWalletTx) : Int :=
  if wtx.IsCoinBase || wtx.IsCoinStake then
    max 0 (toInt32 ((P.COINBASE_MATURITY + 1) - wtx.IsTrusted.2.1))
  else 0

/-- The status evaluator `TransactionRecord::updateStatus` (lines 544-620), on the status
`status` the record holds before the call: the result is the status the record holds after it.
A field the code does not assign on a path keeps its value. The difference
`wtx.nLockTime - chainHeight` of line 578 is taken in `unsigned int`, modulo `2^32`. -/
def updateStatus (P : Params) (chain : ChainView) (wtx : CWalletTx)
    (record : TransactionRecord) (status : TransactionStatus) : TransactionStatus :=
  let chainHeight := chain.Height
  let pindex := chain.mapBlockIndex wtx.hashBlock
  let fConflicted := wtx.IsTrusted.2.2
  let depth := wtx.IsTrusted.2.1
  let isTrusted := wtx.IsTrusted.1
  let nBlocksToMaturity := blocksToMaturity P wtx
  let status :=
    { status with
      sortKey := sortKey pindex wtx record.idx
      countsForBalance := isTrusted && !(decide (nBlocksToMaturity > 0))
      cur_num_blocks := chainHeight
      depth := depth
      cur_num_ix_locks := chain.nCompleteTXLocks }
  if !chain.IsFinalTx wtx (chainHeight + 1) then
    if wtx.nLockTime < P.LOCKTIME_THRESHOLD then
      { status with
        status := Status.OpenUntilBlock
        open_for := ((wtx.nLockTime : Int) - chainHeight) % 4294967296 }
    else
      { status with status := Status.OpenUntilDate, open_for := (wtx.nLockTime : Int) }
  else if isRewardType record.type then
    if nBlocksToMaturity > 0 then
      { status with
        status :=
          if status.depth ≥ 0 ∧ fConflicted = false then
            if isOffline chain wtx then Status.MaturesWarning else Status.Immature
          else Status.NotAccepted
        matures_in := nBlocksToMaturity }
    else
      { status with status := Status.Confirmed, matures_in := 0 }
  else
    if status.depth < 0 ∨ fConflicted = true then
      { status with status := Status.Conflicted }
    else if isOffline chain wtx then
      { status with status := Status.Offline }
    else if status.depth = 0 then
      { status with status := Status.Unconfirmed }
    else if status.depth < P.RecommendedNumConfirmations then
      { status with status := Status.Confirming }
    else
      { status with status := Status.Confirmed }

/-- The predicate `TransactionRecord::statusUpdateNeeded` (lines 622-626). -/
def statusUpdateNeeded (chain : ChainView) (status : TransactionStatus) : Bool :=
  decide (status.cur_num_blocks ≠ chain.Height) ||
    decide (status.cur_num_ix_locks ≠ chain.nCompleteTXLocks)

/-- The label `TransactionRecord::statusToString` (lines 663-686). -/
def statusToString (status : TransactionStatus) : String :=
  match status.status with
  | Status.MaturesWarning => "Abandoned (not mature because no nodes have confirmed)"
  | Status.Confirmed => "Confirmed"
  | Status.OpenUntilDate => "OpenUntilDate"
  | Status.OpenUntilBlock => "OpenUntilBlock"
  | Status.Unconfirmed => "Unconfirmed"
  | Status.Confirming => "Confirming"
  | Status.Conflicted => "Conflicted"
  | Status.Immature => "Immature"
  | Status.NotAccepted => "Not Accepted"
  | _ => "No status"

/-! ## The coin view `COutput` of `wallet.h` -/

/-- The coin `COutput` (lines 895-909): an output `i` of an entry, with its depth and
spendability. -/
structure COutput where
  tx : CWalletTx
  i : Int
  nDepth : Int
  fSpendable : Bool

/-- The read `tx->vout[i]`; `none` is a read outside the outputs of the entry. -/
def COutput.txout (out : COutput) : Option CTxOut :=
  if out.i < 0 then none else out.tx.vout[out.i.toNat]?

/-- The amount `COutput::Value` (lines 923-926). -/
def COutput.Value (out : COutput) : Option CAmount :=
  match out.txout with
  | none => none
  | some txout => some txout.nValue

/-- The rank `COutput::Priority` (lines 912-921), over the list `obfuScationDenominations` of
the uniform denominations: 10000 for an amount of the list, 20000 for another amount below one
coin, and otherwise the negated number of whole coins, converted to `int`. -/
def COutput.Priority (P : Params) (obfuScationDenominations : List CAmount) (out : COutput) :
    Option Int :=
  match out.txout with
  | none => none
  | some txout =>
    if obfuScationDenominations.any (fun d => txout.nValue == d) then some 10000
    else if txout.nValue < 1 * P.COIN then some 20000
    else some (toInt32 (-(Int.tdiv txout.nValue P.COIN)))

/-! ## The spend index -/

/-- Modelled from the spec: the entry of the ledger store as the spend index sees it. The
class `CWalletTx` holds more; here are the identifier, the outpoints the inputs spend, and the
hash of the block the entry is marked conflicted against, if any. -/
structure LedgerEntry where
  id : uint256
  vin : List COutPoint
  conflictedWith : Option uint256
  deriving DecidableEq, Repr

/-- Modelled from the spec: the ledger entry store together with the claims of the spend
index, the multimap `mapTxSpends` of `wallet.h` (line 199) from an outpoint to the identifiers
of the entries that spend it. -/
structure SpendIndex where
  store : List LedgerEntry
  mapTxSpends : List (COutPoint × uint256)
  deriving DecidableEq, Repr

/-- Modelled from the spec: `recordSpends(entry)`, which registers every input outpoint of the
entry as claimed by the identifier of the entry. It stands for `CWallet::AddToSpends`, which
`wallet.h` declares (lines 200-201) and whose body is not in the sources. -/
def recordSpends (w : SpendIndex) (entry : LedgerEntry) : SpendIndex :=
  { w with mapTxSpends := w.mapTxSpends ++ entry.vin.map (fun outpoint => (outpoint, entry.id)) }

/-- Modelled from the spec: an entry becomes locally known: it is put into the store and its
spends are recorded. -/
def ingest (w : SpendIndex) (entry : LedgerEntry) : SpendIndex :=
  recordSpends { w with store := w.store ++ [entry] } entry

/-- Modelled from the spec: the identifiers of the other entries that claim an outpoint which
`entry` spends. -/
def claimants (w : SpendIndex) (entry : LedgerEntry) : List uint256 :=
  (w.mapTxSpends.filter (fun claim => entry.vin.contains claim.1 && claim.2 != entry.id)).map
    (fun claim => claim.2)

/-- Modelled from the spec: an entry is a dependent of the conflicted set when one of its
inputs spends an output of an entry of the set. -/
def spendsOutputOf (conflicted : List uint256) (e : LedgerEntry) : Bool :=
  e.vin.any (fun outpoint => conflicted.contains outpoint.hash)

/-- Modelled from the spec: one pass of the work-list over the store, restricted to the
entries whose inputs reference the conflicted set: their identifiers join the set. -/
def growConflicted (store : List LedgerEntry) (conflicted : List uint256) : List uint256 :=
  conflicted ++
    (store.filter (fun e => spendsOutputOf conflicted e && !conflicted.contains e.id)).map
      (fun e => e.id)

/-- Modelled from the spec: the transitive propagation, as many passes as the store has
entries; a pass that adds no identifier ends the growth, and each other pass adds an entry of
the store, so this number of passes reaches the end. -/
def propagate (store : List LedgerEntry) (conflicted : List uint256) : List uint256 :=
  Nat.iterate (growConflicted store) store.length conflicted

/-- Modelled from the spec: `resolveConflicts(entry, confirmingBlock)`, called when `entry`
becomes part of the chain: every other claimant of an outpoint that `entry` spends, and
transitively every locally-known entry that spends an output of a conflicted entry, is marked
conflicted against the hash of the confirming block. No entry leaves the store. It stands for
`CWallet::MarkConflicted`, which `wallet.h` declares (line 204) and whose body is not in the
sources. -/
def resolveConflicts (w : SpendIndex) (entry : LedgerEntry) (confirmingBlock : uint256) :
    SpendIndex :=
  let conflicted := propagate w.store (claimants w entry)
  { w with
    store := w.store.map (fun e =>
      if conflicted.contains e.id then { e with conflictedWith := some confirmingBlock } else e) }

/-! ## The coin selector -/

/-- Modelled from the spec: the coin candidate of section 3, a read-only view of an output:
the entry and the index of the output, its depth, the spendability flag and the category tags;
with them the amount of the output and whether the output is locked. -/
structure CoinCandidate where
  entry : uint256
  index : Nat
  value : CAmount
  depth : Int
  spendable : Bool
  locked : Bool
  tags : List String
  deriving DecidableEq, Repr

/-- Modelled from the spec: the total value of a set of coins. -/
def totalValue (coins : List CoinCandidate) : CAmount :=
  (coins.map (fun c => c.value)).sum

/-- Modelled from the spec: the candidates that the filter admits and that no depth or lock
exclusion removes. -/
def eligibleCoins (filter : CoinCandidate → Bool) (minDepth : Int)
    (candidates : List CoinCandidate) : List CoinCandidate :=
  candidates.filter (fun c => filter c && !c.locked && decide (minDepth ≤ c.depth))

/-- Modelled from the spec: the opportunistic exact-match pass: a single coin whose value is
the target, or else a subset of at most `small` coins whose total is the target. -/
def exactMatch (small : Nat) (target : CAmount) (coins : List CoinCandidate) :
    Option (List CoinCandidate) :=
  match coins.find? (fun c => c.value == target) with
  | some c => some [c]
  | none =>
    coins.sublists.find? (fun s => decide (s.length ≤ small) && decide (totalValue s = target))

/-- Modelled from the spec: one turn of the greedy pass: once the accumulated value meets or
exceeds the target no further coin is taken. -/
def greedyStep (target : CAmount) (acc : List CoinCandidate × CAmount) (c : CoinCandidate) :
    List CoinCandidate × CAmount :=
  if acc.2 ≥ target then acc else (acc.1 ++ [c], acc.2 + c.value)

/-- Modelled from the spec: the greedy pass over the coins in their rank order. -/
def greedy (target : CAmount) (ranked : List CoinCandidate) : List CoinCandidate × CAmount :=
  ranked.foldl (greedyStep target) ([], 0)

/-- Modelled from the spec: `select(target, filter, useMixingPriority)` of section 4.5, which
stands for `CWallet::SelectCoins` and `CWallet::SelectCoinsMinConf`; `wallet.h` declares them
(lines 176 and 297) and their bodies are not in the sources. The exact-match pass comes
first; then the coins are taken greedily, by ascending `priority` when `useMixingPriority` is
set and in the order of the candidates otherwise; `none` is the failure `InsufficientFunds`. -/
def select (priority : CoinCandidate → Int) (small : Nat) (minDepth : Int) (target : CAmount)
    (filter : CoinCandidate → Bool) (useMixingPriority : Bool)
    (candidates : List CoinCandidate) : Option (List CoinCandidate × CAmount) :=
  let coins := eligibleCoins filter minDepth candidates
  match exactMatch small target coins with
  | some chosen => some (chosen, totalValue chosen)
  | none =>
    let ranked :=
      if useMixingPriority then coins.insertionSort (fun a b => priority a ≤ priority b)
      else coins
    let result := greedy target ranked
    if result.2 ≥ target then some result else none

/-! ## The order position in the label map (`wallet.h`) -/

/-- The count `mapValue.count(key)` of `std::map`: 1 when the key is present and 0 when it is
not. -/
def mapValue_t.count (mapValue : mapValue_t) (key : String) : Nat :=
  if (mapValue.lookup key).isSome then 1 else 0

/-- The assignment `mapValue[key] = value` of `std::map`: the text of the key is replaced, or
the key is inserted with the text. -/
def mapValue_t.assign (mapValue : mapValue_t) (key value : String) : mapValue_t :=
  mapValue.filter (fun entry => entry.1 != key) ++ [(key, value)]

/-- The function `ReadOrderPos` (lines 622-629): the order position it stores in `nOrderPos`.
The map has the key "n" when it is subscripted, so the subscript inserts nothing and the map
stays as it is. The conversion `atoi64` is not among the sources and is a parameter. -/
def ReadOrderPos (atoi64 : String → Int) (mapValue : mapValue_t) : Int :=
  if mapValue.count "n" = 0 then -1
  else atoi64 (mapValue.at "n")

/-- The function `WriteOrderPos` (lines 632-637): the map after the call. The conversion
`i64tostr` is not among the sources and is a parameter. -/
def WriteOrderPos (i64tostr : Int → String) (nOrderPos : Int) (mapValue : mapValue_t) :
    mapValue_t :=
  if nOrderPos = -1 then mapValue
  else mapValue.assign "n" (i64tostr nOrderPos)

/-! ## Vocabulary of the properties -/

/-- No guard of the chain before the net-debit analysis holds (lines 39-188): the entry is no
stake reward, has no privacy-coin spend inputs, has none of the five contract shapes, is not
net-positive and is no coinbase. -/
def reachesDebit (P : Params) (wtx : CWalletTx) : Prop :=
  wtx.IsCoinStake = false ∧ wtx.HasZerocoinSpendInputs = false ∧ wtx.HasP2CSOutputs = false ∧
  wtx.HasP2CSInputs = false ∧ wtx.HasP2LOutputs = false ∧ wtx.HasP2LInputs = false ∧
  wtx.IsLeasingReward = false ∧
  ¬ (wtx.GetCredit P.ISMINE_ALL - wtx.GetDebit P.ISMINE_ALL > 0) ∧ wtx.IsCoinBase = false

instance (P : Params) (wtx : CWalletTx) : Decidable (reachesDebit P wtx) := by
  unfold reachesDebit; infer_instance

/-- The guard of line 245: the denominate record is made. The product of the two counters is
the product in `int`. -/
def guardDenominate (P : Params) (wallet : CWallet) (wtx : CWalletTx) : Prop :=
  (scanFromMe P wallet wtx).fAllDenom = true ∧
  (scanToMe P wallet wtx (scanFromMe P wallet wtx).involvesWatchAddress).fAllDenom = true ∧
  toInt32 (((scanFromMe P wallet wtx).nMine : Int) *
    ((scanToMe P wallet wtx (scanFromMe P wallet wtx).involvesWatchAddress).nMine : Int)) ≠ 0

instance (P : Params) (wallet : CWallet) (wtx : CWalletTx) :
    Decidable (guardDenominate P wallet wtx) := by
  unfold guardDenominate; infer_instance

/-- The guard of line 248: `fAllFromMe && fAllToMe`. -/
def guardSelf (P : Params) (wallet : CWallet) (wtx : CWalletTx) : Prop :=
  (scanFromMe P wallet wtx).fAll ≠ 0 ∧
  (scanToMe P wallet wtx (scanFromMe P wallet wtx).involvesWatchAddress).fAll ≠ 0

instance (P : Params) (wallet : CWallet) (wtx : CWalletTx) :
    Decidable (guardSelf P wallet wtx) := by
  unfold guardSelf; infer_instance

/-- The guard of line 291: `fAllFromMe || wtx.HasZerocoinMintOutputs()`. -/
def guardSent (P : Params) (wallet : CWallet) (wtx : CWalletTx) : Prop :=
  (scanFromMe P wallet wtx).fAll ≠ 0 ∨ wtx.HasZerocoinMintOutputs = true

instance (P : Params) (wallet : CWallet) (wtx : CWalletTx) :
    Decidable (guardSent P wallet wtx) := by
  unfold guardSent; infer_instance

/-- The entry reaches the payment-to-self branch (lines 248-290). -/
def reachesSelf (P : Params) (wallet : CWallet) (wtx : CWalletTx) : Prop :=
  reachesDebit P wtx ∧ ¬ guardDenominate P wallet wtx ∧ guardSelf P wallet wtx

instance (P : Params) (wallet : CWallet) (wtx : CWalletTx) :
    Decidable (reachesSelf P wallet wtx) := by
  unfold reachesSelf; infer_instance

/-- The entry reaches the sent branch (lines 291-341). -/
def reachesSent (P : Params) (wallet : CWallet) (wtx : CWalletTx) : Prop :=
  reachesDebit P wtx ∧ ¬ guardDenominate P wallet wtx ∧ ¬ guardSelf P wallet wtx ∧
  guardSent P wallet wtx

instance (P : Params) (wallet : CWallet) (wtx : CWalletTx) :
    Decidable (reachesSent P wallet wtx) := by
  unfold reachesSent; infer_instance

/-- An output for which the sent branch makes a record: the wallet does not own it, and it is
not an output with a destination in an entry that has privacy-coin mint outputs. -/
def sentKept (wallet : CWallet) (wtx : CWalletTx) (txout : CTxOut) : Bool :=
  decide (wallet.IsMineOut txout = 0) &&
    !((ExtractDestination txout.scriptPubKey).isSome && wtx.HasZerocoinMintOutputs)

/-- The outputs of the entry for which the sent branch makes a record, in output order. -/
def sentOutputs (wallet : CWallet) (wtx : CWalletTx) : List CTxOut :=
  wtx.vout.filter (sentKept wallet wtx)

/-- The category the sent branch gives the record of an output. -/
def sentType (wtx : CWalletTx) (txout : CTxOut) : RecordType :=
  if wtx.mapValue.at "DS" = "1" then RecordType.Obfuscated
  else if (ExtractDestination txout.scriptPubKey).isSome then RecordType.SendToAddress
  else if txout.IsZerocoinMint then RecordType.ZerocoinMint
  else RecordType.SendToOther

/-- The debits of the sent branch for a list of outputs when the fee not yet assigned is
`nTxFee`: a positive fee is added to the first output. -/
def feeDebits (nTxFee : CAmount) : List CTxOut → List CAmount
  | [] => []
  | txout :: rest =>
    -(txout.nValue + (if nTxFee > 0 then nTxFee else 0)) :: rest.map (fun o => -o.nValue)

/-- The guard of line 188 is the first that holds: the entry is no stake reward, has no
privacy-coin spend inputs, has none of the five contract shapes, and is net-positive or a
coinbase. -/
def reachesCredit (P : Params) (wtx : CWalletTx) : Prop :=
  wtx.IsCoinStake = false ∧ wtx.HasZerocoinSpendInputs = false ∧ wtx.HasP2CSOutputs = false ∧
  wtx.HasP2CSInputs = false ∧ wtx.HasP2LOutputs = false ∧ wtx.HasP2LInputs = false ∧
  wtx.IsLeasingReward = false ∧
  (wtx.GetCredit P.ISMINE_ALL - wtx.GetDebit P.ISMINE_ALL > 0 ∨ wtx.IsCoinBase = true)

instance (P : Params) (wtx : CWalletTx) : Decidable (reachesCredit P wtx) := by
  unfold reachesCredit; infer_instance

/-- The destination of the output is extractable and owned (the test of line 200). -/
def receivedByAddress (wallet : CWallet) (txout : CTxOut) : Bool :=
  match ExtractDestination txout.scriptPubKey with
  | some address => decide (wallet.IsMineDest address ≠ 0)
  | none => false

/-- An output for which the privacy-coin spend branch makes a record: a re-minted change
output when the spend is the wallet's own, and another output when the wallet owns it or the
spend is the wallet's own. -/
def zSpendKept (wallet : CWallet) (fZSpendFromMe : Bool) (txout : CTxOut) : Bool :=
  if txout.IsZerocoinMint then fZSpendFromMe
  else decide (wallet.IsMineOut txout ≠ 0) || fZSpendFromMe

/-- The category the privacy-coin spend branch gives the record of an output. -/
def zSpendType (wallet : CWallet) (fZSpendFromMe : Bool) (txout : CTxOut) : RecordType :=
  if txout.IsZerocoinMint then RecordType.ZerocoinSpend_Change_zPiv
  else if wallet.IsMineOut txout ≠ 0 then
    if fZSpendFromMe then RecordType.ZerocoinSpend_FromMe
    else RecordType.RecvFromZerocoinSpend
  else RecordType.ZerocoinSpend

/-- The record has the category of re-minted change. -/
def isChangeRecord (r : TransactionRecord) : Bool :=
  r.type == RecordType.ZerocoinSpend_Change_zPiv

/-- The debits of `n` records of re-minted change when the fee is `fee` and `assigned` tells
whether it has been assigned before: the fee is subtracted from the first debit unless it was
assigned, and the other debits are zero. -/
def feeOnce (fee : CAmount) (assigned : Bool) : Nat → List CAmount
  | 0 => []
  | k + 1 => (if assigned then 0 else 0 - fee) :: List.replicate k 0

/-- The output decides the record of a leasing contract (lines 445-453): it is a leasing output
and the ownership oracle gives one of the three leasing answers for it. -/
def leaseDecides (P : Params) (wallet : CWallet) (txout : CTxOut) : Bool :=
  txout.scriptPubKey.IsPayToLeasing &&
    (decide (wallet.IsMineOut txout = P.ISMINE_SPENDABLE_LEASING) ||
      decide (wallet.IsMineOut txout = P.ISMINE_LEASED) ||
      decide (wallet.IsMineOut txout = P.ISMINE_LEASING))

/-- Two states of the ownership and privacy-coin oracles give the same answers about an entry:
about its outputs and the default output, its inputs, the destinations of its outputs, the
amounts of its outputs, its hash, the originating entries and outputs of its inputs, and the
entry as a whole. -/
def oraclesAgree (w₁ w₂ : CWallet) (wtx : CWalletTx) : Prop :=
  (∀ o ∈ wtx.vout, w₁.IsMineOut o = w₂.IsMineOut o) ∧
  w₁.IsMineOut CTxOut.null = w₂.IsMineOut CTxOut.null ∧
  (∀ i ∈ wtx.vin, w₁.IsMineIn i = w₂.IsMineIn i) ∧
  (∀ o ∈ wtx.vout, ∀ d, ExtractDestination o.scriptPubKey = some d →
    w₁.IsMineDest d = w₂.IsMineDest d) ∧
  (∀ i ∈ wtx.vin, w₁.IsDenominated i = w₂.IsDenominated i) ∧
  (∀ o ∈ wtx.vout, w₁.IsDenominatedAmount o.nValue = w₂.IsDenominatedAmount o.nValue) ∧
  (∀ o ∈ wtx.vout, w₁.IsCollateralAmount o.nValue = w₂.IsCollateralAmount o.nValue) ∧
  (∀ i ∈ wtx.vin, w₁.IsMyZerocoinSpend i = w₂.IsMyZerocoinSpend i) ∧
  w₁.HasMintTx wtx.GetHash = w₂.HasMintTx wtx.GetHash ∧
  (∀ i ∈ wtx.vin, w₁.GetWalletTx i.prevout.hash = w₂.GetWalletTx i.prevout.hash) ∧
  (∀ i ∈ wtx.vin, ∀ tx prev, w₁.GetWalletTx i.prevout.hash = some tx →
    tx.vout[i.prevout.n]? = some prev → w₁.IsMineOut prev = w₂.IsMineOut prev) ∧
  w₁.IsFromMe wtx = w₂.IsFromMe wtx

/-- The status after the assignments of lines 558-573, which `updateStatus` makes on every
path. -/
def statusBase (P : Params) (chain : ChainView) (wtx : CWalletTx)
    (record : TransactionRecord) (status : TransactionStatus) : TransactionStatus :=
  { status with
    sortKey := sortKey (chain.mapBlockIndex wtx.hashBlock) wtx record.idx
    countsForBalance := wtx.IsTrusted.1 && !(decide (blocksToMaturity P wtx > 0))
    cur_num_blocks := chain.Height
    depth := wtx.IsTrusted.2.1
    cur_num_ix_locks := chain.nCompleteTXLocks }

/-- The coin of rank `p` comes before the coin of rank `q` when coins are compared by rank in
the direction `ascending` (smaller rank first) or in the other direction (larger rank first). A
coin without rank comes before no coin. -/
def ranksAhead (ascending : Bool) (p q : Option Int) : Bool :=
  match p, q with
  | some a, some b => if ascending then decide (a < b) else decide (b < a)
  | _, _ => false

/-- The amount of an output is a collateral amount or a denominated amount: a turn of the
sub-label loop of the payment-to-self branch on this output assigns a category. -/
def selfLabelMatch (wallet : CWallet) (txout : CTxOut) : Bool :=
  wallet.IsCollateralAmount txout.nValue || wallet.IsDenominatedAmount txout.nValue

/-- Every entry of the store has had its spends recorded in the index. -/
def indexed (w : SpendIndex) : Prop :=
  ∀ e ∈ w.store, ∀ outpoint ∈ e.vin, (outpoint, e.id) ∈ w.mapTxSpends

/-- The entry `child` spends an output of the entry `parent`. -/
def spendsFrom (child parent : LedgerEntry) : Prop :=
  ∃ outpoint ∈ child.vin, outpoint.hash = parent.id

/-- The entry reaches the loop of the privacy-coin spend branch (lines 87-149): it is no
stake reward, it has privacy-coin spend inputs, and it has the input `vin[0]` that line 34
reads. -/
def reachesZerocoinSpend (wtx : CWalletTx) : Prop :=
  wtx.IsCoinStake = false ∧ wtx.HasZerocoinSpendInputs = true ∧ wtx.vin ≠ []

instance (wtx : CWalletTx) : Decidable (reachesZerocoinSpend wtx) := by
  unfold reachesZerocoinSpend; infer_instance

/-- The sign convention as the contract branches keep it: the debit of a record is not
positive, except that the debit of a `P2LLeasingRecv` record is `nDebit` plus the leased
credit and not negative; the credit is not negative, except that the credit of a
`P2CSUnlockStaker` record is minus the cold-staking credit and not positive. -/
def contractSigns (P : Params) (wtx : CWalletTx) (r : TransactionRecord) : Prop :=
  (r.type ≠ RecordType.P2LLeasingRecv → r.debit ≤ 0) ∧
  (r.type = RecordType.P2LLeasingRecv →
    r.debit = wtx.GetDebit P.ISMINE_ALL + wtx.GetCredit P.ISMINE_LEASED ∧ 0 ≤ r.debit) ∧
  (r.type ≠ RecordType.P2CSUnlockStaker → 0 ≤ r.credit) ∧
  (r.type = RecordType.P2CSUnlockStaker →
    r.credit = -(wtx.GetColdStakingCredit) ∧ r.credit ≤ 0)

/-- The difference `(COINBASE_MATURITY + 1) - depth` of line 568 is a value of `int`: the
subtraction in `int` does not overflow. -/
def maturityInRange (P : Params) (wtx : CWalletTx) : Prop :=
  -2147483648 ≤ (P.COINBASE_MATURITY + 1) - wtx.IsTrusted.2.1 ∧
  (P.COINBASE_MATURITY + 1) - wtx.IsTrusted.2.1 ≤ 2147483647

instance (P : Params) (wtx : CWalletTx) : Decidable (maturityInRange P wtx) := by
  unfold maturityInRange; infer_instance

/-- Every input of the entry whose originating entry the wallet knows names an output that
the originating entry has. -/
def originsInRange (wallet : CWallet) (wtx : CWalletTx) : Prop :=
  ∀ input ∈ wtx.vin, ∀ tx, wallet.GetWalletTx input.prevout.hash = some tx →
    input.prevout.n < tx.vout.length

/-- The entry reaches the delegation-unlock branch (lines 158-163): it is no stake reward, has
no privacy-coin spend inputs and no cold-staking output, and has cold-staking inputs. -/
def reachesUnlock (wtx : CWalletTx) : Prop :=
  wtx.IsCoinStake = false ∧ wtx.HasZerocoinSpendInputs = false ∧ wtx.HasP2CSOutputs = false ∧
  wtx.HasP2CSInputs = true

instance (wtx : CWalletTx) : Decidable (reachesUnlock wtx) := by
  unfold reachesUnlock; infer_instance

/-- Some input of the entry spends a locally-known cold-staking output. -/
def hasColdStakingOrigin (wallet : CWallet) (wtx : CWalletTx) : Prop :=
  ∃ input ∈ wtx.vin, ∃ tx prev, wallet.GetWalletTx input.prevout.hash = some tx ∧
    tx.vout[input.prevout.n]? = some prev ∧ prev.scriptPubKey.IsPayToColdStaking = true

/-- The `width` decimal digits of `n`, the most significant first, with leading zeros: the
digits that a zero-padded conversion of width `width` prints for `n < 10 ^ width`. -/
def fixedDigits : Nat → Nat → List Char
  | 0, _ => []
  | width + 1, n => fixedDigits width (n / 10) ++ [Nat.digitChar (n % 10)]

/-- The order in which two keys are compared: the lexicographic order of their characters, as
`std::string` compares. -/
def keyLess (a b : String) : Prop := List.Lex (· < ·) a.data b.data

instance (a b : String) : Decidable (keyLess a b) := by
  unfold keyLess; infer_instance

/-- The cache discipline of the methods of the entry `wtx`: in every state of the caches that
is `valid`, a method returns the answer of the entry, whatever the caches hold, and leaves
caches that are `valid`. -/
def EntryMethods.disciplined {Cache : Type} (M : EntryMethods Cache) (wtx : CWalletTx)
    (valid : Cache → Prop) : Prop :=
  (∀ q c, valid c → (M.ask q c).1 = wtx.answer q ∧ valid (M.ask q c).2) ∧
  (∀ q c, valid c → (M.test q c).1 = wtx.flag q ∧ valid (M.test q c).2)

/-- The methods leave the caches as they find them. -/
def EntryMethods.readOnly {Cache : Type} (M : EntryMethods Cache) : Prop :=
  (∀ q c, (M.ask q c).2 = c) ∧ (∀ q c, (M.test q c).2 = c)

/-! ## Sample entries

A sample wallet and sample entries, on which the properties below are evaluated. -/

/-- Sample values of the constants: the amounts of `amount.h` and `obfuscation.h`, a maturity
window of 100 blocks, the lock-time threshold, six recommended confirmations, and bit flags
for the ownership answers. -/
def sampleParams : Params :=
  { COIN := 100000000, OBFUSCATION_COLLATERAL := 1000000000,
    COINBASE_MATURITY := 100, LOCKTIME_THRESHOLD := 500000000,
    RecommendedNumConfirmations := 6,
    ISMINE_WATCH_ONLY := 1, ISMINE_SPENDABLE := 4, ISMINE_SPENDABLE_DELEGATED := 16,
    ISMINE_SPENDABLE_ALL := 20, ISMINE_ALL := 253,
    ISMINE_LEASING := 32, ISMINE_LEASED := 64, ISMINE_SPENDABLE_LEASING := 96 }

/-- A pay-to-address script for the address `a`. -/
def payTo (a : String) : CScript :=
  { destination := some { encoded := a }, IsPayToColdStaking := false, IsPayToLeasing := false,
    IsLeasingReward := false, IsZerocoinMint := false }

/-- A cold-staking script whose owner address is `a`. -/
def coldStakeTo (a : String) : CScript :=
  { payTo a with IsPayToColdStaking := true }

/-- The script of a privacy-coin mint: no destination can be extracted from it. -/
def mintScript : CScript :=
  { destination := none, IsPayToColdStaking := false, IsPayToLeasing := false,
    IsLeasingReward := false, IsZerocoinMint := true }

/-- The empty script of the marker output that opens a stake-reward entry. -/
def emptyScript : CScript :=
  { destination := none, IsPayToColdStaking := false, IsPayToLeasing := false,
    IsLeasingReward := false, IsZerocoinMint := false }

/-- The input that spends output `n` of the entry with hash `h`. -/
def spend (h : uint256) (n : Nat) : CTxIn :=
  { prevout := { hash := h, n := n }, nSequence := 4294967295 }

/-- The sample wallet. It holds the keys of the addresses "mine" and "change", the owner key of
the cold-staking address "delegated", and the outputs of the entry with hash 7; these outputs
are denominated, and 10 is the one denominated amount. It knows no privacy-coin serial or mint,
and an entry is from it when the entry debits it. -/
def sampleWallet : CWallet :=
  { IsMineDest := fun d =>
      if d.encoded = "mine" ∨ d.encoded = "change" then 4
      else if d.encoded = "delegated" then 16 else 0
    IsMineOut := fun txout =>
      match txout.scriptPubKey.destination with
      | some d =>
        if d.encoded = "mine" ∨ d.encoded = "change" then 4
        else if d.encoded = "delegated" then 16 else 0
      | none => 0
    IsMineIn := fun txin => if txin.prevout.hash = 7 then 4 else 0
    IsDenominated := fun txin => txin.prevout.hash == 7
    IsDenominatedAmount := fun v => v == 10
    IsCollateralAmount := fun _ => false
    IsMyZerocoinSpend := fun _ => false
    HasMintTx := fun _ => false
    GetWalletTx := fun _ => none
    IsFromMe := fun wtx => decide (wtx.GetDebit 253 > 0) }

/-- An entry with no input, no output and no mark, from which the samples are made; it is
trusted at depth 10, has no lock time and has been requested by a peer. -/
def blankTx : CWalletTx :=
  { GetHash := 1, GetComputedTxTime := 1600000000, GetTotalSize := 226,
    hashBlock := 0, nTimeReceived := 1600000000, nLockTime := 0, GetRequestCount := 1,
    IsTrusted := (true, 10, false), vin := [], vout := [],
    mapValue := [], IsCoinStake := false, IsCoinBase := false, HasZerocoinSpendInputs := false,
    HasZerocoinMintOutputs := false, HasP2CSOutputs := false, HasP2CSInputs := false,
    HasP2LOutputs := false, HasP2LInputs := false, IsLeasingReward := false,
    GetCredit := fun _ => 0, GetDebit := fun _ => 0, GetValueOut := 0, GetChange := 0,
    GetZerocoinSpent := 0, GetStakeDelegationDebit := 0, GetColdStakingDebit := 0,
    GetColdStakingCredit := 0 }

/-- A plain payment: one owned input of 100, an owned output of 30 (the change) and an output
of 65 to the address "shop"; the fee is 5. -/
def sendTx : CWalletTx :=
  { blankTx with
    vin := [spend 7 0]
    vout := [{ nValue := 30, scriptPubKey := payTo "change" },
             { nValue := 65, scriptPubKey := payTo "shop" }]
    GetCredit := fun _ => 30
    GetDebit := fun _ => 100
    GetValueOut := 95
    GetChange := 30 }

/-- A payment with two payees: one owned input of 100, outputs of 40 and 50 to foreign addresses
and an owned output of 5; the fee is 5. -/
def sendTwoTx : CWalletTx :=
  { blankTx with
    vin := [spend 7 0]
    vout := [{ nValue := 40, scriptPubKey := payTo "shop" },
             { nValue := 5, scriptPubKey := payTo "change" },
             { nValue := 50, scriptPubKey := payTo "bank" }]
    GetCredit := fun _ => 5
    GetDebit := fun _ => 100
    GetValueOut := 95
    GetChange := 5 }

/-- A payment to self: one owned input of 100 and two owned outputs, 60 and 35 (the change);
the fee is 5. -/
def selfTx : CWalletTx :=
  { blankTx with
    vin := [spend 7 0]
    vout := [{ nValue := 60, scriptPubKey := payTo "mine" },
             { nValue := 35, scriptPubKey := payTo "change" }]
    GetCredit := fun _ => 95
    GetDebit := fun _ => 100
    GetValueOut := 95
    GetChange := 35 }

/-- A denominate entry of the wallet alone: two owned denominated inputs and two owned outputs
of the denominated amount 10, of equal total value. -/
def denominateTx : CWalletTx :=
  { blankTx with
    vin := [spend 7 0, spend 7 1]
    vout := [{ nValue := 10, scriptPubKey := payTo "mine" },
             { nValue := 10, scriptPubKey := payTo "mine" }]
    GetCredit := fun _ => 20
    GetDebit := fun _ => 20
    GetValueOut := 20 }

/-- A mixing entry with another party: an owned denominated input and a foreign input, an owned
output of the denominated amount 10 and a foreign output of 10. -/
def sharedMixTx : CWalletTx :=
  { blankTx with
    vin := [spend 7 0, spend 9 0]
    vout := [{ nValue := 10, scriptPubKey := payTo "mine" },
             { nValue := 10, scriptPubKey := payTo "peer" }]
    GetCredit := fun _ => 10
    GetDebit := fun _ => 10
    GetValueOut := 20 }

/-- A delegation contract sent by the wallet, which keeps the owner key: one owned input of
150, a cold-staking output of 100 with owner address "delegated" (ownership answer 16,
spendable-delegated) and an owned change output of 45 (ownership answer 4); the fee is 5. The
credit and debit under a filter are the sums over the outputs and inputs whose ownership
answer meets the filter. -/
def delegateTx : CWalletTx :=
  { blankTx with
    vin := [spend 7 0]
    vout := [{ nValue := 100, scriptPubKey := coldStakeTo "delegated" },
             { nValue := 45, scriptPubKey := payTo "change" }]
    HasP2CSOutputs := true
    GetCredit := fun filter =>
      (if 16 &&& filter ≠ 0 then 100 else 0) + (if 4 &&& filter ≠ 0 then 45 else 0)
    GetDebit := fun filter => if 4 &&& filter ≠ 0 then 150 else 0
    GetValueOut := 145
    GetChange := 45 }

/-- A received payment: a foreign input, an output of 50 to the address "mine" and an output of
20 to a foreign address. -/
def receiveTx : CWalletTx :=
  { blankTx with
    vin := [spend 9 0]
    vout := [{ nValue := 50, scriptPubKey := payTo "mine" },
             { nValue := 20, scriptPubKey := payTo "peer" }]
    GetCredit := fun _ => 50
    GetValueOut := 70 }

/-- The input of a privacy-coin spend of denomination `d`: the denomination is carried in
`nSequence`. -/
def zerocoinSpendIn (d : Nat) : CTxIn :=
  { prevout := { hash := 0, n := 0 }, nSequence := d }

/-- A privacy-coin stake of the wallet: the spend of a coin of denomination 1, the marker
output, and two freshly minted coins of 1 and 2 units. -/
def zStakeTx : CWalletTx :=
  { blankTx with
    vin := [zerocoinSpendIn 1]
    vout := [{ nValue := 0, scriptPubKey := emptyScript },
             { nValue := 100000000, scriptPubKey := mintScript },
             { nValue := 200000000, scriptPubKey := mintScript }]
    IsCoinStake := true
    HasZerocoinSpendInputs := true
    HasZerocoinMintOutputs := true
    GetZerocoinSpent := 100000000
    GetValueOut := 300000000 }

/-- The sample wallet, which in addition knows the privacy-coin serial spent by every input of
denomination 1. -/
def zWallet : CWallet :=
  { sampleWallet with IsMyZerocoinSpend := fun txin => txin.nSequence == 1 }

/-- A privacy-coin stake of another party that pays an operator reward of 3 to the address
"mine": the spend is not the wallet's and the mint tracker does not know the entry. -/
def foreignZStakeTx : CWalletTx :=
  { blankTx with
    vin := [zerocoinSpendIn 5]
    vout := [{ nValue := 0, scriptPubKey := emptyScript },
             { nValue := 600000000, scriptPubKey := mintScript },
             { nValue := 3, scriptPubKey := payTo "mine" }]
    IsCoinStake := true
    HasZerocoinSpendInputs := true
    HasZerocoinMintOutputs := true
    GetCredit := fun _ => 3
    GetZerocoinSpent := 500000000
    GetValueOut := 600000003 }

/-- A stake reward of another party in which the wallet owns neither the reward output `vout[1]`
nor the last output, but an output in between. -/
def foreignStakeTx : CWalletTx :=
  { blankTx with
    vin := [spend 9 0]
    vout := [{ nValue := 0, scriptPubKey := emptyScript },
             { nValue := 105, scriptPubKey := payTo "staker" },
             { nValue := 3, scriptPubKey := payTo "mine" },
             { nValue := 1, scriptPubKey := payTo "fund" }]
    IsCoinStake := true
    GetCredit := fun _ => 3
    GetValueOut := 109 }

/-- A stake reward whose reward output `vout[1]` has no extractable destination. -/
def bareStakeTx : CWalletTx :=
  { blankTx with
    vin := [spend 9 0]
    vout := [{ nValue := 0, scriptPubKey := emptyScript },
             { nValue := 105, scriptPubKey := emptyScript },
             { nValue := 1, scriptPubKey := payTo "fund" }]
    IsCoinStake := true
    GetValueOut := 106 }

/-- A privacy-coin spend of the wallet: 100 units are spent, 70 go to the address "shop" and 20
come back as a re-minted coin; the fee is 10. -/
def zSpendTx : CWalletTx :=
  { blankTx with
    vin := [zerocoinSpendIn 1]
    vout := [{ nValue := 70, scriptPubKey := payTo "shop" },
             { nValue := 20, scriptPubKey := mintScript }]
    HasZerocoinSpendInputs := true
    HasZerocoinMintOutputs := true
    GetZerocoinSpent := 100
    GetValueOut := 90 }

/-- A privacy-coin spend of the wallet without change: 100 units are spent and 90 go to the
address "shop"; the fee is 10. -/
def zSpendNoChangeTx : CWalletTx :=
  { blankTx with
    vin := [zerocoinSpendIn 1]
    vout := [{ nValue := 90, scriptPubKey := payTo "shop" }]
    HasZerocoinSpendInputs := true
    GetZerocoinSpent := 100
    GetValueOut := 90 }

/-- A privacy-coin spend of another party: 40 go to the address "mine", 55 to a foreign
address, and a coin of 4 is re-minted. -/
def zReceiveTx : CWalletTx :=
  { blankTx with
    vin := [zerocoinSpendIn 5]
    vout := [{ nValue := 55, scriptPubKey := payTo "peer" },
             { nValue := 4, scriptPubKey := mintScript },
             { nValue := 40, scriptPubKey := payTo "mine" }]
    HasZerocoinSpendInputs := true
    HasZerocoinMintOutputs := true
    GetCredit := fun _ => 40
    GetZerocoinSpent := 100
    GetValueOut := 99 }

/-- The sample wallet, which in addition watches the script of the privacy-coin mint of 50
(ownership answer 1, watch-only). -/
def watchWallet : CWallet :=
  { sampleWallet with
    IsMineOut := fun txout =>
      if txout.IsZerocoinMint = true ∧ txout.nValue = 50 then 1
      else sampleWallet.IsMineOut txout }

/-- A mint of privacy coins by the wallet: one owned input of 100 and two mint outputs, of 50
and of 45; the fee is 5. -/
def mintTx : CWalletTx :=
  { blankTx with
    vin := [spend 7 0]
    vout := [{ nValue := 50, scriptPubKey := mintScript },
             { nValue := 45, scriptPubKey := mintScript }]
    HasZerocoinMintOutputs := true
    GetDebit := fun _ => 100
    GetValueOut := 95 }

/-- The mint `mintTx` as the wallet `watchWallet` sees it: the mint of 50 counts for the
credit. -/
def watchedMintTx : CWalletTx :=
  { mintTx with GetCredit := fun _ => 50 }

/-- The sample wallet with the delegation contract `delegateTx` in its entry store under the
hash 7; it owns the input that spends the cold-staking output 0 of that entry as the owner of
the delegation (ownership answer 16). -/
def stakeWallet : CWallet :=
  { sampleWallet with
    GetWalletTx := fun h => if h = 7 then some delegateTx else none
    IsMineIn := fun txin =>
      if txin.prevout.hash = 7 ∧ txin.prevout.n = 0 then 16 else sampleWallet.IsMineIn txin }

/-- An unlock of the delegation: it spends a foreign output and the cold-staking output 0 of
the entry 7, and pays 99 to the address "mine". Its net amount is positive, so without the
delegation it would be a received payment. -/
def unlockTx : CWalletTx :=
  { blankTx with
    GetHash := 2
    vin := [spend 9 3, spend 7 0]
    vout := [{ nValue := 99, scriptPubKey := payTo "mine" }]
    HasP2CSInputs := true
    GetCredit := fun _ => 99
    GetDebit := fun _ => 0
    GetStakeDelegationDebit := 100
    GetValueOut := 99 }

/-- A leasing script whose destination is the address `a`. -/
def leaseTo (a : String) : CScript :=
  { payTo a with IsPayToLeasing := true }

/-- A payment of the wallet into a leasing contract between other parties: one owned input of
100, a leasing output of 60 for which the ownership oracle answers "unowned", and an owned
change output of 35; the fee is 5. -/
def foreignLeaseTx : CWalletTx :=
  { blankTx with
    vin := [spend 7 0]
    vout := [{ nValue := 60, scriptPubKey := leaseTo "peer" },
             { nValue := 35, scriptPubKey := payTo "change" }]
    HasP2LOutputs := true
    GetCredit := fun _ => 35
    GetDebit := fun _ => 100
    GetValueOut := 95
    GetChange := 35 }

/-- A second state of the oracles: it differs from `sampleWallet` on an input and on an amount
that the payment `sendTx` does not have. -/
def otherWallet : CWallet :=
  { sampleWallet with
    IsMineIn := fun txin =>
      if txin.prevout.hash = 7 then 4 else if txin.prevout.hash = 9 then 1 else 0
    IsDenominatedAmount := fun v => v == 10 || v == 77
    HasMintTx := fun h => h == 1234 }

/-- The sample chain view: height 1000, no completed transaction lock, the adjusted clock 100
seconds after the receipt of the sample entries, and the block with hash 5 at height 990. Its
finality test accepts an entry with no lock time, and otherwise compares the lock time with the
height, or with the clock when the lock is a date. -/
def sampleChain : ChainView :=
  { Height := 1000
    mapBlockIndex := fun h => if h = 5 then some 990 else none
    nCompleteTXLocks := 0
    GetAdjustedTime := 1600000100
    IsFinalTx := fun wtx nBlockHeight =>
      wtx.nLockTime == 0 ||
        decide ((wtx.nLockTime : Int) <
          (if wtx.nLockTime < 500000000 then nBlockHeight else 1600000100)) }

/-- The status of a record that has never been evaluated. -/
def sampleStatus : TransactionStatus :=
  { countsForBalance := false, sortKey := "", matures_in := 0, status := Status.Offline,
    depth := 0, open_for := 0, cur_num_blocks := -1, cur_num_ix_locks := 0 }

/-- A record of the category `type` for the entry `wtx`, with sub-index 0. -/
def sampleRecord (wtx : CWalletTx) (type : RecordType) : TransactionRecord :=
  { TransactionRecord.init wtx.GetHash wtx.GetComputedTxTime wtx.GetTotalSize with type := type }

/-- The payment `sendTx`, locked until height 1200. -/
def heightLockedTx : CWalletTx := { sendTx with nLockTime := 1200 }

/-- The payment `sendTx`, locked until the date 1700000000. -/
def dateLockedTx : CWalletTx := { sendTx with nLockTime := 1700000000 }

/-- A stake reward at depth 5 that no peer has requested, received 10 seconds before the clock
of the sample chain. -/
def freshStakeTx : CWalletTx :=
  { foreignStakeTx with
    IsTrusted := (false, 5, false), GetRequestCount := 0, nTimeReceived := 1600000090 }

/-- A stake reward at depth 0 that conflicts with the chain. -/
def conflictedStakeTx : CWalletTx :=
  { foreignStakeTx with IsTrusted := (false, 0, true) }

/-- A stake reward at depth 5 that no peer has requested, received 1000 seconds before the
clock of the sample chain. -/
def staleStakeTx : CWalletTx :=
  { foreignStakeTx with
    IsTrusted := (false, 5, false), GetRequestCount := 0, nTimeReceived := 1599999100 }

/-- A stake reward of the wallet at depth 5, in a block of the chain and trusted, inside the
maturity window of the sample parameters. -/
def trustedFreshStakeTx : CWalletTx := { foreignStakeTx with IsTrusted := (true, 5, false) }

/-- The payment `sendTx` with the conflict flag set. -/
def conflictedSendTx : CWalletTx := { sendTx with IsTrusted := (false, 0, true) }

/-- The payment `sendTx` at depth -3: its block is no longer in the chain. -/
def reorgedSendTx : CWalletTx := { sendTx with IsTrusted := (false, -3, false) }

/-- The payment `sendTx` at depth 3. -/
def confirmingSendTx : CWalletTx := { sendTx with IsTrusted := (true, 3, false) }

/-- A stake reward of the wallet at depth 101, the first depth past the maturity window of the
sample parameters. -/
def matureStakeTx : CWalletTx := { foreignStakeTx with IsTrusted := (true, 101, false) }

/-- The same stake reward at depth 100, the last depth inside the maturity window. -/
def almostMatureStakeTx : CWalletTx := { foreignStakeTx with IsTrusted := (false, 100, false) }

/-- A sample list of uniform denominations: 10 coins, 1 coin and a tenth of a coin, each with
its surcharge. -/
def sampleDenominations : List CAmount := [1000010000, 100001000, 10000100]

/-- An entry with four outputs: a denomination of 10 coins, half a coin, 5 coins and 50
coins. -/
def coinsTx : CWalletTx :=
  { blankTx with
    vout := [{ nValue := 1000010000, scriptPubKey := payTo "mine" },
             { nValue := 50000000, scriptPubKey := payTo "mine" },
             { nValue := 500000000, scriptPubKey := payTo "mine" },
             { nValue := 5000000000, scriptPubKey := payTo "mine" }]
    GetValueOut := 6550010000 }

/-- The output `i` of `coinsTx` as a coin. -/
def coin (i : Int) : COutput := { tx := coinsTx, i := i, nDepth := 10, fSpendable := true }

/-- A payment of the wallet `watchWallet` to itself: one owned input of 100, the watched mint
of 50 and an owned output of 45; the fee is 5. -/
def watchedSelfTx : CWalletTx :=
  { blankTx with
    vin := [spend 7 0]
    vout := [{ nValue := 50, scriptPubKey := mintScript },
             { nValue := 45, scriptPubKey := payTo "mine" }]
    GetCredit := fun _ => 95
    GetDebit := fun _ => 100
    GetValueOut := 95 }

/-- The sample wallet, for which 4 is the collateral amount. -/
def mixWallet : CWallet :=
  { sampleWallet with IsCollateralAmount := fun v => v == 4 }

/-- A payment to self that prepares mixing: one owned input of 100 and three owned outputs, the
denominated amount 10, the collateral amount 4 and a change of 81; the fee is 5. -/
def makeCollateralsTx : CWalletTx :=
  { blankTx with
    vin := [spend 7 0]
    vout := [{ nValue := 10, scriptPubKey := payTo "mine" },
             { nValue := 4, scriptPubKey := payTo "mine" },
             { nValue := 81, scriptPubKey := payTo "change" }]
    GetCredit := fun _ => 95
    GetDebit := fun _ => 100
    GetValueOut := 95
    GetChange := 81 }

/-- The payment to self `selfTx` with the mixing marker. -/
def mixedSelfTx : CWalletTx := { selfTx with mapValue := [("DS", "1")] }

/-- The payment `sendTwoTx` with the mixing marker. -/
def mixedSendTx : CWalletTx := { sendTwoTx with mapValue := [("DS", "1")] }

/-- A sample of the spend index: the entry 11 spends the outpoint (10, 0), the entry 12 spends
an output of 11, the entry 13 an output of 12, the entry 14 is unrelated, and the entry 15 is a
second spend of the outpoint (10, 0). -/
def sampleIndex : SpendIndex :=
  [ { id := 11, vin := [{ hash := 10, n := 0 }], conflictedWith := none },
    { id := 12, vin := [{ hash := 11, n := 0 }], conflictedWith := none },
    { id := 13, vin := [{ hash := 20, n := 1 }, { hash := 12, n := 0 }], conflictedWith := none },
    { id := 14, vin := [{ hash := 20, n := 0 }], conflictedWith := none },
    { id := 15, vin := [{ hash := 10, n := 0 }], conflictedWith := none } ].foldl ingest
    { store := [], mapTxSpends := [] }

/-- A sample coin of the entry 7 with the given output index, value and lock. -/
def sampleCoin (index : Nat) (value : CAmount) (locked : Bool) : CoinCandidate :=
  { entry := 7, index := index, value := value, depth := 10, spendable := true,
    locked := locked, tags := [] }

/-- Sample candidates: coins of 50, 30 (locked), 20, 5 and 200. -/
def sampleCandidates : List CoinCandidate :=
  [sampleCoin 0 50 false, sampleCoin 1 30 true, sampleCoin 2 20 false, sampleCoin 3 5 false,
   sampleCoin 4 200 false]

/-- The payment `sendTx`, received 1000 seconds before the clock of the sample chain and never
requested by a peer. -/
def offlineSendTx : CWalletTx :=
  { sendTx with GetRequestCount := 0, nTimeReceived := 1599999100 }

/-- The sample wallet as a leasing node: for a leasing output the ownership oracle answers
`ISMINE_LEASING` (32). -/
def leasingWallet : CWallet :=
  { sampleWallet with
    IsMineOut := fun txout =>
      if txout.scriptPubKey.IsPayToLeasing then 32 else sampleWallet.IsMineOut txout }

/-- A leasing contract that the wallet pays for and for which it is the leasing node: one
owned input of 100, a leasing output of 60 and an owned change output of 35; the fee is 5. The
credit under the leased filter (64) is 0, under every other filter it is 95. -/
def leaseRecvTx : CWalletTx :=
  { foreignLeaseTx with GetCredit := fun filter => if filter = 64 then 0 else 95 }

/-- An entry without outputs that spends one owned input of 100. -/
def noOutputTx : CWalletTx :=
  { blankTx with
    vin := [spend 7 0]
    GetDebit := fun _ => 100 }

/-- The payment `sendTx`, confirmed in the block with hash 5, which the sample chain has at
height 990. -/
def confirmedSendTx : CWalletTx := { sendTx with hashBlock := 5 }

/-- The sample chain, in which the block with hash 6 is known at height 991. -/
def laterChain : ChainView :=
  { sampleChain with
    mapBlockIndex := fun h => if h = 6 then some 991 else sampleChain.mapBlockIndex h }

/-- The stake reward `foreignStakeTx`, confirmed in the block with hash 6. -/
def laterStakeTx : CWalletTx := { foreignStakeTx with hashBlock := 6, nTimeReceived := 5 }

/-- A payment of the wallet to 1001 payees: one owned input of 1100 and 1001 outputs of 1 to
the address "shop"; the fee is 99. -/
def manyPayeesTx : CWalletTx :=
  { blankTx with
    vin := [spend 7 0]
    vout := List.replicate 1001 { nValue := 1, scriptPubKey := payTo "shop" }
    GetDebit := fun _ => 1100
    GetValueOut := 1001 }

/-- The number that a list of decimal digits denotes. -/
def parseDigits (digits : List Char) : Nat :=
  digits.foldl (fun acc c => acc * 10 + (c.toNat - 48)) 0

/-- A sample of the conversion `atoi64`: an optional minus sign and decimal digits. -/
def decimalToInt (s : String) : Int :=
  match s.data with
  | '-' :: digits => -(parseDigits digits : Int)
  | digits => (parseDigits digits : Int)

/-- A sample of the conversion `i64tostr`: the decimal digits, after a minus sign for a
negative number. -/
def intToDecimal (n : Int) : String :=
  match n with
  | Int.ofNat m => toString m
  | Int.negSucc m => "-" ++ toString (m + 1)

/-- A sample label map without the key "n". -/
def sampleMap : mapValue_t := [("comment", "rent"), ("to", "landlord")]

/-- The caches of the sample methods: the answers computed so far. -/
abbrev SampleCache := List (EntryQuery × Int) × List (EntryTest × Bool)

/-- Sample methods of the entry `wtx` that keep caches: a call returns the cached answer when
there is one, and otherwise computes the answer of the entry and stores it. -/
def cachingMethods (wtx : CWalletTx) : EntryMethods SampleCache :=
  { ask := fun q c =>
      match c.1.lookup q with
      | some v => (v, c)
      | none => (wtx.answer q, (c.1 ++ [(q, wtx.answer q)], c.2))
    test := fun q c =>
      match c.2.lookup q with
      | some b => (b, c)
      | none => (wtx.flag q, (c.1, c.2 ++ [(q, wtx.flag q)])) }

/-- The caches of the sample methods hold answers of the entry `wtx` only. -/
def cacheValid (wtx : CWalletTx) (c : SampleCache) : Prop :=
  (∀ e ∈ c.1, e.2 = wtx.answer e.1) ∧ (∀ e ∈ c.2, e.2 = wtx.flag e.1)

/-- The payment `sendTx` with a third output, of 5, that has no destination, and with the
label "by IP" for the key "to"; the fee is 0. -/
def labelledSendTx : CWalletTx :=
  { sendTx with
    vout := [{ nValue := 30, scriptPubKey := payTo "change" },
             { nValue := 65, scriptPubKey := payTo "shop" },
             { nValue := 5,
               scriptPubKey :=
                 { destination := none, IsPayToColdStaking := false, IsPayToLeasing := false,
                   IsLeasingReward := false, IsZerocoinMint := false } }]
    GetValueOut := 100
    mapValue := [("to", "by IP")] }

/-! ## The chain of branches -/

theorem zSpendFromMe_of_no_spend (wallet : CWallet) (wtx : CWalletTx)
    (h : wtx.HasZerocoinSpendInputs = false) : zSpendFromMe wallet wtx = some false := by
  simp [zSpendFromMe, h]

theorem decomposeTransaction_of_reachesDebit (P : Params) (wallet : CWallet) (wtx : CWalletTx)
    (h : reachesDebit P wtx) :
    decomposeTransaction P wallet wtx = decomposeDebit P wallet wtx := by
  obtain ⟨h1, h2, h3, h4, h5, h6, h7, h8, h9⟩ := h
  simp only [decomposeTransaction, zSpendFromMe_of_no_spend wallet wtx h2]
  simp [h1, h2, h3, h4, h5, h6, h7, h9]
  intro hpos
  exact absurd (sub_pos.mpr hpos) h8

theorem decomposeDebit_of_sent (P : Params) (wallet : CWallet) (wtx : CWalletTx)
    (hd : ¬ guardDenominate P wallet wtx) (hs : ¬ guardSelf P wallet wtx)
    (hg : guardSent P wallet wtx) :
    decomposeDebit P wallet wtx =
      some (decomposeSent P wallet wtx
        (scanToMe P wallet wtx (scanFromMe P wallet wtx).involvesWatchAddress).involvesWatchAddress) := by
  unfold guardDenominate at hd
  unfold guardSelf at hs
  unfold guardSent at hg
  unfold decomposeDebit
  simp only []
  rw [if_neg, if_neg hs, if_pos hg]
  simpa [Bool.and_eq_true, bne_iff_ne, and_assoc] using hd

/-! ## The arithmetic in `int` -/

theorem toInt32_of_range (x : Int) (h1 : -2147483648 ≤ x) (h2 : x < 2147483648) :
    toInt32 x = x := by
  unfold toInt32
  rw [Int.emod_eq_of_lt (by linarith) (by linarith)]
  ring

/-- A product of two counts that is not zero in `int` has two factors that are not zero. -/
theorem toInt32_mul_ne_zero (a b : Nat) (h : toInt32 ((a : Int) * (b : Int)) ≠ 0) :
    a ≠ 0 ∧ b ≠ 0 := by
  constructor
  · rintro rfl
    exact h (by simp [toInt32])
  · rintro rfl
    exact h (by simp [toInt32])

/-- The product of two counts that are not zero is not zero in `int` when it is a value of
`int`. -/
theorem toInt32_mul_ne_zero_of_lt (a b : Nat) (ha : a ≠ 0) (hb : b ≠ 0)
    (h : a * b < 2147483648) : toInt32 ((a : Int) * (b : Int)) ≠ 0 := by
  have hpos : 0 < a * b := Nat.pos_of_ne_zero (Nat.mul_ne_zero ha hb)
  have hcast : ((a * b : Nat) : Int) = (a : Int) * (b : Int) := by push_cast; ring
  rw [← hcast, toInt32_of_range _ (by omega) (by omega)]
  omega

/-- Where the product of the two counters is `2^32`, it is 0 in `int` and the guard of line 245
fails, as with 65536 owned inputs and 65536 owned outputs. -/
theorem not_guardDenominate_of_overflow (P : Params) (wallet : CWallet) (wtx : CWalletTx)
    (h : (scanFromMe P wallet wtx).nMine *
      (scanToMe P wallet wtx (scanFromMe P wallet wtx).involvesWatchAddress).nMine =
        4294967296) :
    ¬ guardDenominate P wallet wtx := by
  rintro ⟨-, -, h3⟩
  apply h3
  have hcast : ((scanFromMe P wallet wtx).nMine : Int) *
      ((scanToMe P wallet wtx (scanFromMe P wallet wtx).involvesWatchAddress).nMine : Int) =
        4294967296 := by exact_mod_cast h
  rw [hcast]
  decide

/-! ## The sent branch -/

theorem sentLabel_of_not_kept (wallet : CWallet) (wtx : CWalletTx) (sub : TransactionRecord)
    (txout : CTxOut) (h : sentKept wallet wtx txout = false) :
    sentLabel wallet wtx sub txout = none := by
  unfold sentKept at h
  unfold sentLabel
  by_cases hm : wallet.IsMineOut txout = 0
  · simp only [hm, ne_eq, not_true_eq_false, if_false]
    cases hx : ExtractDestination txout.scriptPubKey with
    | none => simp [hm, hx] at h
    | some address =>
      have hz : wtx.HasZerocoinMintOutputs = true := by simpa [hm, hx] using h
      simp [hz]
  · simp [hm]

theorem sentLabel_of_kept (wallet : CWallet) (wtx : CWalletTx) (sub : TransactionRecord)
    (txout : CTxOut) (h : sentKept wallet wtx txout = true) :
    ∃ r, sentLabel wallet wtx sub txout = some r ∧ r.type = sentType wtx txout ∧
      r.idx = sub.idx ∧ r.involvesWatchAddress = sub.involvesWatchAddress ∧
      r.hash = sub.hash ∧ r.time = sub.time ∧ r.size = sub.size ∧
      r.credit = sub.credit +
        (if (ExtractDestination txout.scriptPubKey).isSome = false ∧ txout.IsZerocoinMint = true
          then txout.nValue else 0) := by
  unfold sentKept at h
  simp only [Bool.and_eq_true, decide_eq_true_eq, Bool.not_eq_true', Bool.and_eq_false_iff] at h
  obtain ⟨hm, hk⟩ := h
  unfold sentLabel sentType
  simp only [hm, ne_eq, not_true_eq_false, if_false]
  cases hx : ExtractDestination txout.scriptPubKey with
  | none =>
    by_cases hz : txout.IsZerocoinMint = true <;> by_cases hds : wtx.mapValue.at "DS" = "1" <;>
      simp [hz, hds]
  | some address =>
    have hz : wtx.HasZerocoinMintOutputs = false := by simpa [hx] using hk
    by_cases hds : wtx.mapValue.at "DS" = "1" <;> simp [hz, hds]

theorem feeDebits_of_nonpos (nTxFee : CAmount) (h : ¬ nTxFee > 0) (outs : List CTxOut) :
    feeDebits nTxFee outs = outs.map (fun o => -o.nValue) := by
  cases outs with
  | nil => rfl
  | cons o os => simp [feeDebits, h]

/-- The loop of the sent branch, as a whole: it appends one record per kept output, in output
order; the record has the category of its output, the next free sub-index, the watch-only flag
of the scans, and the debit of its output, with a positive fee added to the first one. -/
theorem sent_foldl (wallet : CWallet) (wtx : CWalletTx) (iw : Bool) :
    ∀ (outs : List CTxOut) (st : List TransactionRecord × CAmount),
      ∃ recs : List TransactionRecord,
        (outs.foldl (sentStep wallet wtx iw) st).1 = st.1 ++ recs ∧
        List.Forall₂ (fun r o => r.type = sentType wtx o ∧ r.involvesWatchAddress = iw)
          recs (outs.filter (sentKept wallet wtx)) ∧
        recs.map (fun r => r.debit) = feeDebits st.2 (outs.filter (sentKept wallet wtx)) ∧
        recs.map (fun r => r.idx) =
          List.range' st.1.length (outs.filter (sentKept wallet wtx)).length := by
  intro outs
  induction outs with
  | nil => intro st; exact ⟨[], by simp, by simp, by simp [feeDebits], by simp⟩
  | cons o os ih =>
    intro st
    rw [List.foldl_cons]
    cases hk : sentKept wallet wtx o with
    | false =>
      have hstep : sentStep wallet wtx iw st o = st := by
        simp [sentStep, sentLabel_of_not_kept wallet wtx _ o hk]
      rw [hstep, List.filter_cons_of_neg (by simp [hk])]
      exact ih st
    | true =>
      obtain ⟨r, hr, hty, hidx, hiw, -, -, -, -⟩ :=
        sentLabel_of_kept wallet wtx
          { TransactionRecord.init wtx.GetHash wtx.GetComputedTxTime wtx.GetTotalSize with
            idx := st.1.length, involvesWatchAddress := iw } o hk
      have hstep : sentStep wallet wtx iw st o =
          (st.1 ++ [{ r with debit := -(if st.2 > 0 then o.nValue + st.2 else o.nValue) }],
            if st.2 > 0 then 0 else st.2) := by
        simp only [sentStep, hr]
      rw [hstep, List.filter_cons_of_pos (by simp [hk])]
      obtain ⟨recs, h1, h2, h3, h4⟩ := ih
        (st.1 ++ [{ r with debit := -(if st.2 > 0 then o.nValue + st.2 else o.nValue) }],
          if st.2 > 0 then 0 else st.2)
      dsimp only at h1 h3 h4
      refine ⟨{ r with debit := -(if st.2 > 0 then o.nValue + st.2 else o.nValue) } :: recs,
        ?_, ?_, ?_, ?_⟩
      · rw [h1]; simp
      · exact List.Forall₂.cons ⟨hty, by simpa using hiw⟩ h2
      · have hrest : ¬ (if st.2 > 0 then (0 : CAmount) else st.2) > 0 := by
          by_cases hf : st.2 > 0 <;> simp [hf]
        rw [feeDebits_of_nonpos _ hrest] at h3
        rw [List.map_cons, h3]
        by_cases hf : st.2 > 0 <;> simp [feeDebits, hf]
      · rw [List.map_cons, h4]
        simp [List.range'_succ, hidx]

/-! ## The scans over the inputs and the outputs -/

/-- A scan loop whose turn has the shape of lines 222-230 and 235-243, as a whole: the
denomination flag holds when it held before and every owned item is denominated; the count
grows by the number of owned items; the running minimum is non-zero when it was so before and
every item is owned; the watch-only flag holds when it held before or some item is watch-only. -/
theorem scan_foldl {α : Type} (W : isminetype) (mine : α → isminetype) (denom : α → Bool)
    (step : MineScan → α → MineScan)
    (hstep : ∀ st x, step st x =
      { fAllDenom := if mine x ≠ 0 then st.fAllDenom && denom x else st.fAllDenom
        nMine := if mine x ≠ 0 then st.nMine + 1 else st.nMine
        involvesWatchAddress := if (mine x &&& W) != 0 then true else st.involvesWatchAddress
        fAll := if st.fAll > mine x then mine x else st.fAll }) :
    ∀ (xs : List α) (st : MineScan),
      ((xs.foldl step st).fAllDenom = true ↔
        st.fAllDenom = true ∧ ∀ x ∈ xs, mine x ≠ 0 → denom x = true) ∧
      (xs.foldl step st).nMine = st.nMine + (xs.filter (fun x => decide (mine x ≠ 0))).length ∧
      ((xs.foldl step st).fAll ≠ 0 ↔ st.fAll ≠ 0 ∧ ∀ x ∈ xs, mine x ≠ 0) ∧
      ((xs.foldl step st).involvesWatchAddress = true ↔
        st.involvesWatchAddress = true ∨ ∃ x ∈ xs, (mine x &&& W) ≠ 0) := by
  intro xs
  induction xs with
  | nil => intro st; simp
  | cons x xs ih =>
    intro st
    rw [List.foldl_cons, hstep]
    obtain ⟨h1, h2, h3, h4⟩ := ih
      { fAllDenom := if mine x ≠ 0 then st.fAllDenom && denom x else st.fAllDenom
        nMine := if mine x ≠ 0 then st.nMine + 1 else st.nMine
        involvesWatchAddress := if (mine x &&& W) != 0 then true else st.involvesWatchAddress
        fAll := if st.fAll > mine x then mine x else st.fAll }
    dsimp only at h1 h2 h3 h4
    refine ⟨?_, ?_, ?_, ?_⟩
    · rw [h1]
      by_cases hm : mine x ≠ 0
      · simp only [hm, if_true, Bool.and_eq_true, List.mem_cons, forall_eq_or_imp, ne_eq,
          not_false_eq_true, forall_const]
        tauto
      · simp only [hm, if_false, List.mem_cons, forall_eq_or_imp, IsEmpty.forall_iff, true_and]
    · rw [h2]
      clear h1 h2 h3 h4
      by_cases hm : mine x ≠ 0
      · rw [List.filter_cons_of_pos (by simpa using hm), if_pos hm, List.length_cons]
        exact Nat.add_right_comm _ _ _
      · rw [List.filter_cons_of_neg (by simpa using hm), if_neg hm]
    · rw [h3]
      clear h1 h2 h3 h4
      by_cases hgt : st.fAll > mine x
      · simp only [hgt, if_true, List.mem_cons, forall_eq_or_imp, ne_eq]
        constructor
        · rintro ⟨hx, hall⟩
          exact ⟨Nat.ne_of_gt (Nat.lt_of_le_of_lt (Nat.zero_le _) hgt), hx, hall⟩
        · rintro ⟨-, hx, hall⟩
          exact ⟨hx, hall⟩
      · simp only [hgt, if_false, List.mem_cons, forall_eq_or_imp, ne_eq]
        constructor
        · rintro ⟨hs, hall⟩
          exact ⟨hs, fun h0 => hgt (by rw [h0]; exact Nat.pos_of_ne_zero hs), hall⟩
        · rintro ⟨hs, -, hall⟩
          exact ⟨hs, hall⟩
    · rw [h4]
      by_cases hw : (mine x &&& W) ≠ 0
      · simp [hw]
      · simp [hw]

theorem scanFromMe_spec (P : Params) (wallet : CWallet) (wtx : CWalletTx) :
    ((scanFromMe P wallet wtx).fAllDenom = true ↔
      ∀ txin ∈ wtx.vin, wallet.IsMineIn txin ≠ 0 → wallet.IsDenominated txin = true) ∧
    (scanFromMe P wallet wtx).nMine =
      (wtx.vin.filter (fun txin => decide (wallet.IsMineIn txin ≠ 0))).length ∧
    ((scanFromMe P wallet wtx).fAll ≠ 0 ↔
      P.ISMINE_SPENDABLE ≠ 0 ∧ ∀ txin ∈ wtx.vin, wallet.IsMineIn txin ≠ 0) ∧
    ((scanFromMe P wallet wtx).involvesWatchAddress = true ↔
      ∃ txin ∈ wtx.vin, (wallet.IsMineIn txin &&& P.ISMINE_WATCH_ONLY) ≠ 0) := by
  have h := scan_foldl P.ISMINE_WATCH_ONLY wallet.IsMineIn wallet.IsDenominated
    (fromMeStep P wallet) (fun _ _ => rfl) wtx.vin
    { fAllDenom := true, nMine := 0, involvesWatchAddress := false, fAll := P.ISMINE_SPENDABLE }
  simpa [scanFromMe] using h

theorem scanToMe_spec (P : Params) (wallet : CWallet) (wtx : CWalletTx) (iw : Bool) :
    ((scanToMe P wallet wtx iw).fAllDenom = true ↔
      ∀ txout ∈ wtx.vout, wallet.IsMineOut txout ≠ 0 →
        wallet.IsDenominatedAmount txout.nValue = true) ∧
    (scanToMe P wallet wtx iw).nMine =
      (wtx.vout.filter (fun txout => decide (wallet.IsMineOut txout ≠ 0))).length ∧
    ((scanToMe P wallet wtx iw).fAll ≠ 0 ↔
      P.ISMINE_SPENDABLE ≠ 0 ∧ ∀ txout ∈ wtx.vout, wallet.IsMineOut txout ≠ 0) ∧
    ((scanToMe P wallet wtx iw).involvesWatchAddress = true ↔
      iw = true ∨ ∃ txout ∈ wtx.vout, (wallet.IsMineOut txout &&& P.ISMINE_WATCH_ONLY) ≠ 0) := by
  have h := scan_foldl P.ISMINE_WATCH_ONLY wallet.IsMineOut
    (fun txout => wallet.IsDenominatedAmount txout.nValue)
    (toMeStep P wallet) (fun _ _ => rfl) wtx.vout
    { fAllDenom := true, nMine := 0, involvesWatchAddress := iw, fAll := P.ISMINE_SPENDABLE }
  simpa [scanToMe] using h

theorem decomposeSent_spec (P : Params) (wallet : CWallet) (wtx : CWalletTx) (iw : Bool) :
    List.Forall₂ (fun r o => r.type = sentType wtx o ∧ r.involvesWatchAddress = iw)
      (decomposeSent P wallet wtx iw) (sentOutputs wallet wtx) ∧
    (decomposeSent P wallet wtx iw).map (fun r => r.debit) =
      feeDebits (wtx.GetDebit P.ISMINE_ALL - wtx.GetValueOut) (sentOutputs wallet wtx) ∧
    (decomposeSent P wallet wtx iw).map (fun r => r.idx) =
      List.range' 0 (sentOutputs wallet wtx).length := by
  obtain ⟨recs, h1, h2, h3, h4⟩ :=
    sent_foldl wallet wtx iw wtx.vout ([], wtx.GetDebit P.ISMINE_ALL - wtx.GetValueOut)
  have hrecs : decomposeSent P wallet wtx iw = recs := by
    simpa [decomposeSent] using h1
  rw [hrecs]
  exact ⟨h2, h3, by simpa using h4⟩

theorem decomposeTransaction_of_reachesSent (P : Params) (wallet : CWallet) (wtx : CWalletTx)
    (h : reachesSent P wallet wtx) :
    decomposeTransaction P wallet wtx =
      some (decomposeSent P wallet wtx
        (scanToMe P wallet wtx
          (scanFromMe P wallet wtx).involvesWatchAddress).involvesWatchAddress) := by
  obtain ⟨hd, hden, hself, hsent⟩ := h
  rw [decomposeTransaction_of_reachesDebit P wallet wtx hd,
    decomposeDebit_of_sent P wallet wtx hden hself hsent]

/-! ## Which categories each branch assigns -/

/-- An invariant of the records built so far is an invariant of a whole loop. -/
theorem foldl_records_inv {σ α : Type} (step : σ → α → σ) (proj : σ → List TransactionRecord)
    (p : TransactionRecord → Prop)
    (hstep : ∀ st x, (∀ r ∈ proj st, p r) → ∀ r ∈ proj (step st x), p r) :
    ∀ (xs : List α) (st : σ), (∀ r ∈ proj st, p r) → ∀ r ∈ proj (xs.foldl step st), p r := by
  intro xs
  induction xs with
  | nil => intro st h; simpa using h
  | cons x xs ih =>
    intro st h
    rw [List.foldl_cons]
    exact ih (step st x) (hstep st x h)

theorem loadHotOrColdStakeOrContract_type (P : Params) (wallet : CWallet) (wtx : CWalletTx)
    (record : TransactionRecord) (isContract : Bool) :
    (loadHotOrColdStakeOrContract P wallet wtx record isContract).type =
      if isContract then
        if ((wallet.IsMineOut (firstP2CSUtxo wtx) &&& P.ISMINE_SPENDABLE_DELEGATED) != 0
            && wallet.IsFromMe wtx) then RecordType.P2CSDelegationSentOwner
        else if wallet.IsFromMe wtx then RecordType.P2CSDelegationSent
        else RecordType.P2CSDelegation
      else
        if (wallet.IsMineOut (firstP2CSUtxo wtx) &&& P.ISMINE_SPENDABLE_DELEGATED) != 0 then
          RecordType.StakeDelegated
        else RecordType.StakeHot := by
  unfold loadHotOrColdStakeOrContract
  dsimp only
  split <;> split <;> (try split) <;> rfl

theorem decomposeCoinStake_type (P : Params) (wallet : CWallet) (wtx : CWalletTx) (fz : Bool)
    (parts : List TransactionRecord) (h : decomposeCoinStake P wallet wtx fz = some parts) :
    ∀ r ∈ parts, r.type = RecordType.Other ∨ r.type = RecordType.StakeZBTCU ∨
      r.type = RecordType.StakeDelegated ∨ r.type = RecordType.StakeHot ∨
      r.type = RecordType.StakeMint ∨ r.type = RecordType.MNReward := by
  unfold decomposeCoinStake at h
  dsimp only at h
  split at h
  · exact absurd h (by simp)
  · cases h; simp
  · split at h
    · split at h
      · exact absurd h (by simp)
      · cases h; simp
    · split at h
      · exact absurd h (by simp)
      · split at h
        · split at h
          · cases h
            intro r hr
            simp only [List.nil_append, List.mem_singleton] at hr
            subst hr
            rw [loadHotOrColdStakeOrContract_type]
            simp only [Bool.false_eq_true, if_false]
            split <;> simp
          · cases h; simp
        · split at h
          · exact absurd h (by simp)
          · cases h
            intro r hr
            simp only [List.nil_append, List.mem_singleton] at hr
            subst hr
            split
            · simp [TransactionRecord.init]
            · split <;> simp [TransactionRecord.init]

theorem zerocoinSpend_type (P : Params) (wallet : CWallet) (wtx : CWalletTx) (fz : Bool) :
    ∀ r ∈ decomposeZerocoinSpend P wallet wtx fz,
      r.type = RecordType.ZerocoinSpend_Change_zPiv ∨ r.type = RecordType.ZerocoinSpend_FromMe ∨
      r.type = RecordType.RecvFromZerocoinSpend ∨ r.type = RecordType.ZerocoinSpend := by
  unfold decomposeZerocoinSpend
  refine foldl_records_inv (zerocoinSpendStep P wallet wtx fz) (fun st => st.1) _ ?_ wtx.vout
    ([], false) (by simp)
  intro st txout hst r hr
  unfold zerocoinSpendStep at hr
  dsimp only at hr
  split at hr
  · split at hr
    · exact hst r hr
    · simp only [List.mem_append, List.mem_singleton] at hr
      rcases hr with hr | hr
      · exact hst r hr
      · subst hr; split <;> simp
  · split at hr
    · simp only [List.mem_append, List.mem_singleton] at hr
      rcases hr with hr | hr
      · exact hst r hr
      · subst hr; split <;> simp
    · split at hr
      · exact hst r hr
      · simp only [List.mem_append, List.mem_singleton] at hr
        rcases hr with hr | hr
        · exact hst r hr
        · subst hr; simp

theorem loadUnlockColdStake_type (P : Params) (wallet : CWallet) (wtx : CWalletTx)
    (record sub : TransactionRecord) (h : loadUnlockColdStake P wallet wtx record = some sub) :
    sub.type = RecordType.P2CSUnlockOwner ∨ sub.type = RecordType.P2CSUnlockStaker := by
  unfold loadUnlockColdStake at h
  dsimp only at h
  split at h
  · exact absurd h (by simp)
  · split at h
    · exact absurd h (by simp)
    · cases h
      split <;> simp

theorem loadP2L_loop_type (P : Params) (wallet : CWallet) (wtx : CWalletTx) :
    ∀ (outs : List CTxOut) (record : TransactionRecord),
      (loadP2L_loop P wallet wtx record outs).type = record.type ∨
      (loadP2L_loop P wallet wtx record outs).type = RecordType.P2LLeasingSentToSelf ∨
      (loadP2L_loop P wallet wtx record outs).type = RecordType.P2LLeasingSent ∨
      (loadP2L_loop P wallet wtx record outs).type = RecordType.P2LLeasingRecv := by
  intro outs
  induction outs with
  | nil => intro record; simp [loadP2L_loop]
  | cons o os ih =>
    intro record
    unfold loadP2L_loop
    dsimp only
    split
    · split
      · simp
      · split
        · simp
        · split
          · simp
          · exact ih record
    · exact ih record

theorem loadP2L_type (P : Params) (wallet : CWallet) (wtx : CWalletTx)
    (record : TransactionRecord) (t : RecordType) (h : (loadP2L P wallet wtx record).type = t) :
    t = record.type ∨ t = RecordType.P2LLeasingSentToSelf ∨ t = RecordType.P2LLeasingSent ∨
      t = RecordType.P2LLeasingRecv := by
  subst h
  exact loadP2L_loop_type P wallet wtx wtx.vout { record with involvesWatchAddress := false }

theorem loadLeasingSpend_loop_type (P : Params) (wallet : CWallet) :
    ∀ (ins : List CTxIn) (record sub : TransactionRecord),
      loadLeasingSpend_loop P wallet record ins = some sub →
      sub.type = record.type ∨ sub.type = RecordType.P2LUnlockOwnLeasing ∨
      sub.type = RecordType.P2LUnlockLeasing ∨ sub.type = RecordType.P2LReturnLeasing := by
  intro ins
  induction ins with
  | nil => intro record sub h; simp [loadLeasingSpend_loop] at h; subst h; simp
  | cons i is ih =>
    intro record sub h
    unfold loadLeasingSpend_loop at h
    dsimp only at h
    split at h
    · exact ih record sub h
    · split at h
      · exact absurd h (by simp)
      · split at h
        · split at h
          · cases h; simp
          · split at h
            · cases h; simp
            · split at h
              · cases h; simp
              · exact ih record sub h
        · exact ih record sub h

theorem loadLeasingSpend_type (P : Params) (wallet : CWallet) (wtx : CWalletTx)
    (record sub : TransactionRecord) (h : loadLeasingSpend P wallet wtx record = some sub) :
    sub.type = record.type ∨ sub.type = RecordType.P2LUnlockOwnLeasing ∨
      sub.type = RecordType.P2LUnlockLeasing ∨ sub.type = RecordType.P2LReturnLeasing :=
  loadLeasingSpend_loop_type P wallet wtx.vin { record with involvesWatchAddress := false } sub h

theorem loadLeasingReward_loop_type (P : Params) (wallet : CWallet) :
    ∀ (outs : List CTxOut) (record : TransactionRecord),
      (loadLeasingReward_loop P wallet record outs).type = record.type ∨
      (loadLeasingReward_loop P wallet record outs).type = RecordType.LeasingReward := by
  intro outs
  induction outs with
  | nil => intro record; simp [loadLeasingReward_loop]
  | cons o os ih =>
    intro record
    unfold loadLeasingReward_loop
    split
    · simp
    · exact ih record

theorem loadLeasingReward_type (P : Params) (wallet : CWallet) (wtx : CWalletTx)
    (record : TransactionRecord) (t : RecordType)
    (h : (loadLeasingReward P wallet wtx record).type = t) :
    t = record.type ∨ t = RecordType.LeasingReward := by
  subst h
  exact loadLeasingReward_loop_type P wallet wtx.vout { record with involvesWatchAddress := false }

theorem decomposeCredit_type (P : Params) (wallet : CWallet) (wtx : CWalletTx) :
    ∀ r ∈ decomposeCredit P wallet wtx,
      r.type = RecordType.RecvWithAddress ∨ r.type = RecordType.RecvFromOther ∨
      r.type = RecordType.Generated := by
  unfold decomposeCredit
  refine foldl_records_inv (creditStep P wallet wtx) (fun st => st) _ ?_ wtx.vout [] (by simp)
  intro st txout hst r hr
  unfold creditStep at hr
  dsimp only at hr
  split at hr
  · simp only [List.mem_append, List.mem_singleton] at hr
    rcases hr with hr | hr
    · exact hst r hr
    · subst hr
      split
      · simp
      · split <;> simp
  · exact hst r hr

theorem selfLabel_foldl_type (P : Params) (wallet : CWallet) (wtx : CWalletTx) :
    ∀ (outs : List CTxOut) (type : RecordType),
      outs.foldl (selfLabelStep P wallet wtx) type = type ∨
      outs.foldl (selfLabelStep P wallet wtx) type = RecordType.ObfuscationMakeCollaterals ∨
      outs.foldl (selfLabelStep P wallet wtx) type = RecordType.ObfuscationCreateDenominations ∨
      outs.foldl (selfLabelStep P wallet wtx) type = RecordType.ObfuscationCollateralPayment := by
  intro outs
  induction outs with
  | nil => intro type; simp
  | cons o os ih =>
    intro type
    rw [List.foldl_cons]
    have hstep : selfLabelStep P wallet wtx type o = type ∨
        selfLabelStep P wallet wtx type o = RecordType.ObfuscationMakeCollaterals ∨
        selfLabelStep P wallet wtx type o = RecordType.ObfuscationCreateDenominations ∨
        selfLabelStep P wallet wtx type o = RecordType.ObfuscationCollateralPayment := by
      unfold selfLabelStep
      dsimp only
      split
      · simp
      · split
        · simp
        · split <;> simp
    rcases ih (selfLabelStep P wallet wtx type o) with h | h | h | h
    · rw [h]; exact hstep
    · exact Or.inr (Or.inl h)
    · exact Or.inr (Or.inr (Or.inl h))
    · exact Or.inr (Or.inr (Or.inr h))

theorem decomposeSelf_type (P : Params) (wallet : CWallet) (wtx : CWalletTx) (iw : Bool)
    (parts : List TransactionRecord) (h : decomposeSelf P wallet wtx iw = some parts) :
    ∀ r ∈ parts, r.type = RecordType.SendToSelf ∨ r.type = RecordType.Obfuscated ∨
      r.type = RecordType.ObfuscationMakeCollaterals ∨
      r.type = RecordType.ObfuscationCreateDenominations ∨
      r.type = RecordType.ObfuscationCollateralPayment := by
  unfold decomposeSelf at h
  dsimp only at h
  split at h
  · exact absurd h (by simp)
  · cases h
    intro r hr
    simp only [List.nil_append, List.mem_singleton] at hr
    subst hr
    dsimp only
    split
    · simp
    · rcases selfLabel_foldl_type P wallet wtx wtx.vout RecordType.SendToSelf with h | h | h | h <;>
        simp [h]

theorem decomposeSent_type (P : Params) (wallet : CWallet) (wtx : CWalletTx) (iw : Bool) :
    ∀ r ∈ decomposeSent P wallet wtx iw,
      r.type = RecordType.Obfuscated ∨ r.type = RecordType.SendToAddress ∨
      r.type = RecordType.ZerocoinMint ∨ r.type = RecordType.SendToOther := by
  have h := (decomposeSent_spec P wallet wtx iw).1
  intro r hr
  obtain ⟨i, hi, rfl⟩ := List.getElem_of_mem hr
  have hlen := h.length_eq
  have hro := (List.forall₂_iff_get.mp h).2 i hi (hlen ▸ hi)
  simp only [List.get_eq_getElem] at hro
  rw [hro.1]
  unfold sentType
  split
  · simp
  · split
    · simp
    · split <;> simp

theorem decomposeDebit_of_denominate (P : Params) (wallet : CWallet) (wtx : CWalletTx)
    (hd : guardDenominate P wallet wtx) :
    decomposeDebit P wallet wtx =
      some [{ TransactionRecord.init7 wtx.GetHash wtx.GetComputedTxTime wtx.GetTotalSize
                RecordType.ObfuscationDenominate "" (-(wtx.GetDebit P.ISMINE_ALL))
                (wtx.GetCredit P.ISMINE_ALL) with involvesWatchAddress := false }] := by
  unfold guardDenominate at hd
  unfold decomposeDebit
  simp only []
  rw [if_pos]
  · rfl
  · simpa [Bool.and_eq_true, bne_iff_ne, and_assoc] using hd

theorem decomposeDebit_of_self (P : Params) (wallet : CWallet) (wtx : CWalletTx)
    (hd : ¬ guardDenominate P wallet wtx) (hs : guardSelf P wallet wtx) :
    decomposeDebit P wallet wtx =
      decomposeSelf P wallet wtx
        (scanToMe P wallet wtx
          (scanFromMe P wallet wtx).involvesWatchAddress).involvesWatchAddress := by
  unfold guardDenominate at hd
  unfold guardSelf at hs
  unfold decomposeDebit
  simp only []
  rw [if_neg, if_pos hs]
  simpa [Bool.and_eq_true, bne_iff_ne, and_assoc] using hd

theorem decomposeDebit_of_unattributed (P : Params) (wallet : CWallet) (wtx : CWalletTx)
    (hd : ¬ guardDenominate P wallet wtx) (hs : ¬ guardSelf P wallet wtx)
    (hg : ¬ guardSent P wallet wtx) :
    decomposeDebit P wallet wtx =
      some [{ TransactionRecord.init7 wtx.GetHash wtx.GetComputedTxTime wtx.GetTotalSize
                RecordType.Other ""
                (wtx.GetCredit P.ISMINE_ALL - wtx.GetDebit P.ISMINE_ALL) 0 with
              involvesWatchAddress :=
                (scanToMe P wallet wtx
                  (scanFromMe P wallet wtx).involvesWatchAddress).involvesWatchAddress }] := by
  unfold guardDenominate at hd
  unfold guardSelf at hs
  unfold guardSent at hg
  unfold decomposeDebit
  simp only []
  rw [if_neg, if_neg hs, if_neg hg]
  · rfl
  · simpa [Bool.and_eq_true, bne_iff_ne, and_assoc] using hd

/-- The payment-to-self branch, as a whole: when the entry has an output, one record, whose
debit is `-(nDebit - nChange)` and whose credit is `nCredit - nChange`. -/
theorem decomposeSelf_spec (P : Params) (wallet : CWallet) (wtx : CWalletTx) (iw : Bool)
    (hout : wtx.vout ≠ []) :
    ∃ r, decomposeSelf P wallet wtx iw = some [r] ∧
      r.debit = -(wtx.GetDebit P.ISMINE_ALL - wtx.GetChange) ∧
      r.credit = wtx.GetCredit P.ISMINE_ALL - wtx.GetChange ∧
      r.involvesWatchAddress = iw ∧ r.idx = 0 := by
  cases hv : wtx.vout with
  | nil => exact absurd hv hout
  | cons o os =>
    unfold decomposeSelf
    simp only [hv, List.getElem?_cons_zero, List.nil_append]
    exact ⟨_, rfl, rfl, rfl, rfl, by split <;> rfl⟩

/-- The denominate record comes from the guard of line 245 only. -/
theorem denominate_only_from_guard (P : Params) (wallet : CWallet) (wtx : CWalletTx)
    (parts : List TransactionRecord) (h : decomposeTransaction P wallet wtx = some parts)
    (r : TransactionRecord) (hr : r ∈ parts) (hty : r.type = RecordType.ObfuscationDenominate) :
    guardDenominate P wallet wtx := by
  unfold decomposeTransaction at h
  dsimp only at h
  split at h
  · exact absurd h (by simp)
  · split at h
    · rcases decomposeCoinStake_type P wallet wtx _ parts h r hr with h' | h' | h' | h' | h' | h' <;>
        simp [hty] at h'
    · split at h
      · cases h
        rcases zerocoinSpend_type P wallet wtx _ r hr with h' | h' | h' | h' <;>
          simp [hty] at h'
      · split at h
        · cases h
          simp only [List.nil_append, List.mem_singleton] at hr
          subst hr
          rw [loadHotOrColdStakeOrContract_type] at hty
          simp only [if_true] at hty
          split at hty
          · simp at hty
          · split at hty <;> simp at hty
        · split at h
          · split at h
            · exact absurd h (by simp)
            · rename_i sub hsub
              cases h
              simp only [List.nil_append, List.mem_singleton] at hr
              subst hr
              rcases loadUnlockColdStake_type P wallet wtx _ _ hsub with h' | h' <;>
                simp [hty] at h'
          · split at h
            · cases h
              simp only [List.nil_append, List.mem_singleton] at hr
              subst hr
              rcases loadP2L_type P wallet wtx _ _ hty with h' | h' | h' | h' <;>
                simp [TransactionRecord.init] at h'
            · split at h
              · split at h
                · exact absurd h (by simp)
                · rename_i sub hsub
                  cases h
                  simp only [List.nil_append, List.mem_singleton] at hr
                  subst hr
                  rcases loadLeasingSpend_type P wallet wtx _ _ hsub with h' | h' | h' | h' <;>
                    simp [TransactionRecord.init, hty] at h'
              · split at h
                · cases h
                  simp only [List.nil_append, List.mem_singleton] at hr
                  subst hr
                  rcases loadLeasingReward_type P wallet wtx _ _ hty with h' | h' <;>
                    simp [TransactionRecord.init] at h'
                · split at h
                  · cases h
                    rcases decomposeCredit_type P wallet wtx r hr with h' | h' | h' <;>
                      simp [hty] at h'
                  · by_contra hd
                    by_cases hs : guardSelf P wallet wtx
                    · rw [decomposeDebit_of_self P wallet wtx hd hs] at h
                      rcases decomposeSelf_type P wallet wtx _ parts h r hr with
                        h' | h' | h' | h' | h' <;> simp [hty] at h'
                    · by_cases hg : guardSent P wallet wtx
                      · rw [decomposeDebit_of_sent P wallet wtx hd hs hg] at h
                        cases h
                        rcases decomposeSent_type P wallet wtx _ r hr with h' | h' | h' | h' <;>
                          simp [hty] at h'
                      · rw [decomposeDebit_of_unattributed P wallet wtx hd hs hg] at h
                        cases h
                        simp only [List.mem_singleton] at hr
                        subst hr
                        simp [TransactionRecord.init7] at hty

/-- In the credit branch a `Generated` record is made for a coinbase entry only. -/
theorem decomposeCredit_generated (P : Params) (wallet : CWallet) (wtx : CWalletTx) :
    ∀ r ∈ decomposeCredit P wallet wtx,
      r.type = RecordType.Generated → wtx.IsCoinBase = true := by
  unfold decomposeCredit
  refine foldl_records_inv (creditStep P wallet wtx) (fun st => st) _ ?_ wtx.vout [] (by simp)
  intro st txout hst r hr
  unfold creditStep at hr
  dsimp only at hr
  split at hr
  · simp only [List.mem_append, List.mem_singleton] at hr
    rcases hr with hr | hr
    · exact hst r hr
    · subst hr
      intro hty
      cases hcb : wtx.IsCoinBase with
      | true => rfl
      | false =>
        rw [hcb] at hty
        simp only [Bool.false_eq_true, if_false] at hty
        split at hty <;> simp at hty
  · exact hst r hr

/-- A record of a reward-bearing category is made for a coinbase or coinstake entry only: the
stake-reward branch makes the staking categories, the credit branch makes `Generated` for a
coinbase, and no other branch makes a reward-bearing category. -/
theorem reward_record_of_generated (P : Params) (wallet : CWallet) (wtx : CWalletTx)
    (parts : List TransactionRecord) (h : decomposeTransaction P wallet wtx = some parts)
    (r : TransactionRecord) (hr : r ∈ parts) (hty : isRewardType r.type = true) :
    wtx.IsCoinBase = true ∨ wtx.IsCoinStake = true := by
  unfold decomposeTransaction at h
  dsimp only at h
  split at h
  · exact absurd h (by simp)
  · split at h
    · rename_i hcs
      exact Or.inr hcs
    · split at h
      · cases h
        rcases zerocoinSpend_type P wallet wtx _ r hr with h' | h' | h' | h' <;>
          rw [h'] at hty <;> exact absurd hty (by decide)
      · split at h
        · cases h
          simp only [List.nil_append, List.mem_singleton] at hr
          subst hr
          rw [loadHotOrColdStakeOrContract_type] at hty
          simp only [if_true] at hty
          split at hty
          · exact absurd hty (by decide)
          · split at hty <;> exact absurd hty (by decide)
        · split at h
          · split at h
            · exact absurd h (by simp)
            · rename_i sub hsub
              cases h
              simp only [List.nil_append, List.mem_singleton] at hr
              subst hr
              rcases loadUnlockColdStake_type P wallet wtx _ _ hsub with h' | h' <;>
                rw [h'] at hty <;> exact absurd hty (by decide)
          · split at h
            · cases h
              simp only [List.nil_append, List.mem_singleton] at hr
              subst hr
              rcases loadP2L_type P wallet wtx _ _ rfl with h' | h' | h' | h' <;>
                rw [h'] at hty <;>
          (first | exact absurd hty (by decide)
                 | exact absurd hty (by simp [isRewardType, TransactionRecord.init]))
            · split at h
              · split at h
                · exact absurd h (by simp)
                · rename_i sub hsub
                  cases h
                  simp only [List.nil_append, List.mem_singleton] at hr
                  subst hr
                  rcases loadLeasingSpend_type P wallet wtx _ _ hsub with h' | h' | h' | h' <;>
                    rw [h'] at hty <;>
          (first | exact absurd hty (by decide)
                 | exact absurd hty (by simp [isRewardType, TransactionRecord.init]))
              · split at h
                · cases h
                  simp only [List.nil_append, List.mem_singleton] at hr
                  subst hr
                  rcases loadLeasingReward_type P wallet wtx _ _ rfl with h' | h' <;>
                    rw [h'] at hty <;>
          (first | exact absurd hty (by decide)
                 | exact absurd hty (by simp [isRewardType, TransactionRecord.init]))
                · split at h
                  · cases h
                    rcases decomposeCredit_type P wallet wtx r hr with h' | h' | h'
                    · rw [h'] at hty; exact absurd hty (by decide)
                    · rw [h'] at hty; exact absurd hty (by decide)
                    · exact Or.inl (decomposeCredit_generated P wallet wtx r hr h')
                  · by_cases hd : guardDenominate P wallet wtx
                    · rw [decomposeDebit_of_denominate P wallet wtx hd] at h
                      cases h
                      simp only [List.mem_singleton] at hr
                      subst hr
                      exact absurd hty (by simp [isRewardType, TransactionRecord.init7])
                    · by_cases hs : guardSelf P wallet wtx
                      · rw [decomposeDebit_of_self P wallet wtx hd hs] at h
                        rcases decomposeSelf_type P wallet wtx _ parts h r hr with
                          h' | h' | h' | h' | h' <;>
                          rw [h'] at hty <;> exact absurd hty (by decide)
                      · by_cases hg : guardSent P wallet wtx
                        · rw [decomposeDebit_of_sent P wallet wtx hd hs hg] at h
                          cases h
                          rcases decomposeSent_type P wallet wtx _ r hr with
                            h' | h' | h' | h' <;>
                            rw [h'] at hty <;> exact absurd hty (by decide)
                        · rw [decomposeDebit_of_unattributed P wallet wtx hd hs hg] at h
                          cases h
                          simp only [List.mem_singleton] at hr
                          subst hr
                          exact absurd hty (by simp [isRewardType, TransactionRecord.init7])

/-! ## The contract branches, the credit branch and the stake-reward branch -/

theorem loadHotOrColdStakeOrContract_amounts (P : Params) (wallet : CWallet) (wtx : CWalletTx)
    (record : TransactionRecord) :
    (loadHotOrColdStakeOrContract P wallet wtx record true).credit = record.credit ∧
    (loadHotOrColdStakeOrContract P wallet wtx record true).debit = record.debit := by
  unfold loadHotOrColdStakeOrContract
  dsimp only
  simp only [if_true]
  split
  · exact ⟨rfl, rfl⟩
  · split <;> exact ⟨rfl, rfl⟩

theorem loadUnlockColdStake_amounts (P : Params) (wallet : CWallet) (wtx : CWalletTx)
    (record sub : TransactionRecord) (h : loadUnlockColdStake P wallet wtx record = some sub) :
    (sub.type = RecordType.P2CSUnlockOwner ∧ sub.debit = -(wtx.GetStakeDelegationDebit) ∧
      sub.credit = wtx.GetCredit P.ISMINE_ALL) ∨
    (sub.type = RecordType.P2CSUnlockStaker ∧ sub.debit = -(wtx.GetColdStakingDebit) ∧
      sub.credit = -(wtx.GetColdStakingCredit)) := by
  unfold loadUnlockColdStake at h
  dsimp only at h
  split at h
  · exact absurd h (by simp)
  · split at h
    · exact absurd h (by simp)
    · cases h
      split
      · exact Or.inl ⟨rfl, rfl, rfl⟩
      · exact Or.inr ⟨rfl, rfl, rfl⟩

theorem loadP2L_loop_amounts (P : Params) (wallet : CWallet) (wtx : CWalletTx) :
    ∀ (outs : List CTxOut) (record : TransactionRecord),
      ((loadP2L_loop P wallet wtx record outs).type = record.type ∧
        (loadP2L_loop P wallet wtx record outs).credit = record.credit ∧
        (loadP2L_loop P wallet wtx record outs).debit = record.debit) ∨
      ((loadP2L_loop P wallet wtx record outs).type = RecordType.P2LLeasingSentToSelf ∧
        (loadP2L_loop P wallet wtx record outs).credit =
          record.credit - wtx.GetCredit P.ISMINE_LEASED ∧
        (loadP2L_loop P wallet wtx record outs).debit = record.debit) ∨
      ((loadP2L_loop P wallet wtx record outs).type = RecordType.P2LLeasingSent ∧
        (loadP2L_loop P wallet wtx record outs).credit = record.credit ∧
        (loadP2L_loop P wallet wtx record outs).debit =
          record.debit - wtx.GetCredit P.ISMINE_LEASED) ∨
      ((loadP2L_loop P wallet wtx record outs).type = RecordType.P2LLeasingRecv ∧
        (loadP2L_loop P wallet wtx record outs).credit = record.credit ∧
        (loadP2L_loop P wallet wtx record outs).debit =
          -record.debit + wtx.GetCredit P.ISMINE_LEASED) := by
  intro outs
  induction outs with
  | nil => intro record; exact Or.inl ⟨rfl, rfl, rfl⟩
  | cons o os ih =>
    intro record
    unfold loadP2L_loop
    dsimp only
    split
    · split
      · exact Or.inr (Or.inl ⟨rfl, rfl, rfl⟩)
      · split
        · exact Or.inr (Or.inr (Or.inl ⟨rfl, rfl, rfl⟩))
        · split
          · exact Or.inr (Or.inr (Or.inr ⟨rfl, rfl, rfl⟩))
          · exact ih record
    · exact ih record

theorem loadLeasingSpend_loop_amounts (P : Params) (wallet : CWallet) :
    ∀ (ins : List CTxIn) (record sub : TransactionRecord),
      loadLeasingSpend_loop P wallet record ins = some sub →
      sub.credit = record.credit ∧ sub.debit = record.debit := by
  intro ins
  induction ins with
  | nil => intro record sub h; simp [loadLeasingSpend_loop] at h; subst h; exact ⟨rfl, rfl⟩
  | cons i is ih =>
    intro record sub h
    unfold loadLeasingSpend_loop at h
    dsimp only at h
    split at h
    · exact ih record sub h
    · split at h
      · exact absurd h (by simp)
      · split at h
        · split at h
          · cases h; exact ⟨rfl, rfl⟩
          · split at h
            · cases h; exact ⟨rfl, rfl⟩
            · split at h
              · cases h; exact ⟨rfl, rfl⟩
              · exact ih record sub h
        · exact ih record sub h

theorem loadLeasingReward_loop_amounts (P : Params) (wallet : CWallet) :
    ∀ (outs : List CTxOut) (record : TransactionRecord),
      (loadLeasingReward_loop P wallet record outs).credit = record.credit ∧
      (loadLeasingReward_loop P wallet record outs).debit = record.debit := by
  intro outs
  induction outs with
  | nil => intro record; exact ⟨rfl, rfl⟩
  | cons o os ih =>
    intro record
    unfold loadLeasingReward_loop
    split
    · exact ⟨rfl, rfl⟩
    · exact ih record

/-- The category the credit branch gives the record of an owned output. -/
theorem creditStep_owned (P : Params) (wallet : CWallet) (wtx : CWalletTx)
    (parts : List TransactionRecord) (txout : CTxOut) (h : wallet.IsMineOut txout ≠ 0) :
    ∃ r, creditStep P wallet wtx parts txout = parts ++ [r] ∧ r.credit = txout.nValue ∧
      r.idx = parts.length ∧ r.debit = 0 ∧
      r.type =
        (if wtx.IsCoinBase then RecordType.Generated
         else if receivedByAddress wallet txout then RecordType.RecvWithAddress
         else RecordType.RecvFromOther) := by
  unfold creditStep receivedByAddress
  simp only [h, ne_eq, not_false_eq_true, if_true]
  refine ⟨_, rfl, ?_, ?_, ?_, ?_⟩
  · split <;> split <;> rfl
  · split <;> split <;> rfl
  · split <;> split <;> rfl
  · cases hx : ExtractDestination txout.scriptPubKey with
    | none => by_cases hc : wtx.IsCoinBase = true <;> simp [hc]
    | some address =>
      by_cases hc : wtx.IsCoinBase = true <;> by_cases hm : wallet.IsMineDest address = 0 <;>
        simp [hc, hm]

/-- The loop of the credit branch, as a whole: it appends one record per owned output, in
output order, with the credit and the category of its output and the next free sub-index. -/
theorem credit_foldl (P : Params) (wallet : CWallet) (wtx : CWalletTx) :
    ∀ (outs : List CTxOut) (parts : List TransactionRecord),
      ∃ recs : List TransactionRecord,
        outs.foldl (creditStep P wallet wtx) parts = parts ++ recs ∧
        List.Forall₂
          (fun r o => r.credit = o.nValue ∧ r.debit = 0 ∧
            r.type =
              (if wtx.IsCoinBase then RecordType.Generated
               else if receivedByAddress wallet o then RecordType.RecvWithAddress
               else RecordType.RecvFromOther))
          recs (outs.filter (fun o => decide (wallet.IsMineOut o ≠ 0))) ∧
        recs.map (fun r => r.idx) =
          List.range' parts.length
            (outs.filter (fun o => decide (wallet.IsMineOut o ≠ 0))).length := by
  intro outs
  induction outs with
  | nil => intro parts; exact ⟨[], by simp, by simp, by simp⟩
  | cons o os ih =>
    intro parts
    rw [List.foldl_cons]
    by_cases hm : wallet.IsMineOut o ≠ 0
    · obtain ⟨r, hstep, hc, hidx, hd, hty⟩ := creditStep_owned P wallet wtx parts o hm
      rw [hstep, List.filter_cons_of_pos (by simpa using hm)]
      obtain ⟨recs, h1, h2, h3⟩ := ih (parts ++ [r])
      refine ⟨r :: recs, ?_, List.Forall₂.cons ⟨hc, hd, hty⟩ h2, ?_⟩
      · rw [h1]; simp
      · rw [List.map_cons, h3]
        simp [List.range'_succ, hidx]
    · have hstep : creditStep P wallet wtx parts o = parts := by
        unfold creditStep
        simp only [hm, if_false]
      rw [hstep, List.filter_cons_of_neg (by simpa using hm)]
      exact ih parts

theorem decomposeTransaction_of_reachesCredit (P : Params) (wallet : CWallet) (wtx : CWalletTx)
    (h : reachesCredit P wtx) :
    decomposeTransaction P wallet wtx = some (decomposeCredit P wallet wtx) := by
  obtain ⟨h1, h2, h3, h4, h5, h6, h7, h8⟩ := h
  simp only [decomposeTransaction, zSpendFromMe_of_no_spend wallet wtx h2]
  simp only [h1, h2, h3, h4, h5, h6, h7, Bool.false_eq_true, if_false]
  rw [if_pos h8]

/-- The credit loop of the privacy-coin stake reward sums the values of the mint outputs. -/
theorem zerocoinMintCredit_eq_sum (vout : List CTxOut) :
    zerocoinMintCredit vout =
      ((vout.filter (fun out => out.IsZerocoinMint)).map (fun out => out.nValue)).sum := by
  unfold zerocoinMintCredit
  have key : ∀ (outs : List CTxOut) (acc : CAmount),
      outs.foldl (fun credit out => if out.IsZerocoinMint then credit + out.nValue else credit)
        acc =
      acc + ((outs.filter (fun out => out.IsZerocoinMint)).map (fun out => out.nValue)).sum := by
    intro outs
    induction outs with
    | nil => intro acc; simp
    | cons o os ih =>
      intro acc
      rw [List.foldl_cons, ih]
      by_cases hz : o.IsZerocoinMint = true
      · simp [hz, add_assoc]
      · simp [hz]
  rw [key vout 0, zero_add]

/-! ## The privacy-coin spend branch -/

/-- A correspondence can be weakened using that the second item is in the second list. -/
theorem forall2_imp_of_mem {α β : Type} {R S : α → β → Prop} {l₁ : List α} {l₂ : List β}
    (h : List.Forall₂ R l₁ l₂) (himp : ∀ a b, b ∈ l₂ → R a b → S a b) :
    List.Forall₂ S l₁ l₂ := by
  induction h with
  | nil => exact List.Forall₂.nil
  | cons hab _ ih =>
    exact List.Forall₂.cons (himp _ _ (List.mem_cons_self _ _) hab)
      (ih (fun a b hb hr => himp a b (List.mem_cons_of_mem _ hb) hr))

theorem zerocoinSpendStep_of_not_kept (P : Params) (wallet : CWallet) (wtx : CWalletTx)
    (fz : Bool) (st : List TransactionRecord × Bool) (txout : CTxOut)
    (h : zSpendKept wallet fz txout = false) :
    zerocoinSpendStep P wallet wtx fz st txout = st := by
  unfold zSpendKept at h
  unfold zerocoinSpendStep
  by_cases hz : txout.IsZerocoinMint = true
  · simp only [hz, if_true] at h
    simp [hz, h]
  · simp only [hz, Bool.false_eq_true, if_false, Bool.or_eq_false_iff, decide_eq_false_iff_not,
      ne_eq, not_not] at h
    simp [hz, h.1, h.2]

theorem zerocoinSpendStep_of_kept (P : Params) (wallet : CWallet) (wtx : CWalletTx)
    (fz : Bool) (st : List TransactionRecord × Bool) (txout : CTxOut)
    (h : zSpendKept wallet fz txout = true) :
    ∃ r, zerocoinSpendStep P wallet wtx fz st txout =
        (st.1 ++ [r], st.2 || txout.IsZerocoinMint) ∧
      r.type = zSpendType wallet fz txout ∧ r.idx = st.1.length ∧
      r.debit =
        (if txout.IsZerocoinMint then
          (if st.2 then 0 else 0 - (wtx.GetZerocoinSpent - wtx.GetValueOut))
         else if wallet.IsMineOut txout ≠ 0 then 0 else -txout.nValue) ∧
      r.credit =
        (if txout.IsZerocoinMint = false ∧ wallet.IsMineOut txout ≠ 0 ∧ fz = false then
          txout.nValue else 0) := by
  unfold zSpendKept at h
  unfold zerocoinSpendStep zSpendType
  by_cases hz : txout.IsZerocoinMint = true
  · simp only [hz, if_true] at h
    subst h
    cases hf : st.2 <;> simp [hz, hf, TransactionRecord.init]
  · simp only [hz, Bool.false_eq_true, if_false, Bool.or_eq_true, decide_eq_true_eq] at h
    simp only [Bool.not_eq_true] at hz
    by_cases hm : wallet.IsMineOut txout = 0
    · have hfz : fz = true := by
        rcases h with h | h
        · exact absurd hm h
        · exact h
      subst hfz
      simp [hz, hm, TransactionRecord.init]
    · cases fz <;> simp [hz, hm, TransactionRecord.init]

theorem feeOnce_assigned (fee : CAmount) (n : Nat) : feeOnce fee true n = List.replicate n 0 := by
  cases n with
  | zero => rfl
  | succ k => simp [feeOnce, List.replicate_succ]

/-- The loop of the privacy-coin spend branch, as a whole: it appends one record per kept
output, in output order, with the category of its output and the next free sub-index; a record
that is not re-minted change has debit zero (owned output) or minus the value of its output;
among the records of re-minted change the fee is subtracted from the first unless it was
assigned before, and the others have debit zero. -/
theorem zerocoinSpend_foldl (P : Params) (wallet : CWallet) (wtx : CWalletTx) (fz : Bool) :
    ∀ (outs : List CTxOut) (st : List TransactionRecord × Bool),
      ∃ recs : List TransactionRecord,
        (outs.foldl (zerocoinSpendStep P wallet wtx fz) st).1 = st.1 ++ recs ∧
        List.Forall₂
          (fun r o => r.type = zSpendType wallet fz o ∧
            (o.IsZerocoinMint = false →
              r.debit = (if wallet.IsMineOut o ≠ 0 then 0 else -o.nValue)) ∧
            r.credit =
              (if o.IsZerocoinMint = false ∧ wallet.IsMineOut o ≠ 0 ∧ fz = false then
                o.nValue else 0))
          recs (outs.filter (zSpendKept wallet fz)) ∧
        (recs.filter isChangeRecord).map (fun r => r.debit) =
          feeOnce (wtx.GetZerocoinSpent - wtx.GetValueOut) st.2
            (recs.filter isChangeRecord).length ∧
        recs.map (fun r => r.idx) =
          List.range' st.1.length (outs.filter (zSpendKept wallet fz)).length := by
  intro outs
  induction outs with
  | nil => intro st; exact ⟨[], by simp, by simp, by simp [feeOnce], by simp⟩
  | cons o os ih =>
    intro st
    rw [List.foldl_cons]
    cases hk : zSpendKept wallet fz o with
    | false =>
      rw [zerocoinSpendStep_of_not_kept P wallet wtx fz st o hk,
        List.filter_cons_of_neg (by simp [hk])]
      exact ih st
    | true =>
      obtain ⟨r, hstep, hty, hidx, hdebit, hcredit⟩ :=
        zerocoinSpendStep_of_kept P wallet wtx fz st o hk
      rw [hstep, List.filter_cons_of_pos (by simp [hk])]
      obtain ⟨recs, h1, h2, h3, h4⟩ := ih (st.1 ++ [r], st.2 || o.IsZerocoinMint)
      dsimp only at h1 h3 h4
      refine ⟨r :: recs, ?_, ?_, ?_, ?_⟩
      · rw [h1]; simp
      · refine List.Forall₂.cons ⟨hty, ?_, hcredit⟩ h2
        intro hz
        rw [hdebit]
        simp [hz]
      · by_cases hz : o.IsZerocoinMint = true
        · have hch : isChangeRecord r = true := by
            simp [isChangeRecord, hty, zSpendType, hz]
          have h3' : (recs.filter isChangeRecord).map (fun r => r.debit) =
              List.replicate (recs.filter isChangeRecord).length 0 := by
            rw [h3, hz, Bool.or_true]
            exact feeOnce_assigned _ _
          rw [List.filter_cons_of_pos hch, List.map_cons, List.length_cons, h3', hdebit,
            if_pos hz]
          rfl
        · have hch : ¬ isChangeRecord r = true := by
            simp only [Bool.not_eq_true] at hz
            simp only [isChangeRecord, hty, zSpendType, hz, Bool.false_eq_true, if_false]
            split
            · split <;> simp
            · simp
          simp only [Bool.not_eq_true] at hz
          rw [List.filter_cons_of_neg hch, h3]
          simp [hz]
      · rw [List.map_cons, h4]
        simp [List.range'_succ, hidx]

/-- The privacy-coin spend branch is taken by an entry that is no stake reward and has
privacy-coin spend inputs; the flag `fZSpendFromMe` is the wallet's answer on `vin[0]`. -/
theorem decomposeTransaction_of_zerocoinSpend (P : Params) (wallet : CWallet) (wtx : CWalletTx)
    (hstake : wtx.IsCoinStake = false) (hspend : wtx.HasZerocoinSpendInputs = true)
    (txin : CTxIn) (rest : List CTxIn) (hvin : wtx.vin = txin :: rest) :
    decomposeTransaction P wallet wtx =
      some (decomposeZerocoinSpend P wallet wtx (wallet.IsMyZerocoinSpend txin)) := by
  have hz : zSpendFromMe wallet wtx = some (wallet.IsMyZerocoinSpend txin) := by
    simp [zSpendFromMe, hspend, hvin]
  simp only [decomposeTransaction, hz]
  simp [hstake, hspend]

theorem decomposeZerocoinSpend_spec (P : Params) (wallet : CWallet) (wtx : CWalletTx)
    (fz : Bool) :
    List.Forall₂
      (fun r o => r.type = zSpendType wallet fz o ∧
        (o.IsZerocoinMint = false →
          r.debit = (if wallet.IsMineOut o ≠ 0 then 0 else -o.nValue)) ∧
        r.credit =
          (if o.IsZerocoinMint = false ∧ wallet.IsMineOut o ≠ 0 ∧ fz = false then
            o.nValue else 0))
      (decomposeZerocoinSpend P wallet wtx fz) (wtx.vout.filter (zSpendKept wallet fz)) ∧
    ((decomposeZerocoinSpend P wallet wtx fz).filter isChangeRecord).map (fun r => r.debit) =
      feeOnce (wtx.GetZerocoinSpent - wtx.GetValueOut) false
        ((decomposeZerocoinSpend P wallet wtx fz).filter isChangeRecord).length ∧
    (decomposeZerocoinSpend P wallet wtx fz).map (fun r => r.idx) =
      List.range' 0 (wtx.vout.filter (zSpendKept wallet fz)).length := by
  obtain ⟨recs, h1, h2, h3, h4⟩ := zerocoinSpend_foldl P wallet wtx fz wtx.vout ([], false)
  have hrecs : decomposeZerocoinSpend P wallet wtx fz = recs := by
    simpa [decomposeZerocoinSpend] using h1
  rw [hrecs]
  exact ⟨h2, h3, by simpa using h4⟩

/-- The loop of the sent branch again, now with the credit: the record of a kept output has
the category of the output, and its credit is the value of the output when the output is a
privacy-coin mint without extractable destination, and zero otherwise. -/
theorem sent_foldl_credit (wallet : CWallet) (wtx : CWalletTx) (iw : Bool) :
    ∀ (outs : List CTxOut) (st : List TransactionRecord × CAmount),
      ∃ recs : List TransactionRecord,
        (outs.foldl (sentStep wallet wtx iw) st).1 = st.1 ++ recs ∧
        List.Forall₂
          (fun r o => r.type = sentType wtx o ∧
            r.credit =
              (if (ExtractDestination o.scriptPubKey).isSome = false ∧ o.IsZerocoinMint = true
                then o.nValue else 0))
          recs (outs.filter (sentKept wallet wtx)) := by
  intro outs
  induction outs with
  | nil => intro st; exact ⟨[], by simp, by simp⟩
  | cons o os ih =>
    intro st
    rw [List.foldl_cons]
    cases hk : sentKept wallet wtx o with
    | false =>
      have hstep : sentStep wallet wtx iw st o = st := by
        simp [sentStep, sentLabel_of_not_kept wallet wtx _ o hk]
      rw [hstep, List.filter_cons_of_neg (by simp [hk])]
      exact ih st
    | true =>
      obtain ⟨r, hr, hty, -, -, -, -, -, hcredit⟩ :=
        sentLabel_of_kept wallet wtx
          { TransactionRecord.init wtx.GetHash wtx.GetComputedTxTime wtx.GetTotalSize with
            idx := st.1.length, involvesWatchAddress := iw } o hk
      have hstep : sentStep wallet wtx iw st o =
          (st.1 ++ [{ r with debit := -(if st.2 > 0 then o.nValue + st.2 else o.nValue) }],
            if st.2 > 0 then 0 else st.2) := by
        simp only [sentStep, hr]
      rw [hstep, List.filter_cons_of_pos (by simp [hk])]
      obtain ⟨recs, h1, h2⟩ := ih
        (st.1 ++ [{ r with debit := -(if st.2 > 0 then o.nValue + st.2 else o.nValue) }],
          if st.2 > 0 then 0 else st.2)
      dsimp only at h1
      refine ⟨{ r with debit := -(if st.2 > 0 then o.nValue + st.2 else o.nValue) } :: recs,
        ?_, List.Forall₂.cons ⟨hty, ?_⟩ h2⟩
      · rw [h1]; simp
      · show r.credit = _
        rw [hcredit]
        simp [TransactionRecord.init]

theorem decomposeSent_credit (P : Params) (wallet : CWallet) (wtx : CWalletTx) (iw : Bool) :
    List.Forall₂
      (fun r o => r.type = sentType wtx o ∧
        r.credit =
          (if (ExtractDestination o.scriptPubKey).isSome = false ∧ o.IsZerocoinMint = true
            then o.nValue else 0))
      (decomposeSent P wallet wtx iw) (sentOutputs wallet wtx) := by
  obtain ⟨recs, h1, h2⟩ :=
    sent_foldl_credit wallet wtx iw wtx.vout ([], wtx.GetDebit P.ISMINE_ALL - wtx.GetValueOut)
  have hrecs : decomposeSent P wallet wtx iw = recs := by
    simpa [decomposeSent] using h1
  rw [hrecs]
  exact h2

/-! ## The delegation-unlock helper -/

/-- The search of `loadUnlockColdStake` passes over inputs whose originating entry is unknown
or whose originating output is no cold-staking output, and stops at the first input whose
originating output is a locally-known cold-staking output. -/
theorem findP2CSInput_first (P : Params) (wallet : CWallet) (input : CTxIn)
    (post : List CTxIn) (tx : CWalletTx) (prev : CTxOut)
    (htx : wallet.GetWalletTx input.prevout.hash = some tx)
    (hprev : tx.vout[input.prevout.n]? = some prev)
    (hcold : prev.scriptPubKey.IsPayToColdStaking = true) :
    ∀ (pre : List CTxIn),
      (∀ i ∈ pre, wallet.GetWalletTx i.prevout.hash = none ∨
        ∃ t p, wallet.GetWalletTx i.prevout.hash = some t ∧ t.vout[i.prevout.n]? = some p ∧
          p.scriptPubKey.IsPayToColdStaking = false) →
      findP2CSInput P wallet (pre ++ input :: post) =
        some (some (prev.scriptPubKey,
          (wallet.IsMineIn input &&& P.ISMINE_SPENDABLE_ALL) != 0)) := by
  intro pre
  induction pre with
  | nil =>
    intro _
    simp [findP2CSInput, htx, hprev, hcold]
  | cons i is ih =>
    intro hpre
    have hrest := ih (fun j hj => hpre j (List.mem_cons_of_mem _ hj))
    rcases hpre i (List.mem_cons_self _ _) with hnone | ⟨t, p, ht, hp, hc⟩
    · simp [findP2CSInput, hnone, hrest]
    · simp [findP2CSInput, ht, hp, hc, hrest]

theorem loadUnlockColdStake_of_found (P : Params) (wallet : CWallet) (wtx : CWalletTx)
    (record : TransactionRecord) (script : CScript) (spendable : Bool)
    (h : findP2CSInput P wallet wtx.vin = some (some (script, spendable))) :
    ∃ sub, loadUnlockColdStake P wallet wtx record = some sub ∧
      sub.type =
        (if spendable then RecordType.P2CSUnlockOwner else RecordType.P2CSUnlockStaker) := by
  unfold loadUnlockColdStake
  simp only [h]
  cases spendable
  · exact ⟨_, rfl, rfl⟩
  · exact ⟨_, rfl, rfl⟩

/-! ## The leasing-contract helper -/

theorem loadP2L_loop_of_undecided (P : Params) (wallet : CWallet) (wtx : CWalletTx)
    (record : TransactionRecord) :
    ∀ (outs : List CTxOut), (∀ o ∈ outs, leaseDecides P wallet o = false) →
      loadP2L_loop P wallet wtx record outs = record := by
  intro outs
  induction outs with
  | nil => intro _; rfl
  | cons o os ih =>
    intro h
    have ho := h o (List.mem_cons_self _ _)
    have hrest := ih (fun x hx => h x (List.mem_cons_of_mem _ hx))
    unfold leaseDecides at ho
    unfold loadP2L_loop
    by_cases hl : o.scriptPubKey.IsPayToLeasing = true
    · simp only [hl, Bool.true_and, Bool.or_eq_false_iff, decide_eq_false_iff_not] at ho
      simp only [hl, if_true, ho.1.1, ho.1.2, ho.2, if_false]
      exact hrest
    · simp only [hl, Bool.false_eq_true, if_false]
      exact hrest

theorem loadP2L_loop_of_decided (P : Params) (wallet : CWallet) (wtx : CWalletTx)
    (record : TransactionRecord) :
    ∀ (outs : List CTxOut), (∃ o ∈ outs, leaseDecides P wallet o = true) →
      (loadP2L_loop P wallet wtx record outs).type = RecordType.P2LLeasingSentToSelf ∨
      (loadP2L_loop P wallet wtx record outs).type = RecordType.P2LLeasingSent ∨
      (loadP2L_loop P wallet wtx record outs).type = RecordType.P2LLeasingRecv := by
  intro outs
  induction outs with
  | nil => rintro ⟨o, ho, -⟩; exact absurd ho (List.not_mem_nil _)
  | cons o os ih =>
    rintro ⟨x, hx, hdec⟩
    unfold loadP2L_loop
    dsimp only
    by_cases hd : leaseDecides P wallet o = true
    · unfold leaseDecides at hd
      simp only [Bool.and_eq_true, Bool.or_eq_true, decide_eq_true_eq] at hd
      simp only [hd.1, if_true]
      split
      · exact Or.inl rfl
      · split
        · exact Or.inr (Or.inl rfl)
        · split
          · exact Or.inr (Or.inr rfl)
          · rename_i h1 h2 h3
            rcases hd.2 with (h | h) | h
            · exact absurd h h1
            · exact absurd h h2
            · exact absurd h h3
    · have hxs : ∃ o ∈ os, leaseDecides P wallet o = true := by
        rcases List.mem_cons.mp hx with rfl | hmem
        · exact absurd hdec hd
        · exact ⟨x, hmem, hdec⟩
      have hrest := ih hxs
      unfold leaseDecides at hd
      by_cases hl : o.scriptPubKey.IsPayToLeasing = true
      · simp only [hl, Bool.true_and, Bool.or_eq_true, decide_eq_true_eq, not_or] at hd
        simp only [hl, if_true, hd.1.1, hd.1.2, hd.2, if_false]
        exact hrest
      · simp only [hl, Bool.false_eq_true, if_false]
        exact hrest

/-! ## The result depends on the oracles only through their answers about the entry -/

theorem mapValue_index_fst (mapValue : mapValue_t) (key : String) :
    (mapValue.index key).1 = mapValue.at key := by
  unfold mapValue_t.index mapValue_t.at
  cases List.lookup key mapValue <;> rfl

theorem mapValue_index_snd_at (mapValue : mapValue_t) (key k : String) :
    (mapValue.index key).2.at k = mapValue.at k := by
  unfold mapValue_t.index
  cases h : List.lookup key mapValue with
  | some text => rfl
  | none =>
    show (mapValue ++ [(key, "")]).at k = mapValue.at k
    unfold mapValue_t.at
    rw [List.lookup_append]
    cases hk : List.lookup k mapValue with
    | some text => rfl
    | none =>
      by_cases hkey : k = key
      · subst hkey; simp [List.lookup]
      · have : (k == key) = false := by simpa using hkey
        simp [List.lookup, this]

theorem firstP2CSUtxo_mem (wtx : CWalletTx) :
    firstP2CSUtxo wtx ∈ wtx.vout ∨ firstP2CSUtxo wtx = CTxOut.null := by
  unfold firstP2CSUtxo
  cases h : wtx.vout.find? (fun txout => txout.scriptPubKey.IsPayToColdStaking) with
  | none => exact Or.inr rfl
  | some o => exact Or.inl (List.mem_of_find?_eq_some h)

theorem loadHotOrColdStakeOrContract_congr (P : Params) (w₁ w₂ : CWallet) (wtx : CWalletTx)
    (h : oraclesAgree w₁ w₂ wtx) (record : TransactionRecord) (isContract : Bool) :
    loadHotOrColdStakeOrContract P w₁ wtx record isContract =
      loadHotOrColdStakeOrContract P w₂ wtx record isContract := by
  obtain ⟨hout, hnull, -, -, -, -, -, -, -, -, -, hfrom⟩ := h
  have hutxo : w₁.IsMineOut (firstP2CSUtxo wtx) = w₂.IsMineOut (firstP2CSUtxo wtx) := by
    rcases firstP2CSUtxo_mem wtx with hm | hn
    · exact hout _ hm
    · rw [hn]; exact hnull
  unfold loadHotOrColdStakeOrContract
  dsimp only
  rw [hutxo, hfrom]

theorem findP2CSInput_congr (P : Params) (w₁ w₂ : CWallet) :
    ∀ (ins : List CTxIn),
      (∀ i ∈ ins, w₁.IsMineIn i = w₂.IsMineIn i) →
      (∀ i ∈ ins, w₁.GetWalletTx i.prevout.hash = w₂.GetWalletTx i.prevout.hash) →
      findP2CSInput P w₁ ins = findP2CSInput P w₂ ins := by
  intro ins
  induction ins with
  | nil => intro _ _; rfl
  | cons i is ih =>
    intro hin htx
    have hrest := ih (fun j hj => hin j (List.mem_cons_of_mem _ hj))
      (fun j hj => htx j (List.mem_cons_of_mem _ hj))
    unfold findP2CSInput
    rw [← htx i (List.mem_cons_self _ _), ← hin i (List.mem_cons_self _ _), hrest]

theorem loadUnlockColdStake_congr (P : Params) (w₁ w₂ : CWallet) (wtx : CWalletTx)
    (h : oraclesAgree w₁ w₂ wtx) (record : TransactionRecord) :
    loadUnlockColdStake P w₁ wtx record = loadUnlockColdStake P w₂ wtx record := by
  obtain ⟨-, -, hin, -, -, -, -, -, -, htx, -, -⟩ := h
  unfold loadUnlockColdStake
  rw [findP2CSInput_congr P w₁ w₂ wtx.vin hin htx]

theorem loadP2L_loop_congr (P : Params) (w₁ w₂ : CWallet) (wtx : CWalletTx) :
    ∀ (outs : List CTxOut) (record : TransactionRecord),
      (∀ o ∈ outs, w₁.IsMineOut o = w₂.IsMineOut o) →
      loadP2L_loop P w₁ wtx record outs = loadP2L_loop P w₂ wtx record outs := by
  intro outs
  induction outs with
  | nil => intro _ _; rfl
  | cons o os ih =>
    intro record hout
    have hrest := ih record (fun x hx => hout x (List.mem_cons_of_mem _ hx))
    unfold loadP2L_loop
    rw [← hout o (List.mem_cons_self _ _), hrest]

theorem loadLeasingSpend_loop_congr (P : Params) (w₁ w₂ : CWallet) :
    ∀ (ins : List CTxIn) (record : TransactionRecord),
      (∀ i ∈ ins, w₁.GetWalletTx i.prevout.hash = w₂.GetWalletTx i.prevout.hash) →
      (∀ i ∈ ins, ∀ tx prev, w₁.GetWalletTx i.prevout.hash = some tx →
        tx.vout[i.prevout.n]? = some prev → w₁.IsMineOut prev = w₂.IsMineOut prev) →
      loadLeasingSpend_loop P w₁ record ins = loadLeasingSpend_loop P w₂ record ins := by
  intro ins
  induction ins with
  | nil => intro _ _ _; rfl
  | cons i is ih =>
    intro record htx hprev
    have hrest := ih record (fun j hj => htx j (List.mem_cons_of_mem _ hj))
      (fun j hj => hprev j (List.mem_cons_of_mem _ hj))
    have hi := htx i (List.mem_cons_self _ _)
    unfold loadLeasingSpend_loop
    rw [← hi]
    cases hw : w₁.GetWalletTx i.prevout.hash with
    | none => exact hrest
    | some tx =>
      dsimp only
      cases hp : tx.vout[i.prevout.n]? with
      | none => rfl
      | some prev =>
        dsimp only
        rw [← hprev i (List.mem_cons_self _ _) tx prev hw hp, hrest]

theorem loadLeasingReward_loop_congr (P : Params) (w₁ w₂ : CWallet) :
    ∀ (outs : List CTxOut) (record : TransactionRecord),
      (∀ o ∈ outs, w₁.IsMineOut o = w₂.IsMineOut o) →
      loadLeasingReward_loop P w₁ record outs = loadLeasingReward_loop P w₂ record outs := by
  intro outs
  induction outs with
  | nil => intro _ _; rfl
  | cons o os ih =>
    intro record hout
    have hrest := ih record (fun x hx => hout x (List.mem_cons_of_mem _ hx))
    unfold loadLeasingReward_loop
    rw [← hout o (List.mem_cons_self _ _), hrest]

theorem decomposeCoinStake_congr (P : Params) (w₁ w₂ : CWallet) (wtx : CWalletTx)
    (h : oraclesAgree w₁ w₂ wtx) (fz : Bool) :
    decomposeCoinStake P w₁ wtx fz = decomposeCoinStake P w₂ wtx fz := by
  have hload := loadHotOrColdStakeOrContract_congr P w₁ w₂ wtx h
  obtain ⟨hout, -, -, hdest, -, -, -, -, hmint, -, -, -⟩ := h
  unfold decomposeCoinStake
  simp only [hmint, hload]
  split
  · rfl
  · rfl
  · split
    · rfl
    · cases h1 : wtx.vout[1]? with
      | none => rfl
      | some txout =>
        dsimp only
        rw [hout txout (List.getElem?_mem h1)]
        split
        · rfl
        · cases hl : wtx.vout[wtx.vout.length - 1]? with
          | none => rfl
          | some txoutMN =>
            dsimp only
            have hm := List.getElem?_mem hl
            rw [hout txoutMN hm]
            cases hx : ExtractDestination txoutMN.scriptPubKey with
            | none => rfl
            | some destMN =>
              dsimp only
              rw [hdest txoutMN hm destMN hx]

theorem decomposeZerocoinSpend_congr (P : Params) (w₁ w₂ : CWallet) (wtx : CWalletTx)
    (h : oraclesAgree w₁ w₂ wtx) (fz : Bool) :
    decomposeZerocoinSpend P w₁ wtx fz = decomposeZerocoinSpend P w₂ wtx fz := by
  unfold decomposeZerocoinSpend
  congr 1
  apply List.foldl_ext
  intro st o ho
  unfold zerocoinSpendStep
  rw [h.1 o ho]

theorem decomposeCredit_congr (P : Params) (w₁ w₂ : CWallet) (wtx : CWalletTx)
    (h : oraclesAgree w₁ w₂ wtx) :
    decomposeCredit P w₁ wtx = decomposeCredit P w₂ wtx := by
  unfold decomposeCredit
  apply List.foldl_ext
  intro st o ho
  unfold creditStep
  rw [h.1 o ho]
  cases hx : ExtractDestination o.scriptPubKey with
  | none => rfl
  | some address =>
    dsimp only
    rw [h.2.2.2.1 o ho address hx]

theorem scanFromMe_congr (P : Params) (w₁ w₂ : CWallet) (wtx : CWalletTx)
    (h : oraclesAgree w₁ w₂ wtx) : scanFromMe P w₁ wtx = scanFromMe P w₂ wtx := by
  unfold scanFromMe
  apply List.foldl_ext
  intro st i hi
  unfold fromMeStep
  rw [h.2.2.1 i hi, h.2.2.2.2.1 i hi]

theorem scanToMe_congr (P : Params) (w₁ w₂ : CWallet) (wtx : CWalletTx)
    (h : oraclesAgree w₁ w₂ wtx) (iw : Bool) :
    scanToMe P w₁ wtx iw = scanToMe P w₂ wtx iw := by
  unfold scanToMe
  apply List.foldl_ext
  intro st o ho
  unfold toMeStep
  rw [h.1 o ho, h.2.2.2.2.2.1 o ho]

theorem decomposeSelf_congr (P : Params) (w₁ w₂ : CWallet) (wtx : CWalletTx)
    (h : oraclesAgree w₁ w₂ wtx) (iw : Bool) :
    decomposeSelf P w₁ wtx iw = decomposeSelf P w₂ wtx iw := by
  have hfold : ∀ t, wtx.vout.foldl (selfLabelStep P w₁ wtx) t =
      wtx.vout.foldl (selfLabelStep P w₂ wtx) t := by
    intro t
    apply List.foldl_ext
    intro st o ho
    unfold selfLabelStep
    rw [h.2.2.2.2.2.1 o ho, h.2.2.2.2.2.2.1 o ho]
  unfold decomposeSelf
  simp only [hfold]

theorem decomposeSent_congr (P : Params) (w₁ w₂ : CWallet) (wtx : CWalletTx)
    (h : oraclesAgree w₁ w₂ wtx) (iw : Bool) :
    decomposeSent P w₁ wtx iw = decomposeSent P w₂ wtx iw := by
  unfold decomposeSent
  dsimp only
  congr 1
  apply List.foldl_ext
  intro st o ho
  unfold sentStep sentLabel
  rw [h.1 o ho]

theorem decomposeDebit_congr (P : Params) (w₁ w₂ : CWallet) (wtx : CWalletTx)
    (h : oraclesAgree w₁ w₂ wtx) :
    decomposeDebit P w₁ wtx = decomposeDebit P w₂ wtx := by
  unfold decomposeDebit
  simp only [scanFromMe_congr P w₁ w₂ wtx h, scanToMe_congr P w₁ w₂ wtx h,
    decomposeSelf_congr P w₁ w₂ wtx h, decomposeSent_congr P w₁ w₂ wtx h]

theorem zSpendFromMe_congr (w₁ w₂ : CWallet) (wtx : CWalletTx)
    (h : oraclesAgree w₁ w₂ wtx) : zSpendFromMe w₁ wtx = zSpendFromMe w₂ wtx := by
  unfold zSpendFromMe
  cases h0 : wtx.vin[0]? with
  | none => rfl
  | some txin =>
    dsimp only
    rw [h.2.2.2.2.2.2.2.1 txin (List.getElem?_mem h0)]

theorem loadP2L_congr (P : Params) (w₁ w₂ : CWallet) (wtx : CWalletTx)
    (h : oraclesAgree w₁ w₂ wtx) (record : TransactionRecord) :
    loadP2L P w₁ wtx record = loadP2L P w₂ wtx record := by
  unfold loadP2L
  rw [loadP2L_loop_congr P w₁ w₂ wtx wtx.vout _ h.1]

theorem loadLeasingSpend_congr (P : Params) (w₁ w₂ : CWallet) (wtx : CWalletTx)
    (h : oraclesAgree w₁ w₂ wtx) (record : TransactionRecord) :
    loadLeasingSpend P w₁ wtx record = loadLeasingSpend P w₂ wtx record := by
  unfold loadLeasingSpend
  rw [loadLeasingSpend_loop_congr P w₁ w₂ wtx.vin _ h.2.2.2.2.2.2.2.2.2.1
    h.2.2.2.2.2.2.2.2.2.2.1]

theorem loadLeasingReward_congr (P : Params) (w₁ w₂ : CWallet) (wtx : CWalletTx)
    (h : oraclesAgree w₁ w₂ wtx) (record : TransactionRecord) :
    loadLeasingReward P w₁ wtx record = loadLeasingReward P w₂ wtx record := by
  unfold loadLeasingReward
  rw [loadLeasingReward_loop_congr P w₁ w₂ wtx.vout _ h.1]

theorem decomposeTransaction_congr (P : Params) (w₁ w₂ : CWallet) (wtx : CWalletTx)
    (h : oraclesAgree w₁ w₂ wtx) :
    decomposeTransaction P w₁ wtx = decomposeTransaction P w₂ wtx := by
  unfold decomposeTransaction
  simp only [zSpendFromMe_congr w₁ w₂ wtx h, decomposeCoinStake_congr P w₁ w₂ wtx h,
    decomposeZerocoinSpend_congr P w₁ w₂ wtx h, loadHotOrColdStakeOrContract_congr P w₁ w₂ wtx h,
    loadUnlockColdStake_congr P w₁ w₂ wtx h, loadP2L_congr P w₁ w₂ wtx h,
    loadLeasingSpend_congr P w₁ w₂ wtx h, loadLeasingReward_congr P w₁ w₂ wtx h,
    decomposeCredit_congr P w₁ w₂ wtx h, decomposeDebit_congr P w₁ w₂ wtx h]

/-! ## The classifier as a program: its value and its run -/

theorem Prog.value_bind {α β : Type} (wtx : CWalletTx) (p : Prog α) (f : α → Prog β) :
    (p.bind f).value wtx = (f (p.value wtx)).value wtx := by
  induction p with
  | ret a => rfl
  | index key next ih => exact ih _
  | ask q next ih => exact ih _
  | test q next ih => exact ih _

theorem Prog.value_bind' {α β : Type} (wtx : CWalletTx) (p : Prog α) (f : α → Prog β) :
    (p >>= f).value wtx = (f (p.value wtx)).value wtx :=
  Prog.value_bind wtx p f

theorem Prog.value_pure {α : Type} (wtx : CWalletTx) (a : α) :
    (pure a : Prog α).value wtx = a := rfl

theorem Prog.value_ite {α : Type} (wtx : CWalletTx) (c : Prop) [Decidable c] (p q : Prog α) :
    (if c then p else q).value wtx = if c then p.value wtx else q.value wtx := by
  split <;> rfl

theorem Prog.value_subscript (wtx : CWalletTx) (key : String) :
    (subscript key).value wtx = wtx.mapValue.at key := rfl

theorem Prog.value_call (wtx : CWalletTx) (q : EntryQuery) :
    (call q).value wtx = wtx.answer q := rfl

theorem Prog.value_callTest (wtx : CWalletTx) (q : EntryTest) :
    (callTest q).value wtx = wtx.flag q := rfl

/-- The value of a loop of programs is the loop of the values of its turns. -/
theorem Prog.value_foldlM {σ α : Type} (wtx : CWalletTx) (step : σ → α → Prog σ)
    (pureStep : σ → α → σ) (h : ∀ st x, (step st x).value wtx = pureStep st x) :
    ∀ (xs : List α) (init : σ), (xs.foldlM step init).value wtx = xs.foldl pureStep init := by
  intro xs
  induction xs with
  | nil => intro init; rfl
  | cons x xs ih =>
    intro init
    rw [List.foldlM_cons, Prog.value_bind', h, ih, List.foldl_cons]

theorem loadHotOrColdStakeOrContractProg_value (P : Params) (wallet : CWallet) (wtx : CWalletTx)
    (record : TransactionRecord) (isContract : Bool) :
    (loadHotOrColdStakeOrContractProg P wallet wtx record isContract).value wtx =
      loadHotOrColdStakeOrContract P wallet wtx record isContract := by
  unfold loadHotOrColdStakeOrContractProg loadHotOrColdStakeOrContract
  dsimp only
  split_ifs <;> rfl

theorem loadP2L_loopProg_value (P : Params) (wallet : CWallet) (wtx : CWalletTx) :
    ∀ (outs : List CTxOut) (record : TransactionRecord),
      (loadP2L_loopProg P wallet record outs).value wtx =
        loadP2L_loop P wallet wtx record outs := by
  intro outs
  induction outs with
  | nil => intro record; rfl
  | cons o os ih =>
    intro record
    unfold loadP2L_loopProg loadP2L_loop
    dsimp only
    split_ifs
    · rfl
    · rfl
    · rfl
    · exact ih record
    · exact ih record

theorem loadP2LProg_value (P : Params) (wallet : CWallet) (wtx : CWalletTx)
    (record : TransactionRecord) :
    (loadP2LProg P wallet wtx record).value wtx = loadP2L P wallet wtx record :=
  loadP2L_loopProg_value P wallet wtx wtx.vout _

theorem loadUnlockColdStakeProg_value (P : Params) (wallet : CWallet) (wtx : CWalletTx)
    (record : TransactionRecord) :
    (loadUnlockColdStakeProg P wallet wtx record).value wtx =
      loadUnlockColdStake P wallet wtx record := by
  unfold loadUnlockColdStakeProg loadUnlockColdStake
  dsimp only
  cases findP2CSInput P wallet wtx.vin with
  | none => rfl
  | some found =>
    cases found with
    | none => rfl
    | some pair =>
      obtain ⟨script, spendable⟩ := pair
      cases spendable <;> rfl

theorem decomposeCoinStakeProg_value (P : Params) (wallet : CWallet) (wtx : CWalletTx)
    (fz : Bool) :
    (decomposeCoinStakeProg P wallet wtx wtx.GetComputedTxTime (wtx.GetCredit P.ISMINE_ALL)
      (wtx.GetDebit P.ISMINE_ALL) fz).value wtx = decomposeCoinStake P wallet wtx fz := by
  unfold decomposeCoinStakeProg decomposeCoinStake
  dsimp only
  split
  · rfl
  · rfl
  · split_ifs
    · simp only [Prog.value_bind', Prog.value_subscript]
      split <;> rfl
    · split
      · rfl
      · split_ifs
        · simp only [Prog.value_bind', loadHotOrColdStakeOrContractProg_value]
          rfl
        · split <;> rfl
    · split
      · rfl
      · split_ifs
        · rfl
        · split <;> rfl

theorem zerocoinSpendStepProg_value (P : Params) (wallet : CWallet) (wtx : CWalletTx)
    (fz : Bool) (st : List TransactionRecord × Bool) (txout : CTxOut) :
    (zerocoinSpendStepProg P wallet wtx wtx.GetComputedTxTime fz st txout).value wtx =
      zerocoinSpendStep P wallet wtx fz st txout := by
  unfold zerocoinSpendStepProg zerocoinSpendStep
  dsimp only
  split_ifs <;> rfl

theorem decomposeZerocoinSpendProg_value (P : Params) (wallet : CWallet) (wtx : CWalletTx)
    (fz : Bool) :
    (decomposeZerocoinSpendProg P wallet wtx wtx.GetComputedTxTime fz).value wtx =
      decomposeZerocoinSpend P wallet wtx fz := by
  unfold decomposeZerocoinSpendProg decomposeZerocoinSpend
  rw [Prog.value_bind', Prog.value_foldlM wtx _ _ (zerocoinSpendStepProg_value P wallet wtx fz)]
  rfl

theorem creditStepProg_value (P : Params) (wallet : CWallet) (wtx : CWalletTx)
    (parts : List TransactionRecord) (txout : CTxOut) :
    (creditStepProg P wallet wtx wtx.GetComputedTxTime parts txout).value wtx =
      creditStep P wallet wtx parts txout := by
  unfold creditStepProg creditStep
  dsimp only
  split_ifs
  · cases ExtractDestination txout.scriptPubKey with
    | none => rfl
    | some address => dsimp only; split_ifs <;> rfl
  · cases ExtractDestination txout.scriptPubKey with
    | none => rfl
    | some address => dsimp only; split_ifs <;> rfl
  · rfl

theorem decomposeCreditProg_value (P : Params) (wallet : CWallet) (wtx : CWalletTx) :
    (decomposeCreditProg P wallet wtx wtx.GetComputedTxTime).value wtx =
      decomposeCredit P wallet wtx :=
  Prog.value_foldlM wtx _ _ (creditStepProg_value P wallet wtx) wtx.vout []

theorem selfLabelStepOf_eq (P : Params) (wallet : CWallet) (wtx : CWalletTx) :
    selfLabelStepOf P wallet wtx (wtx.GetDebit P.ISMINE_ALL) = selfLabelStep P wallet wtx :=
  rfl

theorem decomposeSelfProg_value (P : Params) (wallet : CWallet) (wtx : CWalletTx) (iw : Bool) :
    (decomposeSelfProg P wallet wtx wtx.GetComputedTxTime (wtx.GetCredit P.ISMINE_ALL)
      (wtx.GetDebit P.ISMINE_ALL) iw).value wtx = decomposeSelf P wallet wtx iw := by
  unfold decomposeSelfProg decomposeSelf
  simp only [Prog.value_bind', Prog.value_subscript, selfLabelStepOf_eq]
  cases wtx.vout[0]? with
  | none => split_ifs <;> rfl
  | some txout0 =>
    dsimp only
    split_ifs
    · cases ExtractDestination txout0.scriptPubKey <;> rfl
    · rfl

theorem sentLabelProg_value (wallet : CWallet) (wtx : CWalletTx) (sub : TransactionRecord)
    (txout : CTxOut) :
    (sentLabelProg wallet wtx sub txout).value wtx = sentLabel wallet wtx sub txout := by
  unfold sentLabelProg sentLabel
  dsimp only
  split_ifs <;> cases ExtractDestination txout.scriptPubKey <;>
    simp [Prog.value_bind', Prog.value_subscript, Prog.value_pure, *]

theorem sentStepProg_value (wallet : CWallet) (wtx : CWalletTx) (iw : Bool)
    (st : List TransactionRecord × CAmount) (txout : CTxOut) :
    (sentStepProg wallet wtx wtx.GetComputedTxTime iw st txout).value wtx =
      sentStep wallet wtx iw st txout := by
  unfold sentStepProg sentStep
  simp only [Prog.value_bind', sentLabelProg_value]
  split <;> rfl

theorem decomposeSentProg_value (P : Params) (wallet : CWallet) (wtx : CWalletTx) (iw : Bool) :
    (decomposeSentProg wallet wtx wtx.GetComputedTxTime (wtx.GetDebit P.ISMINE_ALL) iw).value
      wtx = decomposeSent P wallet wtx iw := by
  unfold decomposeSentProg decomposeSent
  rw [Prog.value_bind', Prog.value_foldlM wtx _ _ (sentStepProg_value wallet wtx iw)]
  rfl

theorem decomposeDebitProg_value (P : Params) (wallet : CWallet) (wtx : CWalletTx) :
    (decomposeDebitProg P wallet wtx wtx.GetComputedTxTime (wtx.GetCredit P.ISMINE_ALL)
      (wtx.GetDebit P.ISMINE_ALL)).value wtx = decomposeDebit P wallet wtx := by
  unfold decomposeDebitProg decomposeDebit
  dsimp only
  split_ifs
  · rfl
  · exact decomposeSelfProg_value P wallet wtx _
  · rw [Prog.value_bind', decomposeSentProg_value]
    rfl
  · rfl

theorem decomposeTransactionProg_value (P : Params) (wallet : CWallet) (wtx : CWalletTx) :
    (decomposeTransactionProg P wallet wtx).value wtx = decomposeTransaction P wallet wtx := by
  unfold decomposeTransactionProg decomposeTransaction
  simp only [Prog.value_bind', Prog.value_call, Prog.value_callTest, CWalletTx.answer,
    CWalletTx.flag]
  cases zSpendFromMe wallet wtx with
  | none => rfl
  | some fz =>
    dsimp only
    simp only [Prog.value_ite, Prog.value_bind', Prog.value_callTest, Prog.value_pure,
      CWalletTx.flag, decomposeCoinStakeProg_value, decomposeZerocoinSpendProg_value,
      loadHotOrColdStakeOrContractProg_value, loadUnlockColdStakeProg_value, loadP2LProg_value,
      decomposeCreditProg_value, decomposeDebitProg_value]
    split_ifs <;>
      first
      | rfl
      | (split <;> rfl)
      | (split <;> rename_i heq <;> rw [heq] <;> rfl)

/-- The run of a program on a state whose caches are valid and whose local copy reads as the
label map of the entry: the result is the value of the program, the caches stay valid, and the
local copy is the copy before the run followed by the keys that the subscripts inserted, and
reads as before. -/
theorem Prog.run_spec {Cache α : Type} (M : EntryMethods Cache) (wtx : CWalletTx)
    (valid : Cache → Prop) (hM : M.disciplined wtx valid) :
    ∀ (p : Prog α) (s : ClassifierState Cache), valid s.cache →
      (∀ key, s.mapValue.at key = wtx.mapValue.at key) →
      (p.run M s).1 = p.value wtx ∧ valid (p.run M s).2.cache ∧
      (∀ key, (p.run M s).2.mapValue.at key = wtx.mapValue.at key) ∧
      ∃ added, (p.run M s).2.mapValue = s.mapValue ++ added := by
  intro p
  induction p with
  | ret a => intro s hv hm; exact ⟨rfl, hv, hm, [], (List.append_nil _).symm⟩
  | index key next ih =>
    intro s hv hm
    have h1 : (s.mapValue.index key).1 = wtx.mapValue.at key := by
      rw [mapValue_index_fst, hm]
    have h2 : ∀ k, (s.mapValue.index key).2.at k = wtx.mapValue.at k := by
      intro k
      rw [mapValue_index_snd_at, hm]
    have h3 : ∃ added, (s.mapValue.index key).2 = s.mapValue ++ added := by
      unfold mapValue_t.index
      split
      · exact ⟨[], (List.append_nil _).symm⟩
      · exact ⟨_, rfl⟩
    obtain ⟨r1, r2, r3, added, r4⟩ := ih (s.mapValue.index key).1
      { s with mapValue := (s.mapValue.index key).2 } hv h2
    obtain ⟨added0, h4⟩ := h3
    refine ⟨?_, r2, r3, added0 ++ added, ?_⟩
    · show ((next (s.mapValue.index key).1).run M _).1 = (next (wtx.mapValue.at key)).value wtx
      rw [r1, h1]
    · show ((next (s.mapValue.index key).1).run M _).2.mapValue = _
      rw [r4]
      show (s.mapValue.index key).2 ++ added = _
      rw [h4, List.append_assoc]
  | ask q next ih =>
    intro s hv hm
    obtain ⟨a1, a2⟩ := hM.1 q s.cache hv
    obtain ⟨r1, r2, r3, added, r4⟩ := ih (M.ask q s.cache).1
      { s with cache := (M.ask q s.cache).2 } a2 hm
    refine ⟨?_, r2, r3, added, r4⟩
    show ((next (M.ask q s.cache).1).run M _).1 = (next (wtx.answer q)).value wtx
    rw [r1, a1]
  | test q next ih =>
    intro s hv hm
    obtain ⟨a1, a2⟩ := hM.2 q s.cache hv
    obtain ⟨r1, r2, r3, added, r4⟩ := ih (M.test q s.cache).1
      { s with cache := (M.test q s.cache).2 } a2 hm
    refine ⟨?_, r2, r3, added, r4⟩
    show ((next (M.test q s.cache).1).run M _).1 = (next (wtx.flag q)).value wtx
    rw [r1, a1]

/-- Methods that leave the caches as they find them make every run leave them so. -/
theorem Prog.run_cache_of_readOnly {Cache α : Type} (M : EntryMethods Cache)
    (hM : M.readOnly) :
    ∀ (p : Prog α) (s : ClassifierState Cache), (p.run M s).2.cache = s.cache := by
  intro p
  induction p with
  | ret a => intro s; rfl
  | index key next ih => intro s; exact ih _ _
  | ask q next ih =>
    intro s
    show ((next (M.ask q s.cache).1).run M _).2.cache = s.cache
    rw [ih]
    exact hM.1 q s.cache
  | test q next ih =>
    intro s
    show ((next (M.test q s.cache).1).run M _).2.cache = s.cache
    rw [ih]
    exact hM.2 q s.cache

theorem mem_of_lookup {α β : Type} [BEq α] [LawfulBEq α] (a : α) (b : β) :
    ∀ l : List (α × β), l.lookup a = some b → (a, b) ∈ l := by
  intro l
  induction l with
  | nil => intro h; cases h
  | cons e es ih =>
    intro h
    obtain ⟨k, v⟩ := e
    rw [List.lookup_cons] at h
    cases hk : a == k with
    | true =>
      rw [hk] at h
      have hak : a = k := eq_of_beq hk
      have hv : v = b := Option.some.inj h
      rw [hak, hv]
      exact List.mem_cons_self _ _
    | false =>
      rw [hk] at h
      exact List.mem_cons_of_mem _ (ih h)

/-- The sample methods keep the cache discipline. -/
theorem cachingMethods_disciplined (wtx : CWalletTx) :
    (cachingMethods wtx).disciplined wtx (cacheValid wtx) := by
  constructor
  · intro q c hv
    unfold cachingMethods
    dsimp only
    cases h : c.1.lookup q with
    | none =>
      refine ⟨rfl, ?_, hv.2⟩
      intro e he
      rcases List.mem_append.mp he with he | he
      · exact hv.1 e he
      · rw [List.mem_singleton.mp he]
    | some v =>
      refine ⟨?_, hv⟩
      have hmem : (q, v) ∈ c.1 := mem_of_lookup q v c.1 h
      exact hv.1 (q, v) hmem
  · intro q c hv
    unfold cachingMethods
    dsimp only
    cases h : c.2.lookup q with
    | none =>
      refine ⟨rfl, hv.1, ?_⟩
      intro e he
      rcases List.mem_append.mp he with he | he
      · exact hv.2 e he
      · rw [List.mem_singleton.mp he]
    | some v =>
      refine ⟨?_, hv⟩
      have hmem : (q, v) ∈ c.2 := mem_of_lookup q v c.2 h
      exact hv.2 (q, v) hmem

/-! ## The status evaluator, path by path -/

theorem updateStatus_of_not_final (P : Params) (chain : ChainView) (wtx : CWalletTx)
    (record : TransactionRecord) (status : TransactionStatus)
    (hfinal : chain.IsFinalTx wtx (chain.Height + 1) = false) :
    updateStatus P chain wtx record status =
      if wtx.nLockTime < P.LOCKTIME_THRESHOLD then
        { statusBase P chain wtx record status with
          status := Status.OpenUntilBlock
          open_for := ((wtx.nLockTime : Int) - chain.Height) % 4294967296 }
      else
        { statusBase P chain wtx record status with
          status := Status.OpenUntilDate, open_for := (wtx.nLockTime : Int) } := by
  unfold updateStatus statusBase
  simp [hfinal]

theorem updateStatus_of_reward_window (P : Params) (chain : ChainView) (wtx : CWalletTx)
    (record : TransactionRecord) (status : TransactionStatus)
    (hfinal : chain.IsFinalTx wtx (chain.Height + 1) = true)
    (hreward : isRewardType record.type = true) (hwin : blocksToMaturity P wtx > 0) :
    updateStatus P chain wtx record status =
      { statusBase P chain wtx record status with
        status :=
          if wtx.IsTrusted.2.1 ≥ 0 ∧ wtx.IsTrusted.2.2 = false then
            if isOffline chain wtx then Status.MaturesWarning else Status.Immature
          else Status.NotAccepted
        matures_in := blocksToMaturity P wtx } := by
  unfold updateStatus statusBase
  simp [hfinal, hreward, hwin]

theorem updateStatus_of_reward_mature (P : Params) (chain : ChainView) (wtx : CWalletTx)
    (record : TransactionRecord) (status : TransactionStatus)
    (hfinal : chain.IsFinalTx wtx (chain.Height + 1) = true)
    (hreward : isRewardType record.type = true) (hwin : ¬ blocksToMaturity P wtx > 0) :
    updateStatus P chain wtx record status =
      { statusBase P chain wtx record status with
        status := Status.Confirmed, matures_in := 0 } := by
  unfold updateStatus statusBase
  simp [hfinal, hreward, hwin]

theorem updateStatus_of_plain (P : Params) (chain : ChainView) (wtx : CWalletTx)
    (record : TransactionRecord) (status : TransactionStatus)
    (hfinal : chain.IsFinalTx wtx (chain.Height + 1) = true)
    (hreward : isRewardType record.type = false) :
    updateStatus P chain wtx record status =
      { statusBase P chain wtx record status with
        status :=
          if wtx.IsTrusted.2.1 < 0 ∨ wtx.IsTrusted.2.2 = true then Status.Conflicted
          else if isOffline chain wtx then Status.Offline
          else if wtx.IsTrusted.2.1 = 0 then Status.Unconfirmed
          else if wtx.IsTrusted.2.1 < P.RecommendedNumConfirmations then Status.Confirming
          else Status.Confirmed } := by
  unfold updateStatus statusBase
  simp only [hfinal, hreward, Bool.not_true, Bool.false_eq_true, if_false]
  split_ifs <;> rfl

theorem blocksToMaturity_nonneg (P : Params) (wtx : CWalletTx) : 0 ≤ blocksToMaturity P wtx := by
  unfold blocksToMaturity
  split
  · exact le_max_left _ _
  · exact le_refl _

theorem blocksToMaturity_of_generated (P : Params) (wtx : CWalletTx)
    (hgen : wtx.IsCoinBase = true ∨ wtx.IsCoinStake = true) (hrange : maturityInRange P wtx) :
    blocksToMaturity P wtx = max 0 ((P.COINBASE_MATURITY + 1) - wtx.IsTrusted.2.1) := by
  unfold blocksToMaturity
  have : (wtx.IsCoinBase || wtx.IsCoinStake) = true := by
    rcases hgen with h | h <;> simp [h]
  rw [if_pos this, toInt32_of_range _ hrange.1 (by have := hrange.2; omega)]

theorem blocksToMaturity_of_plain (P : Params) (wtx : CWalletTx)
    (hb : wtx.IsCoinBase = false) (hs : wtx.IsCoinStake = false) :
    blocksToMaturity P wtx = 0 := by
  unfold blocksToMaturity
  rw [hb, hs]
  rfl

theorem updateStatus_base_fields (P : Params) (chain : ChainView) (wtx : CWalletTx)
    (record : TransactionRecord) (status : TransactionStatus) :
    (updateStatus P chain wtx record status).sortKey =
        sortKey (chain.mapBlockIndex wtx.hashBlock) wtx record.idx ∧
    (updateStatus P chain wtx record status).countsForBalance =
        (wtx.IsTrusted.1 && !(decide (blocksToMaturity P wtx > 0))) ∧
    (updateStatus P chain wtx record status).cur_num_blocks = chain.Height ∧
    (updateStatus P chain wtx record status).depth = wtx.IsTrusted.2.1 ∧
    (updateStatus P chain wtx record status).cur_num_ix_locks = chain.nCompleteTXLocks := by
  cases hfinal : chain.IsFinalTx wtx (chain.Height + 1) with
  | false =>
    rw [updateStatus_of_not_final P chain wtx record status hfinal]
    split <;> exact ⟨rfl, rfl, rfl, rfl, rfl⟩
  | true =>
    cases hreward : isRewardType record.type with
    | false =>
      rw [updateStatus_of_plain P chain wtx record status hfinal hreward]
      exact ⟨rfl, rfl, rfl, rfl, rfl⟩
    | true =>
      by_cases hwin : blocksToMaturity P wtx > 0
      · rw [updateStatus_of_reward_window P chain wtx record status hfinal hreward hwin]
        exact ⟨rfl, rfl, rfl, rfl, rfl⟩
      · rw [updateStatus_of_reward_mature P chain wtx record status hfinal hreward hwin]
        exact ⟨rfl, rfl, rfl, rfl, rfl⟩

theorem reward_status_window (P : Params) (chain : ChainView) (wtx : CWalletTx)
    (record : TransactionRecord) (status : TransactionStatus)
    (hfinal : chain.IsFinalTx wtx (chain.Height + 1) = true)
    (hreward : isRewardType record.type = true) (hwin : blocksToMaturity P wtx > 0) :
    (updateStatus P chain wtx record status).status = Status.MaturesWarning ∨
    (updateStatus P chain wtx record status).status = Status.Immature ∨
    (updateStatus P chain wtx record status).status = Status.NotAccepted := by
  rw [updateStatus_of_reward_window P chain wtx record status hfinal hreward hwin]
  show (if wtx.IsTrusted.2.1 ≥ 0 ∧ wtx.IsTrusted.2.2 = false then
      (if isOffline chain wtx then Status.MaturesWarning else Status.Immature)
    else Status.NotAccepted) = _ ∨ _
  split_ifs
  · exact Or.inl rfl
  · exact Or.inr (Or.inl rfl)
  · exact Or.inr (Or.inr rfl)

theorem status_in_window_iff (P : Params) (chain : ChainView) (wtx : CWalletTx)
    (record : TransactionRecord) (status : TransactionStatus) :
    ((updateStatus P chain wtx record status).status = Status.MaturesWarning ∨
      (updateStatus P chain wtx record status).status = Status.Immature ∨
      (updateStatus P chain wtx record status).status = Status.NotAccepted) ↔
    (chain.IsFinalTx wtx (chain.Height + 1) = true ∧ isRewardType record.type = true ∧
      blocksToMaturity P wtx > 0) := by
  constructor
  · intro h
    cases hfinal : chain.IsFinalTx wtx (chain.Height + 1) with
    | false =>
      exfalso
      rw [updateStatus_of_not_final P chain wtx record status hfinal] at h
      split at h
      · rcases h with h | h | h <;> cases h
      · rcases h with h | h | h <;> cases h
    | true =>
      cases hreward : isRewardType record.type with
      | false =>
        exfalso
        rw [updateStatus_of_plain P chain wtx record status hfinal hreward] at h
        dsimp only at h
        split_ifs at h <;> rcases h with h | h | h <;> cases h
      | true =>
        by_cases hwin : blocksToMaturity P wtx > 0
        · exact ⟨rfl, rfl, hwin⟩
        · exfalso
          rw [updateStatus_of_reward_mature P chain wtx record status hfinal hreward hwin] at h
          rcases h with h | h | h <;> cases h
  · rintro ⟨hfinal, hreward, hwin⟩
    exact reward_status_window P chain wtx record status hfinal hreward hwin

/-- At the smallest depth of `int` the difference of line 568 overflows: with a maturity of 100
blocks it is `-2147483547` in `int`, and the blocks-to-maturity is 0. -/
theorem blocksToMaturity_of_overflow :
    blocksToMaturity sampleParams { foreignStakeTx with IsTrusted := (false, -2147483648, false) }
      = 0 := by
  decide

/-- For a coinbase or coinstake entry whose difference of line 568 is a value of `int`, the
blocks-to-maturity is positive exactly below the depth `COINBASE_MATURITY + 1`. -/
theorem blocksToMaturity_pos_iff (P : Params) (w : CWalletTx)
    (hg : w.IsCoinBase = true ∨ w.IsCoinStake = true) (hrange : maturityInRange P w) :
    blocksToMaturity P w > 0 ↔ w.IsTrusted.2.1 < P.COINBASE_MATURITY + 1 := by
  rw [blocksToMaturity_of_generated P w hg hrange]
  constructor
  · intro h
    by_contra hge
    rw [max_eq_left (sub_nonpos.mpr (not_lt.mp hge))] at h
    exact lt_irrefl _ h
  · intro h
    exact lt_max_of_lt_right (sub_pos.mpr h)

/-- For a reward-bearing record of a coinbase or coinstake entry with satisfied time-lock, the
state is `Confirmed` exactly from the depth `COINBASE_MATURITY + 1` on. -/
theorem reward_confirmed_iff_depth (P : Params) (c : ChainView) (w : CWalletTx)
    (r : TransactionRecord) (s : TransactionStatus)
    (hg : w.IsCoinBase = true ∨ w.IsCoinStake = true) (hrange : maturityInRange P w)
    (hf : c.IsFinalTx w (c.Height + 1) = true) (hr : isRewardType r.type = true) :
    (updateStatus P c w r s).status = Status.Confirmed ↔
      w.IsTrusted.2.1 ≥ P.COINBASE_MATURITY + 1 := by
  have hpos := blocksToMaturity_pos_iff P w hg hrange
  by_cases hwin : blocksToMaturity P w > 0
  · have hlt : ¬ w.IsTrusted.2.1 ≥ P.COINBASE_MATURITY + 1 := not_le.mpr (hpos.mp hwin)
    constructor
    · intro hc
      rcases reward_status_window P c w r s hf hr hwin with h | h | h <;>
        rw [hc] at h <;> cases h
    · intro hge
      exact absurd hge hlt
  · have hge : w.IsTrusted.2.1 ≥ P.COINBASE_MATURITY + 1 := by
      by_contra hlt
      exact hwin (hpos.mpr (not_le.mp hlt))
    constructor
    · intro _
      exact hge
    · intro _
      rw [updateStatus_of_reward_mature P c w r s hf hr hwin]

/-! ## The rank of a coin -/

theorem Priority_of_value (P : Params) (D : List CAmount) (out : COutput) (v : CAmount)
    (hv : out.Value = some v) :
    out.Priority P D =
      if D.any (fun d => v == d) then some 10000
      else if v < 1 * P.COIN then some 20000
      else some (toInt32 (-(Int.tdiv v P.COIN))) := by
  unfold COutput.Value at hv
  unfold COutput.Priority
  cases h : out.txout with
  | none => rw [h] at hv; cases hv
  | some txout =>
    rw [h] at hv
    cases hv
    rfl

theorem any_eq_iff_mem (D : List CAmount) (v : CAmount) :
    D.any (fun d => v == d) = true ↔ v ∈ D := by
  simp only [List.any_eq_true, beq_iff_eq]
  constructor
  · rintro ⟨d, hd, rfl⟩
    exact hd
  · intro h
    exact ⟨v, h, rfl⟩

theorem Priority_of_large (P : Params) (D : List CAmount) (out : COutput) (v : CAmount)
    (hv : out.Value = some v) (hCOIN : 0 < P.COIN) (hD : v ∉ D) (h1 : P.COIN ≤ v)
    (h2 : v < 2147483648 * P.COIN) :
    out.Priority P D = some (-(v / P.COIN)) ∧ 1 ≤ v / P.COIN := by
  have hnot : ¬ D.any (fun d => v == d) = true := fun h => hD ((any_eq_iff_mem D v).mp h)
  have h1' : ¬ v < 1 * P.COIN := by rw [one_mul]; exact not_lt.mpr h1
  have hv0 : (0 : Int) ≤ v := le_trans (le_of_lt hCOIN) h1
  have hq1 : 1 ≤ v / P.COIN := Int.le_ediv_of_mul_le hCOIN (by rw [one_mul]; exact h1)
  have hq2 : v / P.COIN < 2147483648 := Int.ediv_lt_of_lt_mul hCOIN h2
  rw [Priority_of_value P D out v hv, if_neg hnot, if_neg h1',
    Int.tdiv_eq_ediv hv0 (le_of_lt hCOIN), toInt32_of_range _ (by linarith) (by linarith)]
  exact ⟨rfl, hq1⟩

/-- The field `fAll` of a scan is the running minimum of the ownership answers, started at the
value the scan starts with. -/
theorem scan_foldl_fAll {α : Type} (mine : α → isminetype) (step : MineScan → α → MineScan)
    (hstep : ∀ st x, (step st x).fAll = if st.fAll > mine x then mine x else st.fAll) :
    ∀ (xs : List α) (st : MineScan),
      (xs.foldl step st).fAll = (xs.map mine).foldl min st.fAll := by
  intro xs
  induction xs with
  | nil => intro st; rfl
  | cons x xs ih =>
    intro st
    rw [List.foldl_cons, ih, hstep, List.map_cons, List.foldl_cons]
    congr 1
    by_cases h : st.fAll > mine x
    · rw [if_pos h]
      exact (Nat.min_eq_right (Nat.le_of_lt h)).symm
    · rw [if_neg h]
      exact (Nat.min_eq_left (Nat.le_of_not_lt h)).symm

theorem watch_bit_is_owned (mine W : isminetype) (h : (mine &&& W) ≠ 0) : mine ≠ 0 := by
  intro h0
  apply h
  rw [h0]
  exact Nat.zero_and W

/-! ## The sub-label scan of the payment-to-self branch -/

theorem decomposeSelf_label (P : Params) (wallet : CWallet) (wtx : CWalletTx) (iw : Bool)
    (hout : wtx.vout ≠ []) :
    ∃ r, decomposeSelf P wallet wtx iw = some [r] ∧
      r.type =
        if wtx.mapValue.at "DS" = "1" then RecordType.Obfuscated
        else wtx.vout.foldl (selfLabelStep P wallet wtx) RecordType.SendToSelf := by
  cases hv : wtx.vout with
  | nil => exact absurd hv hout
  | cons o os =>
    unfold decomposeSelf
    simp only [hv, List.getElem?_cons_zero, List.nil_append]
    exact ⟨_, rfl, by split <;> rfl⟩

theorem selfLabelStep_of_collateral_payment (P : Params) (wallet : CWallet) (wtx : CWalletTx)
    (hfee : wtx.GetDebit P.ISMINE_ALL - wtx.GetValueOut = P.OBFUSCATION_COLLATERAL)
    (type : RecordType) (txout : CTxOut) :
    selfLabelStep P wallet wtx type txout = RecordType.ObfuscationCollateralPayment := by
  unfold selfLabelStep
  dsimp only
  rw [if_pos hfee]

theorem selfLabelStep_of_match (P : Params) (wallet : CWallet) (wtx : CWalletTx)
    (hfee : wtx.GetDebit P.ISMINE_ALL - wtx.GetValueOut ≠ P.OBFUSCATION_COLLATERAL)
    (type : RecordType) (txout : CTxOut) (hm : selfLabelMatch wallet txout = true) :
    selfLabelStep P wallet wtx type txout =
      if wallet.IsDenominatedAmount txout.nValue then RecordType.ObfuscationCreateDenominations
      else RecordType.ObfuscationMakeCollaterals := by
  unfold selfLabelStep
  dsimp only
  rw [if_neg hfee]
  cases hden : wallet.IsDenominatedAmount txout.nValue with
  | true => simp
  | false =>
    have hcol : wallet.IsCollateralAmount txout.nValue = true := by
      unfold selfLabelMatch at hm
      rw [hden, Bool.or_false] at hm
      exact hm
    simp [hcol]

theorem selfLabelStep_of_no_match (P : Params) (wallet : CWallet) (wtx : CWalletTx)
    (hfee : wtx.GetDebit P.ISMINE_ALL - wtx.GetValueOut ≠ P.OBFUSCATION_COLLATERAL)
    (type : RecordType) (txout : CTxOut) (hm : selfLabelMatch wallet txout = false) :
    selfLabelStep P wallet wtx type txout = type := by
  unfold selfLabelMatch at hm
  rw [Bool.or_eq_false_iff] at hm
  unfold selfLabelStep
  dsimp only
  rw [if_neg hfee, hm.1, hm.2]
  rfl

theorem selfLabel_foldl_of_no_match (P : Params) (wallet : CWallet) (wtx : CWalletTx)
    (hfee : wtx.GetDebit P.ISMINE_ALL - wtx.GetValueOut ≠ P.OBFUSCATION_COLLATERAL) :
    ∀ (outs : List CTxOut) (type : RecordType),
      (∀ o ∈ outs, selfLabelMatch wallet o = false) →
      outs.foldl (selfLabelStep P wallet wtx) type = type := by
  intro outs
  induction outs with
  | nil => intro type _; rfl
  | cons o os ih =>
    intro type h
    rw [List.foldl_cons,
      selfLabelStep_of_no_match P wallet wtx hfee type o (h o (List.mem_cons_self _ _))]
    exact ih type (fun x hx => h x (List.mem_cons_of_mem _ hx))

theorem selfLabel_foldl_of_collateral_payment (P : Params) (wallet : CWallet) (wtx : CWalletTx)
    (hfee : wtx.GetDebit P.ISMINE_ALL - wtx.GetValueOut = P.OBFUSCATION_COLLATERAL) :
    ∀ (outs : List CTxOut) (type : RecordType), outs ≠ [] →
      outs.foldl (selfLabelStep P wallet wtx) type = RecordType.ObfuscationCollateralPayment := by
  intro outs
  induction outs with
  | nil => intro type h; exact absurd rfl h
  | cons o os ih =>
    intro type _
    rw [List.foldl_cons, selfLabelStep_of_collateral_payment P wallet wtx hfee]
    cases os with
    | nil => rfl
    | cons o' os' => exact ih _ (List.cons_ne_nil _ _)
theorem forall2_left_of_all {α β : Type} {R : α → β → Prop} {p : α → Prop} {l₁ : List α}
    {l₂ : List β} (h : List.Forall₂ R l₁ l₂) (himp : ∀ a b, R a b → p a) :
    ∀ a ∈ l₁, p a := by
  induction h with
  | nil => intro a ha; cases ha
  | cons hab _ ih =>
    intro a ha
    rcases List.mem_cons.mp ha with rfl | ha
    · exact himp _ _ hab
    · exact ih a ha

theorem sentType_of_marker (wtx : CWalletTx) (txout : CTxOut)
    (hDS : wtx.mapValue.at "DS" = "1") : sentType wtx txout = RecordType.Obfuscated := by
  unfold sentType
  rw [if_pos hDS]

theorem sentType_of_no_marker (wtx : CWalletTx) (txout : CTxOut)
    (hDS : wtx.mapValue.at "DS" ≠ "1") : sentType wtx txout ≠ RecordType.Obfuscated := by
  unfold sentType
  rw [if_neg hDS]
  split_ifs <;> decide

/-! ## The spend index: propagation of a conflict -/

theorem contains_iff_mem {α : Type} [BEq α] [LawfulBEq α] {l : List α} {x : α} :
    l.contains x = true ↔ x ∈ l :=
  List.elem_iff

theorem mem_growConflicted_of_mem (store : List LedgerEntry) (conflicted : List uint256)
    (x : uint256) (h : x ∈ conflicted) : x ∈ growConflicted store conflicted :=
  List.mem_append_left _ h

theorem mem_iterate_growConflicted (store : List LedgerEntry) (x : uint256) :
    ∀ (n : Nat) (conflicted : List uint256), x ∈ conflicted →
      x ∈ Nat.iterate (growConflicted store) n conflicted := by
  intro n
  induction n with
  | zero => intro conflicted h; exact h
  | succ n ih =>
    intro conflicted h
    exact ih _ (mem_growConflicted_of_mem store conflicted x h)

theorem mem_growConflicted_of_spends (store : List LedgerEntry) (conflicted : List uint256)
    (x : uint256) (e : LedgerEntry) (hx : x ∈ conflicted) (he : e ∈ store)
    (hs : ∃ outpoint ∈ e.vin, outpoint.hash = x) : e.id ∈ growConflicted store conflicted := by
  by_cases hin : e.id ∈ conflicted
  · exact List.mem_append_left _ hin
  · apply List.mem_append_right
    refine List.mem_map.mpr ⟨e, List.mem_filter.mpr ⟨he, ?_⟩, rfl⟩
    obtain ⟨o, ho, hox⟩ := hs
    have h1 : spendsOutputOf conflicted e = true := by
      unfold spendsOutputOf
      exact List.any_eq_true.mpr ⟨o, ho, by rw [hox]; exact contains_iff_mem.mpr hx⟩
    have h2 : conflicted.contains e.id = false := by
      cases hc : conflicted.contains e.id with
      | false => rfl
      | true => exact absurd (contains_iff_mem.mp hc) hin
    rw [h1, h2]
    rfl

theorem growConflicted_of_no_new (store : List LedgerEntry) (conflicted : List uint256)
    (h : store.filter (fun e => spendsOutputOf conflicted e && !conflicted.contains e.id) = []) :
    growConflicted store conflicted = conflicted := by
  unfold growConflicted
  rw [h]
  simp

theorem iterate_of_fixed {α : Type} (f : α → α) (x : α) (h : f x = x) :
    ∀ n : Nat, Nat.iterate f n x = x := by
  intro n
  induction n with
  | zero => rfl
  | succ n ih => show Nat.iterate f n (f x) = x; rw [h, ih]

theorem countP_lt_of_new {α : Type} (p q : α → Bool) :
    ∀ (l : List α), (∀ x ∈ l, p x = true → q x = true) →
      (∃ x ∈ l, p x = false ∧ q x = true) → l.countP p < l.countP q := by
  intro l
  induction l with
  | nil => intro _ h; obtain ⟨x, hx, _⟩ := h; cases hx
  | cons a l ih =>
    intro hmono hnew
    have hmono' : ∀ x ∈ l, p x = true → q x = true :=
      fun x hx => hmono x (List.mem_cons_of_mem _ hx)
    have hle : l.countP p ≤ l.countP q := List.countP_mono_left hmono'
    rw [List.countP_cons, List.countP_cons]
    obtain ⟨x, hx, hpx, hqx⟩ := hnew
    rcases List.mem_cons.mp hx with rfl | hx'
    · rw [hpx, hqx]
      simp only [Bool.false_eq_true, if_false, if_true]
      exact Nat.lt_succ_of_le hle
    · have hlt := ih hmono' ⟨x, hx', hpx, hqx⟩
      cases hpa : p a with
      | false =>
        simp only [Bool.false_eq_true, if_false, Nat.add_zero]
        exact Nat.lt_of_lt_of_le hlt (Nat.le_add_right _ _)
      | true =>
        rw [hmono a (List.mem_cons_self _ _) hpa]
        simp only [if_true]
        exact Nat.add_lt_add_right hlt 1

/-- A pass of the work-list either adds nothing or raises the number of the entries of the
store that are in the conflicted set. -/
theorem growConflicted_progress (store : List LedgerEntry) (conflicted : List uint256) :
    growConflicted store conflicted = conflicted ∨
    store.countP (fun e => conflicted.contains e.id) <
      store.countP (fun e => (growConflicted store conflicted).contains e.id) := by
  cases hnew : store.filter
      (fun e => spendsOutputOf conflicted e && !conflicted.contains e.id) with
  | nil => exact Or.inl (growConflicted_of_no_new store conflicted hnew)
  | cons a rest =>
    right
    have ha : a ∈ store.filter
        (fun e => spendsOutputOf conflicted e && !conflicted.contains e.id) := by
      rw [hnew]; exact List.mem_cons_self _ _
    obtain ⟨hast, hap⟩ := List.mem_filter.mp ha
    rw [Bool.and_eq_true] at hap
    apply countP_lt_of_new
    · intro x _ hx
      exact contains_iff_mem.mpr
        (mem_growConflicted_of_mem store conflicted _ (contains_iff_mem.mp hx))
    · refine ⟨a, hast, ?_, ?_⟩
      · simpa using hap.2
      · apply contains_iff_mem.mpr
        apply List.mem_append_right
        exact List.mem_map.mpr ⟨a, ha, rfl⟩

theorem growConflicted_of_all (store : List LedgerEntry) (conflicted : List uint256)
    (h : store.length ≤ store.countP (fun e => conflicted.contains e.id)) :
    growConflicted store conflicted = conflicted := by
  apply growConflicted_of_no_new
  have hall : ∀ e ∈ store, conflicted.contains e.id = true :=
    List.countP_eq_length.mp (Nat.le_antisymm (List.countP_le_length _) h)
  apply List.filter_eq_nil_iff.mpr
  intro e he
  rw [hall e he]
  simp

/-- After as many passes as are left to fill the store, a further pass adds nothing. -/
theorem iterate_growConflicted_fixed (store : List LedgerEntry) :
    ∀ (n : Nat) (conflicted : List uint256),
      store.length ≤ n + store.countP (fun e => conflicted.contains e.id) →
      growConflicted store (Nat.iterate (growConflicted store) n conflicted) =
        Nat.iterate (growConflicted store) n conflicted := by
  intro n
  induction n with
  | zero =>
    intro conflicted h
    exact growConflicted_of_all store conflicted (by simpa using h)
  | succ n ih =>
    intro conflicted h
    show growConflicted store (Nat.iterate (growConflicted store) n
        (growConflicted store conflicted)) =
      Nat.iterate (growConflicted store) n (growConflicted store conflicted)
    rcases growConflicted_progress store conflicted with hfix | hlt
    · rw [hfix, iterate_of_fixed _ _ hfix n, hfix]
    · apply ih
      omega

theorem propagate_fixed (store : List LedgerEntry) (conflicted : List uint256) :
    growConflicted store (propagate store conflicted) = propagate store conflicted :=
  iterate_growConflicted_fixed store store.length conflicted (Nat.le_add_right _ _)

theorem mem_propagate_of_mem (store : List LedgerEntry) (conflicted : List uint256)
    (x : uint256) (h : x ∈ conflicted) : x ∈ propagate store conflicted :=
  mem_iterate_growConflicted store x store.length conflicted h

/-- The propagated set is closed: an entry of the store that spends an output of an entry of
the set is in the set. -/
theorem mem_propagate_of_spends (store : List LedgerEntry) (conflicted : List uint256)
    (x : uint256) (e : LedgerEntry) (hx : x ∈ propagate store conflicted) (he : e ∈ store)
    (hs : ∃ outpoint ∈ e.vin, outpoint.hash = x) : e.id ∈ propagate store conflicted := by
  rw [← propagate_fixed]
  exact mem_growConflicted_of_spends store _ x e hx he hs

theorem mem_claimants (w : SpendIndex) (entry other : LedgerEntry) (outpoint : COutPoint)
    (h1 : outpoint ∈ entry.vin) (h2 : (outpoint, other.id) ∈ w.mapTxSpends)
    (hne : other.id ≠ entry.id) : other.id ∈ claimants w entry := by
  unfold claimants
  refine List.mem_map.mpr ⟨(outpoint, other.id), List.mem_filter.mpr ⟨h2, ?_⟩, rfl⟩
  rw [Bool.and_eq_true]
  exact ⟨contains_iff_mem.mpr h1, by simpa using hne⟩

theorem resolveConflicts_ids (w : SpendIndex) (entry : LedgerEntry) (blk : uint256) :
    (resolveConflicts w entry blk).store.map (fun e => e.id) = w.store.map (fun e => e.id) := by
  unfold resolveConflicts
  simp only [List.map_map]
  apply List.map_congr_left
  intro e _
  simp only [Function.comp]
  split <;> rfl

theorem resolveConflicts_marks (w : SpendIndex) (entry : LedgerEntry) (blk : uint256)
    (e : LedgerEntry) (he : e ∈ (resolveConflicts w entry blk).store)
    (hid : e.id ∈ propagate w.store (claimants w entry)) : e.conflictedWith = some blk := by
  unfold resolveConflicts at he
  obtain ⟨e₀, _, rfl⟩ := List.mem_map.mp he
  by_cases hc : (propagate w.store (claimants w entry)).contains e₀.id = true
  · rw [if_pos hc]
  · rw [if_neg hc] at hid
    exact absurd (contains_iff_mem.mpr hid) hc

theorem resolveConflicts_keeps (w : SpendIndex) (entry : LedgerEntry) (blk : uint256)
    (e : LedgerEntry) (he : e ∈ w.store)
    (hid : e.id ∈ propagate w.store (claimants w entry)) :
    { e with conflictedWith := some blk } ∈ (resolveConflicts w entry blk).store := by
  unfold resolveConflicts
  refine List.mem_map.mpr ⟨e, he, ?_⟩
  rw [if_pos (contains_iff_mem.mpr hid)]

theorem indexed_ingest (w : SpendIndex) (entry : LedgerEntry) (h : indexed w) :
    indexed (ingest w entry) := by
  intro e he o ho
  unfold ingest recordSpends at he ⊢
  rcases List.mem_append.mp he with he | he
  · exact List.mem_append_left _ (h e he o ho)
  · have hee := List.mem_singleton.mp he
    subst hee
    exact List.mem_append_right _ (List.mem_map.mpr ⟨o, ho, rfl⟩)

theorem indexed_foldl_ingest (entries : List LedgerEntry) :
    ∀ w : SpendIndex, indexed w → indexed (entries.foldl ingest w) := by
  induction entries with
  | nil => intro w h; exact h
  | cons e es ih => intro w h; exact ih _ (indexed_ingest w e h)

theorem indexed_sampleIndex : indexed sampleIndex :=
  indexed_foldl_ingest _ _ (fun _ he => by cases he)

/-! ## The coin selector: soundness -/

theorem greedy_foldl (target : CAmount) :
    ∀ (ranked : List CoinCandidate) (acc : List CoinCandidate × CAmount),
      ∃ taken, (ranked.foldl (greedyStep target) acc).1 = acc.1 ++ taken ∧
        taken.Sublist ranked ∧
        (ranked.foldl (greedyStep target) acc).2 = acc.2 + totalValue taken := by
  intro ranked
  induction ranked with
  | nil =>
    intro acc
    exact ⟨[], by simp, List.Sublist.refl _, by simp [totalValue]⟩
  | cons c cs ih =>
    intro acc
    rw [List.foldl_cons]
    by_cases hmet : acc.2 ≥ target
    · have hstep : greedyStep target acc c = acc := by
        unfold greedyStep
        rw [if_pos hmet]
      rw [hstep]
      obtain ⟨taken, h1, h2, h3⟩ := ih acc
      exact ⟨taken, h1, List.Sublist.cons _ h2, h3⟩
    · have hstep : greedyStep target acc c = (acc.1 ++ [c], acc.2 + c.value) := by
        unfold greedyStep
        rw [if_neg hmet]
      rw [hstep]
      obtain ⟨taken, h1, h2, h3⟩ := ih (acc.1 ++ [c], acc.2 + c.value)
      refine ⟨c :: taken, ?_, List.Sublist.cons₂ _ h2, ?_⟩
      · rw [h1]
        simp
      · rw [h3]
        simp only [totalValue, List.map_cons, List.sum_cons]
        ring

theorem greedy_spec (target : CAmount) (ranked : List CoinCandidate) :
    (greedy target ranked).1.Sublist ranked ∧
      (greedy target ranked).2 = totalValue (greedy target ranked).1 := by
  obtain ⟨taken, h1, h2, h3⟩ := greedy_foldl target ranked ([], 0)
  unfold greedy
  rw [h1, h3]
  simp only [List.nil_append, zero_add]
  exact ⟨h2, trivial⟩

theorem exactMatch_spec (small : Nat) (target : CAmount) (coins chosen : List CoinCandidate)
    (h : exactMatch small target coins = some chosen) :
    chosen.Sublist coins ∧ totalValue chosen = target := by
  unfold exactMatch at h
  split at h
  · rename_i c hc
    cases h
    have hmem := List.mem_of_find?_eq_some hc
    have hval := List.find?_some hc
    refine ⟨List.singleton_sublist.mpr hmem, ?_⟩
    simp only [totalValue, List.map_cons, List.map_nil, List.sum_cons, List.sum_nil, add_zero]
    simpa using hval
  · have hmem := List.mem_of_find?_eq_some h
    have hval := List.find?_some h
    rw [Bool.and_eq_true] at hval
    exact ⟨List.mem_sublists.mp hmem, by simpa using hval.2⟩

theorem mem_eligibleCoins (filter : CoinCandidate → Bool) (minDepth : Int)
    (candidates : List CoinCandidate) (c : CoinCandidate)
    (h : c ∈ eligibleCoins filter minDepth candidates) :
    c ∈ candidates ∧ filter c = true ∧ c.locked = false ∧ minDepth ≤ c.depth := by
  unfold eligibleCoins at h
  obtain ⟨hm, hp⟩ := List.mem_filter.mp h
  simp only [Bool.and_eq_true, Bool.not_eq_true', decide_eq_true_eq] at hp
  exact ⟨hm, hp.1.1, hp.1.2, hp.2⟩

/-! ## The sub-index and the number of the records -/

theorem decomposeCredit_idx (P : Params) (wallet : CWallet) (wtx : CWalletTx) :
    (decomposeCredit P wallet wtx).map (fun r => r.idx) =
        List.range' 0 (wtx.vout.filter (fun o => decide (wallet.IsMineOut o ≠ 0))).length ∧
      (decomposeCredit P wallet wtx).length =
        (wtx.vout.filter (fun o => decide (wallet.IsMineOut o ≠ 0))).length := by
  obtain ⟨recs, h1, h2, h3⟩ := credit_foldl P wallet wtx wtx.vout []
  have hrecs : decomposeCredit P wallet wtx = recs := by
    simpa [decomposeCredit] using h1
  rw [hrecs]
  exact ⟨by simpa using h3, h2.length_eq⟩

theorem decomposeTransaction_of_reachesZerocoinSpend (P : Params) (wallet : CWallet)
    (wtx : CWalletTx) (h : reachesZerocoinSpend wtx) :
    ∃ fz, decomposeTransaction P wallet wtx = some (decomposeZerocoinSpend P wallet wtx fz) := by
  obtain ⟨hstake, hspend, hvin⟩ := h
  cases hv : wtx.vin with
  | nil => exact absurd hv hvin
  | cons txin rest =>
    exact ⟨_, decomposeTransaction_of_zerocoinSpend P wallet wtx hstake hspend txin rest hv⟩

theorem idx_of_map_eq_range (parts : List TransactionRecord) (n : Nat)
    (hidx : parts.map (fun r => r.idx) = List.range' 0 n) :
    parts.map (fun r => r.idx) = List.range parts.length ∧
    (∀ (k : Nat) (r : TransactionRecord), parts[k]? = some r → r.idx = k) ∧
    (parts.map (fun r => r.idx)).Nodup := by
  have hlen : parts.length = n := by
    have := congrArg List.length hidx
    simpa using this
  have hrange : parts.map (fun r => r.idx) = List.range parts.length := by
    rw [hidx, hlen, List.range_eq_range']
  refine ⟨hrange, ?_, ?_⟩
  · intro k r hk
    have h1 : (parts.map (fun r => r.idx))[k]? = some r.idx := by
      rw [List.getElem?_map, hk]
      rfl
    rw [hrange] at h1
    have hlt : k < parts.length := by
      by_contra hge
      rw [List.getElem?_eq_none (by simpa using Nat.le_of_not_lt hge)] at h1
      cases h1
    rw [List.getElem?_range hlt] at h1
    exact (Option.some.inj h1).symm
  · rw [hrange]
    exact List.nodup_range _

/-! ## The signs of the contract records -/

theorem contractSigns_of_plain (P : Params) (wtx : CWalletTx) (r : TransactionRecord)
    (hd : r.debit ≤ 0) (hc : 0 ≤ r.credit) (h1 : r.type ≠ RecordType.P2LLeasingRecv)
    (h2 : r.type ≠ RecordType.P2CSUnlockStaker) : contractSigns P wtx r :=
  ⟨fun _ => hd, fun h => absurd h h1, fun _ => hc, fun h => absurd h h2⟩

theorem other_ne_leasingRecv : RecordType.Other ≠ RecordType.P2LLeasingRecv := by decide

theorem other_ne_unlockStaker : RecordType.Other ≠ RecordType.P2CSUnlockStaker := by decide

theorem decomposeCoinStake_length (P : Params) (wallet : CWallet) (wtx : CWalletTx) (fz : Bool)
    (parts : List TransactionRecord) (h : decomposeCoinStake P wallet wtx fz = some parts) :
    parts.length ≤ 1 := by
  unfold decomposeCoinStake at h
  dsimp only at h
  split at h
  · exact absurd h (by simp)
  · cases h; simp
  · split at h
    · split at h
      · exact absurd h (by simp)
      · cases h; simp
    · split at h
      · exact absurd h (by simp)
      · split at h
        · split at h
          · cases h; simp
          · cases h; simp
        · split at h
          · exact absurd h (by simp)
          · cases h; simp

theorem decomposeSelf_length (P : Params) (wallet : CWallet) (wtx : CWalletTx) (iw : Bool)
    (parts : List TransactionRecord) (h : decomposeSelf P wallet wtx iw = some parts) :
    parts.length = 1 := by
  cases hv : wtx.vout with
  | nil =>
    unfold decomposeSelf at h
    simp [hv] at h
  | cons o os =>
    obtain ⟨r, hr, -⟩ := decomposeSelf_spec P wallet wtx iw (by rw [hv]; exact List.cons_ne_nil _ _)
    rw [hr] at h
    cases h
    rfl

theorem decomposeDebit_length (P : Params) (wallet : CWallet) (wtx : CWalletTx)
    (parts : List TransactionRecord) (h : decomposeDebit P wallet wtx = some parts) :
    parts.length ≤ max 1 wtx.vout.length ∧
    (guardDenominate P wallet wtx ∨ guardSelf P wallet wtx ∨ ¬ guardSent P wallet wtx →
      parts.length = 1) := by
  have one : parts.length = 1 → parts.length ≤ max 1 wtx.vout.length :=
    fun h1 => by rw [h1]; exact le_max_left _ _
  by_cases hd : guardDenominate P wallet wtx
  · rw [decomposeDebit_of_denominate P wallet wtx hd] at h
    cases h
    exact ⟨one rfl, fun _ => rfl⟩
  · by_cases hs : guardSelf P wallet wtx
    · rw [decomposeDebit_of_self P wallet wtx hd hs] at h
      have h1 := decomposeSelf_length P wallet wtx _ parts h
      exact ⟨one h1, fun _ => h1⟩
    · by_cases hg : guardSent P wallet wtx
      · rw [decomposeDebit_of_sent P wallet wtx hd hs hg] at h
        cases h
        have hlen := (decomposeSent_spec P wallet wtx
          (scanToMe P wallet wtx
            (scanFromMe P wallet wtx).involvesWatchAddress).involvesWatchAddress).1.length_eq
        constructor
        · rw [hlen]
          exact le_trans (List.length_filter_le _ _) (le_max_right _ _)
        · rintro (h1 | h1 | h1)
          · exact absurd h1 hd
          · exact absurd h1 hs
          · exact absurd hg h1
      · rw [decomposeDebit_of_unattributed P wallet wtx hd hs hg] at h
        cases h
        exact ⟨one rfl, fun _ => rfl⟩

theorem contract_branch_length (P : Params) (wallet : CWallet) (wtx : CWalletTx)
    (parts : List TransactionRecord) (h : decomposeTransaction P wallet wtx = some parts)
    (hstake : wtx.IsCoinStake = false) (hspend : wtx.HasZerocoinSpendInputs = false)
    (hbranch : wtx.HasP2CSOutputs = true ∨ wtx.HasP2CSInputs = true ∨
      wtx.HasP2LOutputs = true ∨ wtx.HasP2LInputs = true ∨ wtx.IsLeasingReward = true) :
    parts.length = 1 := by
  simp only [decomposeTransaction, zSpendFromMe_of_no_spend wallet wtx hspend, hstake, hspend,
    Bool.false_eq_true, if_false, List.nil_append] at h
  cases h1 : wtx.HasP2CSOutputs with
  | true =>
    simp only [h1, if_true, Option.some.injEq] at h
    subst h
    rfl
  | false =>
    cases h2 : wtx.HasP2CSInputs with
    | true =>
      simp only [h1, h2, Bool.false_eq_true, if_false, if_true] at h
      split at h
      · exact absurd h (by simp)
      · cases h; rfl
    | false =>
      cases h3 : wtx.HasP2LOutputs with
      | true =>
        simp only [h1, h2, h3, Bool.false_eq_true, if_false, if_true, Option.some.injEq] at h
        subst h
        rfl
      | false =>
        cases h4 : wtx.HasP2LInputs with
        | true =>
          simp only [h1, h2, h3, h4, Bool.false_eq_true, if_false, if_true] at h
          split at h
          · exact absurd h (by simp)
          · cases h; rfl
        | false =>
          have h5 : wtx.IsLeasingReward = true := by
            rcases hbranch with hb | hb | hb | hb | hb
            · rw [h1] at hb; cases hb
            · rw [h2] at hb; cases hb
            · rw [h3] at hb; cases hb
            · rw [h4] at hb; cases hb
            · exact hb
          simp only [h1, h2, h3, h4, h5, Bool.false_eq_true, if_false, if_true,
            Option.some.injEq] at h
          subst h
          rfl

/-! ## The reads of the classifier -/

theorem zSpendFromMe_defined (wallet : CWallet) (wtx : CWalletTx)
    (hvin : wtx.HasZerocoinSpendInputs = true → wtx.vin ≠ []) :
    ∃ fz, zSpendFromMe wallet wtx = some fz := by
  unfold zSpendFromMe
  cases hs : wtx.HasZerocoinSpendInputs with
  | false => exact ⟨false, by simp⟩
  | true =>
    cases hv : wtx.vin with
    | nil => exact absurd hv (hvin hs)
    | cons txin rest => exact ⟨wallet.IsMyZerocoinSpend txin, by simp⟩

theorem getElem?_of_lt {α : Type} (l : List α) (n : Nat) (h : n < l.length) :
    ∃ x, l[n]? = some x :=
  ⟨l[n], List.getElem?_eq_getElem h⟩

theorem decomposeCoinStake_defined (P : Params) (wallet : CWallet) (wtx : CWalletTx) (fz : Bool)
    (hvin : wtx.HasZerocoinSpendInputs = true → wtx.vin ≠ []) (hout : 2 ≤ wtx.vout.length) :
    ∃ parts, decomposeCoinStake P wallet wtx fz = some parts := by
  obtain ⟨o1, h1⟩ := getElem?_of_lt wtx.vout 1 hout
  obtain ⟨oN, hN⟩ := getElem?_of_lt wtx.vout (wtx.vout.length - 1) (by omega)
  unfold decomposeCoinStake
  dsimp only
  rw [h1, hN]
  cases hs : wtx.HasZerocoinSpendInputs with
  | true =>
    cases hv : wtx.vin with
    | nil => exact absurd hv (hvin hs)
    | cons txin rest =>
      simp only [if_true, List.getElem?_cons_zero, Bool.true_and]
      split
      · exact ⟨_, rfl⟩
      · split
        · split <;> exact ⟨_, rfl⟩
        · exact ⟨_, rfl⟩
  | false =>
    simp only [Bool.false_eq_true, if_false, Bool.false_and]
    cases ExtractDestination o1.scriptPubKey with
    | none => exact ⟨_, rfl⟩
    | some address =>
      dsimp only
      split
      · split <;> exact ⟨_, rfl⟩
      · exact ⟨_, rfl⟩

/-- The search of `loadUnlockColdStake` reads no output outside the originating entries when
every input names an output that its originating entry has. -/
theorem findP2CSInput_defined (P : Params) (wallet : CWallet) :
    ∀ ins : List CTxIn,
      (∀ input ∈ ins, ∀ tx, wallet.GetWalletTx input.prevout.hash = some tx →
        input.prevout.n < tx.vout.length) →
      ∃ found, findP2CSInput P wallet ins = some found := by
  intro ins
  induction ins with
  | nil => intro _; exact ⟨none, rfl⟩
  | cons i is ih =>
    intro hrange
    unfold findP2CSInput
    cases htx : wallet.GetWalletTx i.prevout.hash with
    | none =>
      dsimp only
      exact ih (fun j hj => hrange j (List.mem_cons_of_mem _ hj))
    | some tx =>
      dsimp only
      obtain ⟨prev, hprev⟩ := getElem?_of_lt tx.vout i.prevout.n
        (hrange i (List.mem_cons_self _ _) tx htx)
      rw [hprev]
      dsimp only
      cases hc : prev.scriptPubKey.IsPayToColdStaking with
      | true =>
        rw [if_pos rfl]
        exact ⟨_, rfl⟩
      | false =>
        simp only [Bool.false_eq_true, if_false]
        exact ih (fun j hj => hrange j (List.mem_cons_of_mem _ hj))

/-- In the delegation-unlock branch the classifier has a result when the search finds a
script. -/
theorem decomposeTransaction_of_unlock_found (P : Params) (wallet : CWallet) (wtx : CWalletTx)
    (hreach : reachesUnlock wtx) (script : CScript) (spendable : Bool)
    (hfind : findP2CSInput P wallet wtx.vin = some (some (script, spendable))) :
    ∃ parts, decomposeTransaction P wallet wtx = some parts := by
  obtain ⟨h0, hs, h1, h2⟩ := hreach
  obtain ⟨sub, hsub, -⟩ := loadUnlockColdStake_of_found P wallet wtx
    (TransactionRecord.init wtx.GetHash wtx.GetComputedTxTime wtx.GetTotalSize)
    script spendable hfind
  exact ⟨[sub], by simp only [decomposeTransaction, zSpendFromMe_of_no_spend wallet wtx hs, h0,
    hs, h1, h2, Bool.false_eq_true, if_false, if_true, hsub, List.nil_append]⟩

theorem findP2CSInput_found (P : Params) (wallet : CWallet) :
    ∀ ins : List CTxIn,
      (∀ input ∈ ins, ∀ tx, wallet.GetWalletTx input.prevout.hash = some tx →
        input.prevout.n < tx.vout.length) →
      (∃ input ∈ ins, ∃ tx prev, wallet.GetWalletTx input.prevout.hash = some tx ∧
        tx.vout[input.prevout.n]? = some prev ∧ prev.scriptPubKey.IsPayToColdStaking = true) →
      ∃ script spendable, findP2CSInput P wallet ins = some (some (script, spendable)) := by
  intro ins
  induction ins with
  | nil =>
    intro _ h
    obtain ⟨i, hi, _⟩ := h
    cases hi
  | cons i is ih =>
    intro hrange hex
    unfold findP2CSInput
    cases htx : wallet.GetWalletTx i.prevout.hash with
    | none =>
      dsimp only
      apply ih (fun j hj => hrange j (List.mem_cons_of_mem _ hj))
      obtain ⟨j, hj, tx, prev, h1, h2, h3⟩ := hex
      rcases List.mem_cons.mp hj with rfl | hj'
      · rw [htx] at h1; cases h1
      · exact ⟨j, hj', tx, prev, h1, h2, h3⟩
    | some tx =>
      dsimp only
      obtain ⟨prev, hprev⟩ := getElem?_of_lt tx.vout i.prevout.n
        (hrange i (List.mem_cons_self _ _) tx htx)
      rw [hprev]
      dsimp only
      cases hc : prev.scriptPubKey.IsPayToColdStaking with
      | true =>
        rw [if_pos rfl]
        exact ⟨_, _, rfl⟩
      | false =>
        simp only [Bool.false_eq_true, if_false]
        apply ih (fun j hj => hrange j (List.mem_cons_of_mem _ hj))
        obtain ⟨j, hj, tx', prev', h1, h2, h3⟩ := hex
        rcases List.mem_cons.mp hj with rfl | hj'
        · rw [htx] at h1
          cases h1
          rw [hprev] at h2
          cases h2
          rw [hc] at h3
          cases h3
        · exact ⟨j, hj', tx', prev', h1, h2, h3⟩

theorem loadLeasingSpend_loop_defined (P : Params) (wallet : CWallet)
    (record : TransactionRecord) :
    ∀ ins : List CTxIn,
      (∀ input ∈ ins, ∀ tx, wallet.GetWalletTx input.prevout.hash = some tx →
        input.prevout.n < tx.vout.length) →
      ∃ sub, loadLeasingSpend_loop P wallet record ins = some sub := by
  intro ins
  induction ins with
  | nil => intro _; exact ⟨record, rfl⟩
  | cons i is ih =>
    intro hrange
    have hrest := ih (fun j hj => hrange j (List.mem_cons_of_mem _ hj))
    unfold loadLeasingSpend_loop
    cases htx : wallet.GetWalletTx i.prevout.hash with
    | none => exact hrest
    | some tx =>
      dsimp only
      obtain ⟨prev, hprev⟩ := getElem?_of_lt tx.vout i.prevout.n
        (hrange i (List.mem_cons_self _ _) tx htx)
      rw [hprev]
      dsimp only
      split
      · split
        · exact ⟨_, rfl⟩
        · split
          · exact ⟨_, rfl⟩
          · split
            · exact ⟨_, rfl⟩
            · exact hrest
      · exact hrest

/-! ## Decimal digits and the order of the sort keys -/

theorem toDigitsCore_eq (n : Nat) :
    ∀ (fuel : Nat) (ds : List Char), n < fuel →
      Nat.toDigitsCore 10 fuel n ds = Nat.toDigits 10 n ++ ds := by
  induction n using Nat.strong_induction_on with
  | _ n ih =>
    intro fuel ds hfuel
    obtain ⟨f, rfl⟩ : ∃ f, fuel = f + 1 := ⟨fuel - 1, by omega⟩
    unfold Nat.toDigits
    simp only [Nat.toDigitsCore]
    by_cases h0 : n / 10 = 0
    · rw [if_pos h0, if_pos h0]
      rfl
    · rw [if_neg h0, if_neg h0]
      have hlt : n / 10 < n := Nat.div_lt_self (by omega) (by decide)
      rw [ih (n / 10) hlt f _ (by omega), ih (n / 10) hlt n _ hlt]
      simp

theorem toDigits_of_lt_ten (n : Nat) (h : n < 10) :
    Nat.toDigits 10 n = [Nat.digitChar n] := by
  unfold Nat.toDigits
  simp only [Nat.toDigitsCore]
  rw [if_pos (Nat.div_eq_of_lt h), Nat.mod_eq_of_lt h]

theorem toDigits_of_ten_le (n : Nat) (h : 10 ≤ n) :
    Nat.toDigits 10 n = Nat.toDigits 10 (n / 10) ++ [Nat.digitChar (n % 10)] := by
  have h0 : n / 10 ≠ 0 := by omega
  have hlt : n / 10 < n := Nat.div_lt_self (by omega) (by decide)
  conv_lhs => unfold Nat.toDigits
  simp only [Nat.toDigitsCore]
  rw [if_neg h0, toDigitsCore_eq (n / 10) n _ hlt]

theorem fixedDigits_length : ∀ (width n : Nat), (fixedDigits width n).length = width := by
  intro width
  induction width with
  | zero => intro n; rfl
  | succ w ih => intro n; simp [fixedDigits, ih]

theorem fixedDigits_zero : ∀ width : Nat, fixedDigits width 0 = List.replicate width '0' := by
  intro width
  induction width with
  | zero => rfl
  | succ w ih =>
    show fixedDigits w (0 / 10) ++ [Nat.digitChar (0 % 10)] = _
    rw [Nat.zero_div, ih, List.replicate_succ']
    rfl

/-- The zero-padded digits of a number below `10 ^ width`. -/
theorem pad_toDigits : ∀ (width n : Nat), 0 < width → n < 10 ^ width →
    (Nat.toDigits 10 n).length ≤ width ∧
    List.replicate (width - (Nat.toDigits 10 n).length) '0' ++ Nat.toDigits 10 n =
      fixedDigits width n := by
  intro width
  induction width with
  | zero => intro n h; exact absurd h (lt_irrefl 0)
  | succ w ih =>
    intro n _ hn
    by_cases hten : n < 10
    · rw [toDigits_of_lt_ten n hten]
      refine ⟨by simp, ?_⟩
      show List.replicate (w + 1 - 1) '0' ++ [Nat.digitChar n] =
        fixedDigits w (n / 10) ++ [Nat.digitChar (n % 10)]
      rw [Nat.div_eq_of_lt hten, Nat.mod_eq_of_lt hten, fixedDigits_zero, Nat.add_sub_cancel]
    · have hw : 0 < w := by
        rcases Nat.eq_zero_or_pos w with rfl | hpos
        · exact absurd hn (by simpa using hten)
        · exact hpos
      have hdiv : n / 10 < 10 ^ w := by
        rw [Nat.div_lt_iff_lt_mul (by decide)]
        rw [pow_succ] at hn
        exact hn
      obtain ⟨hlen, hpad⟩ := ih (n / 10) hw hdiv
      rw [toDigits_of_ten_le n (by omega)]
      refine ⟨by simp; omega, ?_⟩
      show _ = fixedDigits w (n / 10) ++ [Nat.digitChar (n % 10)]
      rw [← hpad, List.length_append, List.length_singleton, Nat.add_sub_add_right,
        List.append_assoc]

theorem digitChar_lt : ∀ i j : Fin 10, i < j → Nat.digitChar i.val < Nat.digitChar j.val := by
  decide

theorem digitChar_strictMono (a b : Nat) (hab : a < b) (hb : b < 10) :
    Nat.digitChar a < Nat.digitChar b :=
  digitChar_lt ⟨a, by omega⟩ ⟨b, hb⟩ hab

theorem lex_append_of_lex {l₁ l₂ : List Char} (h : List.Lex (· < ·) l₁ l₂) :
    l₁.length = l₂.length → ∀ r₁ r₂ : List Char, List.Lex (· < ·) (l₁ ++ r₁) (l₂ ++ r₂) := by
  induction h with
  | nil => intro hlen; simp at hlen
  | cons _ ih =>
    intro hlen r₁ r₂
    exact List.Lex.cons (ih (by simpa using hlen) r₁ r₂)
  | rel hab => intro _ r₁ r₂; exact List.Lex.rel hab

/-- Fixed-width digits are ordered as the numbers are. -/
theorem fixedDigits_lt : ∀ (width a b : Nat), a < b → b < 10 ^ width →
    List.Lex (· < ·) (fixedDigits width a) (fixedDigits width b) := by
  intro width
  induction width with
  | zero => intro a b hab hb; simp at hb; omega
  | succ w ih =>
    intro a b hab hb
    show List.Lex (· < ·) (fixedDigits w (a / 10) ++ [Nat.digitChar (a % 10)])
      (fixedDigits w (b / 10) ++ [Nat.digitChar (b % 10)])
    have hdiv : b / 10 < 10 ^ w := by
      rw [Nat.div_lt_iff_lt_mul (by decide)]
      rw [pow_succ] at hb
      exact hb
    rcases Nat.lt_or_ge (a / 10) (b / 10) with hlt | hge
    · exact lex_append_of_lex (ih _ _ hlt hdiv)
        (by rw [fixedDigits_length, fixedDigits_length]) _ _
    · have heq : a / 10 = b / 10 := Nat.le_antisymm (Nat.div_le_div_right (le_of_lt hab)) hge
      have hmod : a % 10 < b % 10 := by omega
      rw [heq]
      apply List.Lex.append_left
      exact List.Lex.rel (digitChar_strictMono _ _ hmod (Nat.mod_lt _ (by decide)))

theorem zeroPad_data (width n : Nat) (hw : 0 < width) (hn : n < 10 ^ width) :
    (zeroPad width (toString n)).data = fixedDigits width n := by
  have h := (pad_toDigits width n hw hn).2
  unfold zeroPad
  rw [String.data_append]
  exact h

theorem printf_d_data_of_nonneg (width : Nat) (n : Int) (hw : 0 < width) (h0 : 0 ≤ n)
    (hn : n.toNat < 10 ^ width) : (printf_d width n).data = fixedDigits width n.toNat := by
  unfold printf_d
  rw [if_neg (not_lt.mpr h0)]
  exact zeroPad_data width n.toNat hw hn

theorem printf_d_data_of_neg (width : Nat) (n : Int) (h0 : n < 0) :
    ∃ rest, (printf_d width n).data = '-' :: rest := by
  unfold printf_d
  rw [if_pos h0, String.data_append]
  exact ⟨_, rfl⟩

theorem sortKey_data (pindex : Option Int) (wtx : CWalletTx) (idx : Nat) :
    ∃ rest, (sortKey pindex wtx idx).data =
      (printf_d 10 (match pindex with
        | some nHeight => nHeight
        | none => INT_MAX)).data ++ rest := by
  unfold sortKey
  simp only [String.data_append, List.append_assoc]
  exact ⟨_, rfl⟩
theorem sortKey_lt_of_height_lt (wtx₁ wtx₂ : CWalletTx) (idx₁ idx₂ : Nat) (h₁ h₂ : Int)
    (h0 : 0 ≤ h₁) (hlt : h₁ < h₂) (hmax : h₂ ≤ INT_MAX) :
    keyLess (sortKey (some h₁) wtx₁ idx₁) (sortKey (some h₂) wtx₂ idx₂) := by
  obtain ⟨rest₁, hd₁⟩ := sortKey_data (some h₁) wtx₁ idx₁
  obtain ⟨rest₂, hd₂⟩ := sortKey_data (some h₂) wtx₂ idx₂
  have hmax' : h₂ ≤ 2147483647 := hmax
  have hn₂ : h₂.toNat < 10 ^ 10 := by
    have : h₂.toNat ≤ 2147483647 := by omega
    exact lt_of_le_of_lt this (by norm_num)
  have hn₁ : h₁.toNat < h₂.toNat := by omega
  unfold keyLess
  rw [hd₁, hd₂]
  dsimp only
  rw [printf_d_data_of_nonneg 10 h₁ (by decide) h0 (lt_trans hn₁ hn₂),
    printf_d_data_of_nonneg 10 h₂ (by decide) (by omega) hn₂]
  exact lex_append_of_lex (fixedDigits_lt 10 _ _ hn₁ hn₂)
    (by rw [fixedDigits_length, fixedDigits_length]) _ _

theorem sortKey_lt_unknown (wtx₁ wtx₂ : CWalletTx) (idx₁ idx₂ : Nat) (h₁ : Int)
    (hlt : h₁ < INT_MAX) :
    keyLess (sortKey (some h₁) wtx₁ idx₁) (sortKey none wtx₂ idx₂) := by
  obtain ⟨rest₁, hd₁⟩ := sortKey_data (some h₁) wtx₁ idx₁
  obtain ⟨rest₂, hd₂⟩ := sortKey_data none wtx₂ idx₂
  have hlt' : h₁ < 2147483647 := hlt
  have hmaxd : (printf_d 10 INT_MAX).data = fixedDigits 10 2147483647 :=
    printf_d_data_of_nonneg 10 INT_MAX (by decide) (by decide) (by decide)
  unfold keyLess
  rw [hd₁, hd₂]
  dsimp only
  rw [hmaxd]
  by_cases h0 : 0 ≤ h₁
  · have hn₁ : h₁.toNat < 2147483647 := by omega
    rw [printf_d_data_of_nonneg 10 h₁ (by decide) h0 (lt_trans hn₁ (by norm_num))]
    exact lex_append_of_lex (fixedDigits_lt 10 _ _ hn₁ (by norm_num))
      (by rw [fixedDigits_length, fixedDigits_length]) _ _
  · obtain ⟨rest, hneg⟩ := printf_d_data_of_neg 10 h₁ (not_le.mp h0)
    rw [hneg]
    have hmaxc : fixedDigits 10 2147483647 =
        '2' :: ['1', '4', '7', '4', '8', '3', '6', '4', '7'] := by decide
    rw [hmaxc]
    exact List.Lex.rel (by decide)

theorem sortKey_lt_of_idx_lt (pindex : Option Int) (wtx : CWalletTx) (i j : Nat)
    (hij : i < j) (hj : j < 1000) :
    keyLess (sortKey pindex wtx i) (sortKey pindex wtx j) := by
  unfold keyLess sortKey
  simp only [String.data_append]
  apply List.Lex.append_left
  rw [printf_d_data_of_nonneg 3 (i : Int) (by decide) (Int.ofNat_nonneg i)
      (by simpa using lt_trans hij hj),
    printf_d_data_of_nonneg 3 (j : Int) (by decide) (Int.ofNat_nonneg j) (by simpa using hj)]
  exact fixedDigits_lt 3 _ _ (by simpa using hij) (by simpa using hj)

theorem manyPayeesTx_reachesSent : reachesSent sampleParams sampleWallet manyPayeesTx := by
  have hmem : ∀ o ∈ manyPayeesTx.vout, o = { nValue := 1, scriptPubKey := payTo "shop" } :=
    fun o ho => List.eq_of_mem_replicate ho
  have hin : ({ nValue := 1, scriptPubKey := payTo "shop" } : CTxOut) ∈ manyPayeesTx.vout :=
    List.mem_replicate.mpr ⟨by decide, rfl⟩
  obtain ⟨-, hn, hall, -⟩ := scanToMe_spec sampleParams sampleWallet manyPayeesTx
    (scanFromMe sampleParams sampleWallet manyPayeesTx).involvesWatchAddress
  have hfilter : manyPayeesTx.vout.filter
      (fun txout => decide (sampleWallet.IsMineOut txout ≠ 0)) = [] := by
    apply List.filter_eq_nil_iff.mpr
    intro o ho
    rw [hmem o ho]
    decide
  refine ⟨by decide, ?_, ?_, Or.inl (by decide)⟩
  · rintro ⟨-, -, hprod⟩
    apply hprod
    rw [hn, hfilter]
    rfl
  · rintro ⟨-, hto⟩
    exact (hall.mp hto).2 _ hin (by decide)

theorem manyPayeesTx_sentOutputs :
    (sentOutputs sampleWallet manyPayeesTx).length = 1001 := by
  have hself : sentOutputs sampleWallet manyPayeesTx = manyPayeesTx.vout := by
    unfold sentOutputs
    apply List.filter_eq_self.mpr
    intro o ho
    rw [List.eq_of_mem_replicate ho]
    decide
  rw [hself]
  exact List.length_replicate _ _

/-! ## The order position in the label map -/

theorem lookup_assign_self (m : mapValue_t) (key value : String) :
    (m.assign key value).lookup key = some value := by
  unfold mapValue_t.assign
  rw [List.lookup_append]
  have hnone : List.lookup key (m.filter (fun entry => entry.1 != key)) = none := by
    induction m with
    | nil => rfl
    | cons e es ih =>
      by_cases he : e.1 = key
      · rw [List.filter_cons_of_neg (by simpa using he)]
        exact ih
      · rw [List.filter_cons_of_pos (by simpa using he)]
        obtain ⟨k, v⟩ := e
        have hk : (key == k) = false := by simpa using fun h => he h.symm
        simp only [List.lookup, hk]
        exact ih
  rw [hnone]
  simp [List.lookup]

theorem lookup_assign_other (m : mapValue_t) (key value k : String) (hk : k ≠ key) :
    (m.assign key value).lookup k = m.lookup k := by
  unfold mapValue_t.assign
  rw [List.lookup_append]
  have hlast : List.lookup k [(key, value)] = none := by
    have : (k == key) = false := by simpa using hk
    simp [List.lookup, this]
  rw [hlast, Option.or_none]
  induction m with
  | nil => rfl
  | cons e es ih =>
    obtain ⟨k', v⟩ := e
    by_cases he : k' = key
    · rw [List.filter_cons_of_neg (by simpa using he)]
      have hkk : (k == k') = false := by rw [he]; simpa using hk
      simp only [List.lookup, hkk]
      exact ih
    · rw [List.filter_cons_of_pos (by simpa using he)]
      by_cases hkk : k = k'
      · simp [List.lookup, hkk]
      · have hkk' : (k == k') = false := by simpa using hkk
        simp only [List.lookup, hkk']
        exact ih

theorem digitChar_value : ∀ d : Fin 10, (Nat.digitChar d.val).toNat - 48 = d.val := by
  decide

theorem digitChar_ne_minus : ∀ d : Fin 10, Nat.digitChar d.val ≠ '-' := by
  decide

theorem parseDigits_append (digits : List Char) (c : Char) :
    parseDigits (digits ++ [c]) = parseDigits digits * 10 + (c.toNat - 48) := by
  unfold parseDigits
  rw [List.foldl_append]
  rfl

theorem parseDigits_toDigits (n : Nat) : parseDigits (Nat.toDigits 10 n) = n := by
  induction n using Nat.strong_induction_on with
  | _ n ih =>
    by_cases hten : n < 10
    · rw [toDigits_of_lt_ten n hten]
      show 0 * 10 + ((Nat.digitChar n).toNat - 48) = n
      have hd : (Nat.digitChar n).toNat - 48 = n := digitChar_value ⟨n, hten⟩
      rw [hd]
      omega
    · have hd : (Nat.digitChar (n % 10)).toNat - 48 = n % 10 :=
        digitChar_value ⟨n % 10, Nat.mod_lt _ (by decide)⟩
      rw [toDigits_of_ten_le n (by omega), parseDigits_append,
        ih (n / 10) (Nat.div_lt_self (by omega) (by decide)), hd]
      omega

theorem toDigits_head (n : Nat) :
    ∃ c cs, Nat.toDigits 10 n = c :: cs ∧ c ≠ '-' := by
  induction n using Nat.strong_induction_on with
  | _ n ih =>
    by_cases hten : n < 10
    · exact ⟨_, [], toDigits_of_lt_ten n hten, digitChar_ne_minus ⟨n, hten⟩⟩
    · obtain ⟨c, cs, hc, hne⟩ := ih (n / 10) (Nat.div_lt_self (by omega) (by decide))
      exact ⟨c, cs ++ [Nat.digitChar (n % 10)],
        by rw [toDigits_of_ten_le n (by omega), hc]; rfl, hne⟩

/-- The sample conversions are inverse at every integer. -/
theorem decimalToInt_intToDecimal (n : Int) : decimalToInt (intToDecimal n) = n := by
  cases n with
  | ofNat m =>
    obtain ⟨c, cs, hc, hne⟩ := toDigits_head m
    have hdata : (intToDecimal (Int.ofNat m)).data = Nat.toDigits 10 m := rfl
    have hval := parseDigits_toDigits m
    unfold decimalToInt
    rw [hdata]
    rw [hc] at hval ⊢
    split
    · rename_i digits heq
      exact absurd (List.cons.inj heq).1 hne
    · rw [hval]
      rfl
  | negSucc m =>
    have hdata : (intToDecimal (Int.negSucc m)).data = '-' :: Nat.toDigits 10 (m + 1) := rfl
    unfold decimalToInt
    rw [hdata]
    show -(parseDigits (Nat.toDigits 10 (m + 1)) : Int) = Int.negSucc m
    rw [parseDigits_toDigits]
    rfl

/-! ## The claims -/

/-- C1. Fee attribution in the sent branch. For an entry that reaches the sent branch (no
earlier branch matches, the entry is neither a denominate nor a payment to self, and all inputs
are owned or the entry has privacy-coin mint outputs) and whose fee `nDebit - GetValueOut()` is
positive, the classifier returns one record per output kept by the branch, in output order;
when there is at least one, the debit of the first record is minus (its output value plus the
fee), and the debit of every later record is minus its output value: the fee is in exactly one
debit. -/
theorem sent_fee_in_first_record_only (P : Params) (wallet : CWallet) (wtx : CWalletTx)
    (hreach : reachesSent P wallet wtx)
    (hfee : wtx.GetDebit P.ISMINE_ALL - wtx.GetValueOut > 0) :
    ∃ parts, decomposeTransaction P wallet wtx = some parts ∧
      parts.length = (sentOutputs wallet wtx).length ∧
      ∀ first rest, sentOutputs wallet wtx = first :: rest →
        parts.map (fun r => r.debit) =
          -(first.nValue + (wtx.GetDebit P.ISMINE_ALL - wtx.GetValueOut)) ::
            rest.map (fun o => -o.nValue) := by
  obtain ⟨h2, h3, -⟩ := decomposeSent_spec P wallet wtx
    (scanToMe P wallet wtx (scanFromMe P wallet wtx).involvesWatchAddress).involvesWatchAddress
  refine ⟨_, decomposeTransaction_of_reachesSent P wallet wtx hreach, h2.length_eq, ?_⟩
  intro first rest hout
  rw [h3, hout]
  simp [feeDebits, hfee]

/-- C1, evaluated on a payment of 100 with two payees (40 and 50) and fee 5: the debits of the
two records are -45 and -50. -/
theorem sent_fee_in_first_record_only_witness :
    reachesSent sampleParams sampleWallet sendTwoTx ∧
    sendTwoTx.GetDebit sampleParams.ISMINE_ALL - sendTwoTx.GetValueOut > 0 ∧
    (decomposeTransaction sampleParams sampleWallet sendTwoTx).map
      (fun parts => parts.map (fun r => r.debit)) = some [-45, -50] ∧
    ∃ parts, decomposeTransaction sampleParams sampleWallet sendTwoTx = some parts ∧
      parts.length = (sentOutputs sampleWallet sendTwoTx).length ∧
      ∀ first rest, sentOutputs sampleWallet sendTwoTx = first :: rest →
        parts.map (fun r => r.debit) =
          -(first.nValue +
              (sendTwoTx.GetDebit sampleParams.ISMINE_ALL - sendTwoTx.GetValueOut)) ::
            rest.map (fun o => -o.nValue) :=
  ⟨by decide, by decide, by decide,
    sent_fee_in_first_record_only sampleParams sampleWallet sendTwoTx (by decide) (by decide)⟩

/-- C2. Plain send decomposition. For an entry that reaches the sent branch with no privacy-coin
mint outputs and no mixing marker, every input is owned, and the classifier returns records
that correspond one to one and in output order to the outputs the wallet does not own (an owned
output, the change, has no record): a record whose output has an extractable destination has
category `SendToAddress`, and the debits are minus the values of these outputs, with a positive
fee added to the first. -/
theorem plain_send_records (P : Params) (wallet : CWallet) (wtx : CWalletTx)
    (hreach : reachesSent P wallet wtx)
    (hmint : wtx.HasZerocoinMintOutputs = false)
    (hds : wtx.mapValue.at "DS" ≠ "1") :
    (∀ txin ∈ wtx.vin, wallet.IsMineIn txin ≠ 0) ∧
    ∃ parts, decomposeTransaction P wallet wtx = some parts ∧
      List.Forall₂
        (fun r o =>
          (ExtractDestination o.scriptPubKey).isSome = true → r.type = RecordType.SendToAddress)
        parts (wtx.vout.filter (fun o => decide (wallet.IsMineOut o = 0))) ∧
      parts.map (fun r => r.debit) =
        feeDebits (wtx.GetDebit P.ISMINE_ALL - wtx.GetValueOut)
          (wtx.vout.filter (fun o => decide (wallet.IsMineOut o = 0))) := by
  have hkept : sentOutputs wallet wtx =
      wtx.vout.filter (fun o => decide (wallet.IsMineOut o = 0)) := by
    unfold sentOutputs
    congr 1
    funext o
    simp [sentKept, hmint]
  obtain ⟨h2, h3, -⟩ := decomposeSent_spec P wallet wtx
    (scanToMe P wallet wtx (scanFromMe P wallet wtx).involvesWatchAddress).involvesWatchAddress
  rw [hkept] at h2 h3
  refine ⟨?_, _, decomposeTransaction_of_reachesSent P wallet wtx hreach, ?_, h3⟩
  · obtain ⟨-, -, -, hsent⟩ := hreach
    rcases hsent with hall | hm
    · exact ((scanFromMe_spec P wallet wtx).2.2.1.mp hall).2
    · rw [hmint] at hm; exact absurd hm (by simp)
  · refine h2.imp ?_
    intro r o hro hx
    rw [hro.1]
    simp [sentType, hds, hx]

/-- C2, evaluated on the scenario of the specification: one owned input of 100, outputs of 30
(owned) and 65 (foreign), fee 5, no mixing marker. There is exactly one record, with category
`SendToAddress` and debit -70. -/
theorem plain_send_records_witness :
    reachesSent sampleParams sampleWallet sendTx ∧ sendTx.HasZerocoinMintOutputs = false ∧
    sendTx.mapValue.at "DS" ≠ "1" ∧
    decomposeTransaction sampleParams sampleWallet sendTx =
      some [{ hash := 1, time := 1600000000, size := 226, type := RecordType.SendToAddress,
              address := "shop", debit := -70, credit := 0, idx := 0,
              involvesWatchAddress := false }] ∧
    (∀ txin ∈ sendTx.vin, sampleWallet.IsMineIn txin ≠ 0) ∧
    ∃ parts, decomposeTransaction sampleParams sampleWallet sendTx = some parts ∧
      List.Forall₂
        (fun r o =>
          (ExtractDestination o.scriptPubKey).isSome = true → r.type = RecordType.SendToAddress)
        parts (sendTx.vout.filter (fun o => decide (sampleWallet.IsMineOut o = 0))) ∧
      parts.map (fun r => r.debit) =
        feeDebits (sendTx.GetDebit sampleParams.ISMINE_ALL - sendTx.GetValueOut)
          (sendTx.vout.filter (fun o => decide (sampleWallet.IsMineOut o = 0))) :=
  ⟨by decide, by decide, by decide, by decide,
    plain_send_records sampleParams sampleWallet sendTx (by decide) (by decide) (by decide)⟩

/-- C3, refuted as stated. The payment to self `selfTx` (owned input 100, owned outputs 60 and
35, fee 5, change 35) reaches the payment-to-self branch, its total credit equals its total
output value, and its one record has category `SendToSelf`, credit 60 and debit -65: the
difference `credit - debit` is 125, not minus the fee, -5. -/
theorem self_payment_difference_is_not_fee :
    reachesSelf sampleParams sampleWallet selfTx ∧
    selfTx.GetCredit sampleParams.ISMINE_ALL = selfTx.GetValueOut ∧
    decomposeTransaction sampleParams sampleWallet selfTx =
      some [{ hash := 1, time := 1600000000, size := 226, type := RecordType.SendToSelf,
              address := "mine", debit := -65, credit := 60, idx := 0,
              involvesWatchAddress := false }] ∧
    (decomposeTransaction sampleParams sampleWallet selfTx).map
      (fun parts => (parts.map (fun r => r.credit)).sum - (parts.map (fun r => r.debit)).sum) =
      some 125 ∧
    -(selfTx.GetDebit sampleParams.ISMINE_ALL - selfTx.GetValueOut) = -5 :=
  ⟨by decide, by decide, by decide, by decide, by decide⟩

/-- C3, amended. For an entry that reaches the payment-to-self branch (no earlier branch
matches, not a denominate, all inputs and all outputs owned) and has an output, the classifier
returns exactly one record, and the sum of its credit and its debit (the debit is stored as a
non-positive number) is `nCredit - nDebit`; when the total credit equals the total output
value, this sum is minus the fee `nDebit - GetValueOut()`. -/
theorem self_payment_conservation (P : Params) (wallet : CWallet) (wtx : CWalletTx)
    (hreach : reachesSelf P wallet wtx) (hout : wtx.vout ≠ []) :
    ∃ r, decomposeTransaction P wallet wtx = some [r] ∧
      ([r].map (fun r => r.credit)).sum + ([r].map (fun r => r.debit)).sum =
        wtx.GetCredit P.ISMINE_ALL - wtx.GetDebit P.ISMINE_ALL ∧
      (wtx.GetCredit P.ISMINE_ALL = wtx.GetValueOut →
        ([r].map (fun r => r.credit)).sum + ([r].map (fun r => r.debit)).sum =
          -(wtx.GetDebit P.ISMINE_ALL - wtx.GetValueOut)) := by
  obtain ⟨hd, hden, hself⟩ := hreach
  obtain ⟨r, hr, hdebit, hcredit, -, -⟩ := decomposeSelf_spec P wallet wtx
    (scanToMe P wallet wtx (scanFromMe P wallet wtx).involvesWatchAddress).involvesWatchAddress
    hout
  have hsum : ([r].map (fun r => r.credit)).sum + ([r].map (fun r => r.debit)).sum =
      wtx.GetCredit P.ISMINE_ALL - wtx.GetDebit P.ISMINE_ALL := by
    simp only [List.map_cons, List.map_nil, List.sum_cons, List.sum_nil, hdebit, hcredit]
    ring
  refine ⟨r, ?_, hsum, ?_⟩
  · rw [decomposeTransaction_of_reachesDebit P wallet wtx hd,
      decomposeDebit_of_self P wallet wtx hden hself, hr]
  · intro heq
    rw [hsum, heq]
    ring

/-- C3 amended, evaluated on the payment to self `selfTx`: credit 60 plus debit -65 is -5,
minus the fee. -/
theorem self_payment_conservation_witness :
    reachesSelf sampleParams sampleWallet selfTx ∧ selfTx.vout ≠ [] ∧
    ∃ r, decomposeTransaction sampleParams sampleWallet selfTx = some [r] ∧
      ([r].map (fun r => r.credit)).sum + ([r].map (fun r => r.debit)).sum =
        selfTx.GetCredit sampleParams.ISMINE_ALL - selfTx.GetDebit sampleParams.ISMINE_ALL ∧
      (selfTx.GetCredit sampleParams.ISMINE_ALL = selfTx.GetValueOut →
        ([r].map (fun r => r.credit)).sum + ([r].map (fun r => r.debit)).sum =
          -(selfTx.GetDebit sampleParams.ISMINE_ALL - selfTx.GetValueOut)) :=
  ⟨by decide, by decide,
    self_payment_conservation sampleParams sampleWallet selfTx (by decide) (by decide)⟩

/-- C4. Internal mix. For an entry that reaches the net-debit analysis (no earlier branch
matches, `nCredit - nDebit <= 0`, not a coinbase) in which every input is owned and
denominated, every output is owned and has a denominated amount, and there is at least one
input and one output, the classifier returns exactly one record, with category
`ObfuscationDenominate`, watch-only flag off whatever the ownership answers are, debit
`-nDebit` and credit `nCredit`. The number of inputs times the number of outputs is a value of
`int` (below `2^31`), so that the product of the counters in line 245 does not overflow. -/
theorem internal_mix_one_denominate_record (P : Params) (wallet : CWallet) (wtx : CWalletTx)
    (hreach : reachesDebit P wtx)
    (hin : ∀ txin ∈ wtx.vin, wallet.IsMineIn txin ≠ 0 ∧ wallet.IsDenominated txin = true)
    (hout : ∀ txout ∈ wtx.vout,
      wallet.IsMineOut txout ≠ 0 ∧ wallet.IsDenominatedAmount txout.nValue = true)
    (hvin : wtx.vin ≠ []) (hvout : wtx.vout ≠ [])
    (hsize : wtx.vin.length * wtx.vout.length < 2147483648) :
    ∃ r, decomposeTransaction P wallet wtx = some [r] ∧
      r.type = RecordType.ObfuscationDenominate ∧ r.involvesWatchAddress = false ∧
      r.debit = -(wtx.GetDebit P.ISMINE_ALL) ∧ r.credit = wtx.GetCredit P.ISMINE_ALL := by
  have hguard : guardDenominate P wallet wtx := by
    obtain ⟨f1, f2, -, -⟩ := scanFromMe_spec P wallet wtx
    obtain ⟨t1, t2, -, -⟩ := scanToMe_spec P wallet wtx
      (scanFromMe P wallet wtx).involvesWatchAddress
    refine ⟨f1.mpr (fun txin h _ => (hin txin h).2), t1.mpr (fun txout h _ => (hout txout h).2),
      ?_⟩
    rw [f2, t2]
    have hf : wtx.vin.filter (fun txin => decide (wallet.IsMineIn txin ≠ 0)) = wtx.vin :=
      List.filter_eq_self.mpr (fun txin h => by simpa using (hin txin h).1)
    have ht : wtx.vout.filter (fun txout => decide (wallet.IsMineOut txout ≠ 0)) = wtx.vout :=
      List.filter_eq_self.mpr (fun txout h => by simpa using (hout txout h).1)
    rw [hf, ht]
    exact toInt32_mul_ne_zero_of_lt _ _ (fun h => hvin (List.length_eq_zero.mp h))
      (fun h => hvout (List.length_eq_zero.mp h)) hsize
  refine ⟨{ TransactionRecord.init7 wtx.GetHash wtx.GetComputedTxTime wtx.GetTotalSize
              RecordType.ObfuscationDenominate "" (-(wtx.GetDebit P.ISMINE_ALL))
              (wtx.GetCredit P.ISMINE_ALL) with involvesWatchAddress := false },
    ?_, rfl, rfl, rfl, rfl⟩
  rw [decomposeTransaction_of_reachesDebit P wallet wtx hreach,
    decomposeDebit_of_denominate P wallet wtx hguard]

/-- C4, evaluated on the scenario of the specification: two owned denominated inputs and two
owned denominated outputs of equal total value, fee-free. -/
theorem internal_mix_one_denominate_record_witness :
    reachesDebit sampleParams denominateTx ∧
    (∀ txin ∈ denominateTx.vin,
      sampleWallet.IsMineIn txin ≠ 0 ∧ sampleWallet.IsDenominated txin = true) ∧
    (∀ txout ∈ denominateTx.vout,
      sampleWallet.IsMineOut txout ≠ 0 ∧ sampleWallet.IsDenominatedAmount txout.nValue = true) ∧
    denominateTx.vin ≠ [] ∧ denominateTx.vout ≠ [] ∧
    denominateTx.vin.length * denominateTx.vout.length < 2147483648 ∧
    ∃ r, decomposeTransaction sampleParams sampleWallet denominateTx = some [r] ∧
      r.type = RecordType.ObfuscationDenominate ∧ r.involvesWatchAddress = false ∧
      r.debit = -(denominateTx.GetDebit sampleParams.ISMINE_ALL) ∧
      r.credit = denominateTx.GetCredit sampleParams.ISMINE_ALL :=
  ⟨by decide, by decide, by decide, by decide, by decide, by decide,
    internal_mix_one_denominate_record sampleParams sampleWallet denominateTx
      (by decide) (by decide) (by decide) (by decide) (by decide) (by decide)⟩

/-- C5, refuted as stated. The mixing entry `sharedMixTx` has an owned denominated input and an
owned denominated output next to an input and an output of another party; the classifier
gives it one record of category `ObfuscationDenominate`, although not every input and not every
output is owned. -/
theorem denominate_record_with_foreign_parts :
    decomposeTransaction sampleParams sampleWallet sharedMixTx =
      some [{ hash := 1, time := 1600000000, size := 226,
              type := RecordType.ObfuscationDenominate, address := "", debit := -10,
              credit := 10, idx := 0, involvesWatchAddress := false }] ∧
    ¬ (∀ txin ∈ sharedMixTx.vin, sampleWallet.IsMineIn txin ≠ 0) ∧
    ¬ (∀ txout ∈ sharedMixTx.vout, sampleWallet.IsMineOut txout ≠ 0) :=
  ⟨by decide, by decide, by decide⟩

/-- C5, amended. Whenever the classifier produces a record of category
`ObfuscationDenominate`, every input the wallet owns is denominated, every output the wallet
owns has a denominated amount, and the wallet owns at least one input and at least one output
(inputs and outputs of other parties may be present). -/
theorem denominate_record_owned_parts_denominated (P : Params) (wallet : CWallet)
    (wtx : CWalletTx) (parts : List TransactionRecord)
    (h : decomposeTransaction P wallet wtx = some parts)
    (r : TransactionRecord) (hr : r ∈ parts) (hty : r.type = RecordType.ObfuscationDenominate) :
    (∀ txin ∈ wtx.vin, wallet.IsMineIn txin ≠ 0 → wallet.IsDenominated txin = true) ∧
    (∀ txout ∈ wtx.vout, wallet.IsMineOut txout ≠ 0 →
      wallet.IsDenominatedAmount txout.nValue = true) ∧
    (∃ txin ∈ wtx.vin, wallet.IsMineIn txin ≠ 0) ∧
    (∃ txout ∈ wtx.vout, wallet.IsMineOut txout ≠ 0) := by
  obtain ⟨g1, g2, g3⟩ := denominate_only_from_guard P wallet wtx parts h r hr hty
  obtain ⟨f1, f2, -, -⟩ := scanFromMe_spec P wallet wtx
  obtain ⟨t1, t2, -, -⟩ := scanToMe_spec P wallet wtx
    (scanFromMe P wallet wtx).involvesWatchAddress
  rw [f2, t2] at g3
  have hcount := toInt32_mul_ne_zero _ _ g3
  refine ⟨f1.mp g1, t1.mp g2, ?_, ?_⟩
  · obtain ⟨txin, hmem⟩ := List.exists_mem_of_length_pos (Nat.pos_of_ne_zero hcount.1)
    exact ⟨txin, (List.mem_filter.mp hmem).1, by simpa using (List.mem_filter.mp hmem).2⟩
  · obtain ⟨txout, hmem⟩ := List.exists_mem_of_length_pos (Nat.pos_of_ne_zero hcount.2)
    exact ⟨txout, (List.mem_filter.mp hmem).1, by simpa using (List.mem_filter.mp hmem).2⟩

/-- C5 amended, evaluated on the mixing entry `sharedMixTx`. -/
theorem denominate_record_owned_parts_denominated_witness :
    (∃ r parts, decomposeTransaction sampleParams sampleWallet sharedMixTx = some parts ∧
      r ∈ parts ∧ r.type = RecordType.ObfuscationDenominate) ∧
    ((∀ txin ∈ sharedMixTx.vin,
        sampleWallet.IsMineIn txin ≠ 0 → sampleWallet.IsDenominated txin = true) ∧
      (∀ txout ∈ sharedMixTx.vout, sampleWallet.IsMineOut txout ≠ 0 →
        sampleWallet.IsDenominatedAmount txout.nValue = true) ∧
      (∃ txin ∈ sharedMixTx.vin, sampleWallet.IsMineIn txin ≠ 0) ∧
      (∃ txout ∈ sharedMixTx.vout, sampleWallet.IsMineOut txout ≠ 0)) :=
  ⟨⟨{ hash := 1, time := 1600000000, size := 226, type := RecordType.ObfuscationDenominate,
       address := "", debit := -10, credit := 10, idx := 0, involvesWatchAddress := false },
      _, by decide, List.mem_singleton.mpr rfl, rfl⟩,
    denominate_record_owned_parts_denominated sampleParams sampleWallet sharedMixTx
      [{ hash := 1, time := 1600000000, size := 226, type := RecordType.ObfuscationDenominate,
         address := "", debit := -10, credit := 10, idx := 0, involvesWatchAddress := false }]
      (by decide) _ (List.mem_singleton.mpr rfl) rfl⟩

/-- C6. Delegation-contract classification. For an entry that is no stake reward, has no
privacy-coin spend inputs and has a cold-staking output, the classifier returns exactly one
record; with `p2cs` the first cold-staking output, its category is `P2CSDelegationSentOwner`
if `p2cs` is spendable-delegated by the wallet and the entry is from the wallet,
`P2CSDelegationSent` if the entry is from the wallet and `p2cs` is not spendable by it, and
`P2CSDelegation` if the entry is not from the wallet. -/
theorem delegation_contract_category (P : Params) (wallet : CWallet) (wtx : CWalletTx)
    (hstake : wtx.IsCoinStake = false) (hspend : wtx.HasZerocoinSpendInputs = false)
    (hflag : wtx.HasP2CSOutputs = true) (p2cs : CTxOut)
    (hfirst : wtx.vout.find? (fun txout => txout.scriptPubKey.IsPayToColdStaking) = some p2cs) :
    ∃ r, decomposeTransaction P wallet wtx = some [r] ∧
      ((wallet.IsMineOut p2cs &&& P.ISMINE_SPENDABLE_DELEGATED) ≠ 0 ∧
          wallet.IsFromMe wtx = true → r.type = RecordType.P2CSDelegationSentOwner) ∧
      ((wallet.IsMineOut p2cs &&& P.ISMINE_SPENDABLE_DELEGATED) = 0 ∧
          wallet.IsFromMe wtx = true → r.type = RecordType.P2CSDelegationSent) ∧
      (wallet.IsFromMe wtx = false → r.type = RecordType.P2CSDelegation) := by
  have hutxo : firstP2CSUtxo wtx = p2cs := by simp [firstP2CSUtxo, hfirst]
  refine ⟨loadHotOrColdStakeOrContract P wallet wtx
      { TransactionRecord.init wtx.GetHash wtx.GetComputedTxTime wtx.GetTotalSize with
        credit := wtx.GetCredit P.ISMINE_ALL, debit := -(wtx.GetDebit P.ISMINE_ALL) } true,
    ?_, ?_, ?_, ?_⟩
  · simp only [decomposeTransaction, zSpendFromMe_of_no_spend wallet wtx hspend]
    simp [hstake, hspend, hflag]
  · rintro ⟨hs, hf⟩
    rw [loadHotOrColdStakeOrContract_type, hutxo]
    simp [hs, hf]
  · rintro ⟨hs, hf⟩
    rw [loadHotOrColdStakeOrContract_type, hutxo]
    simp [hs, hf]
  · intro hf
    rw [loadHotOrColdStakeOrContract_type, hutxo]
    simp [hf]

/-- C6, evaluated on the delegation contract `delegateTx`, sent by the wallet, which keeps
the owner key of the cold-staking output. -/
theorem delegation_contract_category_witness :
    delegateTx.IsCoinStake = false ∧ delegateTx.HasZerocoinSpendInputs = false ∧
    delegateTx.HasP2CSOutputs = true ∧
    delegateTx.vout.find? (fun txout => txout.scriptPubKey.IsPayToColdStaking) =
      some { nValue := 100, scriptPubKey := coldStakeTo "delegated" } ∧
    (decomposeTransaction sampleParams sampleWallet delegateTx).map
      (fun parts => parts.map (fun r => r.type)) = some [RecordType.P2CSDelegationSentOwner] ∧
    ∃ r, decomposeTransaction sampleParams sampleWallet delegateTx = some [r] ∧
      ((sampleWallet.IsMineOut { nValue := 100, scriptPubKey := coldStakeTo "delegated" } &&&
            sampleParams.ISMINE_SPENDABLE_DELEGATED) ≠ 0 ∧
          sampleWallet.IsFromMe delegateTx = true →
        r.type = RecordType.P2CSDelegationSentOwner) ∧
      ((sampleWallet.IsMineOut { nValue := 100, scriptPubKey := coldStakeTo "delegated" } &&&
            sampleParams.ISMINE_SPENDABLE_DELEGATED) = 0 ∧
          sampleWallet.IsFromMe delegateTx = true →
        r.type = RecordType.P2CSDelegationSent) ∧
      (sampleWallet.IsFromMe delegateTx = false → r.type = RecordType.P2CSDelegation) :=
  ⟨by decide, by decide, by decide, by decide, by decide,
    delegation_contract_category sampleParams sampleWallet delegateTx (by decide) (by decide)
      (by decide) { nValue := 100, scriptPubKey := coldStakeTo "delegated" } (by decide)⟩

/-- C7, refuted as stated. For the delegation contract `delegateTx` (cold-staking output 100,
change 45, owned input 150) the record carries the raw all-ownership totals, credit 145 and
debit -150, not the amounts under the spendable-delegated filter, credit 100 and debit 0. -/
theorem delegation_record_has_raw_totals :
    delegateTx.IsCoinStake = false ∧ delegateTx.HasZerocoinSpendInputs = false ∧
    delegateTx.HasP2CSOutputs = true ∧
    decomposeTransaction sampleParams sampleWallet delegateTx =
      some [{ hash := 1, time := 1600000000, size := 226,
              type := RecordType.P2CSDelegationSentOwner, address := "delegated",
              debit := -150, credit := 145, idx := 0, involvesWatchAddress := false }] ∧
    delegateTx.GetCredit sampleParams.ISMINE_ALL = 145 ∧
    delegateTx.GetDebit sampleParams.ISMINE_ALL = 150 ∧
    delegateTx.GetCredit sampleParams.ISMINE_SPENDABLE_DELEGATED = 100 ∧
    delegateTx.GetDebit sampleParams.ISMINE_SPENDABLE_DELEGATED = 0 :=
  ⟨by decide, by decide, by decide, by decide, by decide, by decide, by decide, by decide⟩

/-- C7, amended. Let the classifier return `parts` for an entry that is no stake reward and
has no privacy-coin spend inputs, and write `nCredit = GetCredit(ISMINE_ALL)` and
`nDebit = GetDebit(ISMINE_ALL)` for the raw totals. Then `parts` is one record and
* for a delegation contract, a leasing unlock and a leasing reward its credit is `nCredit`
  and its debit is `-nDebit`, the raw totals;
* for a delegation unlock it is either the owner's record, with debit
  `-GetStakeDelegationDebit()` and credit `nCredit`, or the staker's, with debit
  `-GetColdStakingDebit()` and credit `-GetColdStakingCredit()`;
* for a leasing contract it has the raw totals, changed by the leased-filter credit
  `GetCredit(ISMINE_LEASED)` according to its category: subtracted from the credit
  (`P2LLeasingSentToSelf`), subtracted from the debit (`P2LLeasingSent`), or added to the
  negated debit (`P2LLeasingRecv`). -/
theorem contract_record_amounts (P : Params) (wallet : CWallet) (wtx : CWalletTx)
    (parts : List TransactionRecord) (h : decomposeTransaction P wallet wtx = some parts)
    (hstake : wtx.IsCoinStake = false) (hspend : wtx.HasZerocoinSpendInputs = false) :
    (wtx.HasP2CSOutputs = true →
      ∃ r, parts = [r] ∧ r.credit = wtx.GetCredit P.ISMINE_ALL ∧
        r.debit = -(wtx.GetDebit P.ISMINE_ALL)) ∧
    (wtx.HasP2CSOutputs = false → wtx.HasP2CSInputs = true →
      ∃ r, parts = [r] ∧
        ((r.type = RecordType.P2CSUnlockOwner ∧ r.debit = -(wtx.GetStakeDelegationDebit) ∧
            r.credit = wtx.GetCredit P.ISMINE_ALL) ∨
          (r.type = RecordType.P2CSUnlockStaker ∧ r.debit = -(wtx.GetColdStakingDebit) ∧
            r.credit = -(wtx.GetColdStakingCredit)))) ∧
    (wtx.HasP2CSOutputs = false → wtx.HasP2CSInputs = false → wtx.HasP2LOutputs = true →
      ∃ r, parts = [r] ∧
        ((r.type = RecordType.Other ∧ r.credit = wtx.GetCredit P.ISMINE_ALL ∧
            r.debit = -(wtx.GetDebit P.ISMINE_ALL)) ∨
          (r.type = RecordType.P2LLeasingSentToSelf ∧
            r.credit = wtx.GetCredit P.ISMINE_ALL - wtx.GetCredit P.ISMINE_LEASED ∧
            r.debit = -(wtx.GetDebit P.ISMINE_ALL)) ∨
          (r.type = RecordType.P2LLeasingSent ∧ r.credit = wtx.GetCredit P.ISMINE_ALL ∧
            r.debit = -(wtx.GetDebit P.ISMINE_ALL) - wtx.GetCredit P.ISMINE_LEASED) ∨
          (r.type = RecordType.P2LLeasingRecv ∧ r.credit = wtx.GetCredit P.ISMINE_ALL ∧
            r.debit = wtx.GetDebit P.ISMINE_ALL + wtx.GetCredit P.ISMINE_LEASED))) ∧
    (wtx.HasP2CSOutputs = false → wtx.HasP2CSInputs = false → wtx.HasP2LOutputs = false →
      wtx.HasP2LInputs = true →
      ∃ r, parts = [r] ∧ r.credit = wtx.GetCredit P.ISMINE_ALL ∧
        r.debit = -(wtx.GetDebit P.ISMINE_ALL)) ∧
    (wtx.HasP2CSOutputs = false → wtx.HasP2CSInputs = false → wtx.HasP2LOutputs = false →
      wtx.HasP2LInputs = false → wtx.IsLeasingReward = true →
      ∃ r, parts = [r] ∧ r.credit = wtx.GetCredit P.ISMINE_ALL ∧
        r.debit = -(wtx.GetDebit P.ISMINE_ALL)) := by
  simp only [decomposeTransaction, zSpendFromMe_of_no_spend wallet wtx hspend, hstake, hspend,
    Bool.false_eq_true, if_false, List.nil_append] at h
  refine ⟨?_, ?_, ?_, ?_, ?_⟩
  · intro h1
    simp only [h1, if_true, Option.some.injEq] at h
    subst h
    exact ⟨_, rfl, (loadHotOrColdStakeOrContract_amounts P wallet wtx _).1,
      (loadHotOrColdStakeOrContract_amounts P wallet wtx _).2⟩
  · intro h1 h2
    simp only [h1, h2, Bool.false_eq_true, if_false, if_true] at h
    split at h
    · exact absurd h (by simp)
    · rename_i sub hsub
      cases h
      exact ⟨sub, rfl, loadUnlockColdStake_amounts P wallet wtx _ sub hsub⟩
  · intro h1 h2 h3
    simp only [h1, h2, h3, Bool.false_eq_true, if_false, if_true, Option.some.injEq] at h
    subst h
    refine ⟨_, rfl, ?_⟩
    rcases loadP2L_loop_amounts P wallet wtx wtx.vout
      { TransactionRecord.init wtx.GetHash wtx.GetComputedTxTime wtx.GetTotalSize with
        credit := wtx.GetCredit P.ISMINE_ALL, debit := -(wtx.GetDebit P.ISMINE_ALL),
        involvesWatchAddress := false } with
      ⟨a, b, c⟩ | ⟨a, b, c⟩ | ⟨a, b, c⟩ | ⟨a, b, c⟩
    · exact Or.inl ⟨a, b, c⟩
    · exact Or.inr (Or.inl ⟨a, b, c⟩)
    · exact Or.inr (Or.inr (Or.inl ⟨a, b, c⟩))
    · refine Or.inr (Or.inr (Or.inr ⟨a, b, ?_⟩))
      exact c.trans (by simp)
  · intro h1 h2 h3 h4
    simp only [h1, h2, h3, h4, Bool.false_eq_true, if_false, if_true] at h
    split at h
    · exact absurd h (by simp)
    · rename_i sub hsub
      cases h
      exact ⟨sub, rfl, loadLeasingSpend_loop_amounts P wallet wtx.vin _ sub hsub⟩
  · intro h1 h2 h3 h4 h5
    simp only [h1, h2, h3, h4, h5, Bool.false_eq_true, if_false, if_true,
      Option.some.injEq] at h
    subst h
    exact ⟨_, rfl, loadLeasingReward_loop_amounts P wallet wtx.vout _⟩

/-- C7 amended, evaluated on the delegation contract `delegateTx`: the record has the raw
totals. -/
theorem contract_record_amounts_witness :
    decomposeTransaction sampleParams sampleWallet delegateTx =
      some [{ hash := 1, time := 1600000000, size := 226,
              type := RecordType.P2CSDelegationSentOwner, address := "delegated",
              debit := -150, credit := 145, idx := 0, involvesWatchAddress := false }] ∧
    delegateTx.IsCoinStake = false ∧ delegateTx.HasZerocoinSpendInputs = false ∧
    delegateTx.HasP2CSOutputs = true ∧
    ∃ r, [({ hash := 1, time := 1600000000, size := 226,
             type := RecordType.P2CSDelegationSentOwner, address := "delegated",
             debit := -150, credit := 145, idx := 0,
             involvesWatchAddress := false } : TransactionRecord)] = [r] ∧
      r.credit = delegateTx.GetCredit sampleParams.ISMINE_ALL ∧
      r.debit = -(delegateTx.GetDebit sampleParams.ISMINE_ALL) :=
  ⟨by decide, by decide, by decide, by decide,
    (contract_record_amounts sampleParams sampleWallet delegateTx _ (by decide) (by decide)
      (by decide)).1 (by decide)⟩

/-- C8. Net-positive and subsidy decomposition. For an entry that matches no earlier branch
and is net-positive (`nCredit - nDebit > 0`) or a coinbase, the classifier returns records
that correspond one to one and in output order to the owned outputs; the credit of a record is
the value of its output, and its category is `Generated` if the entry is a coinbase, otherwise
`RecvWithAddress` if the destination of the output is extractable and owned, otherwise
`RecvFromOther`. -/
theorem credit_records (P : Params) (wallet : CWallet) (wtx : CWalletTx)
    (hreach : reachesCredit P wtx) :
    ∃ parts, decomposeTransaction P wallet wtx = some parts ∧
      List.Forall₂
        (fun r o => r.credit = o.nValue ∧
          (wtx.IsCoinBase = true → r.type = RecordType.Generated) ∧
          (wtx.IsCoinBase = false →
            (∃ address, ExtractDestination o.scriptPubKey = some address ∧
              wallet.IsMineDest address ≠ 0) →
            r.type = RecordType.RecvWithAddress) ∧
          (wtx.IsCoinBase = false →
            ¬ (∃ address, ExtractDestination o.scriptPubKey = some address ∧
              wallet.IsMineDest address ≠ 0) →
            r.type = RecordType.RecvFromOther))
        parts (wtx.vout.filter (fun o => decide (wallet.IsMineOut o ≠ 0))) := by
  obtain ⟨recs, h1, h2, -⟩ := credit_foldl P wallet wtx wtx.vout []
  have hrecs : decomposeCredit P wallet wtx = recs := by
    simpa [decomposeCredit] using h1
  refine ⟨recs, ?_, h2.imp ?_⟩
  · rw [decomposeTransaction_of_reachesCredit P wallet wtx hreach, hrecs]
  · rintro r o ⟨hc, -, hty⟩
    have hrecv : receivedByAddress wallet o = true ↔
        ∃ address, ExtractDestination o.scriptPubKey = some address ∧
          wallet.IsMineDest address ≠ 0 := by
      unfold receivedByAddress
      cases ExtractDestination o.scriptPubKey with
      | none => simp
      | some address => simp
    refine ⟨hc, ?_, ?_, ?_⟩
    · intro hb; rw [hty]; simp [hb]
    · intro hb hx; rw [hty]; simp [hb, hrecv.mpr hx]
    · intro hb hx
      have hf : receivedByAddress wallet o = false := by
        cases hrb : receivedByAddress wallet o with
        | false => rfl
        | true => exact absurd (hrecv.mp hrb) hx
      rw [hty]; simp [hb, hf]

/-- C8, evaluated on the received payment `receiveTx`: one record for the owned output of 50,
none for the foreign output. -/
theorem credit_records_witness :
    reachesCredit sampleParams receiveTx ∧
    decomposeTransaction sampleParams sampleWallet receiveTx =
      some [{ hash := 1, time := 1600000000, size := 226, type := RecordType.RecvWithAddress,
              address := "mine", debit := 0, credit := 50, idx := 0,
              involvesWatchAddress := false }] ∧
    ∃ parts, decomposeTransaction sampleParams sampleWallet receiveTx = some parts ∧
      List.Forall₂
        (fun r o => r.credit = o.nValue ∧
          (receiveTx.IsCoinBase = true → r.type = RecordType.Generated) ∧
          (receiveTx.IsCoinBase = false →
            (∃ address, ExtractDestination o.scriptPubKey = some address ∧
              sampleWallet.IsMineDest address ≠ 0) →
            r.type = RecordType.RecvWithAddress) ∧
          (receiveTx.IsCoinBase = false →
            ¬ (∃ address, ExtractDestination o.scriptPubKey = some address ∧
              sampleWallet.IsMineDest address ≠ 0) →
            r.type = RecordType.RecvFromOther))
        parts (receiveTx.vout.filter (fun o => decide (sampleWallet.IsMineOut o ≠ 0))) :=
  ⟨by decide, by decide, credit_records sampleParams sampleWallet receiveTx (by decide)⟩

/-- C9, refuted as stated. The entry `foreignZStakeTx` is a stake reward with privacy-coin spend
inputs, but the spend is not the wallet's and the mint tracker does not know the entry: the
classifier returns one record of category `MNReward` (the operator reward paid to the wallet),
with credit 3 and debit 0, not a `StakeZBTCU` record. -/
theorem foreign_zerocoin_stake_is_not_StakeZBTCU :
    foreignZStakeTx.IsCoinStake = true ∧ foreignZStakeTx.HasZerocoinSpendInputs = true ∧
    decomposeTransaction sampleParams sampleWallet foreignZStakeTx =
      some [{ hash := 1, time := 1600000000, size := 226, type := RecordType.MNReward,
              address := "mine", debit := 0, credit := 3, idx := 0,
              involvesWatchAddress := false }] :=
  ⟨by decide, by decide, by decide⟩

/-- C9, amended. For a stake-reward entry that carries privacy-coin spend inputs and whose
spend is the wallet's own or whose hash the wallet's mint tracker knows, the classifier
returns exactly one record, of category `StakeZBTCU`, whose credit is the sum of the values of
the outputs that are privacy-coin mints and whose debit is minus the declared spend value of
input 0, `vin[0].nSequence * COIN`. -/
theorem zerocoin_stake_record (P : Params) (wallet : CWallet) (wtx : CWalletTx)
    (hstake : wtx.IsCoinStake = true) (hspend : wtx.HasZerocoinSpendInputs = true)
    (txin : CTxIn) (rest : List CTxIn) (hvin : wtx.vin = txin :: rest)
    (hmine : wallet.IsMyZerocoinSpend txin = true ∨ wallet.HasMintTx wtx.GetHash = true) :
    ∃ r, decomposeTransaction P wallet wtx = some [r] ∧
      r.type = RecordType.StakeZBTCU ∧
      r.credit =
        ((wtx.vout.filter (fun out => out.IsZerocoinMint)).map (fun out => out.nValue)).sum ∧
      r.debit = -((txin.nSequence : Int) * P.COIN) := by
  have hz : zSpendFromMe wallet wtx = some (wallet.IsMyZerocoinSpend txin) := by
    simp [zSpendFromMe, hspend, hvin]
  have hor : (wallet.IsMyZerocoinSpend txin || wallet.HasMintTx wtx.GetHash) = true := by
    rcases hmine with h | h <;> simp [h]
  refine ⟨{ TransactionRecord.init wtx.GetHash wtx.GetComputedTxTime wtx.GetTotalSize with
      involvesWatchAddress := false
      type := RecordType.StakeZBTCU
      address := wtx.mapValue.at "zerocoinmint"
      credit := zerocoinMintCredit wtx.vout
      debit := 0 - (txin.nSequence : Int) * P.COIN }, ?_, rfl, ?_, ?_⟩
  · simp only [decomposeTransaction, hz, hstake, if_true]
    simp [decomposeCoinStake, hspend, hor, hvin, TransactionRecord.init]
  · exact zerocoinMintCredit_eq_sum wtx.vout
  · simp

/-- C9 amended, evaluated on the privacy-coin stake `zStakeTx` of the wallet: credit
300000000 (the two mints) and debit -100000000 (denomination 1). -/
theorem zerocoin_stake_record_witness :
    zStakeTx.IsCoinStake = true ∧ zStakeTx.HasZerocoinSpendInputs = true ∧
    zStakeTx.vin = zerocoinSpendIn 1 :: [] ∧
    (zWallet.IsMyZerocoinSpend (zerocoinSpendIn 1) = true ∨
      zWallet.HasMintTx zStakeTx.GetHash = true) ∧
    decomposeTransaction sampleParams zWallet zStakeTx =
      some [{ hash := 1, time := 1600000000, size := 226, type := RecordType.StakeZBTCU,
              address := "", debit := -100000000, credit := 300000000, idx := 0,
              involvesWatchAddress := false }] ∧
    ∃ r, decomposeTransaction sampleParams zWallet zStakeTx = some [r] ∧
      r.type = RecordType.StakeZBTCU ∧
      r.credit =
        ((zStakeTx.vout.filter (fun out => out.IsZerocoinMint)).map
          (fun out => out.nValue)).sum ∧
      r.debit = -(((zerocoinSpendIn 1).nSequence : Int) * sampleParams.COIN) :=
  ⟨by decide, by decide, by decide, by decide, by decide,
    zerocoin_stake_record sampleParams zWallet zStakeTx (by decide) (by decide)
      (zerocoinSpendIn 1) [] (by decide) (by decide)⟩

/-- C10, refuted as stated. The stake reward `foreignStakeTx` has no privacy-coin spend input,
its reward output `vout[1]` is not owned, and its last output is not both extractable and
owned; still the classifier returns one record, the fresh record with no field assigned
(category `Other`, zero credit and debit), not the empty sequence. -/
theorem unmatched_stake_reward_has_a_record :
    foreignStakeTx.IsCoinStake = true ∧ foreignStakeTx.HasZerocoinSpendInputs = false ∧
    foreignStakeTx.vout[1]? = some { nValue := 105, scriptPubKey := payTo "staker" } ∧
    sampleWallet.IsMineOut { nValue := 105, scriptPubKey := payTo "staker" } = 0 ∧
    foreignStakeTx.vout[foreignStakeTx.vout.length - 1]? =
      some { nValue := 1, scriptPubKey := payTo "fund" } ∧
    receivedByAddress sampleWallet { nValue := 1, scriptPubKey := payTo "fund" } = false ∧
    decomposeTransaction sampleParams sampleWallet foreignStakeTx =
      some [{ hash := 1, time := 1600000000, size := 226, type := RecordType.Other,
              address := "", debit := 0, credit := 0, idx := 0,
              involvesWatchAddress := false }] ∧
    decomposeTransaction sampleParams sampleWallet foreignStakeTx ≠ some [] :=
  ⟨by decide, by decide, by decide, by decide, by decide, by decide, by decide, by decide⟩

/-- C10, amended. For a stake-reward entry that matches none of the stake sub-cases (no
privacy-coin spend inputs, reward output `vout[1]` not owned, last output not both extractable
and owned), the classifier produces no record when no destination can be extracted from the
reward output, and otherwise exactly one record: the fresh record, to which no category,
address or amount has been assigned. -/
theorem unmatched_stake_reward (P : Params) (wallet : CWallet) (wtx : CWalletTx)
    (hstake : wtx.IsCoinStake = true) (hspend : wtx.HasZerocoinSpendInputs = false)
    (reward last : CTxOut) (hreward : wtx.vout[1]? = some reward)
    (hlast : wtx.vout[wtx.vout.length - 1]? = some last)
    (hnotmine : wallet.IsMineOut reward = 0)
    (hnotop : receivedByAddress wallet last = false) :
    (ExtractDestination reward.scriptPubKey = none →
      decomposeTransaction P wallet wtx = some []) ∧
    (ExtractDestination reward.scriptPubKey ≠ none →
      decomposeTransaction P wallet wtx =
        some [TransactionRecord.init wtx.GetHash wtx.GetComputedTxTime wtx.GetTotalSize]) := by
  have hz := zSpendFromMe_of_no_spend wallet wtx hspend
  constructor
  · intro hx
    simp only [decomposeTransaction, hz, hstake, if_true]
    simp [decomposeCoinStake, hspend, hreward, hx]
  · intro hx
    obtain ⟨address, haddr⟩ := Option.ne_none_iff_exists'.mp hx
    simp only [decomposeTransaction, hz, hstake, if_true]
    unfold receivedByAddress at hnotop
    cases hl : ExtractDestination last.scriptPubKey with
    | none => simp [decomposeCoinStake, hspend, hreward, haddr, hnotmine, hlast, hl]
    | some destMN =>
      have hd : wallet.IsMineDest destMN = 0 := by simpa [hl] using hnotop
      simp [decomposeCoinStake, hspend, hreward, haddr, hnotmine, hlast, hl, hd]

/-- C10 amended, evaluated on the stake rewards `bareStakeTx` (no destination in the reward
output: no record) and `foreignStakeTx` (one fresh record). -/
theorem unmatched_stake_reward_witness :
    (decomposeTransaction sampleParams sampleWallet bareStakeTx = some []) ∧
    (decomposeTransaction sampleParams sampleWallet foreignStakeTx =
      some [TransactionRecord.init foreignStakeTx.GetHash foreignStakeTx.GetComputedTxTime
        foreignStakeTx.GetTotalSize]) :=
  ⟨(unmatched_stake_reward sampleParams sampleWallet bareStakeTx (by decide) (by decide)
      { nValue := 105, scriptPubKey := emptyScript } { nValue := 1, scriptPubKey := payTo "fund" }
      (by decide) (by decide) (by decide) (by decide)).1 (by decide),
    (unmatched_stake_reward sampleParams sampleWallet foreignStakeTx (by decide) (by decide)
      { nValue := 105, scriptPubKey := payTo "staker" }
      { nValue := 1, scriptPubKey := payTo "fund" }
      (by decide) (by decide) (by decide) (by decide)).2 (by decide)⟩

/-- C11, refuted as stated. In the privacy-coin spend `zSpendTx` of the wallet (100 spent, 70
to a foreign address, 20 re-minted, fee 10) the first record is the spend to the foreign
address with debit -70, minus the value of its output: the fee is not in the first record but
in the second, the record of the re-minted change. In `zSpendNoChangeTx` (100 spent, 90 to a
foreign address, fee 10) there is a record and the fee is in none. -/
theorem zerocoin_spend_fee_not_in_first_record :
    zSpendTx.IsCoinStake = false ∧ zSpendTx.HasZerocoinSpendInputs = true ∧
    zSpendTx.GetZerocoinSpent - zSpendTx.GetValueOut = 10 ∧
    decomposeTransaction sampleParams zWallet zSpendTx =
      some [{ hash := 1, time := 1600000000, size := 226, type := RecordType.ZerocoinSpend,
              address := "shop", debit := -70, credit := 0, idx := 0,
              involvesWatchAddress := false },
            { hash := 1, time := 1600000000, size := 226,
              type := RecordType.ZerocoinSpend_Change_zPiv, address := "", debit := -10,
              credit := 0, idx := 1, involvesWatchAddress := false }] ∧
    zSpendNoChangeTx.IsCoinStake = false ∧ zSpendNoChangeTx.HasZerocoinSpendInputs = true ∧
    zSpendNoChangeTx.GetZerocoinSpent - zSpendNoChangeTx.GetValueOut = 10 ∧
    decomposeTransaction sampleParams zWallet zSpendNoChangeTx =
      some [{ hash := 1, time := 1600000000, size := 226, type := RecordType.ZerocoinSpend,
              address := "shop", debit := -90, credit := 0, idx := 0,
              involvesWatchAddress := false }] :=
  ⟨by decide, by decide, by decide, by decide, by decide, by decide, by decide, by decide⟩

/-- C11, amended. For an entry that is no stake reward and has privacy-coin spend inputs, the
classifier returns one record per kept output, in output order. The transaction-level fee
`GetZerocoinSpent() - GetValueOut()` is subtracted from the debit of exactly the first record
of category `ZerocoinSpend_Change_zPiv` (re-minted change), if there is one: its debit is minus
the fee, every later record of that category has debit zero, and a record of another category
has debit zero (owned output) or minus the value of its output (spend to another party). -/
theorem zerocoin_spend_fee_in_first_change_record (P : Params) (wallet : CWallet)
    (wtx : CWalletTx) (hstake : wtx.IsCoinStake = false)
    (hspend : wtx.HasZerocoinSpendInputs = true)
    (txin : CTxIn) (rest : List CTxIn) (hvin : wtx.vin = txin :: rest) :
    ∃ parts, decomposeTransaction P wallet wtx = some parts ∧
      List.Forall₂
        (fun r o =>
          (r.type = RecordType.ZerocoinSpend_Change_zPiv ↔ o.IsZerocoinMint = true) ∧
          (o.IsZerocoinMint = false →
            r.debit = (if wallet.IsMineOut o ≠ 0 then 0 else -o.nValue)))
        parts (wtx.vout.filter (zSpendKept wallet (wallet.IsMyZerocoinSpend txin))) ∧
      ∀ first later, parts.filter isChangeRecord = first :: later →
        first.debit = -(wtx.GetZerocoinSpent - wtx.GetValueOut) ∧
        ∀ r ∈ later, r.debit = 0 := by
  obtain ⟨h2, h3, -⟩ := decomposeZerocoinSpend_spec P wallet wtx (wallet.IsMyZerocoinSpend txin)
  refine ⟨_, decomposeTransaction_of_zerocoinSpend P wallet wtx hstake hspend txin rest hvin,
    h2.imp ?_, ?_⟩
  · rintro r o ⟨hty, hdebit, -⟩
    refine ⟨?_, hdebit⟩
    rw [hty]
    unfold zSpendType
    by_cases hz : o.IsZerocoinMint = true
    · simp [hz]
    · have hz' : o.IsZerocoinMint = false := by simpa using hz
      by_cases hm : wallet.IsMineOut o = 0 <;> cases wallet.IsMyZerocoinSpend txin <;>
        simp [hz', hm]
  · intro first later hfl
    rw [hfl] at h3
    simp only [List.map_cons, List.length_cons, feeOnce, Bool.false_eq_true, if_false,
      List.cons.injEq] at h3
    refine ⟨by rw [h3.1]; ring, ?_⟩
    intro r hr
    have hmem : r.debit ∈ later.map (fun r => r.debit) := List.mem_map_of_mem _ hr
    rw [h3.2] at hmem
    exact (List.mem_replicate.mp hmem).2

/-- C11 amended, evaluated on the privacy-coin spend `zSpendTx`: the one record of re-minted
change has debit -10, minus the fee. -/
theorem zerocoin_spend_fee_in_first_change_record_witness :
    zSpendTx.IsCoinStake = false ∧ zSpendTx.HasZerocoinSpendInputs = true ∧
    zSpendTx.vin = zerocoinSpendIn 1 :: [] ∧
    (decomposeTransaction sampleParams zWallet zSpendTx).map
      (fun parts => (parts.filter isChangeRecord).map (fun r => r.debit)) = some [-10] ∧
    ∃ parts, decomposeTransaction sampleParams zWallet zSpendTx = some parts ∧
      List.Forall₂
        (fun r o =>
          (r.type = RecordType.ZerocoinSpend_Change_zPiv ↔ o.IsZerocoinMint = true) ∧
          (o.IsZerocoinMint = false →
            r.debit = (if zWallet.IsMineOut o ≠ 0 then 0 else -o.nValue)))
        parts
        (zSpendTx.vout.filter
          (zSpendKept zWallet (zWallet.IsMyZerocoinSpend (zerocoinSpendIn 1)))) ∧
      ∀ first later, parts.filter isChangeRecord = first :: later →
        first.debit = -(zSpendTx.GetZerocoinSpent - zSpendTx.GetValueOut) ∧
        ∀ r ∈ later, r.debit = 0 :=
  ⟨by decide, by decide, by decide, by decide,
    zerocoin_spend_fee_in_first_change_record sampleParams zWallet zSpendTx (by decide)
      (by decide) (zerocoinSpendIn 1) [] (by decide)⟩

/-- C12. For an entry that is no stake reward, has privacy-coin spend inputs and whose spend is
not the wallet's, the records of the classifier correspond one to one and in output order to
the outputs that are not privacy-coin mints and are owned by the wallet; each record has
category `RecvFromZerocoinSpend` and credit equal to the value of its output. A re-minted
change output and an output that is not owned have no record. -/
theorem foreign_zerocoin_spend_records (P : Params) (wallet : CWallet) (wtx : CWalletTx)
    (hstake : wtx.IsCoinStake = false) (hspend : wtx.HasZerocoinSpendInputs = true)
    (txin : CTxIn) (rest : List CTxIn) (hvin : wtx.vin = txin :: rest)
    (hforeign : wallet.IsMyZerocoinSpend txin = false) :
    ∃ parts, decomposeTransaction P wallet wtx = some parts ∧
      List.Forall₂
        (fun r o => r.type = RecordType.RecvFromZerocoinSpend ∧ r.credit = o.nValue)
        parts
        (wtx.vout.filter
          (fun o => !o.IsZerocoinMint && decide (wallet.IsMineOut o ≠ 0))) := by
  obtain ⟨h2, -, -⟩ := decomposeZerocoinSpend_spec P wallet wtx false
  have hkept : wtx.vout.filter (zSpendKept wallet false) =
      wtx.vout.filter (fun o => !o.IsZerocoinMint && decide (wallet.IsMineOut o ≠ 0)) := by
    congr 1
    funext o
    unfold zSpendKept
    cases o.IsZerocoinMint <;> simp
  rw [hkept] at h2
  refine ⟨decomposeZerocoinSpend P wallet wtx false, ?_, forall2_imp_of_mem h2 ?_⟩
  · rw [decomposeTransaction_of_zerocoinSpend P wallet wtx hstake hspend txin rest hvin,
      hforeign]
  · rintro r o ho ⟨hty, -, hcredit⟩
    have hmem : o.IsZerocoinMint = false ∧ wallet.IsMineOut o ≠ 0 := by
      simpa using (List.mem_filter.mp ho).2
    constructor
    · rw [hty]; simp [zSpendType, hmem.1, hmem.2]
    · rw [hcredit]; simp [hmem.1, hmem.2]

/-- C12, evaluated on the privacy-coin spend `zReceiveTx` of another party: one record, for the
output of 40 to the address "mine". -/
theorem foreign_zerocoin_spend_records_witness :
    zReceiveTx.IsCoinStake = false ∧ zReceiveTx.HasZerocoinSpendInputs = true ∧
    zReceiveTx.vin = zerocoinSpendIn 5 :: [] ∧
    zWallet.IsMyZerocoinSpend (zerocoinSpendIn 5) = false ∧
    decomposeTransaction sampleParams zWallet zReceiveTx =
      some [{ hash := 1, time := 1600000000, size := 226,
              type := RecordType.RecvFromZerocoinSpend, address := "mine", debit := 0,
              credit := 40, idx := 0, involvesWatchAddress := false }] ∧
    ∃ parts, decomposeTransaction sampleParams zWallet zReceiveTx = some parts ∧
      List.Forall₂
        (fun r o => r.type = RecordType.RecvFromZerocoinSpend ∧ r.credit = o.nValue)
        parts
        (zReceiveTx.vout.filter
          (fun o => !o.IsZerocoinMint && decide (zWallet.IsMineOut o ≠ 0))) :=
  ⟨by decide, by decide, by decide, by decide, by decide,
    foreign_zerocoin_spend_records sampleParams zWallet zReceiveTx (by decide) (by decide)
      (zerocoinSpendIn 5) [] (by decide) (by decide)⟩

/-- C13, refuted as stated. The entry `watchedMintTx` reaches the sent branch and has two
outputs that are privacy-coin mints; the ownership oracle of `watchWallet` reports the mint of
50 as owned (watch-only), and the classifier returns a single record, the `ZerocoinMint`
record of the mint of 45: the owned mint output is skipped. -/
theorem owned_mint_output_is_skipped :
    reachesSent sampleParams watchWallet watchedMintTx ∧
    (watchedMintTx.vout.filter (fun o => o.IsZerocoinMint)).length = 2 ∧
    watchWallet.IsMineOut { nValue := 50, scriptPubKey := mintScript } ≠ 0 ∧
    decomposeTransaction sampleParams watchWallet watchedMintTx =
      some [{ hash := 1, time := 1600000000, size := 226, type := RecordType.ZerocoinMint,
              address := "", debit := -50, credit := 45, idx := 0,
              involvesWatchAddress := true }] :=
  ⟨by decide, by decide, by decide, by decide⟩

/-- C13, amended. In the sent branch the records correspond one to one and in output order to
the outputs kept by the branch, `sentOutputs`: the outputs the wallet does not own, without
the outputs with an extractable destination when the entry has privacy-coin mint outputs. The
record of a kept output that is a privacy-coin mint without extractable destination has the
value of the output as credit and category `ZerocoinMint` when the entry has no mixing marker
(`Obfuscated` with the marker). A mint output that the ownership oracle reports as owned is not
kept and has no record. -/
theorem sent_mint_records (P : Params) (wallet : CWallet) (wtx : CWalletTx)
    (hreach : reachesSent P wallet wtx) :
    (∀ o ∈ sentOutputs wallet wtx, wallet.IsMineOut o = 0) ∧
    ∃ parts, decomposeTransaction P wallet wtx = some parts ∧
      List.Forall₂
        (fun r o =>
          o.IsZerocoinMint = true → ExtractDestination o.scriptPubKey = none →
            r.credit = o.nValue ∧
            (wtx.mapValue.at "DS" ≠ "1" → r.type = RecordType.ZerocoinMint) ∧
            (wtx.mapValue.at "DS" = "1" → r.type = RecordType.Obfuscated))
        parts (sentOutputs wallet wtx) := by
  refine ⟨?_, _, decomposeTransaction_of_reachesSent P wallet wtx hreach,
    (decomposeSent_credit P wallet wtx _).imp ?_⟩
  · intro o ho
    have hk := (List.mem_filter.mp ho).2
    unfold sentKept at hk
    simp only [Bool.and_eq_true, decide_eq_true_eq] at hk
    exact hk.1
  · rintro r o ⟨hty, hcredit⟩ hz hx
    refine ⟨?_, ?_, ?_⟩
    · rw [hcredit]; simp [hz, hx]
    · intro hds; rw [hty]; simp [sentType, hds, hx, hz]
    · intro hds; rw [hty]; simp [sentType, hds]

/-- C13 amended, evaluated on the mint `mintTx` in the sample wallet, which owns neither mint
output: two `ZerocoinMint` records. -/
theorem sent_mint_records_witness :
    reachesSent sampleParams sampleWallet mintTx ∧
    (decomposeTransaction sampleParams sampleWallet mintTx).map
      (fun parts => parts.map (fun r => (r.type, r.credit))) =
      some [(RecordType.ZerocoinMint, 50), (RecordType.ZerocoinMint, 45)] ∧
    (∀ o ∈ sentOutputs sampleWallet mintTx, sampleWallet.IsMineOut o = 0) ∧
    ∃ parts, decomposeTransaction sampleParams sampleWallet mintTx = some parts ∧
      List.Forall₂
        (fun r o =>
          o.IsZerocoinMint = true → ExtractDestination o.scriptPubKey = none →
            r.credit = o.nValue ∧
            (mintTx.mapValue.at "DS" ≠ "1" → r.type = RecordType.ZerocoinMint) ∧
            (mintTx.mapValue.at "DS" = "1" → r.type = RecordType.Obfuscated))
        parts (sentOutputs sampleWallet mintTx) :=
  ⟨by decide, by decide, sent_mint_records sampleParams sampleWallet mintTx (by decide)⟩

/-- C14. Branch pre-emption for delegation unlock. Let the entry be no stake reward, have no
privacy-coin spend inputs and no cold-staking outputs, and have cold-staking inputs: `input`
is the first input whose originating output is a locally-known cold-staking output (the
earlier inputs have an unknown originating entry or another kind of originating output). Then
the classifier returns exactly one record, of category `P2CSUnlockOwner` when `input` is
spendable by the wallet and `P2CSUnlockStaker` otherwise. Nothing is assumed on the net amount
of the entry, on its leasing shape or on the ownership of its other inputs and outputs. -/
theorem delegation_unlock_category (P : Params) (wallet : CWallet) (wtx : CWalletTx)
    (hstake : wtx.IsCoinStake = false) (hspend : wtx.HasZerocoinSpendInputs = false)
    (hout : wtx.HasP2CSOutputs = false) (hin : wtx.HasP2CSInputs = true)
    (pre post : List CTxIn) (input : CTxIn) (tx : CWalletTx) (prev : CTxOut)
    (hvin : wtx.vin = pre ++ input :: post)
    (hpre : ∀ i ∈ pre, wallet.GetWalletTx i.prevout.hash = none ∨
      ∃ t p, wallet.GetWalletTx i.prevout.hash = some t ∧ t.vout[i.prevout.n]? = some p ∧
        p.scriptPubKey.IsPayToColdStaking = false)
    (htx : wallet.GetWalletTx input.prevout.hash = some tx)
    (hprev : tx.vout[input.prevout.n]? = some prev)
    (hcold : prev.scriptPubKey.IsPayToColdStaking = true) :
    ∃ r, decomposeTransaction P wallet wtx = some [r] ∧
      ((wallet.IsMineIn input &&& P.ISMINE_SPENDABLE_ALL) ≠ 0 →
        r.type = RecordType.P2CSUnlockOwner) ∧
      ((wallet.IsMineIn input &&& P.ISMINE_SPENDABLE_ALL) = 0 →
        r.type = RecordType.P2CSUnlockStaker) := by
  have hfind := findP2CSInput_first P wallet input post tx prev htx hprev hcold pre hpre
  rw [← hvin] at hfind
  have hdec : decomposeTransaction P wallet wtx =
      (match loadUnlockColdStake P wallet wtx
          (TransactionRecord.init wtx.GetHash wtx.GetComputedTxTime wtx.GetTotalSize) with
        | none => none
        | some sub => some [sub]) := by
    simp only [decomposeTransaction, zSpendFromMe_of_no_spend wallet wtx hspend]
    simp [hstake, hspend, hout, hin]
  obtain ⟨sub, hsub, hty⟩ := loadUnlockColdStake_of_found P wallet wtx
    (TransactionRecord.init wtx.GetHash wtx.GetComputedTxTime wtx.GetTotalSize) _ _ hfind
  refine ⟨sub, by rw [hdec, hsub], ?_, ?_⟩
  · intro hs
    rw [hty]
    simp [hs]
  · intro hs
    rw [hty]
    simp [hs]

/-- C14, evaluated on the unlock `unlockTx`, whose second input spends the cold-staking output
of the entry 7 as its owner: one record of category `P2CSUnlockOwner`, although the entry is
net-positive. -/
theorem delegation_unlock_category_witness :
    unlockTx.GetCredit sampleParams.ISMINE_ALL - unlockTx.GetDebit sampleParams.ISMINE_ALL > 0 ∧
    decomposeTransaction sampleParams stakeWallet unlockTx =
      some [{ hash := 2, time := 1600000000, size := 226, type := RecordType.P2CSUnlockOwner,
              address := "delegated", debit := -100, credit := 99, idx := 0,
              involvesWatchAddress := false }] ∧
    ∃ r, decomposeTransaction sampleParams stakeWallet unlockTx = some [r] ∧
      ((stakeWallet.IsMineIn (spend 7 0) &&& sampleParams.ISMINE_SPENDABLE_ALL) ≠ 0 →
        r.type = RecordType.P2CSUnlockOwner) ∧
      ((stakeWallet.IsMineIn (spend 7 0) &&& sampleParams.ISMINE_SPENDABLE_ALL) = 0 →
        r.type = RecordType.P2CSUnlockStaker) :=
  ⟨by decide, by decide,
    delegation_unlock_category sampleParams stakeWallet unlockTx (by decide) (by decide)
      (by decide) (by decide) [spend 9 3] [] (spend 7 0) delegateTx
      { nValue := 100, scriptPubKey := coldStakeTo "delegated" } (by decide)
      (by
        intro i hi
        rw [List.mem_singleton] at hi
        subst hi
        exact Or.inl rfl)
      rfl (by decide) (by decide)⟩

/-- C15, refuted as stated. The entry `foreignLeaseTx` is a leasing contract whose leasing
output the ownership oracle reports as unowned; the record of the classifier is left with the
default category `Other`, which is not in the closed list. -/
theorem leasing_record_left_with_default_category :
    foreignLeaseTx.IsCoinStake = false ∧ foreignLeaseTx.HasZerocoinSpendInputs = false ∧
    foreignLeaseTx.HasP2CSOutputs = false ∧ foreignLeaseTx.HasP2CSInputs = false ∧
    foreignLeaseTx.HasP2LOutputs = true ∧
    decomposeTransaction sampleParams sampleWallet foreignLeaseTx =
      some [{ hash := 1, time := 1600000000, size := 226, type := RecordType.Other,
              address := "", debit := -100, credit := 35, idx := 0,
              involvesWatchAddress := false }] :=
  ⟨by decide, by decide, by decide, by decide, by decide, by decide⟩

/-- C15, amended. Let the classifier return `parts` for an entry that is no stake reward and
has no privacy-coin spend inputs. Every record of `parts` has
* for a delegation contract one of the categories `P2CSDelegationSentOwner`,
  `P2CSDelegationSent`, `P2CSDelegation`;
* for a delegation unlock one of `P2CSUnlockOwner`, `P2CSUnlockStaker`;
* for a leasing contract one of `P2LLeasingSentToSelf`, `P2LLeasingSent`, `P2LLeasingRecv`,
  or the default category `Other`, and `Other` exactly when no leasing output of the entry
  gets one of the three leasing answers of the ownership oracle;
* for a leasing unlock one of `P2LUnlockOwnLeasing`, `P2LUnlockLeasing`, `P2LReturnLeasing`,
  or the default category `Other`;
* for a leasing reward `LeasingReward` or the default category `Other`. -/
theorem contract_record_categories (P : Params) (wallet : CWallet) (wtx : CWalletTx)
    (parts : List TransactionRecord) (h : decomposeTransaction P wallet wtx = some parts)
    (hstake : wtx.IsCoinStake = false) (hspend : wtx.HasZerocoinSpendInputs = false) :
    (wtx.HasP2CSOutputs = true →
      ∀ r ∈ parts, r.type = RecordType.P2CSDelegationSentOwner ∨
        r.type = RecordType.P2CSDelegationSent ∨ r.type = RecordType.P2CSDelegation) ∧
    (wtx.HasP2CSOutputs = false → wtx.HasP2CSInputs = true →
      ∀ r ∈ parts, r.type = RecordType.P2CSUnlockOwner ∨
        r.type = RecordType.P2CSUnlockStaker) ∧
    (wtx.HasP2CSOutputs = false → wtx.HasP2CSInputs = false → wtx.HasP2LOutputs = true →
      ∀ r ∈ parts,
        (r.type = RecordType.Other ∨ r.type = RecordType.P2LLeasingSentToSelf ∨
          r.type = RecordType.P2LLeasingSent ∨ r.type = RecordType.P2LLeasingRecv) ∧
        (r.type = RecordType.Other ↔ ∀ o ∈ wtx.vout, leaseDecides P wallet o = false)) ∧
    (wtx.HasP2CSOutputs = false → wtx.HasP2CSInputs = false → wtx.HasP2LOutputs = false →
      wtx.HasP2LInputs = true →
      ∀ r ∈ parts, r.type = RecordType.Other ∨ r.type = RecordType.P2LUnlockOwnLeasing ∨
        r.type = RecordType.P2LUnlockLeasing ∨ r.type = RecordType.P2LReturnLeasing) ∧
    (wtx.HasP2CSOutputs = false → wtx.HasP2CSInputs = false → wtx.HasP2LOutputs = false →
      wtx.HasP2LInputs = false → wtx.IsLeasingReward = true →
      ∀ r ∈ parts, r.type = RecordType.Other ∨ r.type = RecordType.LeasingReward) := by
  simp only [decomposeTransaction, zSpendFromMe_of_no_spend wallet wtx hspend, hstake, hspend,
    Bool.false_eq_true, if_false, List.nil_append] at h
  refine ⟨?_, ?_, ?_, ?_, ?_⟩
  · intro h1 r hr
    simp only [h1, if_true, Option.some.injEq] at h
    subst h
    rw [List.mem_singleton] at hr
    subst hr
    rw [loadHotOrColdStakeOrContract_type]
    simp only [if_true]
    split
    · exact Or.inl rfl
    · split
      · exact Or.inr (Or.inl rfl)
      · exact Or.inr (Or.inr rfl)
  · intro h1 h2 r hr
    simp only [h1, h2, Bool.false_eq_true, if_false, if_true] at h
    split at h
    · exact absurd h (by simp)
    · rename_i sub hsub
      cases h
      rw [List.mem_singleton] at hr
      subst hr
      exact loadUnlockColdStake_type P wallet wtx _ _ hsub
  · intro h1 h2 h3 r hr
    simp only [h1, h2, h3, Bool.false_eq_true, if_false, if_true, Option.some.injEq] at h
    subst h
    rw [List.mem_singleton] at hr
    subst hr
    constructor
    · exact loadP2L_type P wallet wtx _ _ rfl
    · constructor
      · intro hother
        by_contra hex
        push_neg at hex
        obtain ⟨o, ho, hdec⟩ := hex
        have hdec' : leaseDecides P wallet o = true := by simpa using hdec
        rcases loadP2L_loop_of_decided P wallet wtx
          { TransactionRecord.init wtx.GetHash wtx.GetComputedTxTime wtx.GetTotalSize with
            credit := wtx.GetCredit P.ISMINE_ALL, debit := -(wtx.GetDebit P.ISMINE_ALL),
            involvesWatchAddress := false } wtx.vout ⟨o, ho, hdec'⟩ with h' | h' | h' <;>
          · have hne := hother.symm.trans h'
            exact absurd hne (by simp)
      · intro hall
        show (loadP2L_loop P wallet wtx _ wtx.vout).type = RecordType.Other
        rw [loadP2L_loop_of_undecided P wallet wtx _ wtx.vout hall]
        rfl
  · intro h1 h2 h3 h4 r hr
    simp only [h1, h2, h3, h4, Bool.false_eq_true, if_false, if_true] at h
    split at h
    · exact absurd h (by simp)
    · rename_i sub hsub
      cases h
      rw [List.mem_singleton] at hr
      subst hr
      exact loadLeasingSpend_type P wallet wtx _ _ hsub
  · intro h1 h2 h3 h4 h5 r hr
    simp only [h1, h2, h3, h4, h5, Bool.false_eq_true, if_false, if_true,
      Option.some.injEq] at h
    subst h
    rw [List.mem_singleton] at hr
    subst hr
    exact loadLeasingReward_type P wallet wtx _ _ rfl

/-- C15 amended, evaluated on the leasing contract `foreignLeaseTx`: no leasing output
decides, and the record has the default category. -/
theorem contract_record_categories_witness :
    foreignLeaseTx.IsCoinStake = false ∧ foreignLeaseTx.HasZerocoinSpendInputs = false ∧
    (∀ o ∈ foreignLeaseTx.vout, leaseDecides sampleParams sampleWallet o = false) ∧
    ∀ r ∈ [({ hash := 1, time := 1600000000, size := 226, type := RecordType.Other,
              address := "", debit := -100, credit := 35, idx := 0,
              involvesWatchAddress := false } : TransactionRecord)],
      (r.type = RecordType.Other ∨ r.type = RecordType.P2LLeasingSentToSelf ∨
        r.type = RecordType.P2LLeasingSent ∨ r.type = RecordType.P2LLeasingRecv) ∧
      (r.type = RecordType.Other ↔
        ∀ o ∈ foreignLeaseTx.vout, leaseDecides sampleParams sampleWallet o = false) :=
  ⟨by decide, by decide, by decide,
    (contract_record_categories sampleParams sampleWallet foreignLeaseTx _ (by decide)
      (by decide) (by decide)).2.2.1 (by decide) (by decide) (by decide)⟩

theorem labelledSendTx_oraclesAgree : oraclesAgree sampleWallet otherWallet labelledSendTx :=
  ⟨fun _ _ => rfl, rfl, by decide, fun _ _ _ _ => rfl, fun _ _ => rfl, by decide,
    fun _ _ => rfl, fun _ _ => rfl, by decide, fun _ _ => rfl, fun _ _ _ _ _ _ => rfl, rfl⟩

theorem otherWallet_differs :
    otherWallet.IsMineIn (spend 9 0) ≠ sampleWallet.IsMineIn (spend 9 0) ∧
      otherWallet.IsDenominatedAmount 77 ≠ sampleWallet.IsDenominatedAmount 77 := by
  decide

/-- C17: when the finality test fails at the height after the tip, `updateStatus` sets the
state `OpenUntilBlock` if the lock time is below `LOCKTIME_THRESHOLD` and `OpenUntilDate`
otherwise, whatever the category of the record, the depth, the conflict flag and the request
count are. In the first case `open_for` is the difference of lock time and chain height in
32-bit unsigned arithmetic, which is the plain difference when the height is not above the lock
time; in the second case `open_for` is the lock time. -/
theorem open_status_of_unsatisfied_lock (P : Params) (chain : ChainView) (wtx : CWalletTx)
    (record : TransactionRecord) (status : TransactionStatus)
    (hfinal : chain.IsFinalTx wtx (chain.Height + 1) = false) :
    (wtx.nLockTime < P.LOCKTIME_THRESHOLD →
      (updateStatus P chain wtx record status).status = Status.OpenUntilBlock ∧
      (updateStatus P chain wtx record status).open_for =
        ((wtx.nLockTime : Int) - chain.Height) % 4294967296 ∧
      (chain.Height ≤ (wtx.nLockTime : Int) →
        (wtx.nLockTime : Int) - chain.Height < 4294967296 →
        (updateStatus P chain wtx record status).open_for =
          (wtx.nLockTime : Int) - chain.Height)) ∧
    (¬ wtx.nLockTime < P.LOCKTIME_THRESHOLD →
      (updateStatus P chain wtx record status).status = Status.OpenUntilDate ∧
      (updateStatus P chain wtx record status).open_for = (wtx.nLockTime : Int)) := by
  constructor
  · intro hlt
    have h : updateStatus P chain wtx record status =
        { status with
          sortKey := sortKey (chain.mapBlockIndex wtx.hashBlock) wtx record.idx
          countsForBalance := wtx.IsTrusted.1 && !(decide (blocksToMaturity P wtx > 0))
          cur_num_blocks := chain.Height
          depth := wtx.IsTrusted.2.1
          cur_num_ix_locks := chain.nCompleteTXLocks
          status := Status.OpenUntilBlock
          open_for := ((wtx.nLockTime : Int) - chain.Height) % 4294967296 } := by
      unfold updateStatus
      simp [hfinal, hlt]
    rw [h]
    refine ⟨rfl, rfl, ?_⟩
    intro h1 h2
    exact Int.emod_eq_of_lt (sub_nonneg.mpr h1) h2
  · intro hlt
    have h : updateStatus P chain wtx record status =
        { status with
          sortKey := sortKey (chain.mapBlockIndex wtx.hashBlock) wtx record.idx
          countsForBalance := wtx.IsTrusted.1 && !(decide (blocksToMaturity P wtx > 0))
          cur_num_blocks := chain.Height
          depth := wtx.IsTrusted.2.1
          cur_num_ix_locks := chain.nCompleteTXLocks
          status := Status.OpenUntilDate
          open_for := (wtx.nLockTime : Int) } := by
      unfold updateStatus
      simp [hfinal, hlt]
    rw [h]
    exact ⟨rfl, rfl⟩

theorem open_status_of_unsatisfied_lock_witness :
    sampleChain.IsFinalTx heightLockedTx (sampleChain.Height + 1) = false ∧
    (updateStatus sampleParams sampleChain heightLockedTx
        (sampleRecord heightLockedTx RecordType.StakeMint) sampleStatus).status =
      Status.OpenUntilBlock ∧
    (updateStatus sampleParams sampleChain heightLockedTx
        (sampleRecord heightLockedTx RecordType.StakeMint) sampleStatus).open_for = 200 ∧
    (updateStatus sampleParams sampleChain dateLockedTx
        (sampleRecord dateLockedTx RecordType.SendToAddress) sampleStatus).status =
      Status.OpenUntilDate ∧
    (updateStatus sampleParams sampleChain dateLockedTx
        (sampleRecord dateLockedTx RecordType.SendToAddress) sampleStatus).open_for =
      1700000000 := by
  have h1 := open_status_of_unsatisfied_lock sampleParams sampleChain heightLockedTx
    (sampleRecord heightLockedTx RecordType.StakeMint) sampleStatus (by decide)
  have h2 := open_status_of_unsatisfied_lock sampleParams sampleChain dateLockedTx
    (sampleRecord dateLockedTx RecordType.SendToAddress) sampleStatus (by decide)
  have h1' := h1.1 (by decide)
  have h2' := h2.2 (by decide)
  exact ⟨by decide, h1'.1, (h1'.2.2 (by decide) (by decide)).trans (by decide), h2'.1, h2'.2⟩

/-- C18, counterexample: inside the maturity window, a stake record at depth 5, not
conflicted, with no request from a peer, but received only 10 seconds before the clock, is
`Immature` and not `MaturesWarning`; and a stake record at depth 0 with the conflict flag set is
`NotAccepted`, not `Immature`. -/
theorem unrequested_fresh_reward_is_Immature :
    sampleChain.IsFinalTx freshStakeTx (sampleChain.Height + 1) = true ∧
    isRewardType (sampleRecord freshStakeTx RecordType.StakeMint).type = true ∧
    blocksToMaturity sampleParams freshStakeTx > 0 ∧
    freshStakeTx.IsTrusted.2.1 ≥ 0 ∧ freshStakeTx.IsTrusted.2.2 = false ∧
    freshStakeTx.GetRequestCount = 0 ∧
    (updateStatus sampleParams sampleChain freshStakeTx
      (sampleRecord freshStakeTx RecordType.StakeMint) sampleStatus).status = Status.Immature ∧
    blocksToMaturity sampleParams conflictedStakeTx > 0 ∧
    ¬ conflictedStakeTx.IsTrusted.2.1 < 0 ∧
    (updateStatus sampleParams sampleChain conflictedStakeTx
      (sampleRecord conflictedStakeTx RecordType.StakeMint) sampleStatus).status =
      Status.NotAccepted := by
  decide

/-- C18, amended: for a record of a reward-bearing category whose time-lock is satisfied and
whose blocks-to-maturity is positive, `updateStatus` sets `matures_in` to the blocks-to-maturity
and the state to `NotAccepted` when the depth is negative or the entry is conflicted, and
otherwise to `MaturesWarning` when the entry is offline (received more than 120 seconds before
the adjusted clock and never requested) and to `Immature` when it is not. -/
theorem reward_inside_maturity_window (P : Params) (chain : ChainView) (wtx : CWalletTx)
    (record : TransactionRecord) (status : TransactionStatus)
    (hfinal : chain.IsFinalTx wtx (chain.Height + 1) = true)
    (hreward : isRewardType record.type = true) (hwin : blocksToMaturity P wtx > 0) :
    (updateStatus P chain wtx record status).matures_in = blocksToMaturity P wtx ∧
    (wtx.IsTrusted.2.1 < 0 ∨ wtx.IsTrusted.2.2 = true →
      (updateStatus P chain wtx record status).status = Status.NotAccepted) ∧
    (wtx.IsTrusted.2.1 ≥ 0 → wtx.IsTrusted.2.2 = false →
      (chain.GetAdjustedTime - (wtx.nTimeReceived : Int) > 120 ∧ wtx.GetRequestCount = 0 →
        (updateStatus P chain wtx record status).status = Status.MaturesWarning) ∧
      (¬ (chain.GetAdjustedTime - (wtx.nTimeReceived : Int) > 120 ∧ wtx.GetRequestCount = 0) →
        (updateStatus P chain wtx record status).status = Status.Immature)) := by
  rw [updateStatus_of_reward_window P chain wtx record status hfinal hreward hwin]
  refine ⟨rfl, ?_, ?_⟩
  · intro h
    have : ¬ (wtx.IsTrusted.2.1 ≥ 0 ∧ wtx.IsTrusted.2.2 = false) := by
      rintro ⟨h1, h2⟩
      rcases h with h | h
      · exact absurd h1 (not_le.mpr h)
      · rw [h2] at h; cases h
    show (if wtx.IsTrusted.2.1 ≥ 0 ∧ wtx.IsTrusted.2.2 = false then _ else _) = _
    rw [if_neg this]
  · intro h1 h2
    have hoff : isOffline chain wtx = true ↔
        (chain.GetAdjustedTime - (wtx.nTimeReceived : Int) > 120 ∧ wtx.GetRequestCount = 0) := by
      unfold isOffline
      simp
    constructor
    · intro h
      show (if wtx.IsTrusted.2.1 ≥ 0 ∧ wtx.IsTrusted.2.2 = false then
        (if isOffline chain wtx then Status.MaturesWarning else Status.Immature) else _) = _
      rw [if_pos ⟨h1, h2⟩, if_pos (hoff.mpr h)]
    · intro h
      show (if wtx.IsTrusted.2.1 ≥ 0 ∧ wtx.IsTrusted.2.2 = false then
        (if isOffline chain wtx then Status.MaturesWarning else Status.Immature) else _) = _
      rw [if_pos ⟨h1, h2⟩, if_neg (fun c => h (hoff.mp c))]

theorem reward_inside_maturity_window_witness :
    (updateStatus sampleParams sampleChain staleStakeTx
      (sampleRecord staleStakeTx RecordType.StakeMint) sampleStatus).matures_in = 96 ∧
    (updateStatus sampleParams sampleChain staleStakeTx
      (sampleRecord staleStakeTx RecordType.StakeMint) sampleStatus).status =
      Status.MaturesWarning := by
  have h := reward_inside_maturity_window sampleParams sampleChain staleStakeTx
    (sampleRecord staleStakeTx RecordType.StakeMint) sampleStatus (by decide) (by decide)
    (by decide)
  exact ⟨h.1.trans (by decide), (h.2.2 (by decide) (by decide)).1 (by decide)⟩
/-- C20: for a record of a category that is not reward-bearing, with satisfied time-lock,
depth at least 0 and no conflict, `updateStatus` sets `Offline` when the entry was received more
than 120 seconds before the adjusted clock and its request count is zero; otherwise
`Unconfirmed` at depth 0, `Confirming` at a depth above 0 and below
`RecommendedNumConfirmations`, and `Confirmed` at a depth of at least
`RecommendedNumConfirmations`. -/
theorem confirmation_status (P : Params) (chain : ChainView) (wtx : CWalletTx)
    (record : TransactionRecord) (status : TransactionStatus)
    (hfinal : chain.IsFinalTx wtx (chain.Height + 1) = true)
    (hreward : isRewardType record.type = false)
    (hdepth : wtx.IsTrusted.2.1 ≥ 0) (hconf : wtx.IsTrusted.2.2 = false) :
    (chain.GetAdjustedTime - (wtx.nTimeReceived : Int) > 120 ∧ wtx.GetRequestCount = 0 →
      (updateStatus P chain wtx record status).status = Status.Offline) ∧
    (¬ (chain.GetAdjustedTime - (wtx.nTimeReceived : Int) > 120 ∧ wtx.GetRequestCount = 0) →
      (wtx.IsTrusted.2.1 = 0 →
        (updateStatus P chain wtx record status).status = Status.Unconfirmed) ∧
      (0 < wtx.IsTrusted.2.1 → wtx.IsTrusted.2.1 < P.RecommendedNumConfirmations →
        (updateStatus P chain wtx record status).status = Status.Confirming) ∧
      (0 < wtx.IsTrusted.2.1 → wtx.IsTrusted.2.1 ≥ P.RecommendedNumConfirmations →
        (updateStatus P chain wtx record status).status = Status.Confirmed)) := by
  have hoff : isOffline chain wtx = true ↔
      (chain.GetAdjustedTime - (wtx.nTimeReceived : Int) > 120 ∧ wtx.GetRequestCount = 0) := by
    unfold isOffline
    simp
  have hnc : ¬ (wtx.IsTrusted.2.1 < 0 ∨ wtx.IsTrusted.2.2 = true) := by
    rintro (h | h)
    · exact absurd hdepth (not_le.mpr h)
    · rw [hconf] at h; cases h
  have hst : (updateStatus P chain wtx record status).status =
      if isOffline chain wtx then Status.Offline
      else if wtx.IsTrusted.2.1 = 0 then Status.Unconfirmed
      else if wtx.IsTrusted.2.1 < P.RecommendedNumConfirmations then Status.Confirming
      else Status.Confirmed := by
    rw [updateStatus_of_plain P chain wtx record status hfinal hreward]
    show (if wtx.IsTrusted.2.1 < 0 ∨ wtx.IsTrusted.2.2 = true then Status.Conflicted else _) = _
    rw [if_neg hnc]
  rw [hst]
  constructor
  · intro h
    rw [if_pos (hoff.mpr h)]
  · intro h
    rw [if_neg (fun c => h (hoff.mp c))]
    refine ⟨fun h0 => by rw [if_pos h0], fun h0 h1 => ?_, fun h0 h1 => ?_⟩
    · rw [if_neg (ne_of_gt h0), if_pos h1]
    · rw [if_neg (ne_of_gt h0), if_neg (not_lt.mpr h1)]

theorem confirmation_status_witness :
    (updateStatus sampleParams sampleChain confirmingSendTx
      (sampleRecord confirmingSendTx RecordType.SendToAddress) sampleStatus).status =
      Status.Confirming ∧
    (updateStatus sampleParams sampleChain sendTx
      (sampleRecord sendTx RecordType.SendToAddress) sampleStatus).status =
      Status.Confirmed :=
  ⟨((confirmation_status sampleParams sampleChain confirmingSendTx
      (sampleRecord confirmingSendTx RecordType.SendToAddress) sampleStatus (by decide)
      (by decide) (by decide) (by decide)).2 (by decide)).2.1 (by decide) (by decide),
   ((confirmation_status sampleParams sampleChain sendTx
      (sampleRecord sendTx RecordType.SendToAddress) sampleStatus (by decide)
      (by decide) (by decide) (by decide)).2 (by decide)).2.2 (by decide) (by decide)⟩

/-- C21: for a reward-bearing record of a coinbase or coinstake entry with satisfied time-lock,
whose depth is such that the difference `COINBASE_MATURITY + 1 - depth` of line 568 is a value
of `int`, the blocks-to-maturity that `updateStatus` computes and stores is
`max 0 (COINBASE_MATURITY + 1 - depth)`; the state is `Confirmed` exactly when the depth is at
least `COINBASE_MATURITY + 1`; and for a second such entry of no smaller depth the
blocks-to-maturity is no larger, a `Confirmed` state of the first implies a `Confirmed` state
of the second, which then is none of `Immature`, `MaturesWarning`, `NotAccepted`. -/
theorem maturity_is_monotone (P : Params) (chain chain' : ChainView) (wtx wtx' : CWalletTx)
    (record record' : TransactionRecord) (status status' : TransactionStatus)
    (hgen : wtx.IsCoinBase = true ∨ wtx.IsCoinStake = true)
    (hgen' : wtx'.IsCoinBase = true ∨ wtx'.IsCoinStake = true)
    (hrange : maturityInRange P wtx) (hrange' : maturityInRange P wtx')
    (hfinal : chain.IsFinalTx wtx (chain.Height + 1) = true)
    (hfinal' : chain'.IsFinalTx wtx' (chain'.Height + 1) = true)
    (hreward : isRewardType record.type = true)
    (hreward' : isRewardType record'.type = true)
    (hdepth : wtx.IsTrusted.2.1 ≤ wtx'.IsTrusted.2.1) :
    blocksToMaturity P wtx = max 0 ((P.COINBASE_MATURITY + 1) - wtx.IsTrusted.2.1) ∧
    (updateStatus P chain wtx record status).matures_in = blocksToMaturity P wtx ∧
    ((updateStatus P chain wtx record status).status = Status.Confirmed ↔
      wtx.IsTrusted.2.1 ≥ P.COINBASE_MATURITY + 1) ∧
    blocksToMaturity P wtx' ≤ blocksToMaturity P wtx ∧
    ((updateStatus P chain wtx record status).status = Status.Confirmed →
      (updateStatus P chain' wtx' record' status').status = Status.Confirmed ∧
      (updateStatus P chain' wtx' record' status').status ≠ Status.Immature ∧
      (updateStatus P chain' wtx' record' status').status ≠ Status.MaturesWarning ∧
      (updateStatus P chain' wtx' record' status').status ≠ Status.NotAccepted) := by
  have hb := blocksToMaturity_of_generated P wtx hgen hrange
  have hb' := blocksToMaturity_of_generated P wtx' hgen' hrange'
  have hiff := reward_confirmed_iff_depth P chain wtx record status hgen hrange hfinal hreward
  have hiff' := reward_confirmed_iff_depth P chain' wtx' record' status' hgen' hrange' hfinal'
    hreward'
  refine ⟨hb, ?_, hiff, ?_, ?_⟩
  · by_cases hwin : blocksToMaturity P wtx > 0
    · rw [updateStatus_of_reward_window P chain wtx record status hfinal hreward hwin]
    · rw [updateStatus_of_reward_mature P chain wtx record status hfinal hreward hwin]
      exact (le_antisymm (not_lt.mp hwin) (blocksToMaturity_nonneg P wtx)).symm
  · rw [hb, hb']
    exact max_le_max (le_refl _) (sub_le_sub_left hdepth _)
  · intro hc
    have hc' := hiff'.mpr (le_trans (hiff.mp hc) hdepth)
    rw [hc']
    exact ⟨rfl, by decide, by decide, by decide⟩

theorem maturity_is_monotone_witness :
    (updateStatus sampleParams sampleChain matureStakeTx
      (sampleRecord matureStakeTx RecordType.StakeMint) sampleStatus).status =
      Status.Confirmed ∧
    (updateStatus sampleParams sampleChain almostMatureStakeTx
      (sampleRecord almostMatureStakeTx RecordType.StakeMint) sampleStatus).matures_in = 1 ∧
    blocksToMaturity sampleParams matureStakeTx ≤
      blocksToMaturity sampleParams almostMatureStakeTx := by
  have h := maturity_is_monotone sampleParams sampleChain sampleChain almostMatureStakeTx
    matureStakeTx (sampleRecord almostMatureStakeTx RecordType.StakeMint)
    (sampleRecord matureStakeTx RecordType.StakeMint) sampleStatus sampleStatus
    (by decide) (by decide) (by decide) (by decide) (by decide) (by decide) (by decide)
    (by decide) (by decide)
  have h' := maturity_is_monotone sampleParams sampleChain sampleChain matureStakeTx
    matureStakeTx (sampleRecord matureStakeTx RecordType.StakeMint)
    (sampleRecord matureStakeTx RecordType.StakeMint) sampleStatus sampleStatus
    (by decide) (by decide) (by decide) (by decide) (by decide) (by decide) (by decide)
    (by decide) (by decide)
  exact ⟨h'.2.2.1.mpr (by decide), h.2.1.trans (by decide), h.2.2.2.1⟩
/-- C22: after `updateStatus` has run at a chain view, `statusUpdateNeeded` at a view of the
same height and lock counter is false, and at any view it is true exactly when the height or
the lock counter differs from the one `updateStatus` ran at. -/
theorem status_update_needed_iff_view_changed (P : Params) (chain chain' : ChainView)
    (wtx : CWalletTx) (record : TransactionRecord) (status : TransactionStatus) :
    statusUpdateNeeded chain (updateStatus P chain wtx record status) = false ∧
    (statusUpdateNeeded chain' (updateStatus P chain wtx record status) = true ↔
      chain'.Height ≠ chain.Height ∨ chain'.nCompleteTXLocks ≠ chain.nCompleteTXLocks) := by
  obtain ⟨-, -, hb, -, hl⟩ := updateStatus_base_fields P chain wtx record status
  unfold statusUpdateNeeded
  rw [hb, hl]
  constructor
  · simp
  · simp only [Bool.or_eq_true, decide_eq_true_eq]
    constructor
    · rintro (h | h)
      · exact Or.inl (Ne.symm h)
      · exact Or.inr (Ne.symm h)
    · rintro (h | h)
      · exact Or.inl (Ne.symm h)
      · exact Or.inr (Ne.symm h)
/-- C23, counterexample: two evaluations of the same record of the same entry at the same
chain view, which start from statuses that differ only in `matures_in`, respectively only in
`open_for`, end in different statuses. -/
theorem status_keeps_unassigned_fields :
    updateStatus sampleParams sampleChain sendTx (sampleRecord sendTx RecordType.SendToAddress)
        sampleStatus ≠
      updateStatus sampleParams sampleChain sendTx (sampleRecord sendTx RecordType.SendToAddress)
        { sampleStatus with matures_in := 7 } ∧
    updateStatus sampleParams sampleChain sendTx (sampleRecord sendTx RecordType.SendToAddress)
        sampleStatus ≠
      updateStatus sampleParams sampleChain sendTx (sampleRecord sendTx RecordType.SendToAddress)
        { sampleStatus with open_for := 200 } ∧
    (updateStatus sampleParams sampleChain sendTx (sampleRecord sendTx RecordType.SendToAddress)
        { sampleStatus with matures_in := 7 }).matures_in = 7 ∧
    (updateStatus sampleParams sampleChain sendTx (sampleRecord sendTx RecordType.SendToAddress)
        { sampleStatus with open_for := 200 }).open_for = 200 := by
  decide

/-- C23, amended: after `updateStatus` the sort key, the depth, the counts-for-balance flag,
the lifecycle state and the recorded height and lock counter do not depend on the status held
before the call; `matures_in` does not depend on it when the time-lock is satisfied and the
category is reward-bearing, and otherwise keeps its value; `open_for` does not depend on it when
the time-lock is unsatisfied, and otherwise keeps its value. -/
theorem status_derivable_from_entry_and_chain (P : Params) (chain : ChainView)
    (wtx : CWalletTx) (record : TransactionRecord) (s₁ s₂ : TransactionStatus) :
    (updateStatus P chain wtx record s₁).sortKey = (updateStatus P chain wtx record s₂).sortKey ∧
    (updateStatus P chain wtx record s₁).depth = (updateStatus P chain wtx record s₂).depth ∧
    (updateStatus P chain wtx record s₁).countsForBalance =
      (updateStatus P chain wtx record s₂).countsForBalance ∧
    (updateStatus P chain wtx record s₁).status = (updateStatus P chain wtx record s₂).status ∧
    (updateStatus P chain wtx record s₁).cur_num_blocks =
      (updateStatus P chain wtx record s₂).cur_num_blocks ∧
    (updateStatus P chain wtx record s₁).cur_num_ix_locks =
      (updateStatus P chain wtx record s₂).cur_num_ix_locks ∧
    (if chain.IsFinalTx wtx (chain.Height + 1) = true ∧ isRewardType record.type = true then
      (updateStatus P chain wtx record s₁).matures_in =
        (updateStatus P chain wtx record s₂).matures_in
    else (updateStatus P chain wtx record s₁).matures_in = s₁.matures_in) ∧
    (if chain.IsFinalTx wtx (chain.Height + 1) = false then
      (updateStatus P chain wtx record s₁).open_for =
        (updateStatus P chain wtx record s₂).open_for
    else (updateStatus P chain wtx record s₁).open_for = s₁.open_for) := by
  cases hfinal : chain.IsFinalTx wtx (chain.Height + 1) with
  | false =>
    rw [updateStatus_of_not_final P chain wtx record s₁ hfinal,
      updateStatus_of_not_final P chain wtx record s₂ hfinal]
    split <;> simp [statusBase]
  | true =>
    cases hreward : isRewardType record.type with
    | false =>
      rw [updateStatus_of_plain P chain wtx record s₁ hfinal hreward,
        updateStatus_of_plain P chain wtx record s₂ hfinal hreward]
      simp [statusBase]
    | true =>
      by_cases hwin : blocksToMaturity P wtx > 0
      · rw [updateStatus_of_reward_window P chain wtx record s₁ hfinal hreward hwin,
          updateStatus_of_reward_window P chain wtx record s₂ hfinal hreward hwin]
        simp [statusBase]
      · rw [updateStatus_of_reward_mature P chain wtx record s₁ hfinal hreward hwin,
          updateStatus_of_reward_mature P chain wtx record s₂ hfinal hreward hwin]
        simp [statusBase]
/-- C24: `updateStatus` sets the counts-for-balance flag exactly when the entry is trusted and
its blocks-to-maturity is zero. The blocks-to-maturity is `max 0 (COINBASE_MATURITY + 1 - depth)`
for a coinbase or coinstake entry (the difference of line 568 being a value of `int`) and zero
for every other entry: so the flag of a coinbase or coinstake entry is set exactly when the
entry is trusted and its depth is at least `COINBASE_MATURITY + 1`, it is false at every
smaller depth whatever the trust answer is, and the flag of every other entry is the trust
answer. The flag is false whenever the resulting state is `Immature`, `MaturesWarning` or
`NotAccepted`. -/
theorem counts_for_balance_iff (P : Params) (chain : ChainView) (wtx : CWalletTx)
    (record : TransactionRecord) (status : TransactionStatus)
    (hrange : maturityInRange P wtx) :
    ((updateStatus P chain wtx record status).countsForBalance = true ↔
      wtx.IsTrusted.1 = true ∧ blocksToMaturity P wtx = 0) ∧
    (wtx.IsCoinBase = true ∨ wtx.IsCoinStake = true →
      blocksToMaturity P wtx = max 0 ((P.COINBASE_MATURITY + 1) - wtx.IsTrusted.2.1) ∧
      ((updateStatus P chain wtx record status).countsForBalance = true ↔
        wtx.IsTrusted.1 = true ∧ wtx.IsTrusted.2.1 ≥ P.COINBASE_MATURITY + 1) ∧
      (wtx.IsTrusted.2.1 < P.COINBASE_MATURITY + 1 →
        (updateStatus P chain wtx record status).countsForBalance = false)) ∧
    (wtx.IsCoinBase = false → wtx.IsCoinStake = false →
      blocksToMaturity P wtx = 0 ∧
      (updateStatus P chain wtx record status).countsForBalance = wtx.IsTrusted.1) ∧
    ((updateStatus P chain wtx record status).status = Status.Immature ∨
      (updateStatus P chain wtx record status).status = Status.MaturesWarning ∨
      (updateStatus P chain wtx record status).status = Status.NotAccepted →
      (updateStatus P chain wtx record status).countsForBalance = false) := by
  obtain ⟨-, hc, -, -, -⟩ := updateStatus_base_fields P chain wtx record status
  have hnn := blocksToMaturity_nonneg P wtx
  have hz : ¬ blocksToMaturity P wtx > 0 ↔ blocksToMaturity P wtx = 0 :=
    ⟨fun h => le_antisymm (not_lt.mp h) hnn, fun h => by rw [h]; exact lt_irrefl _⟩
  have hiff : (updateStatus P chain wtx record status).countsForBalance = true ↔
      wtx.IsTrusted.1 = true ∧ blocksToMaturity P wtx = 0 := by
    rw [hc]
    simp only [Bool.and_eq_true, Bool.not_eq_true', decide_eq_false_iff_not]
    rw [hz]
  refine ⟨hiff, ?_, ?_, ?_⟩
  · intro hgen
    have hpos := blocksToMaturity_pos_iff P wtx hgen hrange
    have hzero : blocksToMaturity P wtx = 0 ↔ wtx.IsTrusted.2.1 ≥ P.COINBASE_MATURITY + 1 := by
      rw [← hz, hpos, not_lt]
    refine ⟨blocksToMaturity_of_generated P wtx hgen hrange, by rw [hiff, hzero], ?_⟩
    intro hlt
    rw [hc]
    have hwin : blocksToMaturity P wtx > 0 := hpos.mpr hlt
    simp [hwin]
  · intro hb hs
    have h0 := blocksToMaturity_of_plain P wtx hb hs
    refine ⟨h0, ?_⟩
    rw [hc, h0]
    simp
  · intro h
    have hw := (status_in_window_iff P chain wtx record status).mp
      (by rcases h with h | h | h
          · exact Or.inr (Or.inl h)
          · exact Or.inl h
          · exact Or.inr (Or.inr h))
    rw [hc]
    simp [hw.2.2]

/-- C24, evaluated with a maturity of 100 blocks: the trusted stake reward at depth 5 does not
count for balance and its blocks-to-maturity is 96; the trusted stake reward at depth 101 counts
for balance; the trusted payment at depth 3 counts for balance. -/
theorem counts_for_balance_iff_witness :
    trustedFreshStakeTx.IsTrusted.1 = true ∧
    blocksToMaturity sampleParams trustedFreshStakeTx = 96 ∧
    (updateStatus sampleParams sampleChain trustedFreshStakeTx
      (sampleRecord trustedFreshStakeTx RecordType.StakeMint)
      sampleStatus).countsForBalance = false ∧
    (updateStatus sampleParams sampleChain matureStakeTx
      (sampleRecord matureStakeTx RecordType.StakeMint) sampleStatus).countsForBalance = true ∧
    (updateStatus sampleParams sampleChain confirmingSendTx
      (sampleRecord confirmingSendTx RecordType.SendToAddress)
      sampleStatus).countsForBalance = true := by
  have h := counts_for_balance_iff sampleParams sampleChain trustedFreshStakeTx
    (sampleRecord trustedFreshStakeTx RecordType.StakeMint) sampleStatus (by decide)
  have h' := counts_for_balance_iff sampleParams sampleChain matureStakeTx
    (sampleRecord matureStakeTx RecordType.StakeMint) sampleStatus (by decide)
  have h'' := counts_for_balance_iff sampleParams sampleChain confirmingSendTx
    (sampleRecord confirmingSendTx RecordType.SendToAddress) sampleStatus (by decide)
  exact ⟨by decide, ((h.2.1 (by decide)).1).trans (by decide), (h.2.1 (by decide)).2.2 (by decide),
    ((h'.2.1 (by decide)).2.1).mpr (by decide),
    ((h''.2.2.1 (by decide) (by decide)).2).trans (by decide)⟩

/-- C25, counterexample: with a denomination of 10 coins, half a coin, 5 coins and 50 coins
the ranks are 10000, 20000, -5 and -50. Smaller rank first, the half coin does not come before
the 5 coins; larger rank first, the denomination does not come before the half coin and the 5
coins come before the 50 coins. So in neither direction do the three parts of the order hold
together. -/
theorem priority_order_is_not_the_stated_one :
    (coin 0).Priority sampleParams sampleDenominations = some 10000 ∧
    (coin 1).Priority sampleParams sampleDenominations = some 20000 ∧
    (coin 2).Priority sampleParams sampleDenominations = some (-5) ∧
    (coin 3).Priority sampleParams sampleDenominations = some (-50) ∧
    ∀ ascending : Bool,
      ¬ (ranksAhead ascending ((coin 0).Priority sampleParams sampleDenominations)
            ((coin 1).Priority sampleParams sampleDenominations) = true ∧
          ranksAhead ascending ((coin 1).Priority sampleParams sampleDenominations)
            ((coin 2).Priority sampleParams sampleDenominations) = true ∧
          ranksAhead ascending ((coin 2).Priority sampleParams sampleDenominations)
            ((coin 3).Priority sampleParams sampleDenominations) = false) := by
  decide

/-- C25, amended: compared by `COutput::Priority` with the smaller rank first, every amount of
at least one coin that is no denomination comes before every denomination, every denomination
comes before every other amount below one coin, and among the amounts of at least one coin that
are no denominations a smaller amount never comes before a larger one. The amounts of at least
one coin are taken below `2^31` coins, where the conversion to `int` is exact. -/
theorem priority_order (P : Params) (D : List CAmount) (x y : COutput) (a b : CAmount)
    (hx : x.Value = some a) (hy : y.Value = some b) (hCOIN : 0 < P.COIN) :
    (a ∉ D → P.COIN ≤ a → a < 2147483648 * P.COIN → b ∈ D →
      ranksAhead true (x.Priority P D) (y.Priority P D) = true) ∧
    (a ∈ D → b ∉ D → b < P.COIN →
      ranksAhead true (x.Priority P D) (y.Priority P D) = true) ∧
    (a ∉ D → b ∉ D → P.COIN ≤ a → a ≤ b → b < 2147483648 * P.COIN →
      ranksAhead true (x.Priority P D) (y.Priority P D) = false) := by
  refine ⟨?_, ?_, ?_⟩
  · intro haD ha1 ha2 hbD
    obtain ⟨hp, hq⟩ := Priority_of_large P D x a hx hCOIN haD ha1 ha2
    rw [hp, Priority_of_value P D y b hy, if_pos ((any_eq_iff_mem D b).mpr hbD)]
    show decide (-(a / P.COIN) < 10000) = true
    exact decide_eq_true (by linarith)
  · intro haD hbD hb
    have hnot : ¬ D.any (fun d => b == d) = true := fun h => hbD ((any_eq_iff_mem D b).mp h)
    rw [Priority_of_value P D x a hx, if_pos ((any_eq_iff_mem D a).mpr haD),
      Priority_of_value P D y b hy, if_neg hnot, if_pos (by rw [one_mul]; exact hb)]
    rfl
  · intro haD hbD ha1 hab hb2
    obtain ⟨hp, -⟩ := Priority_of_large P D x a hx hCOIN haD ha1 (lt_of_le_of_lt hab hb2)
    obtain ⟨hq, -⟩ := Priority_of_large P D y b hy hCOIN hbD (le_trans ha1 hab) hb2
    rw [hp, hq]
    show decide (-(a / P.COIN) < -(b / P.COIN)) = false
    have := Int.ediv_le_ediv hCOIN hab
    exact decide_eq_false (by linarith)

theorem priority_order_witness :
    ranksAhead true ((coin 3).Priority sampleParams sampleDenominations)
        ((coin 0).Priority sampleParams sampleDenominations) = true ∧
    ranksAhead true ((coin 0).Priority sampleParams sampleDenominations)
        ((coin 1).Priority sampleParams sampleDenominations) = true ∧
    ranksAhead true ((coin 2).Priority sampleParams sampleDenominations)
        ((coin 3).Priority sampleParams sampleDenominations) = false :=
  ⟨(priority_order sampleParams sampleDenominations (coin 3) (coin 0) 5000000000 1000010000
      (by decide) (by decide) (by decide)).1 (by decide) (by decide) (by decide) (by decide),
   (priority_order sampleParams sampleDenominations (coin 0) (coin 1) 1000010000 50000000
      (by decide) (by decide) (by decide)).2.1 (by decide) (by decide) (by decide),
   (priority_order sampleParams sampleDenominations (coin 2) (coin 3) 500000000 5000000000
      (by decide) (by decide) (by decide)).2.2 (by decide) (by decide) (by decide) (by decide)
      (by decide)⟩

/-- C28: in the net-debit analysis the accumulated `fAllFromMe` is the running minimum of
`ISMINE_SPENDABLE` and the ownership answers of the inputs, and `fAllToMe` that of the outputs;
with a non-zero `ISMINE_SPENDABLE`, `fAllFromMe` is non-zero exactly when every input has a
non-zero ownership answer, and `fAllToMe` exactly when every output has one, so both are
non-zero for an empty list; a watch-only answer is a non-zero answer, and the watch-only flag is
set exactly when some input or output has the watch-only bit. -/
theorem all_from_me_and_all_to_me (P : Params) (wallet : CWallet) (wtx : CWalletTx)
    (hS : P.ISMINE_SPENDABLE ≠ 0) :
    (scanFromMe P wallet wtx).fAll = (wtx.vin.map wallet.IsMineIn).foldl min P.ISMINE_SPENDABLE ∧
    (scanToMe P wallet wtx (scanFromMe P wallet wtx).involvesWatchAddress).fAll =
      (wtx.vout.map wallet.IsMineOut).foldl min P.ISMINE_SPENDABLE ∧
    ((scanFromMe P wallet wtx).fAll ≠ 0 ↔ ∀ txin ∈ wtx.vin, wallet.IsMineIn txin ≠ 0) ∧
    ((scanToMe P wallet wtx (scanFromMe P wallet wtx).involvesWatchAddress).fAll ≠ 0 ↔
      ∀ txout ∈ wtx.vout, wallet.IsMineOut txout ≠ 0) ∧
    (wtx.vin = [] → (scanFromMe P wallet wtx).fAll ≠ 0) ∧
    (wtx.vout = [] →
      (scanToMe P wallet wtx (scanFromMe P wallet wtx).involvesWatchAddress).fAll ≠ 0) ∧
    (∀ txin ∈ wtx.vin, (wallet.IsMineIn txin &&& P.ISMINE_WATCH_ONLY) ≠ 0 →
      wallet.IsMineIn txin ≠ 0) ∧
    (∀ txout ∈ wtx.vout, (wallet.IsMineOut txout &&& P.ISMINE_WATCH_ONLY) ≠ 0 →
      wallet.IsMineOut txout ≠ 0) ∧
    ((scanToMe P wallet wtx (scanFromMe P wallet wtx).involvesWatchAddress).involvesWatchAddress
        = true ↔
      (∃ txin ∈ wtx.vin, (wallet.IsMineIn txin &&& P.ISMINE_WATCH_ONLY) ≠ 0) ∨
      ∃ txout ∈ wtx.vout, (wallet.IsMineOut txout &&& P.ISMINE_WATCH_ONLY) ≠ 0) := by
  obtain ⟨-, -, hf, hfw⟩ := scanFromMe_spec P wallet wtx
  obtain ⟨-, -, ht, htw⟩ :=
    scanToMe_spec P wallet wtx (scanFromMe P wallet wtx).involvesWatchAddress
  have hf' : (scanFromMe P wallet wtx).fAll ≠ 0 ↔ ∀ txin ∈ wtx.vin, wallet.IsMineIn txin ≠ 0 :=
    hf.trans ⟨fun h => h.2, fun h => ⟨hS, h⟩⟩
  have ht' : (scanToMe P wallet wtx (scanFromMe P wallet wtx).involvesWatchAddress).fAll ≠ 0 ↔
      ∀ txout ∈ wtx.vout, wallet.IsMineOut txout ≠ 0 :=
    ht.trans ⟨fun h => h.2, fun h => ⟨hS, h⟩⟩
  refine ⟨?_, ?_, hf', ht', ?_, ?_, ?_, ?_, ?_⟩
  · exact scan_foldl_fAll wallet.IsMineIn (fromMeStep P wallet) (fun _ _ => rfl) wtx.vin _
  · exact scan_foldl_fAll wallet.IsMineOut (toMeStep P wallet) (fun _ _ => rfl) wtx.vout _
  · intro h
    rw [hf', h]
    intro txin hin
    cases hin
  · intro h
    rw [ht', h]
    intro txout hin
    cases hin
  · intro txin _ h
    exact watch_bit_is_owned _ _ h
  · intro txout _ h
    exact watch_bit_is_owned _ _ h
  · rw [htw, hfw]

theorem all_from_me_and_all_to_me_witness :
    (scanFromMe sampleParams watchWallet watchedSelfTx).fAll ≠ 0 ∧
    (scanToMe sampleParams watchWallet watchedSelfTx
      (scanFromMe sampleParams watchWallet watchedSelfTx).involvesWatchAddress).fAll = 1 ∧
    (scanToMe sampleParams watchWallet watchedSelfTx
      (scanFromMe sampleParams watchWallet watchedSelfTx).involvesWatchAddress
      ).involvesWatchAddress = true ∧
    (scanToMe sampleParams watchWallet sendTx
      (scanFromMe sampleParams watchWallet sendTx).involvesWatchAddress).fAll = 0 := by
  have h := all_from_me_and_all_to_me sampleParams watchWallet watchedSelfTx (by decide)
  have h' := all_from_me_and_all_to_me sampleParams watchWallet sendTx (by decide)
  exact ⟨h.2.2.1.mpr (by decide), h.2.1.trans (by decide),
    h.2.2.2.2.2.2.2.2.mpr (Or.inr (by decide)), h'.2.1.trans (by decide)⟩

/-- C29: for an entry that reaches the payment-to-self branch, has no mixing marker and has
an output, the classifier returns one record; its category is `ObfuscationCollateralPayment`
when `nDebit - GetValueOut()` equals `OBFUSCATION_COLLATERAL`; otherwise it is decided by the
last output whose amount is a collateral amount or a denominated amount,
`ObfuscationCreateDenominations` if the amount of that output is denominated and
`ObfuscationMakeCollaterals` if not; and it is `SendToSelf` when no output has such an
amount. -/
theorem self_label_last_match_wins (P : Params) (wallet : CWallet) (wtx : CWalletTx)
    (hreach : reachesSelf P wallet wtx) (hDS : wtx.mapValue.at "DS" ≠ "1")
    (hout : wtx.vout ≠ []) :
    ∃ r, decomposeTransaction P wallet wtx = some [r] ∧
      (wtx.GetDebit P.ISMINE_ALL - wtx.GetValueOut = P.OBFUSCATION_COLLATERAL →
        r.type = RecordType.ObfuscationCollateralPayment) ∧
      (wtx.GetDebit P.ISMINE_ALL - wtx.GetValueOut ≠ P.OBFUSCATION_COLLATERAL →
        (∀ before txout after, wtx.vout = before ++ txout :: after →
          selfLabelMatch wallet txout = true →
          (∀ o ∈ after, selfLabelMatch wallet o = false) →
          r.type =
            if wallet.IsDenominatedAmount txout.nValue then
              RecordType.ObfuscationCreateDenominations
            else RecordType.ObfuscationMakeCollaterals) ∧
        ((∀ o ∈ wtx.vout, selfLabelMatch wallet o = false) →
          r.type = RecordType.SendToSelf)) := by
  obtain ⟨hd, hden, hself⟩ := hreach
  obtain ⟨r, hr, hty⟩ := decomposeSelf_label P wallet wtx
    (scanToMe P wallet wtx (scanFromMe P wallet wtx).involvesWatchAddress).involvesWatchAddress
    hout
  rw [if_neg hDS] at hty
  refine ⟨r, ?_, ?_, ?_⟩
  · rw [decomposeTransaction_of_reachesDebit P wallet wtx hd,
      decomposeDebit_of_self P wallet wtx hden hself, hr]
  · intro hfee
    rw [hty]
    exact selfLabel_foldl_of_collateral_payment P wallet wtx hfee wtx.vout _ hout
  · intro hfee
    constructor
    · intro before txout after hsplit hm hafter
      rw [hty, hsplit, List.foldl_append, List.foldl_cons,
        selfLabelStep_of_match P wallet wtx hfee _ txout hm]
      exact selfLabel_foldl_of_no_match P wallet wtx hfee after _ hafter
    · intro hnone
      rw [hty]
      exact selfLabel_foldl_of_no_match P wallet wtx hfee wtx.vout _ hnone

theorem self_label_last_match_wins_witness :
    reachesSelf sampleParams mixWallet makeCollateralsTx ∧
    mixWallet.IsDenominatedAmount 10 = true ∧
    ∃ r, decomposeTransaction sampleParams mixWallet makeCollateralsTx = some [r] ∧
      r.type = RecordType.ObfuscationMakeCollaterals := by
  obtain ⟨r, hr, -, h⟩ := self_label_last_match_wins sampleParams mixWallet makeCollateralsTx
    (by decide) (by decide) (by decide)
  exact ⟨by decide, by decide, r, hr,
    (h (by decide)).1 [{ nValue := 10, scriptPubKey := payTo "mine" }]
      { nValue := 4, scriptPubKey := payTo "mine" }
      [{ nValue := 81, scriptPubKey := payTo "change" }] rfl (by decide) (by decide)⟩
/-- C30: for an entry that reaches the sent branch, or reaches the payment-to-self branch and
has an output, the classifier returns records, one per output kept by the sent branch (a
privacy-coin mint that is not owned is kept), respectively one record; with the mixing marker
(`mapValue["DS"] == "1"`) every one of them has the category `Obfuscated`, and without the
marker none has. -/
theorem mixing_marker_reclassifies (P : Params) (wallet : CWallet) (wtx : CWalletTx)
    (hreach : reachesSent P wallet wtx ∨ (reachesSelf P wallet wtx ∧ wtx.vout ≠ [])) :
    ∃ parts, decomposeTransaction P wallet wtx = some parts ∧
      (reachesSent P wallet wtx → parts.length = (sentOutputs wallet wtx).length) ∧
      (reachesSelf P wallet wtx → parts.length = 1) ∧
      (wtx.mapValue.at "DS" = "1" → ∀ r ∈ parts, r.type = RecordType.Obfuscated) ∧
      (wtx.mapValue.at "DS" ≠ "1" → ∀ r ∈ parts, r.type ≠ RecordType.Obfuscated) := by
  rcases hreach with hsent | ⟨hself, hout⟩
  · have hspec := (decomposeSent_spec P wallet wtx
      (scanToMe P wallet wtx
        (scanFromMe P wallet wtx).involvesWatchAddress).involvesWatchAddress).1
    refine ⟨_, decomposeTransaction_of_reachesSent P wallet wtx hsent, ?_, ?_, ?_, ?_⟩
    · intro _
      exact hspec.length_eq
    · intro hs
      exact absurd hs.2.2 hsent.2.2.1
    · intro hDS
      exact forall2_left_of_all hspec
        (fun r o hro => hro.1.trans (sentType_of_marker wtx o hDS))
    · intro hDS
      exact forall2_left_of_all hspec
        (fun r o hro => by rw [hro.1]; exact sentType_of_no_marker wtx o hDS)
  · obtain ⟨hd, hden, hs⟩ := hself
    obtain ⟨r, hr, hty⟩ := decomposeSelf_label P wallet wtx
      (scanToMe P wallet wtx (scanFromMe P wallet wtx).involvesWatchAddress).involvesWatchAddress
      hout
    refine ⟨[r], ?_, ?_, ?_, ?_, ?_⟩
    · rw [decomposeTransaction_of_reachesDebit P wallet wtx hd,
        decomposeDebit_of_self P wallet wtx hden hs, hr]
    · intro hsent
      exact absurd hs hsent.2.2.1
    · intro _
      rfl
    · intro hDS r' hr'
      rw [List.mem_singleton.mp hr', hty, if_pos hDS]
    · intro hDS r' hr'
      rw [List.mem_singleton.mp hr', hty, if_neg hDS]
      rcases selfLabel_foldl_type P wallet wtx wtx.vout RecordType.SendToSelf with h | h | h | h <;>
        rw [h] <;> decide

theorem mixing_marker_reclassifies_witness :
    (∃ parts, decomposeTransaction sampleParams sampleWallet mixedSendTx = some parts ∧
      parts.length = 2 ∧ ∀ r ∈ parts, r.type = RecordType.Obfuscated) ∧
    (∃ parts, decomposeTransaction sampleParams sampleWallet mixedSelfTx = some parts ∧
      parts.length = 1 ∧ ∀ r ∈ parts, r.type = RecordType.Obfuscated) ∧
    (∃ parts, decomposeTransaction sampleParams sampleWallet sendTwoTx = some parts ∧
      ∀ r ∈ parts, r.type ≠ RecordType.Obfuscated) := by
  obtain ⟨p₁, h₁, l₁, -, m₁, -⟩ := mixing_marker_reclassifies sampleParams sampleWallet mixedSendTx
    (Or.inl (by decide))
  obtain ⟨p₂, h₂, -, l₂, m₂, -⟩ := mixing_marker_reclassifies sampleParams sampleWallet mixedSelfTx
    (Or.inr ⟨by decide, by decide⟩)
  obtain ⟨p₃, h₃, -, -, -, m₃⟩ := mixing_marker_reclassifies sampleParams sampleWallet sendTwoTx
    (Or.inl (by decide))
  exact ⟨⟨p₁, h₁, (l₁ (by decide)).trans (by decide), m₁ (by decide)⟩,
    ⟨p₂, h₂, l₂ (by decide), m₂ (by decide)⟩, ⟨p₃, h₃, m₃ (by decide)⟩⟩

/-- C26: in a store whose entries have their spends recorded, let `B` spend an output of `A`,
`C` spend an output of `B`, and let `A'` be another entry that spends an outpoint `A` spends.
When `A'` is confirmed in the block `blk`, `resolveConflicts` leaves the identifiers of the
store as they were, in their order, and `A`, `B` and `C` are in the store, marked conflicted
against `blk`, as is every entry with one of their identifiers. -/
theorem conflict_propagation (w : SpendIndex) (A B C A' : LedgerEntry) (blk : uint256)
    (hidx : indexed w) (hA : A ∈ w.store) (hB : B ∈ w.store) (hC : C ∈ w.store)
    (hBA : spendsFrom B A) (hCB : spendsFrom C B)
    (hclaim : ∃ outpoint ∈ A'.vin, outpoint ∈ A.vin) (hne : A.id ≠ A'.id) :
    (resolveConflicts w A' blk).store.map (fun e => e.id) = w.store.map (fun e => e.id) ∧
    { A with conflictedWith := some blk } ∈ (resolveConflicts w A' blk).store ∧
    { B with conflictedWith := some blk } ∈ (resolveConflicts w A' blk).store ∧
    { C with conflictedWith := some blk } ∈ (resolveConflicts w A' blk).store ∧
    ∀ e ∈ (resolveConflicts w A' blk).store, e.id = A.id ∨ e.id = B.id ∨ e.id = C.id →
      e.conflictedWith = some blk := by
  obtain ⟨o, hoA', hoA⟩ := hclaim
  have hAin : A.id ∈ propagate w.store (claimants w A') :=
    mem_propagate_of_mem _ _ _ (mem_claimants w A' A o hoA' (hidx A hA o hoA) hne)
  have hBin : B.id ∈ propagate w.store (claimants w A') :=
    mem_propagate_of_spends _ _ A.id B hAin hB hBA
  have hCin : C.id ∈ propagate w.store (claimants w A') :=
    mem_propagate_of_spends _ _ B.id C hBin hC hCB
  refine ⟨resolveConflicts_ids w A' blk, resolveConflicts_keeps w A' blk A hA hAin,
    resolveConflicts_keeps w A' blk B hB hBin, resolveConflicts_keeps w A' blk C hC hCin, ?_⟩
  intro e he hid
  apply resolveConflicts_marks w A' blk e he
  rcases hid with h | h | h <;> rw [h] <;> assumption

theorem conflict_propagation_witness :
    (resolveConflicts sampleIndex
        { id := 15, vin := [{ hash := 10, n := 0 }], conflictedWith := none } 77).store =
      [ { id := 11, vin := [{ hash := 10, n := 0 }], conflictedWith := some 77 },
        { id := 12, vin := [{ hash := 11, n := 0 }], conflictedWith := some 77 },
        { id := 13, vin := [{ hash := 20, n := 1 }, { hash := 12, n := 0 }],
          conflictedWith := some 77 },
        { id := 14, vin := [{ hash := 20, n := 0 }], conflictedWith := none },
        { id := 15, vin := [{ hash := 10, n := 0 }], conflictedWith := none } ] ∧
    { id := 13, vin := [{ hash := 20, n := 1 }, { hash := 12, n := 0 }],
      conflictedWith := some 77 } ∈
      (resolveConflicts sampleIndex
        { id := 15, vin := [{ hash := 10, n := 0 }], conflictedWith := none } 77).store :=
  ⟨by decide,
    (conflict_propagation sampleIndex
      { id := 11, vin := [{ hash := 10, n := 0 }], conflictedWith := none }
      { id := 12, vin := [{ hash := 11, n := 0 }], conflictedWith := none }
      { id := 13, vin := [{ hash := 20, n := 1 }, { hash := 12, n := 0 }],
        conflictedWith := none }
      { id := 15, vin := [{ hash := 10, n := 0 }], conflictedWith := none } 77
      indexed_sampleIndex (by decide) (by decide) (by decide)
      ⟨{ hash := 11, n := 0 }, by decide, rfl⟩ ⟨{ hash := 12, n := 0 }, by decide, rfl⟩
      ⟨{ hash := 10, n := 0 }, by decide, by decide⟩ (by decide)).2.2.2.1⟩

/-- C27: when `select` succeeds for a target, the total it returns is at least the target
and is the sum of the values of the chosen coins; every chosen coin is a candidate that the
filter admits, is not locked and has the required depth; and no candidate is chosen more often
than it is offered. -/
theorem select_is_sound (priority : CoinCandidate → Int) (small : Nat) (minDepth : Int)
    (target : CAmount) (filter : CoinCandidate → Bool) (useMixingPriority : Bool)
    (candidates chosen : List CoinCandidate) (total : CAmount)
    (h : select priority small minDepth target filter useMixingPriority candidates =
      some (chosen, total)) :
    total ≥ target ∧ total = totalValue chosen ∧
    (∀ c ∈ chosen, c ∈ candidates ∧ filter c = true ∧ c.locked = false ∧ minDepth ≤ c.depth) ∧
    chosen.Subperm candidates := by
  have hsub : (eligibleCoins filter minDepth candidates).Sublist candidates := by
    unfold eligibleCoins
    exact List.filter_sublist _
  unfold select at h
  dsimp only at h
  split at h
  · rename_i exact hexact
    obtain ⟨hs, hv⟩ := exactMatch_spec small target _ exact hexact
    cases h
    refine ⟨le_of_eq hv.symm, rfl, ?_, (hs.trans hsub).subperm⟩
    intro c hc
    exact mem_eligibleCoins filter minDepth candidates c (hs.subset hc)
  · cases useMixingPriority with
    | true =>
      simp only [if_true] at h
      obtain ⟨hs, hv⟩ := greedy_spec target
        ((eligibleCoins filter minDepth candidates).insertionSort
          (fun a b => priority a ≤ priority b))
      have hperm := List.perm_insertionSort (fun a b => priority a ≤ priority b)
        (eligibleCoins filter minDepth candidates)
      by_cases hmet : (greedy target
          ((eligibleCoins filter minDepth candidates).insertionSort
            (fun a b => priority a ≤ priority b))).2 ≥ target
      · rw [if_pos hmet] at h
        have heq := Option.some.inj h
        have hc := congrArg Prod.fst heq
        have ht := congrArg Prod.snd heq
        dsimp only at hc ht
        subst hc
        subst ht
        refine ⟨hmet, hv, ?_, (hs.subperm.trans hperm.subperm).trans hsub.subperm⟩
        intro c hc
        exact mem_eligibleCoins filter minDepth candidates c (hperm.subset (hs.subset hc))
      · rw [if_neg hmet] at h
        cases h
    | false =>
      simp only [Bool.false_eq_true, if_false] at h
      obtain ⟨hs, hv⟩ := greedy_spec target (eligibleCoins filter minDepth candidates)
      by_cases hmet : (greedy target (eligibleCoins filter minDepth candidates)).2 ≥ target
      · rw [if_pos hmet] at h
        have heq := Option.some.inj h
        have hc := congrArg Prod.fst heq
        have ht := congrArg Prod.snd heq
        dsimp only at hc ht
        subst hc
        subst ht
        refine ⟨hmet, hv, ?_, (hs.trans hsub).subperm⟩
        intro c hc
        exact mem_eligibleCoins filter minDepth candidates c (hs.subset hc)
      · rw [if_neg hmet] at h
        cases h

theorem select_is_sound_witness :
    select (fun c => -c.value) 2 1 60 (fun c => c.spendable) true sampleCandidates =
        some ([sampleCoin 4 200 false], 200) ∧
    (200 : CAmount) ≥ 60 ∧ (200 : CAmount) = totalValue [sampleCoin 4 200 false] ∧
    (∀ c ∈ [sampleCoin 4 200 false], c ∈ sampleCandidates ∧ c.spendable = true ∧
      c.locked = false ∧ (1 : Int) ≤ c.depth) ∧
    [sampleCoin 4 200 false].Subperm sampleCandidates :=
  ⟨by decide,
    select_is_sound (fun c => -c.value) 2 1 60 (fun c => c.spendable) true sampleCandidates
      [sampleCoin 4 200 false] 200 (by decide)⟩

/-- C38, failing input: the payment `offlineSendTx` has a satisfied time-lock, depth 10 and
no conflict, was received 1000 seconds before the clock and was never requested; `updateStatus`
gives its record the state `Offline`, and `statusToString` returns the fallback "No status" for
it. -/
theorem offline_status_has_no_label :
    (updateStatus sampleParams sampleChain offlineSendTx
      (sampleRecord offlineSendTx RecordType.SendToAddress) sampleStatus).status =
      Status.Offline ∧
    statusToString (updateStatus sampleParams sampleChain offlineSendTx
      (sampleRecord offlineSendTx RecordType.SendToAddress) sampleStatus) = "No status" := by
  decide

/-- C33: for a coin of value `v` below `2^31` coins, `COutput::Priority` is 10000 when `v` is
one of the denominations (below one coin or not), 20000 when it is no denomination and below
one coin, and `-(v / COIN)`, which is at most -1, when it is no denomination and at least one
coin; so by ascending rank the last class comes first, then the denominations, then the amounts
below one coin; and a second coin of the last class with a value no smaller has a rank no
larger. -/
theorem priority_as_documented (P : Params) (D : List CAmount) (out out' : COutput)
    (v v' : CAmount) (hv : out.Value = some v) (hv' : out'.Value = some v')
    (hCOIN : 0 < P.COIN) (hrange : v < 2147483648 * P.COIN)
    (hrange' : v' < 2147483648 * P.COIN) :
    (v ∈ D → out.Priority P D = some 10000) ∧
    (v ∉ D → v < P.COIN → out.Priority P D = some 20000) ∧
    (v ∉ D → P.COIN ≤ v →
      out.Priority P D = some (-(v / P.COIN)) ∧ -(v / P.COIN) ≤ -1 ∧
      -(v / P.COIN) < 10000 ∧ (10000 : Int) < 20000) ∧
    (v ∉ D → v' ∉ D → P.COIN ≤ v → v ≤ v' →
      ∃ p p', out.Priority P D = some p ∧ out'.Priority P D = some p' ∧ p' ≤ p) := by
  refine ⟨?_, ?_, ?_, ?_⟩
  · intro hD
    rw [Priority_of_value P D out v hv, if_pos ((any_eq_iff_mem D v).mpr hD)]
  · intro hD hlt
    have hnot : ¬ D.any (fun d => v == d) = true := fun h => hD ((any_eq_iff_mem D v).mp h)
    rw [Priority_of_value P D out v hv, if_neg hnot, if_pos (by rw [one_mul]; exact hlt)]
  · intro hD hge
    obtain ⟨hp, hq⟩ := Priority_of_large P D out v hv hCOIN hD hge hrange
    exact ⟨hp, by linarith, by linarith, by decide⟩
  · intro hD hD' hge hle
    obtain ⟨hp, -⟩ := Priority_of_large P D out v hv hCOIN hD hge hrange
    obtain ⟨hp', -⟩ := Priority_of_large P D out' v' hv' hCOIN hD' (le_trans hge hle) hrange'
    exact ⟨_, _, hp, hp', neg_le_neg (Int.ediv_le_ediv hCOIN hle)⟩

theorem priority_as_documented_witness :
    (coin 0).Priority sampleParams sampleDenominations = some 10000 ∧
    (coin 1).Priority sampleParams sampleDenominations = some 20000 ∧
    (coin 3).Priority sampleParams sampleDenominations = some (-50) ∧
    ∃ p p', (coin 2).Priority sampleParams sampleDenominations = some p ∧
      (coin 3).Priority sampleParams sampleDenominations = some p' ∧ p' ≤ p :=
  ⟨(priority_as_documented sampleParams sampleDenominations (coin 0) (coin 0) 1000010000
      1000010000 (by decide) (by decide) (by decide) (by decide) (by decide)).1 (by decide),
   (priority_as_documented sampleParams sampleDenominations (coin 1) (coin 1) 50000000
      50000000 (by decide) (by decide) (by decide) (by decide) (by decide)).2.1 (by decide)
      (by decide),
   ((priority_as_documented sampleParams sampleDenominations (coin 3) (coin 3) 5000000000
      5000000000 (by decide) (by decide) (by decide) (by decide) (by decide)).2.2.1 (by decide)
      (by decide)).1,
   (priority_as_documented sampleParams sampleDenominations (coin 2) (coin 3) 500000000
      5000000000 (by decide) (by decide) (by decide) (by decide) (by decide)).2.2.2 (by decide)
      (by decide) (by decide) (by decide)⟩

/-- C34: for an entry that reaches the payment-to-self branch and has an output, the one
record has debit `-(nDebit - nChange)` and credit `nCredit - nChange`, so that credit plus debit
is `nCredit - nDebit`; the same entry with any other change `c` has a record with the same sum;
and when the total credit is the total output value the sum is minus the fee. -/
theorem self_payment_net_is_independent_of_change (P : Params) (wallet : CWallet)
    (wtx : CWalletTx) (hreach : reachesSelf P wallet wtx) (hout : wtx.vout ≠ []) :
    (∃ r, decomposeTransaction P wallet wtx = some [r] ∧
      r.debit = -(wtx.GetDebit P.ISMINE_ALL - wtx.GetChange) ∧
      r.credit = wtx.GetCredit P.ISMINE_ALL - wtx.GetChange ∧
      r.credit + r.debit = wtx.GetCredit P.ISMINE_ALL - wtx.GetDebit P.ISMINE_ALL ∧
      (wtx.GetCredit P.ISMINE_ALL = wtx.GetValueOut →
        r.credit + r.debit = -(wtx.GetDebit P.ISMINE_ALL - wtx.GetValueOut))) ∧
    ∀ c : CAmount, ∃ r, decomposeTransaction P wallet { wtx with GetChange := c } = some [r] ∧
      r.debit = -(wtx.GetDebit P.ISMINE_ALL - c) ∧
      r.credit = wtx.GetCredit P.ISMINE_ALL - c ∧
      r.credit + r.debit = wtx.GetCredit P.ISMINE_ALL - wtx.GetDebit P.ISMINE_ALL := by
  have key : ∀ w : CWalletTx, reachesSelf P wallet w → w.vout ≠ [] →
      ∃ r, decomposeTransaction P wallet w = some [r] ∧
        r.debit = -(w.GetDebit P.ISMINE_ALL - w.GetChange) ∧
        r.credit = w.GetCredit P.ISMINE_ALL - w.GetChange ∧
        r.credit + r.debit = w.GetCredit P.ISMINE_ALL - w.GetDebit P.ISMINE_ALL := by
    intro w hw ho
    obtain ⟨hd, hden, hself⟩ := hw
    obtain ⟨r, hr, hdebit, hcredit, -, -⟩ := decomposeSelf_spec P wallet w
      (scanToMe P wallet w (scanFromMe P wallet w).involvesWatchAddress).involvesWatchAddress ho
    refine ⟨r, ?_, hdebit, hcredit, ?_⟩
    · rw [decomposeTransaction_of_reachesDebit P wallet w hd,
        decomposeDebit_of_self P wallet w hden hself, hr]
    · rw [hdebit, hcredit]
      ring
  constructor
  · obtain ⟨r, hr, hdebit, hcredit, hsum⟩ := key wtx hreach hout
    refine ⟨r, hr, hdebit, hcredit, hsum, ?_⟩
    intro heq
    rw [hsum, heq]
    ring
  · intro c
    exact key { wtx with GetChange := c } hreach hout

theorem self_payment_net_is_independent_of_change_witness :
    (∃ r, decomposeTransaction sampleParams sampleWallet selfTx = some [r] ∧
      r.debit = -65 ∧ r.credit = 60 ∧ r.credit + r.debit = -5) ∧
    ∃ r, decomposeTransaction sampleParams sampleWallet { selfTx with GetChange := 0 } =
        some [r] ∧ r.debit = -100 ∧ r.credit = 95 ∧ r.credit + r.debit = -5 := by
  have h := self_payment_net_is_independent_of_change sampleParams sampleWallet selfTx
    (by decide) (by decide)
  obtain ⟨r, hr, h1, h2, h3, -⟩ := h.1
  obtain ⟨r', hr', h1', h2', h3'⟩ := h.2 0
  exact ⟨⟨r, hr, h1, h2, h3⟩, ⟨r', hr', h1', h2', h3'⟩⟩

/-- C35: in each branch of the classifier that makes a record per output (privacy-coin
spend, net-positive or subsidy, sent) the sub-indices of the returned records are
`0, 1, ..., length - 1` in this order: the record at position `k` has `idx = k`, so the
sub-indices are pairwise distinct and an output without record leaves no gap. -/
theorem sub_index_is_position (P : Params) (wallet : CWallet) (wtx : CWalletTx)
    (hbranch : reachesZerocoinSpend wtx ∨ reachesCredit P wtx ∨ reachesSent P wallet wtx) :
    ∃ parts, decomposeTransaction P wallet wtx = some parts ∧
      parts.map (fun r => r.idx) = List.range parts.length ∧
      (∀ (k : Nat) (r : TransactionRecord), parts[k]? = some r → r.idx = k) ∧
      (parts.map (fun r => r.idx)).Nodup := by
  rcases hbranch with hz | hc | hs
  · obtain ⟨fz, hdec⟩ := decomposeTransaction_of_reachesZerocoinSpend P wallet wtx hz
    exact ⟨_, hdec, idx_of_map_eq_range _ _ (decomposeZerocoinSpend_spec P wallet wtx fz).2.2⟩
  · exact ⟨_, decomposeTransaction_of_reachesCredit P wallet wtx hc,
      idx_of_map_eq_range _ _ (decomposeCredit_idx P wallet wtx).1⟩
  · exact ⟨_, decomposeTransaction_of_reachesSent P wallet wtx hs,
      idx_of_map_eq_range _ _ (decomposeSent_spec P wallet wtx _).2.2⟩

theorem sub_index_is_position_witness :
    (∃ parts, decomposeTransaction sampleParams sampleWallet sendTwoTx = some parts ∧
      parts.map (fun r => r.idx) = [0, 1]) ∧
    (∃ parts, decomposeTransaction sampleParams zWallet zSpendTx = some parts ∧
      parts.map (fun r => r.idx) = [0, 1]) ∧
    (∃ parts, decomposeTransaction sampleParams sampleWallet receiveTx = some parts ∧
      parts.map (fun r => r.idx) = [0]) := by
  obtain ⟨p₁, h₁, i₁, -, -⟩ := sub_index_is_position sampleParams sampleWallet sendTwoTx
    (Or.inr (Or.inr (by decide)))
  obtain ⟨p₂, h₂, i₂, -, -⟩ := sub_index_is_position sampleParams zWallet zSpendTx
    (Or.inl (by decide))
  obtain ⟨p₃, h₃, i₃, -, -⟩ := sub_index_is_position sampleParams sampleWallet receiveTx
    (Or.inr (Or.inl (by decide)))
  refine ⟨⟨p₁, h₁, ?_⟩, ⟨p₂, h₂, ?_⟩, ⟨p₃, h₃, ?_⟩⟩
  · have hl : p₁.length = 2 := by
      have := h₁.symm.trans (by decide : decomposeTransaction sampleParams sampleWallet
        sendTwoTx = some (decomposeSent sampleParams sampleWallet sendTwoTx false))
      rw [Option.some.inj this]
      decide
    rw [i₁, hl]
    rfl
  · have hl : p₂.length = 2 := by
      have := h₂.symm.trans (by decide : decomposeTransaction sampleParams zWallet
        zSpendTx = some (decomposeZerocoinSpend sampleParams zWallet zSpendTx true))
      rw [Option.some.inj this]
      decide
    rw [i₂, hl]
    rfl
  · have hl : p₃.length = 1 := by
      have := h₃.symm.trans (by decide : decomposeTransaction sampleParams sampleWallet
        receiveTx = some (decomposeCredit sampleParams sampleWallet receiveTx))
      rw [Option.some.inj this]
      decide
    rw [i₃, hl]
    rfl

/-- C37, counterexample: the wallet pays 100 into a leasing contract for which it is the
leasing node. All oracle amounts are non-negative, the leased credit does not exceed the total
credit and the fee is 5, yet the one record, of category `P2LLeasingRecv`, has the positive
debit 100. -/
theorem leasing_received_record_has_positive_debit :
    leaseRecvTx.IsCoinStake = false ∧ leaseRecvTx.HasZerocoinSpendInputs = false ∧
    leaseRecvTx.HasP2CSOutputs = false ∧ leaseRecvTx.HasP2CSInputs = false ∧
    leaseRecvTx.HasP2LOutputs = true ∧
    0 ≤ leaseRecvTx.GetCredit sampleParams.ISMINE_ALL ∧
    0 ≤ leaseRecvTx.GetDebit sampleParams.ISMINE_ALL ∧
    0 ≤ leaseRecvTx.GetCredit sampleParams.ISMINE_LEASED ∧
    leaseRecvTx.GetCredit sampleParams.ISMINE_LEASED ≤
      leaseRecvTx.GetCredit sampleParams.ISMINE_ALL ∧
    0 ≤ leaseRecvTx.GetDebit sampleParams.ISMINE_ALL - leaseRecvTx.GetValueOut ∧
    decomposeTransaction sampleParams leasingWallet leaseRecvTx =
      some [{ hash := 1, time := 1600000000, size := 226, type := RecordType.P2LLeasingRecv,
              address := "peer", debit := 100, credit := 95, idx := 0,
              involvesWatchAddress := false }] := by
  decide

/-- C37, amended: let the classifier return `parts` for an entry of one of the five contract
shapes (no stake reward, no privacy-coin spend inputs) whose total credit and debit, leased
credit, stake-delegation debit and cold-staking debit and credit are non-negative. Then `parts`
is one record; its debit is not positive unless its category is `P2LLeasingRecv`, where the
debit is `nDebit` plus the leased credit and not negative; its credit is not negative (the
leased credit does not exceed the total credit) unless its category is `P2CSUnlockStaker`,
where the credit is minus the cold-staking credit. -/
theorem contract_record_signs (P : Params) (wallet : CWallet) (wtx : CWalletTx)
    (parts : List TransactionRecord) (h : decomposeTransaction P wallet wtx = some parts)
    (hstake : wtx.IsCoinStake = false) (hspend : wtx.HasZerocoinSpendInputs = false)
    (hbranch : wtx.HasP2CSOutputs = true ∨ wtx.HasP2CSInputs = true ∨
      wtx.HasP2LOutputs = true ∨ wtx.HasP2LInputs = true ∨ wtx.IsLeasingReward = true)
    (hC : 0 ≤ wtx.GetCredit P.ISMINE_ALL) (hD : 0 ≤ wtx.GetDebit P.ISMINE_ALL)
    (hL : 0 ≤ wtx.GetCredit P.ISMINE_LEASED)
    (hLC : wtx.GetCredit P.ISMINE_LEASED ≤ wtx.GetCredit P.ISMINE_ALL)
    (hSD : 0 ≤ wtx.GetStakeDelegationDebit) (hCD : 0 ≤ wtx.GetColdStakingDebit)
    (hCC : 0 ≤ wtx.GetColdStakingCredit) :
    ∃ r, parts = [r] ∧ contractSigns P wtx r := by
  simp only [decomposeTransaction, zSpendFromMe_of_no_spend wallet wtx hspend, hstake, hspend,
    Bool.false_eq_true, if_false, List.nil_append] at h
  have hnD : -(wtx.GetDebit P.ISMINE_ALL) ≤ 0 := neg_nonpos.mpr hD
  cases h1 : wtx.HasP2CSOutputs with
  | true =>
    simp only [h1, if_true, Option.some.injEq] at h
    subst h
    refine ⟨_, rfl, contractSigns_of_plain P wtx _ ?_ ?_ ?_ ?_⟩
    · rw [(loadHotOrColdStakeOrContract_amounts P wallet wtx _).2]; exact hnD
    · rw [(loadHotOrColdStakeOrContract_amounts P wallet wtx _).1]; exact hC
    · rw [loadHotOrColdStakeOrContract_type]
      simp only [if_true]
      split_ifs <;> decide
    · rw [loadHotOrColdStakeOrContract_type]
      simp only [if_true]
      split_ifs <;> decide
  | false =>
    cases h2 : wtx.HasP2CSInputs with
    | true =>
      simp only [h1, h2, Bool.false_eq_true, if_false, if_true] at h
      split at h
      · exact absurd h (by simp)
      · rename_i sub hsub
        cases h
        refine ⟨sub, rfl, ?_⟩
        rcases loadUnlockColdStake_amounts P wallet wtx _ sub hsub with ⟨t, d, c⟩ | ⟨t, d, c⟩
        · exact contractSigns_of_plain P wtx sub (by rw [d]; exact neg_nonpos.mpr hSD)
            (by rw [c]; exact hC) (by rw [t]; decide) (by rw [t]; decide)
        · exact ⟨fun _ => by rw [d]; exact neg_nonpos.mpr hCD,
            fun ht => absurd (t.symm.trans ht) (by decide),
            fun ht => absurd t ht, fun _ => ⟨c, by rw [c]; exact neg_nonpos.mpr hCC⟩⟩
    | false =>
      cases h3 : wtx.HasP2LOutputs with
      | true =>
        simp only [h1, h2, h3, Bool.false_eq_true, if_false, if_true, Option.some.injEq] at h
        subst h
        refine ⟨_, rfl, ?_⟩
        rcases loadP2L_loop_amounts P wallet wtx wtx.vout
          { TransactionRecord.init wtx.GetHash wtx.GetComputedTxTime wtx.GetTotalSize with
            credit := wtx.GetCredit P.ISMINE_ALL, debit := -(wtx.GetDebit P.ISMINE_ALL),
            involvesWatchAddress := false } with
          ⟨a, b, c⟩ | ⟨a, b, c⟩ | ⟨a, b, c⟩ | ⟨a, b, c⟩
        · exact contractSigns_of_plain P wtx _ (c.trans_le hnD) (hC.trans_eq b.symm)
            (fun ht => other_ne_leasingRecv (a.symm.trans ht))
            (fun ht => other_ne_unlockStaker (a.symm.trans ht))
        · exact contractSigns_of_plain P wtx _ (c.trans_le hnD)
            ((sub_nonneg.mpr hLC).trans_eq b.symm)
            (fun ht => absurd (a.symm.trans ht) (by decide))
            (fun ht => absurd (a.symm.trans ht) (by decide))
        · have hle : -(wtx.GetDebit P.ISMINE_ALL) - wtx.GetCredit P.ISMINE_LEASED ≤ 0 := by
            linarith
          exact contractSigns_of_plain P wtx _ (c.trans_le hle) (hC.trans_eq b.symm)
            (fun ht => absurd (a.symm.trans ht) (by decide))
            (fun ht => absurd (a.symm.trans ht) (by decide))
        · have hdeb : (loadP2L P wallet wtx
              { TransactionRecord.init wtx.GetHash wtx.GetComputedTxTime wtx.GetTotalSize with
                credit := wtx.GetCredit P.ISMINE_ALL,
                debit := -(wtx.GetDebit P.ISMINE_ALL) }).debit =
              wtx.GetDebit P.ISMINE_ALL + wtx.GetCredit P.ISMINE_LEASED := c.trans (by simp)
          exact ⟨fun ht => absurd a ht, fun _ => ⟨hdeb, by rw [hdeb]; linarith⟩,
            fun _ => hC.trans_eq b.symm, fun ht => absurd (a.symm.trans ht) (by decide)⟩
      | false =>
        cases h4 : wtx.HasP2LInputs with
        | true =>
          simp only [h1, h2, h3, h4, Bool.false_eq_true, if_false, if_true] at h
          split at h
          · exact absurd h (by simp)
          · rename_i sub hsub
            cases h
            obtain ⟨hc, hd⟩ := loadLeasingSpend_loop_amounts P wallet wtx.vin _ sub hsub
            refine ⟨sub, rfl, contractSigns_of_plain P wtx sub (hd.trans_le hnD)
              (hC.trans_eq hc.symm) ?_ ?_⟩
            · rcases loadLeasingSpend_type P wallet wtx _ sub hsub with t | t | t | t
              · exact fun ht => other_ne_leasingRecv (t.symm.trans ht)
              · rw [t]; decide
              · rw [t]; decide
              · rw [t]; decide
            · rcases loadLeasingSpend_type P wallet wtx _ sub hsub with t | t | t | t
              · exact fun ht => other_ne_unlockStaker (t.symm.trans ht)
              · rw [t]; decide
              · rw [t]; decide
              · rw [t]; decide
        | false =>
          have h5 : wtx.IsLeasingReward = true := by
            rcases hbranch with hb | hb | hb | hb | hb
            · rw [h1] at hb; cases hb
            · rw [h2] at hb; cases hb
            · rw [h3] at hb; cases hb
            · rw [h4] at hb; cases hb
            · exact hb
          simp only [h1, h2, h3, h4, h5, Bool.false_eq_true, if_false, if_true,
            Option.some.injEq] at h
          subst h
          obtain ⟨hc, hd⟩ := loadLeasingReward_loop_amounts P wallet wtx.vout
            { TransactionRecord.init wtx.GetHash wtx.GetComputedTxTime wtx.GetTotalSize with
              credit := wtx.GetCredit P.ISMINE_ALL, debit := -(wtx.GetDebit P.ISMINE_ALL),
              involvesWatchAddress := false }
          refine ⟨_, rfl, contractSigns_of_plain P wtx _ (hd.trans_le hnD)
            (hC.trans_eq hc.symm) ?_ ?_⟩
          · rcases loadLeasingReward_type P wallet wtx _ _ rfl with t | t
            · exact fun ht => other_ne_leasingRecv (t.symm.trans ht)
            · rw [t]; decide
          · rcases loadLeasingReward_type P wallet wtx _ _ rfl with t | t
            · exact fun ht => other_ne_unlockStaker (t.symm.trans ht)
            · rw [t]; decide

theorem contract_record_signs_witness :
    (∃ r, decomposeTransaction sampleParams leasingWallet leaseRecvTx = some [r] ∧
      contractSigns sampleParams leaseRecvTx r) ∧
    (∃ r, decomposeTransaction sampleParams stakeWallet unlockTx = some [r] ∧
      contractSigns sampleParams unlockTx r) := by
  obtain ⟨r, hr, hs⟩ := contract_record_signs sampleParams leasingWallet leaseRecvTx
    [{ hash := 1, time := 1600000000, size := 226, type := RecordType.P2LLeasingRecv,
       address := "peer", debit := 100, credit := 95, idx := 0,
       involvesWatchAddress := false }]
    (by decide) (by decide) (by decide) (by decide) (by decide) (by decide) (by decide)
    (by decide) (by decide) (by decide) (by decide)
  have hdec : ∃ parts, decomposeTransaction sampleParams stakeWallet unlockTx = some parts := by
    cases h : decomposeTransaction sampleParams stakeWallet unlockTx with
    | none => exact absurd h (by decide)
    | some parts => exact ⟨parts, rfl⟩
  obtain ⟨parts, hparts⟩ := hdec
  obtain ⟨r', hr', hs'⟩ := contract_record_signs sampleParams stakeWallet unlockTx parts hparts
    (by decide) (by decide) (by decide) (by decide) (by decide) (by decide) (by decide)
    (by decide) (by decide) (by decide)
  exact ⟨⟨r, by rw [← hr]; decide, hs⟩, ⟨r', by rw [hparts, hr'], hs'⟩⟩

/-- C36: whenever the classifier returns records for an entry, their number is at most the
larger of 1 and the number of outputs of the entry; it is exactly 1 in each of the five
contract branches, and in the denominate, payment-to-self and unattributed branches of the
net-debit analysis. -/
theorem record_count_bound (P : Params) (wallet : CWallet) (wtx : CWalletTx)
    (parts : List TransactionRecord) (h : decomposeTransaction P wallet wtx = some parts) :
    parts.length ≤ max 1 wtx.vout.length ∧
    (wtx.IsCoinStake = false → wtx.HasZerocoinSpendInputs = false →
      (wtx.HasP2CSOutputs = true ∨ wtx.HasP2CSInputs = true ∨ wtx.HasP2LOutputs = true ∨
        wtx.HasP2LInputs = true ∨ wtx.IsLeasingReward = true) → parts.length = 1) ∧
    (reachesDebit P wtx →
      (guardDenominate P wallet wtx ∨ guardSelf P wallet wtx ∨ ¬ guardSent P wallet wtx) →
      parts.length = 1) := by
  have one : parts.length ≤ 1 → parts.length ≤ max 1 wtx.vout.length :=
    fun h1 => le_trans h1 (le_max_left _ _)
  refine ⟨?_, fun hstake hspend hbranch =>
    contract_branch_length P wallet wtx parts h hstake hspend hbranch, ?_⟩
  · cases hstake : wtx.IsCoinStake with
    | true =>
      unfold decomposeTransaction at h
      dsimp only at h
      split at h
      · exact absurd h (by simp)
      · rw [hstake, if_pos rfl] at h
        exact one (decomposeCoinStake_length P wallet wtx _ parts h)
    | false =>
      cases hspend : wtx.HasZerocoinSpendInputs with
      | true =>
        unfold decomposeTransaction at h
        dsimp only at h
        split at h
        · exact absurd h (by simp)
        · rename_i fz _
          rw [hstake, if_neg (by simp), hspend, if_pos rfl] at h
          cases h
          rw [(decomposeZerocoinSpend_spec P wallet wtx fz).1.length_eq]
          exact le_trans (List.length_filter_le _ _) (le_max_right _ _)
      | false =>
        by_cases hbranch : wtx.HasP2CSOutputs = true ∨ wtx.HasP2CSInputs = true ∨
            wtx.HasP2LOutputs = true ∨ wtx.HasP2LInputs = true ∨ wtx.IsLeasingReward = true
        · exact one (le_of_eq
            (contract_branch_length P wallet wtx parts h hstake hspend hbranch))
        · simp only [not_or, Bool.not_eq_true] at hbranch
          obtain ⟨h1, h2, h3, h4, h5⟩ := hbranch
          by_cases hpos : wtx.GetCredit P.ISMINE_ALL - wtx.GetDebit P.ISMINE_ALL > 0 ∨
              wtx.IsCoinBase = true
          · rw [decomposeTransaction_of_reachesCredit P wallet wtx
              ⟨hstake, hspend, h1, h2, h3, h4, h5, hpos⟩] at h
            cases h
            rw [(decomposeCredit_idx P wallet wtx).2]
            exact le_trans (List.length_filter_le _ _) (le_max_right _ _)
          · rw [not_or, Bool.not_eq_true] at hpos
            rw [decomposeTransaction_of_reachesDebit P wallet wtx
              ⟨hstake, hspend, h1, h2, h3, h4, h5, hpos.1, hpos.2⟩] at h
            exact (decomposeDebit_length P wallet wtx parts h).1
  · intro hreach hguard
    rw [decomposeTransaction_of_reachesDebit P wallet wtx hreach] at h
    exact (decomposeDebit_length P wallet wtx parts h).2 hguard

theorem record_count_bound_witness :
    (decomposeSent sampleParams sampleWallet sendTwoTx false).length ≤
        max 1 sendTwoTx.vout.length ∧
    ∃ parts, decomposeTransaction sampleParams sampleWallet selfTx = some parts ∧
      parts.length = 1 := by
  have hdec : ∃ parts, decomposeTransaction sampleParams sampleWallet selfTx = some parts := by
    cases h : decomposeTransaction sampleParams sampleWallet selfTx with
    | none => exact absurd h (by decide)
    | some parts => exact ⟨parts, rfl⟩
  obtain ⟨parts, hparts⟩ := hdec
  exact ⟨(record_count_bound sampleParams sampleWallet sendTwoTx
      (decomposeSent sampleParams sampleWallet sendTwoTx false) (by decide)).1,
    parts, hparts, (record_count_bound sampleParams sampleWallet selfTx parts hparts).2.2
      (by decide) (Or.inr (Or.inl (by decide)))⟩

/-- C39, counterexample: the entry `noOutputTx` has no privacy-coin spend inputs and is no
stake reward, so it meets the two conditions; all its inputs are owned and it has no output, so
it reaches the payment-to-self branch, whose read of `vout[0]` is outside the outputs: the
classifier has no defined result. -/
theorem self_branch_reads_missing_output :
    noOutputTx.HasZerocoinSpendInputs = false ∧ noOutputTx.IsCoinStake = false ∧
    reachesSelf sampleParams sampleWallet noOutputTx ∧ noOutputTx.vout[0]? = none ∧
    decomposeTransaction sampleParams sampleWallet noOutputTx = none := by
  decide

/-- C39, amended: let the entry have an input when it has privacy-coin spend inputs, two
outputs when it is a stake reward and an output when it reaches the payment-to-self branch, and
let every input whose originating entry is locally known name an output of that entry. Then no
read of the classifier is outside the list it indexes: the classifier returns records, unless
the entry reaches the delegation-unlock branch and the search of `loadUnlockColdStake`, whose
reads are all in range, ends without a script. And whenever some input spends a locally-known
cold-staking output, the search finds the script that the helper dereferences, and the
classifier returns records. -/
theorem classifier_reads_are_defined (P : Params) (wallet : CWallet) (wtx : CWalletTx)
    (hvin : wtx.HasZerocoinSpendInputs = true → wtx.vin ≠ [])
    (hstake : wtx.IsCoinStake = true → 2 ≤ wtx.vout.length)
    (hout : reachesSelf P wallet wtx → wtx.vout ≠ [])
    (horig : originsInRange wallet wtx) :
    ((∃ parts, decomposeTransaction P wallet wtx = some parts) ∨
      (reachesUnlock wtx ∧ findP2CSInput P wallet wtx.vin = some none)) ∧
    (∃ found, findP2CSInput P wallet wtx.vin = some found) ∧
    (hasColdStakingOrigin wallet wtx →
      (∃ script spendable,
        findP2CSInput P wallet wtx.vin = some (some (script, spendable))) ∧
      ∃ parts, decomposeTransaction P wallet wtx = some parts) := by
  have hmain : (∃ parts, decomposeTransaction P wallet wtx = some parts) ∨
      (reachesUnlock wtx ∧ findP2CSInput P wallet wtx.vin = some none) := by
    obtain ⟨fz, hz⟩ := zSpendFromMe_defined wallet wtx hvin
    cases h0 : wtx.IsCoinStake with
    | true =>
      obtain ⟨parts, hparts⟩ := decomposeCoinStake_defined P wallet wtx fz hvin (hstake h0)
      exact Or.inl ⟨parts, by simp only [decomposeTransaction, hz, h0, if_true]; exact hparts⟩
    | false =>
      cases hs : wtx.HasZerocoinSpendInputs with
      | true =>
        left
        apply Option.isSome_iff_exists.mp
        simp only [decomposeTransaction, hz, h0, hs, Bool.false_eq_true, if_false, if_true]
        rfl
      | false =>
        cases h1 : wtx.HasP2CSOutputs with
        | true =>
          left
          apply Option.isSome_iff_exists.mp
          simp only [decomposeTransaction, hz, h0, hs, h1, Bool.false_eq_true, if_false,
            if_true]
          rfl
        | false =>
          cases h2 : wtx.HasP2CSInputs with
          | true =>
            obtain ⟨found, hfound⟩ := findP2CSInput_defined P wallet wtx.vin horig
            cases found with
            | none => exact Or.inr ⟨⟨h0, hs, h1, h2⟩, hfound⟩
            | some found =>
              exact Or.inl (decomposeTransaction_of_unlock_found P wallet wtx ⟨h0, hs, h1, h2⟩
                found.1 found.2 hfound)
          | false =>
            left
            cases h3 : wtx.HasP2LOutputs with
            | true =>
              apply Option.isSome_iff_exists.mp
              simp only [decomposeTransaction, hz, h0, hs, h1, h2, h3, Bool.false_eq_true,
                if_false, if_true]
              rfl
            | false =>
              cases h4 : wtx.HasP2LInputs with
              | true =>
                obtain ⟨sub, hsub⟩ := loadLeasingSpend_loop_defined P wallet
                  { TransactionRecord.init wtx.GetHash wtx.GetComputedTxTime wtx.GetTotalSize
                    with credit := wtx.GetCredit P.ISMINE_ALL,
                         debit := -(wtx.GetDebit P.ISMINE_ALL),
                         involvesWatchAddress := false } wtx.vin horig
                have hsub' : loadLeasingSpend P wallet wtx
                    { TransactionRecord.init wtx.GetHash wtx.GetComputedTxTime wtx.GetTotalSize
                      with credit := wtx.GetCredit P.ISMINE_ALL,
                           debit := -(wtx.GetDebit P.ISMINE_ALL) } = some sub := hsub
                exact ⟨[sub], by simp only [decomposeTransaction, hz, h0, hs, h1, h2, h3, h4,
                  Bool.false_eq_true, if_false, if_true, hsub', List.nil_append]⟩
              | false =>
                cases h5 : wtx.IsLeasingReward with
                | true =>
                  apply Option.isSome_iff_exists.mp
                  simp only [decomposeTransaction, hz, h0, hs, h1, h2, h3, h4, h5,
                    Bool.false_eq_true, if_false, if_true]
                  rfl
                | false =>
                  by_cases hpos : wtx.GetCredit P.ISMINE_ALL - wtx.GetDebit P.ISMINE_ALL > 0 ∨
                      wtx.IsCoinBase = true
                  · exact ⟨_, decomposeTransaction_of_reachesCredit P wallet wtx
                      ⟨h0, hs, h1, h2, h3, h4, h5, hpos⟩⟩
                  · rw [not_or, Bool.not_eq_true] at hpos
                    have hreach : reachesDebit P wtx :=
                      ⟨h0, hs, h1, h2, h3, h4, h5, hpos.1, hpos.2⟩
                    rw [decomposeTransaction_of_reachesDebit P wallet wtx hreach]
                    by_cases hd : guardDenominate P wallet wtx
                    · exact ⟨_, decomposeDebit_of_denominate P wallet wtx hd⟩
                    · by_cases hself : guardSelf P wallet wtx
                      · obtain ⟨r, hr, -⟩ := decomposeSelf_spec P wallet wtx
                          (scanToMe P wallet wtx
                            (scanFromMe P wallet wtx).involvesWatchAddress).involvesWatchAddress
                          (hout ⟨hreach, hd, hself⟩)
                        exact ⟨[r], by rw [decomposeDebit_of_self P wallet wtx hd hself, hr]⟩
                      · by_cases hg : guardSent P wallet wtx
                        · exact ⟨_, decomposeDebit_of_sent P wallet wtx hd hself hg⟩
                        · exact ⟨_, decomposeDebit_of_unattributed P wallet wtx hd hself hg⟩
  refine ⟨hmain, findP2CSInput_defined P wallet wtx.vin horig, fun hcold => ?_⟩
  have hfound := findP2CSInput_found P wallet wtx.vin horig hcold
  refine ⟨hfound, ?_⟩
  rcases hmain with h | ⟨-, hnone⟩
  · exact h
  · obtain ⟨script, spendable, hsome⟩ := hfound
    rw [hnone] at hsome
    cases hsome

/-- C39 amended, evaluated on the unlock `unlockTx`: in the wallet `stakeWallet`, which knows
the entry of the cold-staking output that `unlockTx` spends, the search finds the script and
the classifier returns a record; in the wallet `sampleWallet`, which knows no originating entry,
the search reads nothing out of range and ends without a script. -/
theorem classifier_reads_are_defined_witness :
    ((∃ script spendable,
        findP2CSInput sampleParams stakeWallet unlockTx.vin = some (some (script, spendable))) ∧
      ∃ parts, decomposeTransaction sampleParams stakeWallet unlockTx = some parts) ∧
    ((∃ parts, decomposeTransaction sampleParams sampleWallet unlockTx = some parts) ∨
      (reachesUnlock unlockTx ∧
        findP2CSInput sampleParams sampleWallet unlockTx.vin = some none)) ∧
    decomposeTransaction sampleParams sampleWallet unlockTx = none := by
  have horig : originsInRange stakeWallet unlockTx := by
    intro input hin tx htx
    have hcases : input = spend 9 3 ∨ input = spend 7 0 := by
      simpa [unlockTx] using hin
    rcases hcases with rfl | rfl
    · exact absurd htx (by simp [stakeWallet, spend])
    · have : tx = delegateTx := by
        have h' : stakeWallet.GetWalletTx (spend 7 0).prevout.hash = some delegateTx := rfl
        rw [h'] at htx
        exact (Option.some.inj htx).symm
      rw [this]
      decide
  have hcold : hasColdStakingOrigin stakeWallet unlockTx :=
    ⟨spend 7 0, by decide, delegateTx, _, rfl, rfl, rfl⟩
  have horig' : originsInRange sampleWallet unlockTx := by
    intro input _ tx htx
    exact absurd htx (by simp [sampleWallet])
  have h := classifier_reads_are_defined sampleParams stakeWallet unlockTx (by decide)
    (by decide) (fun _ => by decide) horig
  have h' := classifier_reads_are_defined sampleParams sampleWallet unlockTx (by decide)
    (by decide) (fun _ => by decide) horig'
  exact ⟨h.2.2 hcold, h'.1, by decide⟩

/-- C31: let `updateStatus` build the sort key of a record whose entry is in a block of
height `h₁`. The key is lexicographically smaller than the key of every record whose entry is
in a block of a height `h₂` with `0 ≤ h₁ < h₂` (heights are values of `int`), whatever the
coinbase flags, receipt times and sub-indices are; and when `h₁` is below the largest `int`, it
is smaller than the key of every record whose entry is in no known block. -/
theorem sort_key_orders_by_height (P : Params) (chain₁ chain₂ : ChainView)
    (wtx₁ wtx₂ : CWalletTx) (r₁ r₂ : TransactionRecord) (s₁ s₂ : TransactionStatus) (h₁ : Int)
    (hb₁ : chain₁.mapBlockIndex wtx₁.hashBlock = some h₁) :
    (∀ h₂ : Int, chain₂.mapBlockIndex wtx₂.hashBlock = some h₂ →
      0 ≤ h₁ → h₁ < h₂ → h₂ ≤ INT_MAX →
      keyLess (updateStatus P chain₁ wtx₁ r₁ s₁).sortKey
        (updateStatus P chain₂ wtx₂ r₂ s₂).sortKey) ∧
    (chain₂.mapBlockIndex wtx₂.hashBlock = none → h₁ < INT_MAX →
      keyLess (updateStatus P chain₁ wtx₁ r₁ s₁).sortKey
        (updateStatus P chain₂ wtx₂ r₂ s₂).sortKey) := by
  rw [(updateStatus_base_fields P chain₁ wtx₁ r₁ s₁).1,
    (updateStatus_base_fields P chain₂ wtx₂ r₂ s₂).1, hb₁]
  constructor
  · intro h₂ hb₂ h0 hlt hmax
    rw [hb₂]
    exact sortKey_lt_of_height_lt wtx₁ wtx₂ r₁.idx r₂.idx h₁ h₂ h0 hlt hmax
  · intro hb₂ hlt
    rw [hb₂]
    exact sortKey_lt_unknown wtx₁ wtx₂ r₁.idx r₂.idx h₁ hlt

theorem sort_key_orders_by_height_witness :
    keyLess
      (updateStatus sampleParams sampleChain confirmedSendTx
        (sampleRecord confirmedSendTx RecordType.SendToAddress) sampleStatus).sortKey
      (updateStatus sampleParams laterChain laterStakeTx
        (sampleRecord laterStakeTx RecordType.StakeMint) sampleStatus).sortKey ∧
    keyLess
      (updateStatus sampleParams sampleChain confirmedSendTx
        (sampleRecord confirmedSendTx RecordType.SendToAddress) sampleStatus).sortKey
      (updateStatus sampleParams sampleChain sendTx
        (sampleRecord sendTx RecordType.SendToAddress) sampleStatus).sortKey :=
  ⟨(sort_key_orders_by_height sampleParams sampleChain laterChain confirmedSendTx laterStakeTx
      (sampleRecord confirmedSendTx RecordType.SendToAddress)
      (sampleRecord laterStakeTx RecordType.StakeMint) sampleStatus sampleStatus 990 rfl).1
      991 rfl (by decide) (by decide) (by decide),
   (sort_key_orders_by_height sampleParams sampleChain sampleChain confirmedSendTx sendTx
      (sampleRecord confirmedSendTx RecordType.SendToAddress)
      (sampleRecord sendTx RecordType.SendToAddress) sampleStatus sampleStatus 990 rfl).2
      rfl (by decide)⟩

/-- C32, failing input: the payment `manyPayeesTx` has 1001 outputs to foreign addresses, so
the classifier returns 1001 records, and the records at the positions 999 and 1000 have the
sub-indices 999 and 1000. The sort keys that `updateStatus` builds for them end in "-999" and
"-1000": the key of the record with the larger sub-index is the smaller one. -/
theorem sub_index_1000_sorts_before_999 :
    ∃ parts r₉ r₁₀, decomposeTransaction sampleParams sampleWallet manyPayeesTx = some parts ∧
      parts[999]? = some r₉ ∧ parts[1000]? = some r₁₀ ∧ r₉.idx = 999 ∧ r₁₀.idx = 1000 ∧
      (updateStatus sampleParams sampleChain manyPayeesTx r₉ sampleStatus).sortKey =
        "2147483647-0-1600000000-999" ∧
      (updateStatus sampleParams sampleChain manyPayeesTx r₁₀ sampleStatus).sortKey =
        "2147483647-0-1600000000-1000" ∧
      keyLess (updateStatus sampleParams sampleChain manyPayeesTx r₁₀ sampleStatus).sortKey
        (updateStatus sampleParams sampleChain manyPayeesTx r₉ sampleStatus).sortKey ∧
      ¬ keyLess (updateStatus sampleParams sampleChain manyPayeesTx r₉ sampleStatus).sortKey
        (updateStatus sampleParams sampleChain manyPayeesTx r₁₀ sampleStatus).sortKey := by
  have hdec := decomposeTransaction_of_reachesSent sampleParams sampleWallet manyPayeesTx
    manyPayeesTx_reachesSent
  have hspec := decomposeSent_spec sampleParams sampleWallet manyPayeesTx
    (scanToMe sampleParams sampleWallet manyPayeesTx
      (scanFromMe sampleParams sampleWallet manyPayeesTx).involvesWatchAddress
      ).involvesWatchAddress
  have hlen := hspec.1.length_eq
  rw [manyPayeesTx_sentOutputs] at hlen
  obtain ⟨-, hidx, -⟩ := idx_of_map_eq_range _ _ hspec.2.2
  obtain ⟨r₉, h₉⟩ := getElem?_of_lt _ 999 (by rw [hlen]; decide)
  obtain ⟨r₁₀, h₁₀⟩ := getElem?_of_lt _ 1000 (by rw [hlen]; decide)
  have hi₉ := hidx 999 r₉ h₉
  have hi₁₀ := hidx 1000 r₁₀ h₁₀
  refine ⟨_, r₉, r₁₀, hdec, h₉, h₁₀, hi₉, hi₁₀, ?_⟩
  rw [(updateStatus_base_fields sampleParams sampleChain manyPayeesTx r₉ sampleStatus).1,
    (updateStatus_base_fields sampleParams sampleChain manyPayeesTx r₁₀ sampleStatus).1,
    hi₉, hi₁₀]
  decide

/-- C40: let the label map `m` have no key "n" and let the conversions be inverse at the
order position `n` (`atoi64(i64tostr(n)) = n`). Then `ReadOrderPos` on the map that
`WriteOrderPos(n, m)` leaves yields `n`; for `n = -1` the map is left as it is and the read
yields the sentinel -1; and `WriteOrderPos` changes no key other than "n". -/
theorem order_position_round_trip (atoi64 : String → Int) (i64tostr : Int → String) (n : Int)
    (m : mapValue_t) (hkey : m.count "n" = 0)
    (hconv : n ≠ -1 → atoi64 (i64tostr n) = n) :
    ReadOrderPos atoi64 (WriteOrderPos i64tostr n m) = n ∧
    (n = -1 → WriteOrderPos i64tostr n m = m ∧ ReadOrderPos atoi64 m = -1) ∧
    (∀ k : String, k ≠ "n" → (WriteOrderPos i64tostr n m).lookup k = m.lookup k) := by
  have hread : ReadOrderPos atoi64 m = -1 := by
    unfold ReadOrderPos
    rw [if_pos hkey]
  by_cases hn : n = -1
  · have hw : WriteOrderPos i64tostr n m = m := by
      unfold WriteOrderPos
      rw [if_pos hn]
    rw [hw]
    exact ⟨hread.trans hn.symm, fun _ => ⟨rfl, hread⟩, fun _ _ => rfl⟩
  · have hw : WriteOrderPos i64tostr n m = m.assign "n" (i64tostr n) := by
      unfold WriteOrderPos
      rw [if_neg hn]
    rw [hw]
    refine ⟨?_, fun h => absurd h hn, fun k hk => lookup_assign_other m "n" _ k hk⟩
    have hl := lookup_assign_self m "n" (i64tostr n)
    unfold ReadOrderPos mapValue_t.count mapValue_t.at
    rw [hl]
    simp only [Option.isSome_some, if_true, Nat.one_ne_zero, if_false, Option.getD_some]
    exact hconv hn

theorem order_position_round_trip_witness :
    ReadOrderPos decimalToInt (WriteOrderPos intToDecimal 1234567890123 sampleMap) =
      1234567890123 ∧
    ReadOrderPos decimalToInt (WriteOrderPos intToDecimal (-7) sampleMap) = -7 ∧
    WriteOrderPos intToDecimal 42 sampleMap =
      [("comment", "rent"), ("to", "landlord"), ("n", "42")] :=
  ⟨(order_position_round_trip decimalToInt intToDecimal 1234567890123 sampleMap (by decide)
      (fun _ => by decide)).1,
   (order_position_round_trip decimalToInt intToDecimal (-7) sampleMap (by decide)
      (fun _ => by decide)).1,
   by decide⟩

end BTCU
